import Mathlib

/-!
# hmcdm: point estimates and fit statistics (`src/extract_functions.cpp`)

A shallow embedding of `point_estimates_learning` and `Learning_fit`.

Doubles are modelled by `Dbl`: the rationals extended by the three special
values of IEEE arithmetic (`+inf`, `-inf`, `NaN`), with exact arithmetic on the
finite part (rounding is not modelled).  R's `NA_REAL` is a NaN.
-/

namespace Hmcdm

/-! ## Doubles -/

/-- A double: a finite value, an infinity, or NaN (also R's NA). -/
inductive Dbl where
  | fin (q : ℚ)
  | pinf
  | ninf
  | nan
  deriving DecidableEq

namespace Dbl

/-- IEEE addition, exact on finite values. -/
def add : Dbl → Dbl → Dbl
  | fin a, fin b => fin (a + b)
  | fin _, pinf => pinf
  | fin _, ninf => ninf
  | pinf, fin _ => pinf
  | pinf, pinf => pinf
  | ninf, fin _ => ninf
  | ninf, ninf => ninf
  | pinf, ninf => nan
  | ninf, pinf => nan
  | nan, _ => nan
  | _, nan => nan

/-- IEEE negation. -/
def neg : Dbl → Dbl
  | fin a => fin (-a)
  | pinf => ninf
  | ninf => pinf
  | nan => nan

/-- IEEE subtraction. -/
def sub (a b : Dbl) : Dbl := add a (neg b)

/-- The infinity whose sign is the sign of the nonzero rational `q`; NaN for `q = 0`
(the IEEE product of zero and an infinity). -/
def infOfSign (q : ℚ) : Dbl :=
  if 0 < q then pinf else if q < 0 then ninf else nan

/-- IEEE multiplication, exact on finite values. -/
def mul : Dbl → Dbl → Dbl
  | fin a, fin b => fin (a * b)
  | fin a, pinf => infOfSign a
  | fin a, ninf => infOfSign (-a)
  | pinf, fin b => infOfSign b
  | ninf, fin b => infOfSign (-b)
  | pinf, pinf => pinf
  | ninf, ninf => pinf
  | pinf, ninf => ninf
  | ninf, pinf => ninf
  | nan, _ => nan
  | _, nan => nan

/-- Division of a double by an element count `n` (as in `sum / n`); `0/0` is NaN.
The quotient of a finite value is the exact rational quotient: the rounding of the
IEEE division is not modelled, so an identity that holds only without rounding
(such as `n * (x / n) = x`) is not a statement about the program. -/
def divNat (x : Dbl) (n : Nat) : Dbl :=
  match x with
  | fin a => if n = 0 then (if a = 0 then nan else infOfSign a) else fin (a / n)
  | pinf => pinf
  | ninf => ninf
  | nan => nan

/-- The C comparison `a > b`: false as soon as one side is NaN. -/
def gt : Dbl → Dbl → Bool
  | fin a, fin b => decide (b < a)
  | pinf, fin _ => true
  | pinf, ninf => true
  | fin _, ninf => true
  | _, _ => false

/-- The value is a finite number. -/
def isFinite : Dbl → Bool
  | fin _ => true
  | _ => false

instance : Add Dbl := ⟨add⟩
instance : Sub Dbl := ⟨sub⟩
instance : Mul Dbl := ⟨mul⟩
instance : Neg Dbl := ⟨neg⟩
instance : Zero Dbl := ⟨fin 0⟩
instance : Inhabited Dbl := ⟨fin 0⟩

/-- A 0/1 entry stored in a matrix of doubles. -/
def ofNat (n : Nat) : Dbl := fin (n : ℚ)

end Dbl

/-! ## Failures -/

/-- The ways a call can fail instead of returning.  The source raises no error of
its own; every failure comes from a helper or a library call. -/
inductive Failure where
  /-- The mode search was given no draw.  The source of `getMode` is not under
  `src/` and the spec describes the mode of at least one draw only: what the helper
  does on an empty vector is not known.  The model stops there, and no statement of
  this development is about that case. -/
  | modeOfNoDraws
  /-- Armadillo: `mean(): object has no elements`. -/
  | meanNoElements
  /-- Armadillo: an index range outside the object (`subvec` with `K = 0`). -/
  | indexOutOfBounds
  deriving DecidableEq

/-! ## Containers -/

/-- An Armadillo matrix: its two dimensions and its entries (0-based). -/
structure Mat (α : Type) where
  n_rows : Nat
  n_cols : Nat
  get : Nat → Nat → α

/-- An Armadillo cube: rows, columns, slices and its entries (0-based). -/
structure Cube (α : Type) where
  n_rows : Nat
  n_cols : Nat
  n_slices : Nat
  get : Nat → Nat → Nat → α

/-- Row `r` of a matrix, as a vector. -/
def Mat.row {α : Type} (M : Mat α) (r : Nat) : List α :=
  (List.range M.n_cols).map (fun c => M.get r c)

/-- Column `c` of a matrix, as a vector. -/
def Mat.col {α : Type} (M : Mat α) (c : Nat) : List α :=
  (List.range M.n_rows).map (fun r => M.get r c)

/-- Sum of a vector of doubles, accumulated from the left starting at zero. -/
def dsum (xs : List Dbl) : Dbl := xs.foldl (fun acc x => acc + x) 0

/-- Armadillo `mean` of a vector: the arithmetic mean, sum over count, computed
exactly (neither rounding nor overflow of the running sum is modelled).  An object
without elements is rejected (`mean(): object has no elements`). -/
def arma_mean (xs : List Dbl) : Except Failure Dbl :=
  match xs with
  | [] => .error .meanNoElements
  | x :: rest => .ok (Dbl.divNat (dsum (x :: rest)) (x :: rest).length)

/-- Armadillo `mean(M, 1)`: the mean of every row, taken over the columns.  When
the matrix has rows but no column there is no row mean to store in the result
vector, and the call does not return. -/
def arma_mean_dim1 (M : Mat Dbl) : Except Failure (List Dbl) :=
  (List.range M.n_rows).mapM (fun r => arma_mean (M.row r))

/-- Armadillo `mean(C, 2)`: the elementwise mean of the slices of a cube. -/
def arma_mean_dim2 (C : Cube Dbl) : Except Failure (List (List Dbl)) :=
  (List.range C.n_rows).mapM (fun r =>
    (List.range C.n_cols).mapM (fun c =>
      arma_mean ((List.range C.n_slices).map (fun s => C.get r c s))))

/-- Armadillo `sort` of a vector, ascending. -/
def arma_sort (v : List Nat) : List Nat := v.insertionSort (fun a b => a ≤ b)

/-- Armadillo `subvec(first, last)`: the entries at positions `first .. last`. -/
def subvec {α : Type} (v : List α) (first last : Nat) : List α :=
  (v.drop first).take (last + 1 - first)

/-! ## Helpers of `basic_functions` (declared in `basic_functions.h`) -/

/-- Modelled from the spec: `bijectionvector` of basic_functions, whose source is
not part of `src/`.  The weights of the codec: standard positional binary
weighting, most significant bit first, so position `i` of a length-`K` vector
weighs `2^(K-1-i)`. -/
def bijectionvector (K : Nat) : List Nat :=
  (List.range K).map (fun i => 2 ^ (K - i - 1))

/-- Modelled from the spec: `inv_bijectionvector` of basic_functions, whose source
is not part of `src/`.  Decoding of an integer code into `K` bits, most
significant bit first: bit `k` is the binary digit of weight `2^(K-1-k)`.  Codes
in `[0, 2^K)` are the codec's contract. -/
def inv_bijectionvector (K : Nat) (CL : Nat) : List Nat :=
  (List.range K).map (fun k => (CL / 2 ^ (K - k - 1)) % 2)

/-- Modelled from the spec: `getMode` of basic_functions, whose source is not part
of `src/`.  Given the ascending sorted draws of one subject, the code value with
the highest empirical frequency; among equally frequent values the one that
occurs first in sorted order.  Without any draw there is no such value; the spec
does not say what the helper does then, and the model stops (`modeOfNoDraws`). -/
def getMode (sorted_vec : List Nat) (size : Nat) : Except Failure Nat :=
  match sorted_vec.take size with
  | [] => .error .modeOfNoDraws
  | x :: rest =>
    .ok ((x :: rest).foldl
      (fun best v => if (x :: rest).count best < (x :: rest).count v then v else best) x)

/-! ## Trajectory decoding (`point_estimates_learning` lines 52-76, `Learning_fit` lines 309-318) -/

/-- The estimate cube `Alphas_est(i,k,t)`, entries 0/1. -/
abbrev AlphaCube := Nat → Nat → Nat → Nat

/-- The cube `arma::zeros<arma::cube>(N,K,T)`. -/
def zerosCube : AlphaCube := fun _ _ _ => 0

/-- Assignment `A(i,k,t) = v`. -/
def setEntry (A : AlphaCube) (i k t v : Nat) : AlphaCube :=
  fun i' k' t' => if i' = i ∧ k' = k ∧ t' = t then v else A i' k' t'

/-- Assignment `A.slice(t).row(i) = r.t()` of a length-`K` vector. -/
def setSliceRow (A : AlphaCube) (K i t : Nat) (r : List Nat) : AlphaCube :=
  fun i' k' t' => if i' = i ∧ t' = t ∧ k' < K then r.getD k' 0 else A i' k' t'

/-- Lines 55-66: the EAP branch.  For each subject the draws are decoded into the
rows of `Alphas_i_mat`, and coordinate `kk` is set to one when the mean of
column `kk` exceeds one half. -/
def Alphas_est_EAP (N K T : Nat) (Traject : Mat Nat) : Except Failure AlphaCube :=
  let n_its := Traject.n_cols
  (List.range N).foldlM (fun Alphas_est i =>
    let Alphas_i_mat : Nat → List Nat := fun tt =>
      inv_bijectionvector (K * T) (Traject.get i tt)
    (List.range (K * T)).foldlM (fun Alphas_est kk => do
      let m ← arma_mean ((List.range n_its).map
        (fun tt => Dbl.ofNat ((Alphas_i_mat tt).getD kk 0)))
      if Dbl.gt m (Dbl.fin (1 / 2)) then
        let k_star := kk % K
        let t_star := (kk - k_star) / K
        pure (setEntry Alphas_est i k_star t_star 1)
      else
        pure Alphas_est) Alphas_est) zerosCube

/-- Lines 68-75 (and, with the same text, lines 311-318 of `Learning_fit`): the MAP
branch.  The most frequent code of the subject is decoded and cut into `T`
chunks of `K` bits.  For `K = 0` the unsigned bound `K*(t+1)-1` wraps around and
`subvec` rejects the range. -/
def Alphas_est_MAP (N K T : Nat) (Traject : Mat Nat) : Except Failure AlphaCube :=
  let n_its := Traject.n_cols
  (List.range N).foldlM (fun Alphas_est i => do
    let traject_sorted := arma_sort (Traject.row i)
    let traject_ML ← getMode traject_sorted n_its
    let alpha_i := inv_bijectionvector (K * T) traject_ML
    (List.range T).foldlM (fun Alphas_est t =>
      if K = 0 then
        throw Failure.indexOutOfBounds
      else
        pure (setSliceRow Alphas_est K i t (subvec alpha_i (K * t) (K * (t + 1) - 1))))
      Alphas_est) zerosCube

/-! ## `point_estimates_learning` -/

/-- Lines 51-76, "compute Alpha_hat": the trajectory decoding of
`point_estimates_learning`, by the EAP branch when `alpha_EAP` is true and by the
MAP branch otherwise. -/
def compute_Alpha_hat (N K T : Nat) (Traject : Mat Nat) (alpha_EAP : Bool) :
    Except Failure AlphaCube :=
  if alpha_EAP = true then Alphas_est_EAP N K T Traject else Alphas_est_MAP N K T Traject

/-- The MCMC output list: one field per name read by the source.  A field that the
fitted model does not produce is never read. -/
structure Output where
  trajectories : Mat Nat
  pis : Mat Dbl
  ss : Mat Dbl
  gs : Mat Dbl
  as_ : Mat Dbl
  gammas : Mat Dbl
  thetas : Mat Dbl
  taus : Mat Dbl
  lambdas : Mat Dbl
  phis : Mat Dbl
  tauvar : Mat Dbl
  pi_stars : Mat Dbl
  Sigs : Cube Dbl
  r_stars : Cube Dbl
  omegas : Cube Dbl

/-- A value stored in a returned R list. -/
inductive Value where
  | alphas (A : AlphaCube)
  | vec (v : List Dbl)
  | mat (m : List (List Dbl))
  | num (x : Dbl)
  | matf (m : Nat → Nat → Dbl)
  | cube (c : Nat → Nat → Nat → Dbl)

/-- A named R list (`Rcpp::List::create(Rcpp::Named(...), ...)`). -/
abbrev RList := List (String × Value)

/-- The source function `point_estimates_learning` (lines 42-246). -/
def point_estimates_learning (output : Output) (model : String) (N Jt K T : Nat)
    (alpha_EAP : Bool) : Except Failure RList := do
  let mut point_ests : RList := []
  -- extract common outputs
  let Traject := output.trajectories
  let pis := output.pis
  -- compute Alpha_hat
  let Alphas_est ← compute_Alpha_hat N K T Traject alpha_EAP
  let pis_EAP ← arma_mean_dim1 pis
  if model = "DINA_HO" then
    let ss_EAP ← arma_mean_dim1 output.ss
    let gs_EAP ← arma_mean_dim1 output.gs
    let thetas_EAP ← arma_mean_dim1 output.thetas
    let lambdas_EAP ← arma_mean_dim1 output.lambdas
    point_ests := [("Alphas_est", .alphas Alphas_est), ("pis_EAP", .vec pis_EAP),
      ("ss_EAP", .vec ss_EAP), ("gs_EAP", .vec gs_EAP),
      ("thetas_EAP", .vec thetas_EAP), ("lambdas_EAP", .vec lambdas_EAP)]
  if model = "DINA_HO_RT_sep" then
    let ss_EAP ← arma_mean_dim1 output.ss
    let gs_EAP ← arma_mean_dim1 output.gs
    let as_EAP ← arma_mean_dim1 output.as_
    let gammas_EAP ← arma_mean_dim1 output.gammas
    let thetas_EAP ← arma_mean_dim1 output.thetas
    let taus_EAP ← arma_mean_dim1 output.taus
    let lambdas_EAP ← arma_mean_dim1 output.lambdas
    let phi_EAP ← arma_mean (output.phis.col 0)
    let tauvar_EAP ← arma_mean (output.tauvar.col 0)
    point_ests := [("Alphas_est", .alphas Alphas_est), ("pis_EAP", .vec pis_EAP),
      ("ss_EAP", .vec ss_EAP), ("gs_EAP", .vec gs_EAP),
      ("as_EAP", .vec as_EAP), ("gammas_EAP", .vec gammas_EAP),
      ("thetas_EAP", .vec thetas_EAP), ("taus_EAP", .vec taus_EAP),
      ("lambdas_EAP", .vec lambdas_EAP), ("phis", .num phi_EAP),
      ("tauvar_EAP", .num tauvar_EAP)]
  if model = "DINA_HO_RT_joint" then
    let ss_EAP ← arma_mean_dim1 output.ss
    let gs_EAP ← arma_mean_dim1 output.gs
    let as_EAP ← arma_mean_dim1 output.as_
    let gammas_EAP ← arma_mean_dim1 output.gammas
    let thetas_EAP ← arma_mean_dim1 output.thetas
    let taus_EAP ← arma_mean_dim1 output.taus
    let lambdas_EAP ← arma_mean_dim1 output.lambdas
    let phi_EAP ← arma_mean (output.phis.col 0)
    let Sigs_EAP ← arma_mean_dim2 output.Sigs
    point_ests := [("Alphas_est", .alphas Alphas_est), ("pis_EAP", .vec pis_EAP),
      ("ss_EAP", .vec ss_EAP), ("gs_EAP", .vec gs_EAP),
      ("as_EAP", .vec as_EAP), ("gammas_EAP", .vec gammas_EAP),
      ("thetas_EAP", .vec thetas_EAP), ("taus_EAP", .vec taus_EAP),
      ("lambdas_EAP", .vec lambdas_EAP), ("phis", .num phi_EAP),
      ("Sigs_EAP", .mat Sigs_EAP)]
  if model = "rRUM_indept" then
    let r_stars_EAP ← arma_mean_dim2 output.r_stars
    let pi_stars_EAP ← arma_mean_dim1 output.pi_stars
    let taus_EAP ← arma_mean_dim1 output.taus
    point_ests := [("Alphas_est", .alphas Alphas_est), ("pis_EAP", .vec pis_EAP),
      ("r_stars_EAP", .mat r_stars_EAP), ("pi_stars_EAP", .vec pi_stars_EAP),
      ("taus_EAP", .vec taus_EAP)]
  if model = "NIDA_indept" then
    let ss_EAP ← arma_mean_dim1 output.ss
    let gs_EAP ← arma_mean_dim1 output.gs
    let taus_EAP ← arma_mean_dim1 output.taus
    point_ests := [("Alphas_est", .alphas Alphas_est), ("pis_EAP", .vec pis_EAP),
      ("ss_EAP", .vec ss_EAP), ("gs_EAP", .vec gs_EAP), ("taus_EAP", .vec taus_EAP)]
  if model = "DINA_FOHM" then
    let ss_EAP ← arma_mean_dim1 output.ss
    let gs_EAP ← arma_mean_dim1 output.gs
    let omegas_EAP ← arma_mean_dim2 output.omegas
    point_ests := [("Alphas_est", .alphas Alphas_est), ("pis_EAP", .vec pis_EAP),
      ("ss_EAP", .vec ss_EAP), ("gs_EAP", .vec gs_EAP), ("omegas_EAP", .mat omegas_EAP)]
  return point_ests

/-! ## Quantities used to state the properties -/

/-- Bit number `kk` of the decoded trajectory vectors
`inv_bijectionvector(K*T, Traject(i,draw))` of subject `i`, one entry per draw. -/
def decodedBits (K T : Nat) (Traject : Mat Nat) (i kk : Nat) : List Nat :=
  (List.range Traject.n_cols).map (fun tt =>
    (inv_bijectionvector (K * T) (Traject.get i tt)).getD kk 0)

/-- The mean over the draws of bit number `kk` of the decoded trajectory vectors of
subject `i`. -/
def bitMean (K T : Nat) (Traject : Mat Nat) (i kk : Nat) : ℚ :=
  ((decodedBits K T Traject i kk).map (fun (b : Nat) => (b : ℚ))).sum / Traject.n_cols

/-- The six model names. -/
def modelNames : List String :=
  ["DINA_HO", "DINA_HO_RT_sep", "DINA_HO_RT_joint", "rRUM_indept", "NIDA_indept", "DINA_FOHM"]

/-- The arithmetic mean of a vector of doubles with `n` entries. -/
def meanOf (xs : List Dbl) : Dbl := Dbl.divNat (dsum xs) xs.length

/-- Every draw container of the output holds `n_its` draws: the draw axis is the
column axis of the parameter matrices, the row axis of `phis` and `tauvar`, and
the slice axis of the cubes. -/
structure Output.HasDraws (o : Output) (n_its : Nat) : Prop where
  trajectories : o.trajectories.n_cols = n_its
  pis : o.pis.n_cols = n_its
  ss : o.ss.n_cols = n_its
  gs : o.gs.n_cols = n_its
  as_ : o.as_.n_cols = n_its
  gammas : o.gammas.n_cols = n_its
  thetas : o.thetas.n_cols = n_its
  taus : o.taus.n_cols = n_its
  lambdas : o.lambdas.n_cols = n_its
  phis : o.phis.n_rows = n_its
  tauvar : o.tauvar.n_rows = n_its
  pi_stars : o.pi_stars.n_cols = n_its
  Sigs : o.Sigs.n_slices = n_its
  r_stars : o.r_stars.n_slices = n_its
  omegas : o.omegas.n_slices = n_its

/-- The code `m` is a most frequent value of `draws`, and among the values that are
equally frequent it is the smallest, i.e. the first one in ascending sorted order. -/
def IsModeOf (draws : List Nat) (m : Nat) : Prop :=
  m ∈ draws ∧ (∀ c, draws.count c ≤ draws.count m) ∧
    ∀ c ∈ draws, draws.count c = draws.count m → m ≤ c

/-- The value `traject_ML` computed for subject `i` (zero when `getMode` fails). -/
def traject_ML (Traject : Mat Nat) (i : Nat) : Nat :=
  match getMode (arma_sort (Traject.row i)) Traject.n_cols with
  | .ok m => m
  | .error _ => 0

/-! ## `Learning_fit`: helpers that are declared in the included headers -/

/-- The functions called by `Learning_fit` whose code lives in the other translation
units of the package (`basic_functions`, `resp_functions`, `rt_functions`,
`trans_functions`) or in R and the C library.  `Learning_fit` is embedded for
arbitrary such functions.  The simulators draw from R's random number generator;
its state at the call is represented by the first argument `rng`. -/
structure Helpers where
  /-- `std::log` on the positive finite doubles. -/
  ln : ℚ → ℚ
  /-- `std::sqrt`. -/
  sqrt : Dbl → Dbl
  /-- `R::dnorm(x, mu, sigma, give_log)`. -/
  dnorm : Dbl → Dbl → Dbl → Bool → Dbl
  /-- `dmvnrm(x, mean, sigma, logd)`. -/
  dmvnrm : List Dbl → List Dbl → Mat Dbl → Bool → Dbl
  ETAmat : Nat → Nat → Mat Dbl → Mat Dbl
  J_incidence_cube : Mat Nat → Cube Dbl → Cube Dbl
  G2vec_efficient : Cube Dbl → Cube Dbl → List (List Nat) → Nat → Mat Nat → Nat → List Dbl
  pTran_HO_sep : List Nat → List Nat → List Dbl → Dbl → Mat Dbl → Nat → Nat → Dbl
  pTran_HO_joint : List Nat → List Nat → List Dbl → Dbl → Mat Dbl → Nat → Nat → Dbl
  pTran_indept : List Nat → List Nat → List Dbl → Mat Dbl → Dbl
  pYit_DINA : List Dbl → List Dbl → Mat Dbl → Dbl
  pYit_rRUM : List Nat → List Dbl → List Dbl → Mat Dbl → Mat Dbl → Dbl
  pYit_NIDA : List Nat → List Dbl → List Dbl → List Dbl → Mat Dbl → Dbl
  dLit : List Dbl → List Dbl → Mat Dbl → Dbl → Dbl → Dbl
  simDINA : Nat → AlphaCube → Cube Dbl → Cube Dbl → Mat Nat → List Nat → Cube Dbl
  sim_RT : Nat → AlphaCube → Cube Dbl → Cube Dbl → List Dbl → Dbl → Cube Dbl → Int →
    Mat Nat → List Nat → Cube Dbl
  simrRUM : Nat → AlphaCube → Cube Dbl → Mat Dbl → Cube Dbl → Mat Nat → List Nat → Cube Dbl
  simNIDA : Nat → AlphaCube → List Dbl → List Dbl → Cube Dbl → Mat Nat → List Nat → Cube Dbl
  OddsRatio : Nat → Nat → Mat Dbl → Mat Dbl

/-- The function `std::log` on doubles: NaN below zero, `-inf` at zero, `+inf` at `+inf`. -/
def Helpers.log (h : Helpers) : Dbl → Dbl
  | Dbl.fin q => if q < 0 then Dbl.nan else if q = 0 then Dbl.ninf else Dbl.fin (h.ln q)
  | Dbl.pinf => Dbl.pinf
  | Dbl.ninf => Dbl.nan
  | Dbl.nan => Dbl.nan

/-- The contents of the objects that `Learning_fit` allocates without initialising
them (`arma::vec G_it(Jt)`, `arma::cube alphas(N,K,T)`, `arma::cube Latency(N,Jt,T)`
and the collapsed matrices). -/
structure Uninit where
  G_it : List Dbl
  alphas : AlphaCube
  Latency : Nat → Nat → Nat → Dbl
  Y_sim_collapsed : Nat → Nat → Dbl
  L_sim_collapsed : Nat → Nat → Dbl

/-- R's `NA_REAL`, a NaN. -/
def NA_REAL : Dbl := Dbl.nan

/-- The matrix without rows and columns. -/
def emptyMat : Mat Dbl := ⟨0, 0, fun _ _ => 0⟩

/-- The call `M.rows(first, last)`. -/
def Mat.rows (M : Mat Dbl) (first last : Nat) : Mat Dbl :=
  ⟨last + 1 - first, M.n_cols, fun r c => M.get (first + r) c⟩

/-- The call `C.slice(s)`. -/
def Cube.slice (C : Cube Dbl) (s : Nat) : Mat Dbl :=
  ⟨C.n_rows, C.n_cols, fun r c => C.get r c s⟩

/-- The cube whose slices are `f 0, ..., f (n-1)`, each `n_rows × n_cols`. -/
def cubeOfSlices (n_rows n_cols n : Nat) (f : Nat → Mat Dbl) : Cube Dbl :=
  ⟨n_rows, n_cols, n, fun r c s => (f s).get r c⟩

/-- The call `arma::dot(a, b)` on a 0/1 profile and the weight vector. -/
def dot (a b : List Nat) : Nat := (List.zipWith (fun x y => x * y) a b).sum

/-- The profile `alphas.slice(t).row(i)`, a vector of `K` entries. -/
def alphaRow (A : AlphaCube) (K i t : Nat) : List Nat :=
  (List.range K).map (fun k => A i k t)

/-- The attribute history `alphas.subcube(i, 0, 0, i, K-1, T-1)` of subject `i`. -/
def alphaHistory (A : AlphaCube) (K T i : Nat) : List (List Nat) :=
  (List.range T).map (fun t => alphaRow A K i t)

/-- The assignment `M.submat(i, b*Jt, i, (b+1)*Jt-1) = r` of a row of `Jt` entries. -/
def setBlock (M : Nat → Nat → Dbl) (i b Jt : Nat) (r : List Dbl) : Nat → Nat → Dbl :=
  fun i' c => if i' = i ∧ b * Jt ≤ c ∧ c < (b + 1) * Jt then r.getD (c - b * Jt) 0 else M i' c

/-- The assignment `M(i, t) = x`. -/
def setCell (M : Nat → Nat → Dbl) (i t : Nat) (x : Dbl) : Nat → Nat → Dbl :=
  fun i' t' => if i' = i ∧ t' = t then x else M i' t'

/-- Armadillo `mean(M, 0)` of an `N × J` matrix: the mean of every column. -/
def arma_mean_dim0 (N J : Nat) (M : Nat → Nat → Dbl) : Except Failure (List Dbl) :=
  (List.range J).mapM (fun c => arma_mean ((List.range N).map (fun r => M r c)))

/-- The local variables of `Learning_fit` that are fixed before the model is
dispatched (lines 289-341). -/
structure Ctx where
  h : Helpers
  u : Uninit
  output : Output
  test_order : Mat Nat
  Test_versions : List Nat
  Q_examinee : Nat → Mat Dbl
  G_version : Int
  R : Mat Dbl
  T : Nat
  Jt : Nat
  K : Nat
  N : Nat
  Response : Cube Dbl
  Latency : Cube Dbl
  Qs : Cube Dbl
  pis_EAP : List Dbl
  n_its : Nat
  Alphas_est : AlphaCube
  vv : List Nat
  ETA : Cube Dbl

/-- The accumulators and work objects of the loops over subjects and time points. -/
structure Acc where
  tran : Dbl
  response : Dbl
  time : Dbl
  joint : Dbl
  G_it : List Dbl
  Y_sim_collapsed : Nat → Nat → Dbl
  L_sim_collapsed : Nat → Nat → Dbl
  total_score_PP : Nat → Nat → Dbl
  total_time_PP : Nat → Nat → Dbl

/-- What one iteration of the loop over the draws stores: the four log-likelihood
sums `d_tran(tt)`, `d_time(tt)`, `d_response(tt)`, `d_joint(tt)` and slice `tt` of
the posterior predictive objects. -/
structure DrawOut where
  tran : Dbl
  time : Dbl
  response : Dbl
  joint : Dbl
  total_score_PP : Nat → Nat → Dbl
  total_time_PP : Nat → Nat → Dbl
  item_mean_PP : List Dbl
  item_OR_PP : Mat Dbl
  RT_mean_PP : List Dbl

/-- The objects that live across the iterations of the loop over the draws. -/
structure Carry where
  alphas : AlphaCube
  G_it : List Dbl
  draws : List DrawOut

/-- The accumulators at the start of a pass: `double tran=0, response=0, time=0, joint=0`. -/
def Acc.init (c : Ctx) (G_it : List Dbl) : Acc :=
  { tran := 0, response := 0, time := 0, joint := 0, G_it := G_it,
    Y_sim_collapsed := c.u.Y_sim_collapsed, L_sim_collapsed := c.u.L_sim_collapsed,
    total_score_PP := fun _ _ => 0, total_time_PP := fun _ _ => 0 }

/-- The loop "first get alphas at time tt": draw `tt` of every subject is decoded and
cut into `T` chunks of `K` bits. -/
def decode_draw (c : Ctx) (tt : Nat) (alphas : AlphaCube) : Except Failure AlphaCube :=
  (List.range c.N).foldlM (fun alphas i =>
    let alpha_i := inv_bijectionvector (c.K * c.T) (c.output.trajectories.get i tt)
    (List.range c.T).foldlM (fun alphas t =>
      if c.K = 0 then
        throw Failure.indexOutOfBounds
      else
        pure (setSliceRow alphas c.K i t (subvec alpha_i (t * c.K) ((t + 1) * c.K - 1))))
      alphas) alphas

/-- The matrix `itempars` with columns `ss.col(tt)` and `gs.col(tt)`. -/
def itemparsOf (c : Ctx) (a b : Mat Dbl) (tt : Nat) : Mat Dbl :=
  ⟨c.Jt * c.T, 2, fun r col => if col = 0 then a.get r tt else b.get r tt⟩

/-- The matrix `itempars_EAP` with columns `ss_EAP` and `gs_EAP`. -/
def itemparsEAP (c : Ctx) (a b : List Dbl) : Mat Dbl :=
  ⟨c.Jt * c.T, 2, fun r col => if col = 0 then a.getD r 0 else b.getD r 0⟩

/-- The cube `itempars_cube`, slice `t` holding rows `Jt*t .. Jt*(t+1)-1`. -/
def itemparsCube (c : Ctx) (itempars : Mat Dbl) : Cube Dbl :=
  cubeOfSlices c.Jt 2 c.T (fun t => itempars.rows (c.Jt * t) (c.Jt * (t + 1) - 1))

/-- The covariate `G_it` after the three `if (G_version == ...)` statements. -/
def update_G (c : Ctx) (J_incidence : Cube Dbl) (alphas : AlphaCube) (G_it : List Dbl)
    (i t test_version_i test_block_it class_it : Nat) : List Dbl :=
  let G_it := if c.G_version = 1 then (c.ETA.slice test_block_it).col class_it else G_it
  let G_it := if c.G_version = 2 then
      c.h.G2vec_efficient c.ETA J_incidence (alphaHistory alphas c.K c.T i) test_version_i
        c.test_order t
    else G_it
  if c.G_version = 3 then
    (List.replicate c.Jt (Dbl.fin 1)).map (fun g => g * Dbl.fin ((t + 1 : ℚ) / c.T))
  else G_it

/-! ## `Learning_fit`: the model `DINA_HO` (lines 343-450) -/

/-- One iteration of the loop over the draws (lines 352-407). -/
def DINA_HO_draw (c : Ctx) (carry : Carry) (tt : Nat) : Except Failure Carry := do
  -- first get alphas at time tt
  let alphas ← decode_draw c tt carry.alphas
  -- next get itempars and simulated responses
  let itempars := itemparsOf c c.output.ss c.output.gs tt
  let itempars_cube := itemparsCube c itempars
  let Y_sim := c.h.simDINA tt alphas itempars_cube c.ETA c.test_order c.Test_versions
  -- next compute deviance part
  let acc := (List.range c.N).foldl (fun acc i =>
    let test_version_i := c.Test_versions.getD i 0 - 1
    let acc := (List.range c.T).foldl (fun acc t =>
      let test_block_it := c.test_order.get test_version_i t - 1
      let class_it := dot (alphaRow alphas c.K i t) c.vv
      let acc := { acc with
        Y_sim_collapsed := setBlock acc.Y_sim_collapsed i test_block_it c.Jt
          ((Y_sim.slice t).row i) }
      -- The transition model part
      let acc := if t < c.T - 1 then
          { acc with tran := acc.tran + c.h.log (c.h.pTran_HO_sep (alphaRow alphas c.K i t)
              (alphaRow alphas c.K i (t + 1)) (c.output.lambdas.col tt)
              (c.output.thetas.get i tt) (c.Q_examinee i) c.Jt t) }
        else acc
      -- The loglikelihood from the DINA
      let acc := { acc with response := acc.response + c.h.log (c.h.pYit_DINA
          ((c.ETA.slice test_block_it).col class_it) ((c.Response.slice t).row i)
          (itempars.rows (test_block_it * c.Jt) ((test_block_it + 1) * c.Jt - 1))) }
      { acc with total_score_PP := setCell acc.total_score_PP i t (dsum ((Y_sim.slice t).row i)) })
      acc
    let class_i0 := dot (alphaRow alphas c.K i 0) c.vv
    { acc with joint := acc.joint + c.h.log (c.output.pis.get class_i0 tt) })
    (Acc.init c carry.G_it)
  let time := NA_REAL
  -- Posterior predictive
  let item_mean ← arma_mean_dim0 c.N (c.Jt * c.T) acc.Y_sim_collapsed
  let item_OR := c.h.OddsRatio c.N (c.Jt * c.T) ⟨c.N, c.Jt * c.T, acc.Y_sim_collapsed⟩
  -- store dhats for this iteration
  let stored : DrawOut :=
    { tran := acc.tran
      time := time
      response := acc.response
      joint := acc.joint
      total_score_PP := acc.total_score_PP
      total_time_PP := acc.total_time_PP
      item_mean_PP := item_mean
      item_OR_PP := item_OR
      RT_mean_PP := [] }
  pure { alphas := alphas, G_it := acc.G_it, draws := carry.draws ++ [stored] }

/-- The pass "get Dhat" (lines 414-439). -/
def DINA_HO_Dhat (c : Ctx) (G_it ss_EAP gs_EAP thetas_EAP lambdas_EAP : List Dbl) : Acc :=
  let itempars_EAP := itemparsEAP c ss_EAP gs_EAP
  (List.range c.N).foldl (fun acc i =>
    let test_version_i := c.Test_versions.getD i 0 - 1
    let acc := (List.range c.T).foldl (fun acc t =>
      -- The transition model part
      let acc := if t < c.T - 1 then
          { acc with tran := acc.tran + c.h.log (c.h.pTran_HO_sep
              (alphaRow c.Alphas_est c.K i t) (alphaRow c.Alphas_est c.K i (t + 1))
              lambdas_EAP (thetas_EAP.getD i 0) (c.Q_examinee i) c.Jt t) }
        else acc
      let test_block_it := c.test_order.get test_version_i t - 1
      let class_it := dot (alphaRow c.Alphas_est c.K i t) c.vv
      -- The loglikelihood from the DINA
      { acc with response := acc.response + c.h.log (c.h.pYit_DINA
          ((c.ETA.slice test_block_it).col class_it) ((c.Response.slice t).row i)
          (itempars_EAP.rows (test_block_it * c.Jt) ((test_block_it + 1) * c.Jt - 1))) })
      acc
    let class_i0 := dot (alphaRow c.Alphas_est c.K i 0) c.vv
    { acc with joint := acc.joint + c.h.log (c.pis_EAP.getD class_i0 0) })
    (Acc.init c G_it)

/-- The DIC table, a 3 × 5 numeric matrix. -/
abbrev DICTable := Nat → Nat → Dbl

/-- The posterior predictive objects, read off the stored draws. -/
def item_mean_PP (draws : List DrawOut) : Nat → Nat → Dbl :=
  fun j tt => match draws[tt]? with
    | some d => d.item_mean_PP.getD j 0
    | none => 0

def RT_mean_PP (draws : List DrawOut) : Nat → Nat → Dbl :=
  fun j tt => match draws[tt]? with
    | some d => d.RT_mean_PP.getD j 0
    | none => 0

def item_OR_PP (draws : List DrawOut) : Nat → Nat → Nat → Dbl :=
  fun j1 j2 tt => match draws[tt]? with
    | some d => d.item_OR_PP.get j1 j2
    | none => 0

def total_score_PP (draws : List DrawOut) : Nat → Nat → Nat → Dbl :=
  fun i t tt => match draws[tt]? with
    | some d => d.total_score_PP i t
    | none => 0

def total_time_PP (draws : List DrawOut) : Nat → Nat → Nat → Dbl :=
  fun i t tt => match draws[tt]? with
    | some d => d.total_time_PP i t
    | none => 0

/-- The carried objects before the first draw. -/
def Carry.init (c : Ctx) : Carry := { alphas := c.u.alphas, G_it := c.u.G_it, draws := [] }

/-- Rows `D_bar` of the table for a model without response times (e.g. lines 408-412). -/
def DIC_row0_noRT (DIC : DICTable) (draws : List DrawOut) : Except Failure DICTable := do
  let m_tran ← arma_mean (draws.map (fun d => d.tran))
  let DIC := setCell DIC 0 0 (Dbl.fin (-2) * m_tran)
  let m_time ← arma_mean (draws.map (fun d => d.time))
  let DIC := setCell DIC 0 1 (Dbl.fin (-2) * m_time)
  let m_response ← arma_mean (draws.map (fun d => d.response))
  let DIC := setCell DIC 0 2 (Dbl.fin (-2) * m_response)
  let m_joint ← arma_mean (draws.map (fun d => d.joint))
  let DIC := setCell DIC 0 3 (Dbl.fin (-2) * m_joint)
  pure (setCell DIC 0 4 (DIC 0 0 + DIC 0 2 + DIC 0 3))

/-- Rows `D_bar` of the table for a model with response times (e.g. lines 554-558). -/
def DIC_row0_RT (DIC : DICTable) (draws : List DrawOut) : Except Failure DICTable := do
  let m_tran ← arma_mean (draws.map (fun d => d.tran))
  let DIC := setCell DIC 0 0 (Dbl.fin (-2) * m_tran)
  let m_time ← arma_mean (draws.map (fun d => d.time))
  let DIC := setCell DIC 0 1 (Dbl.fin (-2) * m_time)
  let m_response ← arma_mean (draws.map (fun d => d.response))
  let DIC := setCell DIC 0 2 (Dbl.fin (-2) * m_response)
  let m_joint ← arma_mean (draws.map (fun d => d.joint))
  let DIC := setCell DIC 0 3 (Dbl.fin (-2) * m_joint)
  pure (setCell DIC 0 4 (DIC 0 0 + DIC 0 1 + DIC 0 2 + DIC 0 3))

/-- Row `D(theta_bar)` for a model without response times (e.g. lines 440-445). -/
def DIC_row1_noRT (DIC : DICTable) (acc : Acc) : DICTable :=
  let time := NA_REAL
  let DIC := setCell DIC 1 0 (Dbl.fin (-2) * acc.tran)
  let DIC := setCell DIC 1 1 (Dbl.fin (-2) * time)
  let DIC := setCell DIC 1 2 (Dbl.fin (-2) * acc.response)
  let DIC := setCell DIC 1 3 (Dbl.fin (-2) * acc.joint)
  setCell DIC 1 4 (DIC 1 0 + DIC 1 2 + DIC 1 3)

/-- Row `D(theta_bar)` for a model with response times (e.g. lines 593-597). -/
def DIC_row1_RT (DIC : DICTable) (acc : Acc) : DICTable :=
  let DIC := setCell DIC 1 0 (Dbl.fin (-2) * acc.tran)
  let DIC := setCell DIC 1 1 (Dbl.fin (-2) * acc.time)
  let DIC := setCell DIC 1 2 (Dbl.fin (-2) * acc.response)
  let DIC := setCell DIC 1 3 (Dbl.fin (-2) * acc.joint)
  setCell DIC 1 4 (DIC 1 0 + DIC 1 1 + DIC 1 2 + DIC 1 3)

/-- The list returned by the models that report neither response-time means nor
total times. -/
def PPs_noRT (draws : List DrawOut) : RList :=
  [("item_mean_PP", .matf (item_mean_PP draws)), ("item_OR_PP", .cube (item_OR_PP draws)),
   ("total_score_PP", .cube (total_score_PP draws))]

/-- The branch `if(model == "DINA_HO")`. -/
def branch_DINA_HO (c : Ctx) (DIC : DICTable) : Except Failure (DICTable × RList) := do
  let ss_EAP ← arma_mean_dim1 c.output.ss
  let gs_EAP ← arma_mean_dim1 c.output.gs
  let thetas_EAP ← arma_mean_dim1 c.output.thetas
  let lambdas_EAP ← arma_mean_dim1 c.output.lambdas
  let carry ← (List.range c.n_its).foldlM (DINA_HO_draw c) (Carry.init c)
  let DIC ← DIC_row0_noRT DIC carry.draws
  -- get Dhat
  let acc := DINA_HO_Dhat c carry.G_it ss_EAP gs_EAP thetas_EAP lambdas_EAP
  let DIC := DIC_row1_noRT DIC acc
  pure (DIC, PPs_noRT carry.draws)

/-! ## `Learning_fit`: the model `DINA_HO_RT_sep` (lines 452-606) -/

/-- Entry `(r, c)` of a matrix stored by rows. -/
def getD2 (m : List (List Dbl)) (r c : Nat) : Dbl := (m.getD r []).getD c 0

/-- A matrix stored by rows, as an Armadillo matrix. -/
def matOfRows (m : List (List Dbl)) : Mat Dbl :=
  ⟨m.length, (m.getD 0 []).length, fun r c => getD2 m r c⟩

/-- One iteration of the loop over the draws (lines 473-553). -/
def DINA_HO_RT_sep_draw (c : Ctx) (J_incidence : Cube Dbl) (carry : Carry) (tt : Nat) :
    Except Failure Carry := do
  -- first get alphas at time tt
  let alphas ← decode_draw c tt carry.alphas
  -- next get itempars and simulated responses
  let itempars := itemparsOf c c.output.ss c.output.gs tt
  let RT_itempars := itemparsOf c c.output.as_ c.output.gammas tt
  let itempars_cube := itemparsCube c itempars
  let RT_itempars_cube := itemparsCube c RT_itempars
  let Y_sim := c.h.simDINA tt alphas itempars_cube c.ETA c.test_order c.Test_versions
  let L_sim := c.h.sim_RT tt alphas RT_itempars_cube c.Qs (c.output.taus.col tt)
    (c.output.phis.get tt 0) c.ETA c.G_version c.test_order c.Test_versions
  -- next compute deviance part
  let acc := (List.range c.N).foldl (fun acc i =>
    let test_version_i := c.Test_versions.getD i 0 - 1
    let acc := (List.range c.T).foldl (fun acc t =>
      let test_block_it := c.test_order.get test_version_i t - 1
      let class_it := dot (alphaRow alphas c.K i t) c.vv
      let acc := { acc with
        Y_sim_collapsed := setBlock acc.Y_sim_collapsed i test_block_it c.Jt
          ((Y_sim.slice t).row i) }
      let acc := { acc with
        L_sim_collapsed := setBlock acc.L_sim_collapsed i test_block_it c.Jt
          ((L_sim.slice t).row i) }
      -- The transition model part
      let acc := if t < c.T - 1 then
          { acc with tran := acc.tran + c.h.log (c.h.pTran_HO_sep (alphaRow alphas c.K i t)
              (alphaRow alphas c.K i (t + 1)) (c.output.lambdas.col tt)
              (c.output.thetas.get i tt) (c.Q_examinee i) c.Jt t) }
        else acc
      let acc := { acc with
        G_it := update_G c J_incidence alphas acc.G_it i t test_version_i test_block_it class_it }
      -- The loglikelihood from log-Normal RT model
      let acc := { acc with time := acc.time + c.h.log (c.h.dLit acc.G_it
          ((c.Latency.slice t).row i)
          (RT_itempars.rows (test_block_it * c.Jt) ((test_block_it + 1) * c.Jt - 1))
          (c.output.taus.get i tt) (c.output.phis.get tt 0)) }
      -- The loglikelihood from the DINA
      let acc := { acc with response := acc.response + c.h.log (c.h.pYit_DINA
          ((c.ETA.slice test_block_it).col class_it) ((c.Response.slice t).row i)
          (itempars.rows (test_block_it * c.Jt) ((test_block_it + 1) * c.Jt - 1))) }
      let acc := { acc with
        total_score_PP := setCell acc.total_score_PP i t (dsum ((Y_sim.slice t).row i)) }
      { acc with total_time_PP := setCell acc.total_time_PP i t (dsum ((L_sim.slice t).row i)) })
      acc
    let class_i0 := dot (alphaRow alphas c.K i 0) c.vv
    { acc with joint := acc.joint + (c.h.log (c.output.pis.get class_i0 tt)
        + c.h.dnorm (c.output.taus.get i tt) 0 (c.h.sqrt (c.output.tauvar.get tt 0)) true) })
    (Acc.init c carry.G_it)
  -- Posterior predictive
  let item_mean ← arma_mean_dim0 c.N (c.Jt * c.T) acc.Y_sim_collapsed
  let item_OR := c.h.OddsRatio c.N (c.Jt * c.T) ⟨c.N, c.Jt * c.T, acc.Y_sim_collapsed⟩
  let RT_mean ← arma_mean_dim0 c.N (c.Jt * c.T) acc.L_sim_collapsed
  -- store dhats for this iteration
  let stored : DrawOut :=
    { tran := acc.tran
      time := acc.time
      response := acc.response
      joint := acc.joint
      total_score_PP := acc.total_score_PP
      total_time_PP := acc.total_time_PP
      item_mean_PP := item_mean
      item_OR_PP := item_OR
      RT_mean_PP := RT_mean }
  pure { alphas := alphas, G_it := acc.G_it, draws := carry.draws ++ [stored] }

/-- The pass "get Dhat" (lines 560-592).  The covariate `G_it` is the vector left by
the loop over the draws; this pass does not assign it. -/
def DINA_HO_RT_sep_Dhat (c : Ctx)
    (G_it ss_EAP gs_EAP as_EAP gammas_EAP thetas_EAP taus_EAP lambdas_EAP : List Dbl)
    (phi_EAP tauvar_EAP : Dbl) : Acc :=
  let itempars_EAP := itemparsEAP c ss_EAP gs_EAP
  let RT_itempars_EAP := itemparsEAP c as_EAP gammas_EAP
  (List.range c.N).foldl (fun acc i =>
    let test_version_i := c.Test_versions.getD i 0 - 1
    let acc := (List.range c.T).foldl (fun acc t =>
      -- The transition model part
      let acc := if t < c.T - 1 then
          { acc with tran := acc.tran + c.h.log (c.h.pTran_HO_sep
              (alphaRow c.Alphas_est c.K i t) (alphaRow c.Alphas_est c.K i (t + 1))
              lambdas_EAP (thetas_EAP.getD i 0) (c.Q_examinee i) c.Jt t) }
        else acc
      let test_block_it := c.test_order.get test_version_i t - 1
      let class_it := dot (alphaRow c.Alphas_est c.K i t) c.vv
      -- The loglikelihood from log-Normal RT model
      let acc := { acc with time := acc.time + c.h.log (c.h.dLit acc.G_it
          ((c.Latency.slice t).row i)
          (RT_itempars_EAP.rows (test_block_it * c.Jt) ((test_block_it + 1) * c.Jt - 1))
          (taus_EAP.getD i 0) phi_EAP) }
      -- The loglikelihood from the DINA
      { acc with response := acc.response + c.h.log (c.h.pYit_DINA
          ((c.ETA.slice test_block_it).col class_it) ((c.Response.slice t).row i)
          (itempars_EAP.rows (test_block_it * c.Jt) ((test_block_it + 1) * c.Jt - 1))) })
      acc
    let class_i0 := dot (alphaRow c.Alphas_est c.K i 0) c.vv
    { acc with joint := acc.joint + (c.h.log (c.pis_EAP.getD class_i0 0)
        + c.h.dnorm (taus_EAP.getD i 0) 0 (c.h.sqrt tauvar_EAP) true) })
    (Acc.init c G_it)

/-- The branch `if(model == "DINA_HO_RT_sep")`. -/
def branch_DINA_HO_RT_sep (c : Ctx) (DIC : DICTable) : Except Failure (DICTable × RList) := do
  let ss_EAP ← arma_mean_dim1 c.output.ss
  let gs_EAP ← arma_mean_dim1 c.output.gs
  let as_EAP ← arma_mean_dim1 c.output.as_
  let gammas_EAP ← arma_mean_dim1 c.output.gammas
  let thetas_EAP ← arma_mean_dim1 c.output.thetas
  let taus_EAP ← arma_mean_dim1 c.output.taus
  let lambdas_EAP ← arma_mean_dim1 c.output.lambdas
  let phi_EAP ← arma_mean (c.output.phis.col 0)
  let tauvar_EAP ← arma_mean (c.output.tauvar.col 0)
  let J_incidence := c.h.J_incidence_cube c.test_order c.Qs
  let carry ← (List.range c.n_its).foldlM (DINA_HO_RT_sep_draw c J_incidence) (Carry.init c)
  let DIC ← DIC_row0_RT DIC carry.draws
  -- get Dhat
  let acc := DINA_HO_RT_sep_Dhat c carry.G_it ss_EAP gs_EAP as_EAP gammas_EAP thetas_EAP
    taus_EAP lambdas_EAP phi_EAP tauvar_EAP
  let DIC := DIC_row1_RT DIC acc
  pure (DIC,
    [("item_mean_PP", .matf (item_mean_PP carry.draws)),
     ("item_OR_PP", .cube (item_OR_PP carry.draws)),
     ("RT_mean_PP", .matf (RT_mean_PP carry.draws)),
     ("total_score_PP", .cube (total_score_PP carry.draws)),
     ("total_time_PP", .cube (total_time_PP carry.draws))])

/-! ## `Learning_fit`: the model `DINA_HO_RT_joint` (lines 608-766) -/

/-- One iteration of the loop over the draws (lines 629-713). -/
def DINA_HO_RT_joint_draw (c : Ctx) (J_incidence : Cube Dbl) (carry : Carry) (tt : Nat) :
    Except Failure Carry := do
  -- first get alphas at time tt
  let alphas ← decode_draw c tt carry.alphas
  -- put item parameters into a matrix
  let itempars := itemparsOf c c.output.ss c.output.gs tt
  let RT_itempars := itemparsOf c c.output.as_ c.output.gammas tt
  let itempars_cube := itemparsCube c itempars
  let RT_itempars_cube := itemparsCube c RT_itempars
  let Y_sim := c.h.simDINA tt alphas itempars_cube c.ETA c.test_order c.Test_versions
  let L_sim := c.h.sim_RT tt alphas RT_itempars_cube c.Qs (c.output.taus.col tt)
    (c.output.phis.get tt 0) c.ETA c.G_version c.test_order c.Test_versions
  -- next compute deviance part
  let acc := (List.range c.N).foldl (fun acc i =>
    let test_version_i := c.Test_versions.getD i 0 - 1
    let acc := (List.range c.T).foldl (fun acc t =>
      let test_block_it := c.test_order.get test_version_i t - 1
      let class_it := dot (alphaRow alphas c.K i t) c.vv
      let acc := { acc with
        Y_sim_collapsed := setBlock acc.Y_sim_collapsed i test_block_it c.Jt
          ((Y_sim.slice t).row i) }
      let acc := { acc with
        L_sim_collapsed := setBlock acc.L_sim_collapsed i test_block_it c.Jt
          ((L_sim.slice t).row i) }
      -- The transition model part
      let acc := if t < c.T - 1 then
          { acc with tran := acc.tran + c.h.log (c.h.pTran_HO_joint (alphaRow alphas c.K i t)
              (alphaRow alphas c.K i (t + 1)) (c.output.lambdas.col tt)
              (c.output.thetas.get i tt) (c.Q_examinee i) c.Jt t) }
        else acc
      let acc := { acc with
        G_it := update_G c J_incidence alphas acc.G_it i t test_version_i test_block_it class_it }
      -- The loglikelihood from log-Normal RT model
      let acc := { acc with time := acc.time + c.h.log (c.h.dLit acc.G_it
          ((c.Latency.slice t).row i)
          (RT_itempars.rows (test_block_it * c.Jt) ((test_block_it + 1) * c.Jt - 1))
          (c.output.taus.get i tt) (c.output.phis.get tt 0)) }
      -- The loglikelihood from the DINA
      let acc := { acc with response := acc.response + c.h.log (c.h.pYit_DINA
          ((c.ETA.slice test_block_it).col class_it) ((c.Response.slice t).row i)
          (itempars.rows (test_block_it * c.Jt) ((test_block_it + 1) * c.Jt - 1))) }
      let acc := { acc with
        total_score_PP := setCell acc.total_score_PP i t (dsum ((Y_sim.slice t).row i)) }
      { acc with total_time_PP := setCell acc.total_time_PP i t (dsum ((L_sim.slice t).row i)) })
      acc
    let class_i0 := dot (alphaRow alphas c.K i 0) c.vv
    let thetatau := [c.output.thetas.get i tt, c.output.taus.get i tt]
    { acc with joint := acc.joint + (c.h.log (c.output.pis.get class_i0 tt)
        + c.h.log (c.h.dmvnrm thetatau [0, 0] (c.output.Sigs.slice tt) false)) })
    (Acc.init c carry.G_it)
  -- Posterior predictive
  let item_mean ← arma_mean_dim0 c.N (c.Jt * c.T) acc.Y_sim_collapsed
  let item_OR := c.h.OddsRatio c.N (c.Jt * c.T) ⟨c.N, c.Jt * c.T, acc.Y_sim_collapsed⟩
  let RT_mean ← arma_mean_dim0 c.N (c.Jt * c.T) acc.L_sim_collapsed
  -- store dhats for this iteration
  let stored : DrawOut :=
    { tran := acc.tran
      time := acc.time
      response := acc.response
      joint := acc.joint
      total_score_PP := acc.total_score_PP
      total_time_PP := acc.total_time_PP
      item_mean_PP := item_mean
      item_OR_PP := item_OR
      RT_mean_PP := RT_mean }
  pure { alphas := alphas, G_it := acc.G_it, draws := carry.draws ++ [stored] }

/-- The pass "get Dhat" (lines 720-755).  The covariate `G_it` is the vector left by
the loop over the draws; this pass does not assign it. -/
def DINA_HO_RT_joint_Dhat (c : Ctx)
    (G_it ss_EAP gs_EAP as_EAP gammas_EAP thetas_EAP taus_EAP lambdas_EAP : List Dbl)
    (phi_EAP : Dbl) (Sigs_EAP : List (List Dbl)) : Acc :=
  let itempars_EAP := itemparsEAP c ss_EAP gs_EAP
  let RT_itempars_EAP := itemparsEAP c as_EAP gammas_EAP
  (List.range c.N).foldl (fun acc i =>
    let test_version_i := c.Test_versions.getD i 0 - 1
    let acc := (List.range c.T).foldl (fun acc t =>
      -- The transition model part
      let acc := if t < c.T - 1 then
          { acc with tran := acc.tran + c.h.log (c.h.pTran_HO_joint
              (alphaRow c.Alphas_est c.K i t) (alphaRow c.Alphas_est c.K i (t + 1))
              lambdas_EAP (thetas_EAP.getD i 0) (c.Q_examinee i) c.Jt t) }
        else acc
      let test_block_it := c.test_order.get test_version_i t - 1
      let class_it := dot (alphaRow c.Alphas_est c.K i t) c.vv
      -- The loglikelihood from log-Normal RT model
      let acc := { acc with time := acc.time + c.h.log (c.h.dLit acc.G_it
          ((c.Latency.slice t).row i)
          (RT_itempars_EAP.rows (test_block_it * c.Jt) ((test_block_it + 1) * c.Jt - 1))
          (taus_EAP.getD i 0) phi_EAP) }
      -- The loglikelihood from the DINA
      { acc with response := acc.response + c.h.log (c.h.pYit_DINA
          ((c.ETA.slice test_block_it).col class_it) ((c.Response.slice t).row i)
          (itempars_EAP.rows (test_block_it * c.Jt) ((test_block_it + 1) * c.Jt - 1))) })
      acc
    let class_i0 := dot (alphaRow c.Alphas_est c.K i 0) c.vv
    let thetatau := [thetas_EAP.getD i 0, taus_EAP.getD i 0]
    { acc with joint := acc.joint + (c.h.log (c.pis_EAP.getD class_i0 0)
        + c.h.log (c.h.dmvnrm thetatau [0, 0] (matOfRows Sigs_EAP) false)) })
    (Acc.init c G_it)

/-- The branch `if(model == "DINA_HO_RT_joint")`. -/
def branch_DINA_HO_RT_joint (c : Ctx) (DIC : DICTable) :
    Except Failure (DICTable × RList) := do
  let ss_EAP ← arma_mean_dim1 c.output.ss
  let gs_EAP ← arma_mean_dim1 c.output.gs
  let as_EAP ← arma_mean_dim1 c.output.as_
  let gammas_EAP ← arma_mean_dim1 c.output.gammas
  let thetas_EAP ← arma_mean_dim1 c.output.thetas
  let taus_EAP ← arma_mean_dim1 c.output.taus
  let lambdas_EAP ← arma_mean_dim1 c.output.lambdas
  let phi_EAP ← arma_mean (c.output.phis.col 0)
  let Sigs_EAP ← arma_mean_dim2 c.output.Sigs
  let J_incidence := c.h.J_incidence_cube c.test_order c.Qs
  let carry ← (List.range c.n_its).foldlM (DINA_HO_RT_joint_draw c J_incidence) (Carry.init c)
  let DIC ← DIC_row0_RT DIC carry.draws
  -- get Dhat
  let acc := DINA_HO_RT_joint_Dhat c carry.G_it ss_EAP gs_EAP as_EAP gammas_EAP thetas_EAP
    taus_EAP lambdas_EAP phi_EAP Sigs_EAP
  let DIC := DIC_row1_RT DIC acc
  pure (DIC, PPs_noRT carry.draws)

/-! ## `Learning_fit`: the model `rRUM_indept` (lines 768-872) -/

/-- One iteration of the loop over the draws (lines 776-829).  The responses are
simulated before the profiles of this draw are decoded. -/
def rRUM_indept_draw (c : Ctx) (carry : Carry) (tt : Nat) : Except Failure Carry := do
  let r_stars_cube := cubeOfSlices c.Jt c.K c.T (fun t =>
    (c.output.r_stars.slice tt).rows (c.Jt * t) (c.Jt * (t + 1) - 1))
  let pi_stars_mat : Mat Dbl :=
    ⟨c.Jt, c.T, fun j t => (subvec (c.output.pi_stars.col tt) (c.Jt * t)
      (c.Jt * (t + 1) - 1)).getD j 0⟩
  let Y_sim := c.h.simrRUM tt carry.alphas r_stars_cube pi_stars_mat c.Qs c.test_order
    c.Test_versions
  -- first get alphas at time tt
  let alphas ← decode_draw c tt carry.alphas
  -- next compute deviance part
  let acc := (List.range c.N).foldl (fun acc i =>
    let test_version_i := c.Test_versions.getD i 0 - 1
    let acc := (List.range c.T).foldl (fun acc t =>
      let test_block_it := c.test_order.get test_version_i t - 1
      let acc := { acc with
        Y_sim_collapsed := setBlock acc.Y_sim_collapsed i test_block_it c.Jt
          ((Y_sim.slice t).row i) }
      -- The transition model part
      let acc := if t < c.T - 1 then
          { acc with tran := acc.tran + c.h.log (c.h.pTran_indept (alphaRow alphas c.K i t)
              (alphaRow alphas c.K i (t + 1)) (c.output.taus.col tt) c.R) }
        else acc
      -- The loglikelihood from the DINA
      let acc := { acc with response := acc.response + c.h.log (c.h.pYit_rRUM
          (alphaRow alphas c.K i t) ((c.Response.slice t).row i)
          ((c.output.pi_stars.rows (test_block_it * c.Jt) ((test_block_it + 1) * c.Jt - 1)).col tt)
          ((c.output.r_stars.slice tt).rows (test_block_it * c.Jt)
            ((test_block_it + 1) * c.Jt - 1))
          (c.Qs.slice test_block_it)) }
      { acc with total_score_PP := setCell acc.total_score_PP i t (dsum ((Y_sim.slice t).row i)) })
      acc
    let class_i0 := dot (alphaRow alphas c.K i 0) c.vv
    { acc with joint := acc.joint + c.h.log (c.output.pis.get class_i0 tt) })
    (Acc.init c carry.G_it)
  let time := NA_REAL
  -- Posterior predictive
  let item_mean ← arma_mean_dim0 c.N (c.Jt * c.T) acc.Y_sim_collapsed
  let item_OR := c.h.OddsRatio c.N (c.Jt * c.T) ⟨c.N, c.Jt * c.T, acc.Y_sim_collapsed⟩
  -- store dhats for this iteration
  let stored : DrawOut :=
    { tran := acc.tran
      time := time
      response := acc.response
      joint := acc.joint
      total_score_PP := acc.total_score_PP
      total_time_PP := acc.total_time_PP
      item_mean_PP := item_mean
      item_OR_PP := item_OR
      RT_mean_PP := [] }
  pure { alphas := alphas, G_it := acc.G_it, draws := carry.draws ++ [stored] }

/-- The pass "get Dhat" (lines 836-859). -/
def rRUM_indept_Dhat (c : Ctx) (G_it : List Dbl) (r_stars_EAP : List (List Dbl))
    (pi_stars_EAP taus_EAP : List Dbl) : Acc :=
  (List.range c.N).foldl (fun acc i =>
    let test_version_i := c.Test_versions.getD i 0 - 1
    let acc := (List.range c.T).foldl (fun acc t =>
      -- The transition model part
      let acc := if t < c.T - 1 then
          { acc with tran := acc.tran + c.h.log (c.h.pTran_indept
              (alphaRow c.Alphas_est c.K i t) (alphaRow c.Alphas_est c.K i (t + 1))
              taus_EAP c.R) }
        else acc
      let test_block_it := c.test_order.get test_version_i t - 1
      -- The loglikelihood from the DINA
      { acc with response := acc.response + c.h.log (c.h.pYit_rRUM
          (alphaRow c.Alphas_est c.K i t) ((c.Response.slice t).row i)
          (subvec pi_stars_EAP (test_block_it * c.Jt) ((test_block_it + 1) * c.Jt - 1))
          ((matOfRows r_stars_EAP).rows (test_block_it * c.Jt) ((test_block_it + 1) * c.Jt - 1))
          (c.Qs.slice test_block_it)) })
      acc
    let class_i0 := dot (alphaRow c.Alphas_est c.K i 0) c.vv
    { acc with joint := acc.joint + c.h.log (c.pis_EAP.getD class_i0 0) })
    (Acc.init c G_it)

/-- The branch `if(model == "rRUM_indept")`. -/
def branch_rRUM_indept (c : Ctx) (DIC : DICTable) : Except Failure (DICTable × RList) := do
  let r_stars_EAP ← arma_mean_dim2 c.output.r_stars
  let pi_stars_EAP ← arma_mean_dim1 c.output.pi_stars
  let taus_EAP ← arma_mean_dim1 c.output.taus
  let carry ← (List.range c.n_its).foldlM (rRUM_indept_draw c) (Carry.init c)
  let DIC ← DIC_row0_noRT DIC carry.draws
  -- get Dhat
  let acc := rRUM_indept_Dhat c carry.G_it r_stars_EAP pi_stars_EAP taus_EAP
  let DIC := DIC_row1_noRT DIC acc
  pure (DIC, PPs_noRT carry.draws)

/-! ## `Learning_fit`: the model `NIDA_indept` (lines 874-982) -/

/-- One iteration of the loop over the draws (lines 888-940). -/
def NIDA_indept_draw (c : Ctx) (carry : Carry) (tt : Nat) : Except Failure Carry := do
  -- first get alphas at time tt
  let alphas ← decode_draw c tt carry.alphas
  let Y_sim := c.h.simNIDA tt alphas (c.output.ss.col tt) (c.output.gs.col tt) c.Qs
    c.test_order c.Test_versions
  -- next compute deviance part
  let acc := (List.range c.N).foldl (fun acc i =>
    let test_version_i := c.Test_versions.getD i 0 - 1
    let acc := (List.range c.T).foldl (fun acc t =>
      let test_block_it := c.test_order.get test_version_i t - 1
      let acc := { acc with
        Y_sim_collapsed := setBlock acc.Y_sim_collapsed i test_block_it c.Jt
          ((Y_sim.slice t).row i) }
      -- The transition model part
      let acc := if t < c.T - 1 then
          { acc with tran := acc.tran + c.h.log (c.h.pTran_indept (alphaRow alphas c.K i t)
              (alphaRow alphas c.K i (t + 1)) (c.output.taus.col tt) c.R) }
        else acc
      -- The loglikelihood from the DINA
      let acc := { acc with response := acc.response + c.h.log (c.h.pYit_NIDA
          (alphaRow alphas c.K i t) ((c.Response.slice t).row i)
          (c.output.ss.col tt) (c.output.gs.col tt) (c.Qs.slice test_block_it)) }
      { acc with total_score_PP := setCell acc.total_score_PP i t (dsum ((Y_sim.slice t).row i)) })
      acc
    let class_i0 := dot (alphaRow alphas c.K i 0) c.vv
    { acc with joint := acc.joint + c.h.log (c.output.pis.get class_i0 tt) })
    (Acc.init c carry.G_it)
  let time := NA_REAL
  -- Posterior predictive
  let item_mean ← arma_mean_dim0 c.N (c.Jt * c.T) acc.Y_sim_collapsed
  let item_OR := c.h.OddsRatio c.N (c.Jt * c.T) ⟨c.N, c.Jt * c.T, acc.Y_sim_collapsed⟩
  -- store dhats for this iteration
  let stored : DrawOut :=
    { tran := acc.tran
      time := time
      response := acc.response
      joint := acc.joint
      total_score_PP := acc.total_score_PP
      total_time_PP := acc.total_time_PP
      item_mean_PP := item_mean
      item_OR_PP := item_OR
      RT_mean_PP := [] }
  pure { alphas := alphas, G_it := acc.G_it, draws := carry.draws ++ [stored] }

/-- The pass "get Dhat" (lines 947-970). -/
def NIDA_indept_Dhat (c : Ctx) (G_it ss_EAP gs_EAP taus_EAP : List Dbl) : Acc :=
  (List.range c.N).foldl (fun acc i =>
    let test_version_i := c.Test_versions.getD i 0 - 1
    let acc := (List.range c.T).foldl (fun acc t =>
      -- The transition model part
      let acc := if t < c.T - 1 then
          { acc with tran := acc.tran + c.h.log (c.h.pTran_indept
              (alphaRow c.Alphas_est c.K i t) (alphaRow c.Alphas_est c.K i (t + 1))
              taus_EAP c.R) }
        else acc
      let test_block_it := c.test_order.get test_version_i t - 1
      -- The loglikelihood from the DINA
      { acc with response := acc.response + c.h.log (c.h.pYit_NIDA
          (alphaRow c.Alphas_est c.K i t) ((c.Response.slice t).row i)
          ss_EAP gs_EAP (c.Qs.slice test_block_it)) })
      acc
    let class_i0 := dot (alphaRow c.Alphas_est c.K i 0) c.vv
    { acc with joint := acc.joint + c.h.log (c.pis_EAP.getD class_i0 0) })
    (Acc.init c G_it)

/-- The branch `if(model == "NIDA_indept")`. -/
def branch_NIDA_indept (c : Ctx) (DIC : DICTable) : Except Failure (DICTable × RList) := do
  let ss_EAP ← arma_mean_dim1 c.output.ss
  let gs_EAP ← arma_mean_dim1 c.output.gs
  let taus_EAP ← arma_mean_dim1 c.output.taus
  let carry ← (List.range c.n_its).foldlM (NIDA_indept_draw c) (Carry.init c)
  let DIC ← DIC_row0_noRT DIC carry.draws
  -- get Dhat
  let acc := NIDA_indept_Dhat c carry.G_it ss_EAP gs_EAP taus_EAP
  let DIC := DIC_row1_noRT DIC acc
  pure (DIC, PPs_noRT carry.draws)

/-! ## `Learning_fit`: the model `DINA_FOHM` (lines 984-1096) -/

/-- One iteration of the loop over the draws (lines 995-1051). -/
def DINA_FOHM_draw (c : Ctx) (carry : Carry) (tt : Nat) : Except Failure Carry := do
  -- first get alphas at time tt
  let alphas ← decode_draw c tt carry.alphas
  -- put item parameters into a matrix
  let itempars := itemparsOf c c.output.ss c.output.gs tt
  let itempars_cube := itemparsCube c itempars
  let Y_sim := c.h.simDINA tt alphas itempars_cube c.ETA c.test_order c.Test_versions
  -- next compute deviance part
  let acc := (List.range c.N).foldl (fun acc i =>
    let test_version_i := c.Test_versions.getD i 0 - 1
    let acc := (List.range c.T).foldl (fun acc t =>
      let test_block_it := c.test_order.get test_version_i t - 1
      let class_it := dot (alphaRow alphas c.K i t) c.vv
      let acc := { acc with
        Y_sim_collapsed := setBlock acc.Y_sim_collapsed i test_block_it c.Jt
          ((Y_sim.slice t).row i) }
      -- The transition model part
      let acc := if t < c.T - 1 then
          let class_pre := dot (alphaRow alphas c.K i t) c.vv
          let class_post := dot (alphaRow alphas c.K i (t + 1)) c.vv
          { acc with tran := acc.tran + c.h.log (c.output.omegas.get class_pre class_post tt) }
        else acc
      -- The loglikelihood from the DINA
      let acc := { acc with response := acc.response + c.h.log (c.h.pYit_DINA
          ((c.ETA.slice test_block_it).col class_it) ((c.Response.slice t).row i)
          (itempars.rows (test_block_it * c.Jt) ((test_block_it + 1) * c.Jt - 1))) }
      { acc with total_score_PP := setCell acc.total_score_PP i t (dsum ((Y_sim.slice t).row i)) })
      acc
    let class_i0 := dot (alphaRow alphas c.K i 0) c.vv
    { acc with joint := acc.joint + c.h.log (c.output.pis.get class_i0 tt) })
    (Acc.init c carry.G_it)
  let time := NA_REAL
  -- Posterior predictive
  let item_mean ← arma_mean_dim0 c.N (c.Jt * c.T) acc.Y_sim_collapsed
  let item_OR := c.h.OddsRatio c.N (c.Jt * c.T) ⟨c.N, c.Jt * c.T, acc.Y_sim_collapsed⟩
  -- store dhats for this iteration
  let stored : DrawOut :=
    { tran := acc.tran
      time := time
      response := acc.response
      joint := acc.joint
      total_score_PP := acc.total_score_PP
      total_time_PP := acc.total_time_PP
      item_mean_PP := item_mean
      item_OR_PP := item_OR
      RT_mean_PP := [] }
  pure { alphas := alphas, G_it := acc.G_it, draws := carry.draws ++ [stored] }

/-- The pass "get Dhat" (lines 1058-1084). -/
def DINA_FOHM_Dhat (c : Ctx) (G_it ss_EAP gs_EAP : List Dbl) (omegas_EAP : List (List Dbl)) :
    Acc :=
  let itempars_EAP := itemparsEAP c ss_EAP gs_EAP
  (List.range c.N).foldl (fun acc i =>
    let test_version_i := c.Test_versions.getD i 0 - 1
    let acc := (List.range c.T).foldl (fun acc t =>
      -- The transition model part
      let acc := if t < c.T - 1 then
          let class_pre := dot (alphaRow c.Alphas_est c.K i t) c.vv
          let class_post := dot (alphaRow c.Alphas_est c.K i (t + 1)) c.vv
          { acc with tran := acc.tran + c.h.log (getD2 omegas_EAP class_pre class_post) }
        else acc
      let test_block_it := c.test_order.get test_version_i t - 1
      let class_it := dot (alphaRow c.Alphas_est c.K i t) c.vv
      -- The loglikelihood from the DINA
      { acc with response := acc.response + c.h.log (c.h.pYit_DINA
          ((c.ETA.slice test_block_it).col class_it) ((c.Response.slice t).row i)
          (itempars_EAP.rows (test_block_it * c.Jt) ((test_block_it + 1) * c.Jt - 1))) })
      acc
    let class_i0 := dot (alphaRow c.Alphas_est c.K i 0) c.vv
    { acc with joint := acc.joint + c.h.log (c.pis_EAP.getD class_i0 0) })
    (Acc.init c G_it)

/-- The branch `if(model == "DINA_FOHM")`. -/
def branch_DINA_FOHM (c : Ctx) (DIC : DICTable) : Except Failure (DICTable × RList) := do
  let ss_EAP ← arma_mean_dim1 c.output.ss
  let gs_EAP ← arma_mean_dim1 c.output.gs
  let omegas_EAP ← arma_mean_dim2 c.output.omegas
  let carry ← (List.range c.n_its).foldlM (DINA_FOHM_draw c) (Carry.init c)
  let DIC ← DIC_row0_noRT DIC carry.draws
  -- get Dhat
  let acc := DINA_FOHM_Dhat c carry.G_it ss_EAP gs_EAP omegas_EAP
  let DIC := DIC_row1_noRT DIC acc
  pure (DIC, PPs_noRT carry.draws)

/-! ## `Learning_fit` (lines 282-1108) -/

/-- The list returned by `Learning_fit`: the DIC table, whose rows are named
`D_bar`, `D(theta_bar)`, `DIC` and whose columns are named `Transition`,
`Response_Time`, `Response`, `Joint`, `Total`, and the posterior predictive list. -/
structure FitResult where
  DIC : DICTable
  PPs : RList

/-- Row names of the DIC table. -/
def DIC_rownames : List String := ["D_bar", "D(theta_bar)", "DIC"]

/-- Column names of the DIC table. -/
def DIC_colnames : List String := ["Transition", "Response_Time", "Response", "Joint", "Total"]

/-- Lines 289-341: the objects set up before the model is dispatched. -/
def Learning_fit_setup (h : Helpers) (u : Uninit) (output : Output)
    (Response_list Q_list : List (Mat Dbl)) (test_order : Mat Nat) (Test_versions : List Nat)
    (Q_examinee : Nat → Mat Dbl) (Latency_list : Option (List (Mat Dbl))) (G_version : Int)
    (R : Mat Dbl) : Except Failure Ctx := do
  let T := test_order.n_rows
  let temp := Q_list.getD 0 emptyMat
  let Jt := temp.n_rows
  let K := temp.n_cols
  let N := Test_versions.length
  let Response := cubeOfSlices N Jt T (fun t => Response_list.getD t emptyMat)
  let Latency : Cube Dbl := match Latency_list with
    | some tmp => cubeOfSlices N Jt T (fun t => tmp.getD t emptyMat)
    | none => ⟨N, Jt, T, u.Latency⟩
  let Qs := cubeOfSlices Jt K T (fun t => Q_list.getD t emptyMat)
  let Traject := output.trajectories
  let pis := output.pis
  let pis_EAP ← arma_mean_dim1 pis
  let n_its := Traject.n_cols
  let Alphas_est ← Alphas_est_MAP N K T Traject
  let vv := bijectionvector K
  let ETA := cubeOfSlices Jt (2 ^ K) T (fun t => h.ETAmat K Jt (Qs.slice t))
  pure { h := h, u := u, output := output, test_order := test_order,
         Test_versions := Test_versions, Q_examinee := Q_examinee, G_version := G_version,
         R := R, T := T, Jt := Jt, K := K, N := N, Response := Response, Latency := Latency,
         Qs := Qs, pis_EAP := pis_EAP, n_its := n_its, Alphas_est := Alphas_est, vv := vv,
         ETA := ETA }

/-- The source function `Learning_fit`. -/
def Learning_fit (h : Helpers) (u : Uninit) (output : Output) (model : String)
    (Response_list Q_list : List (Mat Dbl)) (test_order : Mat Nat) (Test_versions : List Nat)
    (Q_examinee : Nat → Mat Dbl) (Latency_list : Option (List (Mat Dbl))) (G_version : Int)
    (R : Mat Dbl) : Except Failure FitResult := do
  let c ← Learning_fit_setup h u output Response_list Q_list test_order Test_versions
    Q_examinee Latency_list G_version R
  let mut DIC : DICTable := fun _ _ => 0
  let mut posterior_predictives : RList := []
  if model = "DINA_HO" then
    let r ← branch_DINA_HO c DIC
    DIC := r.1
    posterior_predictives := r.2
  if model = "DINA_HO_RT_sep" then
    let r ← branch_DINA_HO_RT_sep c DIC
    DIC := r.1
    posterior_predictives := r.2
  if model = "DINA_HO_RT_joint" then
    let r ← branch_DINA_HO_RT_joint c DIC
    DIC := r.1
    posterior_predictives := r.2
  if model = "rRUM_indept" then
    let r ← branch_rRUM_indept c DIC
    DIC := r.1
    posterior_predictives := r.2
  if model = "NIDA_indept" then
    let r ← branch_NIDA_indept c DIC
    DIC := r.1
    posterior_predictives := r.2
  if model = "DINA_FOHM" then
    let r ← branch_DINA_FOHM c DIC
    DIC := r.1
    posterior_predictives := r.2
  -- get last row --- DIC
  let DIC0 := DIC
  DIC := fun r col => if r = 2 then Dbl.fin 2 * DIC0 0 col - DIC0 1 col else DIC0 r col
  return { DIC := DIC, PPs := posterior_predictives }

/-! ## Quantities used to state the properties of the point estimates -/

/-- The arithmetic mean over the draw axis, `(1/n_its) * sum over the draws of x(draw)`. -/
def drawMean (n_its : Nat) (x : Nat → Dbl) : Dbl :=
  Dbl.divNat (dsum ((List.range n_its).map x)) n_its

/-- The EAP of a parameter matrix whose columns are the draws: one mean per row. -/
def eapRows (n_its : Nat) (M : Mat Dbl) : Value :=
  .vec ((List.range M.n_rows).map (fun r => drawMean n_its (fun tt => M.get r tt)))

/-- The EAP of a scalar parameter whose draws are the rows of column 0. -/
def eapScalar (n_its : Nat) (M : Mat Dbl) : Value :=
  .num (drawMean n_its (fun tt => M.get tt 0))

/-- The EAP of a parameter cube whose slices are the draws: one mean per entry. -/
def eapSlices (n_its : Nat) (C : Cube Dbl) : Value :=
  .mat ((List.range C.n_rows).map (fun r => (List.range C.n_cols).map (fun c =>
    drawMean n_its (fun tt => C.get r c tt))))

/-- The posterior mean that belongs to each name of a returned estimate. -/
def eapOf (o : Output) (n_its : Nat) : String → Option Value
  | "pis_EAP" => some (eapRows n_its o.pis)
  | "ss_EAP" => some (eapRows n_its o.ss)
  | "gs_EAP" => some (eapRows n_its o.gs)
  | "as_EAP" => some (eapRows n_its o.as_)
  | "gammas_EAP" => some (eapRows n_its o.gammas)
  | "thetas_EAP" => some (eapRows n_its o.thetas)
  | "taus_EAP" => some (eapRows n_its o.taus)
  | "lambdas_EAP" => some (eapRows n_its o.lambdas)
  | "pi_stars_EAP" => some (eapRows n_its o.pi_stars)
  | "phis" => some (eapScalar n_its o.phis)
  | "tauvar_EAP" => some (eapScalar n_its o.tauvar)
  | "Sigs_EAP" => some (eapSlices n_its o.Sigs)
  | "r_stars_EAP" => some (eapSlices n_its o.r_stars)
  | "omegas_EAP" => some (eapSlices n_its o.omegas)
  | _ => none

/-- The row of the model-to-parameter table of the spec (section 4.6), written with
the names under which the source returns the estimates: slip `ss_EAP`, guess
`gs_EAP`, speed `thetas_EAP`, learning rate `lambdas_EAP`, discrimination `as_EAP`,
time intensity `gammas_EAP`, latent speed `taus_EAP`, residual variance `phis`,
tau-variance `tauvar_EAP`, covariance `Sigs_EAP`, `r_stars_EAP`, `pi_stars_EAP`,
transition matrix `omegas_EAP`. -/
def tableRow (model : String) : List String :=
  if model = "DINA_HO" then ["ss_EAP", "gs_EAP", "thetas_EAP", "lambdas_EAP"]
  else if model = "DINA_HO_RT_sep" then
    ["ss_EAP", "gs_EAP", "thetas_EAP", "lambdas_EAP",
     "as_EAP", "gammas_EAP", "taus_EAP", "phis", "tauvar_EAP"]
  else if model = "DINA_HO_RT_joint" then
    ["ss_EAP", "gs_EAP", "thetas_EAP", "lambdas_EAP",
     "as_EAP", "gammas_EAP", "taus_EAP", "phis", "Sigs_EAP"]
  else if model = "rRUM_indept" then ["r_stars_EAP", "pi_stars_EAP", "taus_EAP"]
  else if model = "NIDA_indept" then ["ss_EAP", "gs_EAP", "taus_EAP"]
  else if model = "DINA_FOHM" then ["ss_EAP", "gs_EAP", "omegas_EAP"]
  else []

/-- The parameter estimates that `point_estimates_learning` lists for `model` after
`Alphas_est` and `pis_EAP`, in the order of the source. -/
def paramEstimates (o : Output) (n_its : Nat) (model : String) : RList :=
  if model = "DINA_HO" then
    [("ss_EAP", eapRows n_its o.ss), ("gs_EAP", eapRows n_its o.gs),
     ("thetas_EAP", eapRows n_its o.thetas), ("lambdas_EAP", eapRows n_its o.lambdas)]
  else if model = "DINA_HO_RT_sep" then
    [("ss_EAP", eapRows n_its o.ss), ("gs_EAP", eapRows n_its o.gs),
     ("as_EAP", eapRows n_its o.as_), ("gammas_EAP", eapRows n_its o.gammas),
     ("thetas_EAP", eapRows n_its o.thetas), ("taus_EAP", eapRows n_its o.taus),
     ("lambdas_EAP", eapRows n_its o.lambdas), ("phis", eapScalar n_its o.phis),
     ("tauvar_EAP", eapScalar n_its o.tauvar)]
  else if model = "DINA_HO_RT_joint" then
    [("ss_EAP", eapRows n_its o.ss), ("gs_EAP", eapRows n_its o.gs),
     ("as_EAP", eapRows n_its o.as_), ("gammas_EAP", eapRows n_its o.gammas),
     ("thetas_EAP", eapRows n_its o.thetas), ("taus_EAP", eapRows n_its o.taus),
     ("lambdas_EAP", eapRows n_its o.lambdas), ("phis", eapScalar n_its o.phis),
     ("Sigs_EAP", eapSlices n_its o.Sigs)]
  else if model = "rRUM_indept" then
    [("r_stars_EAP", eapSlices n_its o.r_stars), ("pi_stars_EAP", eapRows n_its o.pi_stars),
     ("taus_EAP", eapRows n_its o.taus)]
  else if model = "NIDA_indept" then
    [("ss_EAP", eapRows n_its o.ss), ("gs_EAP", eapRows n_its o.gs),
     ("taus_EAP", eapRows n_its o.taus)]
  else if model = "DINA_FOHM" then
    [("ss_EAP", eapRows n_its o.ss), ("gs_EAP", eapRows n_its o.gs),
     ("omegas_EAP", eapSlices n_its o.omegas)]
  else []

/-- The list that `point_estimates_learning` returns for `model`, given the decoded
cube `A` and `n_its` draws: empty when the name is none of the six. -/
def estimateList (o : Output) (n_its : Nat) (model : String) (A : AlphaCube) : RList :=
  if model ∈ modelNames then
    ("Alphas_est", .alphas A) :: ("pis_EAP", eapRows n_its o.pis) :: paramEstimates o n_its model
  else []

/-! ## Example inputs -/

/-- Three draws of one subject with codes 5, 5, 7. -/
def exTraject : Mat Nat := ⟨1, 3, fun _ tt => [5, 5, 7].getD tt 0⟩

/-- Two draws of one subject with codes 5, 7: a tie. -/
def exTrajectTie : Mat Nat := ⟨1, 2, fun _ tt => [5, 7].getD tt 0⟩

/-- A parameter matrix with one row and three draws. -/
def exMat : Mat Dbl := ⟨1, 3, fun _ tt => Dbl.fin ([1 / 10, 2 / 10, 3 / 10].getD tt 0)⟩

/-- A scalar parameter with three draws. -/
def exCol : Mat Dbl := ⟨3, 1, fun tt _ => Dbl.fin ([1, 2, 3].getD tt 0)⟩

/-- A parameter cube with a single entry and three draws. -/
def exCube : Cube Dbl := ⟨1, 1, 3, fun _ _ tt => Dbl.fin ([1 / 2, 1 / 2, 1 / 2].getD tt 0)⟩

/-- An MCMC output with three draws. -/
def exOutput : Output :=
  { trajectories := exTraject, pis := exMat, ss := exMat, gs := exMat, as_ := exMat,
    gammas := exMat, thetas := exMat, taus := exMat, lambdas := exMat, phis := exCol,
    tauvar := exCol, pi_stars := exMat, Sigs := exCube, r_stars := exCube, omegas := exCube }

/-! ## Quantities used to state the properties of the DIC table -/

/-- The models with a response-time sub-model. -/
def rtModels : List String := ["DINA_HO_RT_sep", "DINA_HO_RT_joint"]

/-- The models without a response-time sub-model. -/
def noRTModels : List String := ["DINA_HO", "rRUM_indept", "NIDA_indept", "DINA_FOHM"]

/-- The statement `DIC.row(2) = 2. * DIC.row(0) - DIC.row(1)` applied to a table. -/
def lastRow (D : DICTable) : DICTable :=
  fun r col => if r = 2 then Dbl.fin 2 * D 0 col - D 1 col else D r col

/-- Rows `D_bar` and `D(theta_bar)` of table `D` are the ones a branch computes from the
stored draws and from the accumulators `acc` of its pass "get Dhat"; `rt` tells
whether the model has a response-time sub-model. -/
structure RowsFrom (rt : Bool) (D : DICTable) (draws : List DrawOut) (acc : Acc) : Prop where
  bar_tran : D 0 0 = Dbl.fin (-2) * meanOf (draws.map (fun d => d.tran))
  bar_time : D 0 1 = Dbl.fin (-2) * meanOf (draws.map (fun d => d.time))
  bar_response : D 0 2 = Dbl.fin (-2) * meanOf (draws.map (fun d => d.response))
  bar_joint : D 0 3 = Dbl.fin (-2) * meanOf (draws.map (fun d => d.joint))
  bar_total : D 0 4 = if rt = true then D 0 0 + D 0 1 + D 0 2 + D 0 3 else D 0 0 + D 0 2 + D 0 3
  hat_tran : D 1 0 = Dbl.fin (-2) * acc.tran
  hat_time : D 1 1 = Dbl.fin (-2) * (if rt = true then acc.time else NA_REAL)
  hat_response : D 1 2 = Dbl.fin (-2) * acc.response
  hat_joint : D 1 3 = Dbl.fin (-2) * acc.joint
  hat_total : D 1 4 = if rt = true then D 1 0 + D 1 1 + D 1 2 + D 1 3 else D 1 0 + D 1 2 + D 1 3

/-- What the loop over the draws leaves behind: one stored record per draw and, for a
model without a response-time sub-model, `NA_REAL` in every `d_time(tt)`. -/
def DrawsStored (rt : Bool) (carry : Carry) (n : Nat) : Prop :=
  carry.draws.length = n ∧ (rt = false → ∀ d ∈ carry.draws, d.time = NA_REAL)

/-- What a model branch of `Learning_fit` delivers when it returns table `D` from the
table `DIC` it was given: the loop over the draws stored one record per draw, rows
`D_bar` and `D(theta_bar)` come from these records and from the pass "get Dhat",
and the last row is left as it was. -/
def BranchResult (rt : Bool) (c : Ctx) (DIC D : DICTable) : Prop :=
  ∃ carry acc, DrawsStored rt carry c.n_its ∧ RowsFrom rt D carry.draws acc ∧
    ∀ r col, 2 ≤ r → D r col = DIC r col

/-! ## A small response-time design -/

/-- A 1 × 1 matrix. -/
def oneByOne (x : Dbl) : Mat Dbl := ⟨1, 1, fun _ _ => x⟩

/-- A matrix of the given size with constant entries. -/
def constMat (r c : Nat) (x : Dbl) : Mat Dbl := ⟨r, c, fun _ _ => x⟩

/-- A cube of the given size with constant entries. -/
def constCube (r c s : Nat) (x : Dbl) : Cube Dbl := ⟨r, c, s, fun _ _ _ => x⟩

/-- Stand-ins for the helpers: every probability is 1 except the response-time
density, which is taken to be the first entry of the covariate `G_it`; the
logarithm of a positive `q` is taken to be `q - 1` (exact at 1); simulations are
all zero. -/
def toyHelpers : Helpers :=
  { ln := fun q => q - 1
    sqrt := fun x => x
    dnorm := fun _ _ _ _ => Dbl.fin 0
    dmvnrm := fun _ _ _ _ => Dbl.fin 1
    ETAmat := fun K Jt _ => constMat Jt (2 ^ K) (Dbl.fin 1)
    J_incidence_cube := fun _ _ => constCube 0 0 0 (Dbl.fin 0)
    G2vec_efficient := fun _ _ _ _ _ _ => []
    pTran_HO_sep := fun _ _ _ _ _ _ _ => Dbl.fin 1
    pTran_HO_joint := fun _ _ _ _ _ _ _ => Dbl.fin 1
    pTran_indept := fun _ _ _ _ => Dbl.fin 1
    pYit_DINA := fun _ _ _ => Dbl.fin 1
    pYit_rRUM := fun _ _ _ _ _ => Dbl.fin 1
    pYit_NIDA := fun _ _ _ _ _ => Dbl.fin 1
    dLit := fun G_it _ _ _ _ => G_it.getD 0 Dbl.nan
    simDINA := fun _ _ _ _ _ _ => constCube 1 1 2 (Dbl.fin 0)
    sim_RT := fun _ _ _ _ _ _ _ _ _ _ => constCube 1 1 2 (Dbl.fin 1)
    simrRUM := fun _ _ _ _ _ _ _ => constCube 1 1 2 (Dbl.fin 0)
    simNIDA := fun _ _ _ _ _ _ _ => constCube 1 1 2 (Dbl.fin 0)
    OddsRatio := fun _ J _ => constMat J J Dbl.nan }

/-- Arbitrary contents for the uninitialised objects. -/
def toyUninit : Uninit :=
  { G_it := [Dbl.fin 7]
    alphas := fun _ _ _ => 0
    Latency := fun _ _ _ => Dbl.fin 0
    Y_sim_collapsed := fun _ _ => Dbl.fin 0
    L_sim_collapsed := fun _ _ => Dbl.fin 0 }

/-- One draw for one subject, one skill, two time points and one item per block. -/
def toyOutput : Output :=
  { trajectories := ⟨1, 1, fun _ _ => 1⟩
    pis := constMat 2 1 (Dbl.fin 1)
    ss := constMat 2 1 (Dbl.fin (1 / 10))
    gs := constMat 2 1 (Dbl.fin (1 / 10))
    as_ := constMat 2 1 (Dbl.fin 1)
    gammas := constMat 2 1 (Dbl.fin 1)
    thetas := constMat 1 1 (Dbl.fin 0)
    taus := constMat 1 1 (Dbl.fin 0)
    lambdas := constMat 4 1 (Dbl.fin 0)
    phis := constMat 1 1 (Dbl.fin 1)
    tauvar := constMat 1 1 (Dbl.fin 1)
    pi_stars := constMat 2 1 (Dbl.fin 1)
    Sigs := constCube 2 2 1 (Dbl.fin 1)
    r_stars := constCube 2 1 1 (Dbl.fin 1)
    omegas := constCube 2 2 1 (Dbl.fin 1) }

/-- Two test versions over two blocks. -/
def toyOrder : Mat Nat := ⟨2, 2, fun v t => if v = t then 1 else 2⟩

/-- `Learning_fit` on the small design, for a model name and a covariate version. -/
def toyFit (model : String) (G_version : Int) : Except Failure FitResult :=
  Learning_fit toyHelpers toyUninit toyOutput model
    [oneByOne (Dbl.fin 1), oneByOne (Dbl.fin 0)] [oneByOne (Dbl.fin 1), oneByOne (Dbl.fin 1)]
    toyOrder [1] (fun _ => oneByOne (Dbl.fin 1))
    (some [oneByOne (Dbl.fin 2), oneByOne (Dbl.fin 3)]) G_version (oneByOne (Dbl.fin 1))

/-- A cell of the table returned by a call of `Learning_fit`, when it returned. -/
def cellOf (r : Except Failure FitResult) (i j : Nat) : Option Dbl :=
  match r with
  | .ok r => some (r.DIC i j)
  | .error _ => none

/-- The setup of `Learning_fit` on the small design with the time-block covariate
(`G_version = 3`). -/
def toySetup : Except Failure Ctx :=
  Learning_fit_setup toyHelpers toyUninit toyOutput
    [oneByOne (Dbl.fin 1), oneByOne (Dbl.fin 0)] [oneByOne (Dbl.fin 1), oneByOne (Dbl.fin 1)]
    toyOrder [1] (fun _ => oneByOne (Dbl.fin 1))
    (some [oneByOne (Dbl.fin 2), oneByOne (Dbl.fin 3)]) 3 (oneByOne (Dbl.fin 1))

/-- The response-time log-likelihood sum evaluated at the point estimate, formed as
the loop over the draws forms it for a draw: the parameter EAPs stand for the
draw's parameters and the decoded point-estimate trajectory `Alphas_est` for the
draw's profiles, so that the covariate `G_it` of subject `i` at time `t` is computed
from that trajectory (`G_it` is the vector held before the first subject). -/
def time_at_point_estimate (c : Ctx) (J_incidence : Cube Dbl)
    (G_it as_EAP gammas_EAP taus_EAP : List Dbl) (phi_EAP : Dbl) : Dbl :=
  let RT_itempars_EAP := itemparsEAP c as_EAP gammas_EAP
  ((List.range c.N).foldl (fun (acc : Dbl × List Dbl) i =>
    let test_version_i := c.Test_versions.getD i 0 - 1
    (List.range c.T).foldl (fun (acc : Dbl × List Dbl) t =>
      let test_block_it := c.test_order.get test_version_i t - 1
      let class_it := dot (alphaRow c.Alphas_est c.K i t) c.vv
      let G_it := update_G c J_incidence c.Alphas_est acc.2 i t test_version_i test_block_it
        class_it
      (acc.1 + c.h.log (c.h.dLit G_it ((c.Latency.slice t).row i)
          (RT_itempars_EAP.rows (test_block_it * c.Jt) ((test_block_it + 1) * c.Jt - 1))
          (taus_EAP.getD i 0) phi_EAP), G_it)) acc) (0, G_it)).1

/-- On the small design with model DINA_HO_RT_sep: `-2` times the response-time
log-likelihood sum evaluated at the point estimate. -/
def toyDhatTime : Option Dbl :=
  match toySetup with
  | .ok c =>
    match arma_mean_dim1 c.output.as_, arma_mean_dim1 c.output.gammas,
      arma_mean_dim1 c.output.taus, arma_mean (c.output.phis.col 0) with
    | .ok as_EAP, .ok gammas_EAP, .ok taus_EAP, .ok phi_EAP =>
      some (Dbl.fin (-2) * time_at_point_estimate c (c.h.J_incidence_cube c.test_order c.Qs)
        c.u.G_it as_EAP gammas_EAP taus_EAP phi_EAP)
    | _, _, _, _ => none
  | .error _ => none

/-- The response-time log-likelihood sum over all subjects and time points when one
and the same covariate vector `G_it` is used for every subject and time point. -/
def time_with_fixed_G (c : Ctx) (G_it as_EAP gammas_EAP taus_EAP : List Dbl)
    (phi_EAP : Dbl) : Dbl :=
  (List.range c.N).foldl (fun tm i =>
    (List.range c.T).foldl (fun tm t =>
      tm + c.h.log (c.h.dLit G_it ((c.Latency.slice t).row i)
        ((itemparsEAP c as_EAP gammas_EAP).rows
          ((c.test_order.get (c.Test_versions.getD i 0 - 1) t - 1) * c.Jt)
          (((c.test_order.get (c.Test_versions.getD i 0 - 1) t - 1) + 1) * c.Jt - 1))
        (taus_EAP.getD i 0) phi_EAP)) tm) 0
/-! ## Quantities used to state the properties of the loops of `Learning_fit` -/

/-- The profiles cut from draw `tt`: entry `(i, k, t)` is bit `k` of chunk `t` of the
decoded trajectory code `Traject(i, tt)` of subject `i`. -/
def drawAlphas (c : Ctx) (tt : Nat) : AlphaCube :=
  fun i k t => (subvec (inv_bijectionvector (c.K * c.T) (c.output.trajectories.get i tt))
    (t * c.K) ((t + 1) * c.K - 1)).getD k 0

/-- The cube `alphas` after `n` iterations of the loop over the draws: the
uninitialised cube before the first iteration, and after the iteration of draw `tt`
the profiles of that draw in its `N × K × T` entries. -/
def alphasAt (c : Ctx) : Nat → AlphaCube
  | 0 => c.u.alphas
  | tt + 1 => fun i k t =>
      if i < c.N ∧ t < c.T ∧ k < c.K then drawAlphas c tt i k t else alphasAt c tt i k t

/-- The double sum over subjects `i < N` and time points `t < T` of `term i t`, added
up in the order of the loops, starting from 0. -/
def pairSum (N T : Nat) (term : Nat → Nat → Dbl) : Dbl :=
  (List.range N).foldl (fun s i => (List.range T).foldl (fun s t => s + term i t) s) 0

/-- The transition term of subject `i` for the pair of time points `(t, t+1)`: the
logarithm of the model's transition probability between the profiles at `t` and
`t+1` of the cube `A`, with the transition parameters `lambdas`, `theta`, `taus`,
`omega`. -/
def tranTerm (c : Ctx) (model : String) (A : AlphaCube) (lambdas taus : List Dbl)
    (theta : Nat → Dbl) (omega : Nat → Nat → Dbl) (i t : Nat) : Dbl :=
  if model = "DINA_HO" ∨ model = "DINA_HO_RT_sep" then
    c.h.log (c.h.pTran_HO_sep (alphaRow A c.K i t) (alphaRow A c.K i (t + 1)) lambdas
      (theta i) (c.Q_examinee i) c.Jt t)
  else if model = "DINA_HO_RT_joint" then
    c.h.log (c.h.pTran_HO_joint (alphaRow A c.K i t) (alphaRow A c.K i (t + 1)) lambdas
      (theta i) (c.Q_examinee i) c.Jt t)
  else if model = "DINA_FOHM" then
    c.h.log (omega (dot (alphaRow A c.K i t) c.vv) (dot (alphaRow A c.K i (t + 1)) c.vv))
  else
    c.h.log (c.h.pTran_indept (alphaRow A c.K i t) (alphaRow A c.K i (t + 1)) taus c.R)

/-- The transition term of draw `tt`: the profiles and the parameters are those of
the draw. -/
def tranTermDraw (c : Ctx) (model : String) (tt : Nat) : Nat → Nat → Dbl :=
  tranTerm c model (alphasAt c (tt + 1)) (c.output.lambdas.col tt) (c.output.taus.col tt)
    (fun i => c.output.thetas.get i tt) (fun a b => c.output.omegas.get a b tt)

/-- The mean over the draws of every row of a matrix of draws. -/
def eapVec (n_its : Nat) (M : Mat Dbl) : List Dbl :=
  (List.range M.n_rows).map (fun r => drawMean n_its (fun tt => M.get r tt))

/-- The mean over the draws of every entry of a cube of draws, stored by rows. -/
def eapMat (n_its : Nat) (C : Cube Dbl) : List (List Dbl) :=
  (List.range C.n_rows).map (fun r => (List.range C.n_cols).map
    (fun col => drawMean n_its (fun tt => C.get r col tt)))

/-- The mean over the draws of a parameter stored as a column of draws. -/
def eapNum (n_its : Nat) (M : Mat Dbl) : Dbl := drawMean n_its (fun tt => M.get tt 0)

/-- The transition term of the pass "get Dhat": the profiles are the point estimate
`Alphas_est` and the parameters are the means over the draws. -/
def tranTermHat (c : Ctx) (model : String) : Nat → Nat → Dbl :=
  tranTerm c model c.Alphas_est (eapVec c.n_its c.output.lambdas) (eapVec c.n_its c.output.taus)
    (fun i => (eapVec c.n_its c.output.thetas).getD i 0)
    (fun a b => getD2 (eapMat c.n_its c.output.omegas) a b)

/-- The block `test_order(Test_versions(i)-1, t) - 1` that the test version of
subject `i` administers at time `t`. -/
def blockOf (c : Ctx) (i t : Nat) : Nat :=
  c.test_order.get (c.Test_versions.getD i 0 - 1) t - 1

/-- The collapsed matrix after the loops over subjects and time points: starting
from the matrix `init`, row `slice(t).row(i)` of the simulated cube `X` is assigned
to columns `b*Jt .. (b+1)*Jt-1` of row `i`, `b` the block of subject `i` at time `t`. -/
def collapse (c : Ctx) (X : Cube Dbl) (init : Nat → Nat → Dbl) : Nat → Nat → Dbl :=
  (List.range c.N).foldl (fun M i =>
    (List.range c.T).foldl (fun M t =>
      setBlock M i (blockOf c i t) c.Jt ((X.slice t).row i)) M) init

/-- The totals `sum(X.slice(t).row(i))` of the simulated cube `X`, as the loops over
subjects and time points assign them to slice `tt` of the total cubes. -/
def totals (c : Ctx) (X : Cube Dbl) : Nat → Nat → Dbl :=
  (List.range c.N).foldl (fun M i =>
    (List.range c.T).foldl (fun M t => setCell M i t (dsum ((X.slice t).row i))) M)
    (fun _ _ => 0)

/-- The means of the first `J` columns of a matrix with `N` rows. -/
def colMeans (N J : Nat) (M : Nat → Nat → Dbl) : List Dbl :=
  (List.range J).map (fun col => meanOf ((List.range N).map (fun r => M r col)))

/-- The response cube simulated in the iteration of draw `tt`.  The profiles passed
to the simulator are the cube `alphas` as it is at the call: for rRUM_indept the
call comes before the profiles of draw `tt` are decoded, for the other models
after. -/
def simY (c : Ctx) (model : String) (tt : Nat) : Cube Dbl :=
  if model = "rRUM_indept" then
    c.h.simrRUM tt (alphasAt c tt)
      (cubeOfSlices c.Jt c.K c.T (fun t =>
        (c.output.r_stars.slice tt).rows (c.Jt * t) (c.Jt * (t + 1) - 1)))
      ⟨c.Jt, c.T, fun j t => (subvec (c.output.pi_stars.col tt) (c.Jt * t)
        (c.Jt * (t + 1) - 1)).getD j 0⟩
      c.Qs c.test_order c.Test_versions
  else if model = "NIDA_indept" then
    c.h.simNIDA tt (alphasAt c (tt + 1)) (c.output.ss.col tt) (c.output.gs.col tt) c.Qs
      c.test_order c.Test_versions
  else
    c.h.simDINA tt (alphasAt c (tt + 1))
      (itemparsCube c (itemparsOf c c.output.ss c.output.gs tt)) c.ETA c.test_order
      c.Test_versions

/-- The latency cube simulated in the iteration of draw `tt` of a model with a
response-time sub-model. -/
def simL (c : Ctx) (tt : Nat) : Cube Dbl :=
  c.h.sim_RT tt (alphasAt c (tt + 1))
    (itemparsCube c (itemparsOf c c.output.as_ c.output.gammas tt)) c.Qs
    (c.output.taus.col tt) (c.output.phis.get tt 0) c.ETA c.G_version c.test_order
    c.Test_versions

/-- The response-time term of subject `i` at time `t` in the iteration of draw `tt`
when the covariate vector is `G`. -/
def timeTermDraw (c : Ctx) (tt : Nat) (G : Nat → Nat → List Dbl) (i t : Nat) : Dbl :=
  c.h.log (c.h.dLit (G i t) ((c.Latency.slice t).row i)
    ((itemparsOf c c.output.as_ c.output.gammas tt).rows (blockOf c i t * c.Jt)
      ((blockOf c i t + 1) * c.Jt - 1))
    (c.output.taus.get i tt) (c.output.phis.get tt 0))

/-- The time-block covariate of `G_version = 3`: `Jt` entries, all `(t+1)/T`. -/
def G_timeblock (c : Ctx) (t : Nat) : List Dbl :=
  List.replicate c.Jt (Dbl.fin ((t + 1 : ℚ) / c.T))

/-- The covariate vector of subject `i` at time `t` in the iteration of draw `tt`, as
the three `if (G_version == ...)` statements compute it from the profiles of the
draw when `G_version` is 1, 2 or 3. -/
def covariateDraw (c : Ctx) (tt : Nat) (i t : Nat) : List Dbl :=
  update_G c (c.h.J_incidence_cube c.test_order c.Qs) (alphasAt c (tt + 1)) [] i t
    (c.Test_versions.getD i 0 - 1) (blockOf c i t)
    (dot (alphaRow (alphasAt c (tt + 1)) c.K i t) c.vv)

/-- The response-time term of subject `i` at time `t` in the pass "get Dhat": the
covariate is the vector `G` the pass is entered with, the parameters are the means
over the draws. -/
def timeTermHat (c : Ctx) (G : List Dbl) (i t : Nat) : Dbl :=
  c.h.log (c.h.dLit G ((c.Latency.slice t).row i)
    ((itemparsEAP c (eapVec c.n_its c.output.as_) (eapVec c.n_its c.output.gammas)).rows
      (blockOf c i t * c.Jt) ((blockOf c i t + 1) * c.Jt - 1))
    ((eapVec c.n_its c.output.taus).getD i 0) (eapNum c.n_its c.output.phis))

/-- The response term of subject `i` at time `t`: the logarithm of the probability
that the model's response function gives to the observed responses
`Response.slice(t).row(i)`, for the profile at time `t` of the cube `A` and the item
parameters of the block administered at time `t`. -/
def respTerm (c : Ctx) (model : String) (A : AlphaCube) (itempars : Mat Dbl)
    (pi_stars : Nat → List Dbl) (r_stars : Nat → Mat Dbl) (ss gs : List Dbl) (i t : Nat) : Dbl :=
  if model = "rRUM_indept" then
    c.h.log (c.h.pYit_rRUM (alphaRow A c.K i t) ((c.Response.slice t).row i)
      (pi_stars (blockOf c i t)) (r_stars (blockOf c i t)) (c.Qs.slice (blockOf c i t)))
  else if model = "NIDA_indept" then
    c.h.log (c.h.pYit_NIDA (alphaRow A c.K i t) ((c.Response.slice t).row i) ss gs
      (c.Qs.slice (blockOf c i t)))
  else
    c.h.log (c.h.pYit_DINA
      ((c.ETA.slice (blockOf c i t)).col (dot (alphaRow A c.K i t) c.vv))
      ((c.Response.slice t).row i)
      (itempars.rows (blockOf c i t * c.Jt) ((blockOf c i t + 1) * c.Jt - 1)))

/-- The response term of draw `tt`. -/
def respTermDraw (c : Ctx) (model : String) (tt : Nat) : Nat → Nat → Dbl :=
  respTerm c model (alphasAt c (tt + 1)) (itemparsOf c c.output.ss c.output.gs tt)
    (fun b => (c.output.pi_stars.rows (b * c.Jt) ((b + 1) * c.Jt - 1)).col tt)
    (fun b => (c.output.r_stars.slice tt).rows (b * c.Jt) ((b + 1) * c.Jt - 1))
    (c.output.ss.col tt) (c.output.gs.col tt)

/-- The response term of the pass "get Dhat". -/
def respTermHat (c : Ctx) (model : String) : Nat → Nat → Dbl :=
  respTerm c model c.Alphas_est
    (itemparsEAP c (eapVec c.n_its c.output.ss) (eapVec c.n_its c.output.gs))
    (fun b => subvec (eapVec c.n_its c.output.pi_stars) (b * c.Jt) ((b + 1) * c.Jt - 1))
    (fun b => (matOfRows (eapMat c.n_its c.output.r_stars)).rows (b * c.Jt)
      ((b + 1) * c.Jt - 1))
    (eapVec c.n_its c.output.ss) (eapVec c.n_its c.output.gs)

/-- The term of subject `i` in the sum `joint`: the logarithm of the probability `pi`
of the subject's initial class, plus, in the models with response times, the
log-density of the subject's speed (and ability). -/
def jointTerm (c : Ctx) (model : String) (A : AlphaCube) (pi : Nat → Dbl)
    (theta tau : Nat → Dbl) (tauvar : Dbl) (Sig : Mat Dbl) (i : Nat) : Dbl :=
  if model = "DINA_HO_RT_sep" then
    c.h.log (pi (dot (alphaRow A c.K i 0) c.vv))
      + c.h.dnorm (tau i) 0 (c.h.sqrt tauvar) true
  else if model = "DINA_HO_RT_joint" then
    c.h.log (pi (dot (alphaRow A c.K i 0) c.vv))
      + c.h.log (c.h.dmvnrm [theta i, tau i] [0, 0] Sig false)
  else
    c.h.log (pi (dot (alphaRow A c.K i 0) c.vv))

/-- The term of subject `i` in the sum `joint` of draw `tt`. -/
def jointTermDraw (c : Ctx) (model : String) (tt : Nat) (i : Nat) : Dbl :=
  jointTerm c model (alphasAt c (tt + 1)) (fun cl => c.output.pis.get cl tt)
    (fun i => c.output.thetas.get i tt) (fun i => c.output.taus.get i tt)
    (c.output.tauvar.get tt 0) (c.output.Sigs.slice tt) i

/-- The term of subject `i` in the sum `joint` of the pass "get Dhat". -/
def jointTermHat (c : Ctx) (model : String) (i : Nat) : Dbl :=
  jointTerm c model c.Alphas_est (fun cl => c.pis_EAP.getD cl 0)
    (fun i => (eapVec c.n_its c.output.thetas).getD i 0)
    (fun i => (eapVec c.n_its c.output.taus).getD i 0)
    (eapNum c.n_its c.output.tauvar) (matOfRows (eapMat c.n_its c.output.Sigs)) i

/-- What the iteration of draw `tt` of the loop over the draws of `model` stores. -/
structure DrawFacts (c : Ctx) (model : String) (tt : Nat) (d : DrawOut) : Prop where
  tran : d.tran = pairSum c.N (c.T - 1) (tranTermDraw c model tt)
  response : d.response = pairSum c.N c.T (respTermDraw c model tt)
  joint : d.joint = pairSum c.N 1 (fun i _ => jointTermDraw c model tt i)
  time : model ∈ rtModels → (c.G_version = 1 ∨ c.G_version = 2 ∨ c.G_version = 3) →
    d.time = pairSum c.N c.T (timeTermDraw c tt (covariateDraw c tt))
  time_NA : model ∉ rtModels → d.time = NA_REAL
  item_mean : d.item_mean_PP
    = colMeans c.N (c.Jt * c.T) (collapse c (simY c model tt) c.u.Y_sim_collapsed)
  item_OR : d.item_OR_PP = c.h.OddsRatio c.N (c.Jt * c.T)
    ⟨c.N, c.Jt * c.T, collapse c (simY c model tt) c.u.Y_sim_collapsed⟩
  total_score : d.total_score_PP = totals c (simY c model tt)
  RT_mean : model ∈ rtModels → d.RT_mean_PP
    = colMeans c.N (c.Jt * c.T) (collapse c (simL c tt) c.u.L_sim_collapsed)
  total_time : model ∈ rtModels → d.total_time_PP = totals c (simL c tt)
  time_G3 : model ∈ rtModels → c.G_version = 3 →
    d.time = pairSum c.N c.T (timeTermDraw c tt (fun _ t => G_timeblock c t))

/-- One iteration of the loop over the draws in the branch of `model`. -/
def drawStep (c : Ctx) (model : String) : Carry → Nat → Except Failure Carry :=
  if model = "DINA_HO" then DINA_HO_draw c
  else if model = "DINA_HO_RT_sep" then
    DINA_HO_RT_sep_draw c (c.h.J_incidence_cube c.test_order c.Qs)
  else if model = "DINA_HO_RT_joint" then
    DINA_HO_RT_joint_draw c (c.h.J_incidence_cube c.test_order c.Qs)
  else if model = "rRUM_indept" then rRUM_indept_draw c
  else if model = "NIDA_indept" then NIDA_indept_draw c
  else DINA_FOHM_draw c

/-- The pass "get Dhat" in the branch of `model`, entered with the covariate vector
`G_it` and with the means over the draws of the model's parameters. -/
def dhatPass (c : Ctx) (model : String) (G_it : List Dbl) : Acc :=
  let n := c.n_its
  let o := c.output
  if model = "DINA_HO" then
    DINA_HO_Dhat c G_it (eapVec n o.ss) (eapVec n o.gs) (eapVec n o.thetas) (eapVec n o.lambdas)
  else if model = "DINA_HO_RT_sep" then
    DINA_HO_RT_sep_Dhat c G_it (eapVec n o.ss) (eapVec n o.gs) (eapVec n o.as_)
      (eapVec n o.gammas) (eapVec n o.thetas) (eapVec n o.taus) (eapVec n o.lambdas)
      (eapNum n o.phis) (eapNum n o.tauvar)
  else if model = "DINA_HO_RT_joint" then
    DINA_HO_RT_joint_Dhat c G_it (eapVec n o.ss) (eapVec n o.gs) (eapVec n o.as_)
      (eapVec n o.gammas) (eapVec n o.thetas) (eapVec n o.taus) (eapVec n o.lambdas)
      (eapNum n o.phis) (eapMat n o.Sigs)
  else if model = "rRUM_indept" then
    rRUM_indept_Dhat c G_it (eapMat n o.r_stars) (eapVec n o.pi_stars) (eapVec n o.taus)
  else if model = "NIDA_indept" then
    NIDA_indept_Dhat c G_it (eapVec n o.ss) (eapVec n o.gs) (eapVec n o.taus)
  else
    DINA_FOHM_Dhat c G_it (eapVec n o.ss) (eapVec n o.gs) (eapMat n o.omegas)

/-- The posterior predictive list that the branch of `model` returns. -/
def ppList (model : String) (draws : List DrawOut) : RList :=
  if model = "DINA_HO_RT_sep" then
    [("item_mean_PP", .matf (item_mean_PP draws)),
     ("item_OR_PP", .cube (item_OR_PP draws)),
     ("RT_mean_PP", .matf (RT_mean_PP draws)),
     ("total_score_PP", .cube (total_score_PP draws)),
     ("total_time_PP", .cube (total_time_PP draws))]
  else PPs_noRT draws

/-- What the loop over the draws of `model` leaves behind: the cube `alphas` of the
last draw and one stored record per draw. -/
structure LoopFacts (c : Ctx) (model : String) (carry : Carry) : Prop where
  alphas : carry.alphas = alphasAt c c.n_its
  length : carry.draws.length = c.n_its
  draw : ∀ tt, tt < c.n_its → ∃ d, carry.draws[tt]? = some d ∧ DrawFacts c model tt d

/-- The context `c` holds the arguments of the call: the sizes are read off
`test_order` (`T`), the first Q-matrix (`Jt`, `K`), `Test_versions` (`N`) and the
draws of the trajectories (`n_its`). -/
structure Ctx.From (c : Ctx) (h : Helpers) (u : Uninit) (o : Output) (Q_list : List (Mat Dbl))
    (test_order : Mat Nat) (Test_versions : List Nat) (G_version : Int) : Prop where
  h : c.h = h
  u : c.u = u
  output : c.output = o
  N : c.N = Test_versions.length
  K : c.K = (Q_list.getD 0 emptyMat).n_cols
  T : c.T = test_order.n_rows
  Jt : c.Jt = (Q_list.getD 0 emptyMat).n_rows
  n_its : c.n_its = o.trajectories.n_cols
  G_version : c.G_version = G_version
  test_order : c.test_order = test_order
  Test_versions : c.Test_versions = Test_versions

/-- The row of `test_order` of the test version of subject `i` is a permutation of
the block numbers `1 .. T`. -/
def rowIsPermutation (c : Ctx) (i : Nat) : Prop :=
  List.Perm ((List.range c.T).map (fun t => c.test_order.get (c.Test_versions.getD i 0 - 1) t))
    ((List.range c.T).map (fun t => t + 1))

/-- A context for the small design: one subject with test version 1, one skill, two
time points, one item per block, one draw. -/
def toyCtx : Ctx :=
  { h := toyHelpers, u := toyUninit, output := toyOutput, test_order := toyOrder,
    Test_versions := [1], Q_examinee := fun _ => oneByOne (Dbl.fin 1), G_version := 3,
    R := oneByOne (Dbl.fin 1), T := 2, Jt := 1, K := 1, N := 1,
    Response := cubeOfSlices 1 1 2 (fun t => [oneByOne (Dbl.fin 1), oneByOne (Dbl.fin 0)].getD t emptyMat),
    Latency := cubeOfSlices 1 1 2 (fun t => [oneByOne (Dbl.fin 2), oneByOne (Dbl.fin 3)].getD t emptyMat),
    Qs := cubeOfSlices 1 1 2 (fun _ => oneByOne (Dbl.fin 1)),
    pis_EAP := [Dbl.fin 1, Dbl.fin 1], n_its := 1, Alphas_est := fun _ _ _ => 0,
    vv := bijectionvector 1,
    ETA := cubeOfSlices 1 2 2 (fun _ => constMat 1 2 (Dbl.fin 1)) }

/-! ## A design with two draws and simulators that show their input -/

/-- Stand-ins for the helpers as in `toyHelpers`, except that every response
simulator returns, as the response of subject `i` to the single item at time `t`,
the entry `alphas(i, 0, t)` of the profile cube it is called with. -/
def echoHelpers : Helpers :=
  { toyHelpers with
    simDINA := fun _ A _ _ _ _ => ⟨1, 1, 2, fun i _ t => Dbl.ofNat (A i 0 t)⟩
    simrRUM := fun _ A _ _ _ _ _ => ⟨1, 1, 2, fun i _ t => Dbl.ofNat (A i 0 t)⟩
    simNIDA := fun _ A _ _ _ _ _ => ⟨1, 1, 2, fun i _ t => Dbl.ofNat (A i 0 t)⟩ }

/-- Contents of the uninitialised objects in which the cube `alphas` can be told
from every decoded profile: all its entries are 7. -/
def echoUninit : Uninit := { toyUninit with alphas := fun _ _ _ => 7 }

/-- Two draws for one subject, one skill and two time points: the trajectory code
is 3 (profile 1 at both time points) in the first draw and 0 (profile 0 at both
time points) in the second. -/
def twoDraws : Output :=
  { trajectories := ⟨1, 2, fun _ tt => if tt = 0 then 3 else 0⟩
    pis := constMat 2 2 (Dbl.fin 1)
    ss := constMat 2 2 (Dbl.fin (1 / 10))
    gs := constMat 2 2 (Dbl.fin (1 / 10))
    as_ := constMat 2 2 (Dbl.fin 1)
    gammas := constMat 2 2 (Dbl.fin 1)
    thetas := constMat 1 2 (Dbl.fin 0)
    taus := constMat 1 2 (Dbl.fin 0)
    lambdas := constMat 4 2 (Dbl.fin 0)
    phis := constMat 2 1 (Dbl.fin 1)
    tauvar := constMat 2 1 (Dbl.fin 1)
    pi_stars := constMat 2 2 (Dbl.fin 1)
    Sigs := constCube 2 2 2 (Dbl.fin 1)
    r_stars := constCube 2 1 2 (Dbl.fin 1)
    omegas := constCube 2 2 2 (Dbl.fin 1) }

/-- `Learning_fit` on the design with two draws. -/
def echoFit (model : String) : Except Failure FitResult :=
  Learning_fit echoHelpers echoUninit twoDraws model
    [oneByOne (Dbl.fin 1), oneByOne (Dbl.fin 0)] [oneByOne (Dbl.fin 1), oneByOne (Dbl.fin 1)]
    toyOrder [1] (fun _ => oneByOne (Dbl.fin 1))
    (some [oneByOne (Dbl.fin 2), oneByOne (Dbl.fin 3)]) 3 (oneByOne (Dbl.fin 1))

/-- Entry `(i, j, k)` of the cube called `name` in the posterior predictive list of
a call of `Learning_fit`, when it returned and the list has such a cube. -/
def ppCubeAt (r : Except Failure FitResult) (name : String) (i j k : Nat) : Option Dbl :=
  match r with
  | .ok r =>
    match r.PPs.lookup name with
    | some (.cube f) => some (f i j k)
    | _ => none
  | .error _ => none

/-- Entry `(i, j)` of the matrix called `name` in the posterior predictive list of a
call of `Learning_fit`, when it returned and the list has such a matrix. -/
def ppMatAt (r : Except Failure FitResult) (name : String) (i j : Nat) : Option Dbl :=
  match r with
  | .ok r =>
    match r.PPs.lookup name with
    | some (.matf f) => some (f i j)
    | _ => none
  | .error _ => none

/-- The names of the posterior predictive list of a call of `Learning_fit`, when it
returned. -/
def ppNames (r : Except Failure FitResult) : Option (List String) :=
  match r with
  | .ok r => some (r.PPs.map Prod.fst)
  | .error _ => none

/-! ## Quantities used to compare two runs that differ in the simulated data -/

/-- The helpers `h` with other simulators: another random stream, or any other way
of producing the simulated responses and latencies. -/
def withSimulators (h : Helpers)
    (simDINA : Nat → AlphaCube → Cube Dbl → Cube Dbl → Mat Nat → List Nat → Cube Dbl)
    (sim_RT : Nat → AlphaCube → Cube Dbl → Cube Dbl → List Dbl → Dbl → Cube Dbl → Int →
      Mat Nat → List Nat → Cube Dbl)
    (simrRUM : Nat → AlphaCube → Cube Dbl → Mat Dbl → Cube Dbl → Mat Nat → List Nat → Cube Dbl)
    (simNIDA : Nat → AlphaCube → List Dbl → List Dbl → Cube Dbl → Mat Nat → List Nat → Cube Dbl) :
    Helpers :=
  { h with simDINA := simDINA, sim_RT := sim_RT, simrRUM := simrRUM, simNIDA := simNIDA }

/-- The context `c` with other helpers. -/
def Ctx.withHelpers (c : Ctx) (h : Helpers) : Ctx := { c with h := h }

/-- Two states of the accumulators agree in the four log-likelihood sums and in the
covariate vector. -/
structure AccRel (a b : Acc) : Prop where
  tran : a.tran = b.tran
  response : a.response = b.response
  time : a.time = b.time
  joint : a.joint = b.joint
  G_it : a.G_it = b.G_it

/-- The four log-likelihood sums stored for a draw. -/
def DrawOut.core (d : DrawOut) : Dbl × Dbl × Dbl × Dbl := (d.tran, d.time, d.response, d.joint)

/-- Two states of the loop over the draws agree in the profile cube, in the covariate
vector and in the log-likelihood sums stored so far. -/
structure CarryRel (s t : Carry) : Prop where
  alphas : s.alphas = t.alphas
  G_it : s.G_it = t.G_it
  core : s.draws.map DrawOut.core = t.draws.map DrawOut.core

/-! ## Quantities used to state the properties of the four log-likelihood sums -/

/-- The number of terms that a subject contributes to the sum of a component
(column 0 Transition, 1 Response_Time, 2 Response, 3 Joint). -/
def termCount (c : Ctx) (col : Nat) : Nat :=
  if col = 0 then c.T - 1 else if col = 3 then 1 else c.T

/-- Term `t` of subject `i` in the sum of component `col` of draw `tt`. -/
def drawTerm (c : Ctx) (model : String) (tt col : Nat) : Nat → Nat → Dbl :=
  if col = 0 then tranTermDraw c model tt
  else if col = 1 then timeTermDraw c tt (covariateDraw c tt)
  else if col = 2 then respTermDraw c model tt
  else fun i _ => jointTermDraw c model tt i

/-- Term `t` of subject `i` in the sum of component `col` of the pass "get Dhat",
entered with the covariate vector `G`. -/
def hatTerm (c : Ctx) (model : String) (G : List Dbl) (col : Nat) : Nat → Nat → Dbl :=
  if col = 0 then tranTermHat c model
  else if col = 1 then timeTermHat c G
  else if col = 2 then respTermHat c model
  else fun i _ => jointTermHat c model i

/-- The sum of component `col` stored for draw `tt`; the Response_Time sum of a model
without response times is `NA_REAL`. -/
def drawSum (c : Ctx) (model : String) (tt col : Nat) : Dbl :=
  if col = 1 ∧ model ∉ rtModels then NA_REAL
  else pairSum c.N (termCount c col) (drawTerm c model tt col)

/-- The sum of component `col` of the pass "get Dhat". -/
def hatSum (c : Ctx) (model : String) (G : List Dbl) (col : Nat) : Dbl :=
  if col = 1 ∧ model ∉ rtModels then NA_REAL
  else pairSum c.N (termCount c col) (hatTerm c model G col)

/-- The sum of component `col` in a stored record. -/
def DrawOut.comp (d : DrawOut) (col : Nat) : Dbl :=
  if col = 0 then d.tran else if col = 1 then d.time else if col = 2 then d.response
  else d.joint

/-- Three draws of one subject with the codes 1, 2, 3: every code occurs once. -/
def splitTraject : Mat Nat := ⟨1, 3, fun _ tt => [1, 2, 3].getD tt 0⟩

/-- The example output with the draws `splitTraject`. -/
def splitOutput : Output := { exOutput with trajectories := splitTraject }

/-- The example output with the same code 6 in all three draws. -/
def constOutput : Output := { exOutput with trajectories := ⟨1, 3, fun _ _ => 6⟩ }

/-- Entry `(i, k, t)` of the cube `Alphas_est` in the list returned by
`point_estimates_learning`, when it returned such a cube. -/
def alphasEstAt (r : Except Failure RList) (i k t : Nat) : Option Nat :=
  match r with
  | .ok l =>
    match l.lookup "Alphas_est" with
    | some (.alphas A) => some (A i k t)
    | _ => none
  | .error _ => none

/-- Entry `(i, k, t)` of the cube `Alphas_est` that `Learning_fit` sets up for its
pass "get Dhat", when the setup returned. -/
def fitAlphasAt (r : Except Failure Ctx) (i k t : Nat) : Option Nat :=
  match r with
  | .ok c => some (c.Alphas_est i k t)
  | .error _ => none

/-! ## Quantities used to state the properties of the covariate of the pass "get Dhat" -/

/-- The covariate vector `G_it` after the iteration of draw `n - 1` of a model with
response times: the result of the three `if (G_version == ...)` statements for the
last subject `N - 1` at the last time point `T - 1`, with the profiles of that draw.
`G0` is the vector held before these statements; it is the result when `G_version`
is none of 1, 2, 3. -/
def covariateAfter (c : Ctx) (n : Nat) (G0 : List Dbl) : List Dbl :=
  update_G c (c.h.J_incidence_cube c.test_order c.Qs) (alphasAt c n) G0 (c.N - 1) (c.T - 1)
    (c.Test_versions.getD (c.N - 1) 0 - 1) (blockOf c (c.N - 1) (c.T - 1))
    (dot (alphaRow (alphasAt c n) c.K (c.N - 1) (c.T - 1)) c.vv)

/-- The context `c` with another cube `Alphas_est`. -/
def Ctx.withAlphas_est (c : Ctx) (A : AlphaCube) : Ctx := { c with Alphas_est := A }

/-! ## The odds ratios of the item pairs -/

/-- The number of subjects `i < N` with response `a` on item `j1` and response `b` on
item `j2` in the binary matrix `Yt`. -/
def pairCount (N : Nat) (Yt : Mat Dbl) (j1 j2 a b : Nat) : Nat :=
  ((List.range N).filter (fun i =>
    decide (Yt.get i j1 = Dbl.ofNat a ∧ Yt.get i j2 = Dbl.ofNat b))).length

/-- Modelled from the spec: the body of `OddsRatio` is not in src/ (`Learning_fit` only
calls it, e.g. line 406: `item_OR_PP.slice(tt) = OddsRatio(N,Jt*T,Y_sim_collapsed)`).
The spec gives, for a pair of distinct items, the quotient `(n00*n11)/(n01*n10)` of
the products of the joint counts, returned as the division of doubles yields it
(infinite or NaN when the divisor is zero), and leaves the diagonal undefined; the
diagonal is NaN here. -/
def OddsRatio (N J : Nat) (Yt : Mat Dbl) : Mat Dbl :=
  ⟨J, J, fun j1 j2 =>
    if j1 = j2 then Dbl.nan
    else Dbl.divNat (Dbl.ofNat (pairCount N Yt j1 j2 0 0 * pairCount N Yt j1 j2 1 1))
      (pairCount N Yt j1 j2 0 1 * pairCount N Yt j1 j2 1 0)⟩

/-- The collapsed matrix of the responses simulated in the iteration of draw `tt`, as
it is passed to `OddsRatio`. -/
def simCollapsed (c : Ctx) (model : String) (tt : Nat) : Mat Dbl :=
  ⟨c.N, c.Jt * c.T, collapse c (simY c model tt) c.u.Y_sim_collapsed⟩

/-- The joint count `n_ab` of the items `j1`, `j2` in the collapsed matrix of draw
`tt`. -/
def simCount (c : Ctx) (model : String) (tt j1 j2 a b : Nat) : Nat :=
  pairCount c.N (simCollapsed c model tt) j1 j2 a b

/-- Stand-ins for the helpers as in `toyHelpers` for four subjects, except that every
response simulator returns, as the response of subject `i` to the single item at time
`t`, the entry `alphas(i, 0, t)` of the profile cube it is called with, and that the
odds ratios are the ones of `OddsRatio`. -/
def orHelpers : Helpers :=
  { toyHelpers with
    simDINA := fun _ A _ _ _ _ => ⟨4, 1, 2, fun i _ t => Dbl.ofNat (A i 0 t)⟩
    simrRUM := fun _ A _ _ _ _ _ => ⟨4, 1, 2, fun i _ t => Dbl.ofNat (A i 0 t)⟩
    simNIDA := fun _ A _ _ _ _ _ => ⟨4, 1, 2, fun i _ t => Dbl.ofNat (A i 0 t)⟩
    OddsRatio := OddsRatio }

/-- One draw for four subjects, one skill and two time points; subject `i` has the
trajectory code `codes[i]`. -/
def orOutput (codes : List Nat) : Output :=
  { toyOutput with
    trajectories := ⟨4, 1, fun i _ => codes.getD i 0⟩
    thetas := constMat 4 1 (Dbl.fin 0)
    taus := constMat 4 1 (Dbl.fin 0) }

/-- The setup of `Learning_fit` on the design with four subjects of test version 1. -/
def orSetup (codes : List Nat) : Except Failure Ctx :=
  Learning_fit_setup orHelpers toyUninit (orOutput codes)
    [constMat 4 1 (Dbl.fin 1), constMat 4 1 (Dbl.fin 0)]
    [oneByOne (Dbl.fin 1), oneByOne (Dbl.fin 1)]
    toyOrder [1, 1, 1, 1] (fun _ => oneByOne (Dbl.fin 1)) none 1 (oneByOne (Dbl.fin 1))

/-- `Learning_fit` on the design with four subjects of test version 1. -/
def orFit (codes : List Nat) (model : String) : Except Failure FitResult :=
  Learning_fit orHelpers toyUninit (orOutput codes) model
    [constMat 4 1 (Dbl.fin 1), constMat 4 1 (Dbl.fin 0)]
    [oneByOne (Dbl.fin 1), oneByOne (Dbl.fin 1)]
    toyOrder [1, 1, 1, 1] (fun _ => oneByOne (Dbl.fin 1)) none 1 (oneByOne (Dbl.fin 1))

/-- The joint counts `[n00, n01, n10, n11]` of the items `j1`, `j2` in the collapsed
matrix of draw `tt`, when the setup returned. -/
def simCounts (r : Except Failure Ctx) (model : String) (tt j1 j2 : Nat) : Option (List Nat) :=
  match r with
  | .ok c => some [simCount c model tt j1 j2 0 0, simCount c model tt j1 j2 0 1,
      simCount c model tt j1 j2 1 0, simCount c model tt j1 j2 1 1]
  | .error _ => none

/-! ## Quantities used to state which entries of `test_order` are read -/

/-- The context `c` with another matrix `test_order`. -/
def Ctx.withOrder (c : Ctx) (M : Mat Nat) : Ctx := { c with test_order := M }

/-- The helpers that are passed the whole matrix `test_order` return the same for the
matrices `M` and `M'`: what they read of it is the same in both. -/
structure Helpers.SameOn (h : Helpers) (M M' : Mat Nat) : Prop where
  J_incidence_cube : ∀ Qs, h.J_incidence_cube M' Qs = h.J_incidence_cube M Qs
  G2vec_efficient : ∀ ETA J hist v t, h.G2vec_efficient ETA J hist v M' t
    = h.G2vec_efficient ETA J hist v M t
  simDINA : ∀ rng A ip ETA tv, h.simDINA rng A ip ETA M' tv = h.simDINA rng A ip ETA M tv
  sim_RT : ∀ rng A ip Qs taus phi ETA G tv, h.sim_RT rng A ip Qs taus phi ETA G M' tv
    = h.sim_RT rng A ip Qs taus phi ETA G M tv
  simrRUM : ∀ rng A r pi Qs tv, h.simrRUM rng A r pi Qs M' tv = h.simrRUM rng A r pi Qs M tv
  simNIDA : ∀ rng A ss gs Qs tv, h.simNIDA rng A ss gs Qs M' tv = h.simNIDA rng A ss gs Qs M tv

/-- The matrices have the same dimensions and the same entries inside them; their
entries `get r c` with `r >= n_rows` or `c >= n_cols`, which stand for what lies
outside the matrix, are free to differ. -/
def Mat.sameInRange (M M' : Mat Nat) : Prop :=
  M'.n_rows = M.n_rows ∧ M'.n_cols = M.n_cols ∧
    ∀ r col, r < M.n_rows → col < M.n_cols → M'.get r col = M.get r col

/-- The matrix `M` with 2 added to what `get r col` returns. -/
def Mat.bump (M : Mat Nat) (r col : Nat) : Mat Nat :=
  ⟨M.n_rows, M.n_cols, fun r' col' =>
    if r' = r ∧ col' = col then M.get r' col' + 2 else M.get r' col'⟩

/-- Stand-ins for the helpers as in `toyHelpers`, except that the response
probability of DINA is the entry in the first row and column of the item parameters
it is passed, so that it shows which block of rows was selected. -/
def probeHelpers : Helpers :=
  { toyHelpers with pYit_DINA := fun _ _ itempars => itempars.get 0 0 }

/-- One draw for `N` subjects with trajectory code 0, in which the slipping parameter
in row `r` is `r + 1`. -/
def probeOutput (N T : Nat) : Output :=
  { toyOutput with
    trajectories := ⟨N, 1, fun _ _ => 0⟩
    thetas := constMat N 1 (Dbl.fin 0)
    taus := constMat N 1 (Dbl.fin 0)
    ss := ⟨T, 1, fun r _ => Dbl.fin ((r : ℚ) + 1)⟩
    gs := constMat T 1 (Dbl.fin (1 / 10)) }

/-- `Learning_fit` for the model DINA_HO with the helpers `probeHelpers` on a design
with one skill and one item per block; `T` is the length of the two lists. -/
def probeFit (T : Nat) (test_order : Mat Nat) (Test_versions : List Nat) :
    Except Failure FitResult :=
  Learning_fit probeHelpers toyUninit (probeOutput Test_versions.length T) "DINA_HO"
    (List.replicate T (constMat Test_versions.length 1 (Dbl.fin 0)))
    (oneByOne (Dbl.fin 1) :: List.replicate T (oneByOne (Dbl.fin 1)))
    test_order Test_versions (fun _ => oneByOne (Dbl.fin 1)) none 0 (oneByOne (Dbl.fin 1))

/-- The sum over the subjects `i < N` and the time points `t < n_rows` of the block
numbers `test_order(Test_versions(i) - 1, t) - 1`. -/
def blockSum (M : Mat Nat) (Test_versions : List Nat) : ℚ :=
  ∑ i in Finset.range Test_versions.length, ∑ t in Finset.range M.n_rows,
    ((M.get (Test_versions.getD i 0 - 1) t - 1 : Nat) : ℚ)

/-- A design with two test versions and a single time point: `test_order` has two
rows and one column. -/
def tallOrder : Mat Nat := ⟨2, 1, fun v _ => v + 1⟩

/-! ## Generic lemmas -/

theorem foldlM_eq_ok {σ α : Type} (f : σ → α → Except Failure σ) (g : σ → α → σ)
    (l : List α) (s : σ) (h : ∀ s x, x ∈ l → f s x = .ok (g s x)) :
    l.foldlM f s = .ok (l.foldl g s) := by
  induction l generalizing s with
  | nil => rfl
  | cons a l ih =>
    rw [List.foldlM_cons, h s a (List.mem_cons_self _ _)]
    exact ih _ (fun s x hx => h s x (List.mem_cons_of_mem _ hx))

theorem foldl_add_fin (l : List ℚ) (a : ℚ) :
    (l.map Dbl.fin).foldl (fun acc x => acc + x) (Dbl.fin a) = Dbl.fin (a + l.sum) := by
  induction l generalizing a with
  | nil => simp
  | cons x l ih =>
    simp only [List.map_cons, List.foldl_cons, List.sum_cons]
    rw [show Dbl.fin a + Dbl.fin x = Dbl.fin (a + x) from rfl, ih, add_assoc]

theorem dsum_map_fin (l : List ℚ) : dsum (l.map Dbl.fin) = Dbl.fin l.sum := by
  unfold dsum
  rw [show (0 : Dbl) = Dbl.fin 0 from rfl, foldl_add_fin, zero_add]

theorem arma_mean_of_fin (l : List ℚ) (h : l ≠ []) :
    arma_mean (l.map Dbl.fin) = .ok (Dbl.fin (l.sum / l.length)) := by
  cases l with
  | nil => exact absurd rfl h
  | cons x l =>
    have h1 : dsum (List.map Dbl.fin (x :: l)) = Dbl.fin (x :: l).sum := dsum_map_fin _
    simp only [List.map_cons] at h1
    simp only [arma_mean, List.map_cons, h1, Dbl.divNat]
    simp

/-! ## The EAP branch -/

/-- The loop over `kk` of the EAP branch, once every column mean is known to exist:
`c kk` tells whether the mean of column `kk` exceeds one half. -/
theorem eap_inner_apply (K i : Nat) (c : Nat → Bool) (A : AlphaCube) (M i' k' t' : Nat) :
    ((List.range M).foldl (fun A kk =>
        if c kk = true then setEntry A i (kk % K) ((kk - kk % K) / K) 1 else A) A) i' k' t'
      = if i' = i ∧ ∃ kk, kk < M ∧ c kk = true ∧ kk % K = k' ∧ (kk - kk % K) / K = t'
        then 1 else A i' k' t' := by
  induction M with
  | zero => simp
  | succ M ih =>
    rw [List.range_succ, List.foldl_append]
    simp only [List.foldl_cons, List.foldl_nil]
    by_cases hc : c M = true
    · simp only [hc, if_true, setEntry]
      by_cases hm : i' = i ∧ k' = M % K ∧ t' = (M - M % K) / K
      · rw [if_pos hm, if_pos]
        exact ⟨hm.1, M, Nat.lt_succ_self _, hc, hm.2.1.symm, hm.2.2.symm⟩
      · rw [if_neg hm, ih]
        congr 1
        apply propext
        constructor
        · rintro ⟨h1, kk, h2, h3⟩
          exact ⟨h1, kk, Nat.lt_succ_of_lt h2, h3⟩
        · rintro ⟨h1, kk, h2, h3, h4, h5⟩
          refine ⟨h1, kk, ?_, h3, h4, h5⟩
          rcases Nat.lt_succ_iff_lt_or_eq.mp h2 with h | h
          · exact h
          · subst h
            exact absurd ⟨h1, h4.symm, h5.symm⟩ hm
    · simp only [hc, Bool.false_eq_true, if_false]
      rw [ih]
      congr 1
      apply propext
      constructor
      · rintro ⟨h1, kk, h2, h3⟩
        exact ⟨h1, kk, Nat.lt_succ_of_lt h2, h3⟩
      · rintro ⟨h1, kk, h2, h3, h4, h5⟩
        refine ⟨h1, kk, ?_, h3, h4, h5⟩
        rcases Nat.lt_succ_iff_lt_or_eq.mp h2 with h | h
        · exact h
        · subst h
          exact absurd h3 hc

/-- The coordinate mapping of the EAP branch: column `kk` of `Alphas_i_mat` goes to
skill `kk % K` and time `(kk - kk % K) / K`, so `(k, t)` is hit by `kk = t*K + k` only. -/
theorem eap_coord (K T k t : Nat) (hk : k < K) (ht : t < T) (c : Nat → Bool) :
    (∃ kk, kk < K * T ∧ c kk = true ∧ kk % K = k ∧ (kk - kk % K) / K = t)
      ↔ c (t * K + k) = true := by
  have hK : 0 < K := Nat.lt_of_le_of_lt (Nat.zero_le _) hk
  constructor
  · rintro ⟨kk, _, h2, h3, h4⟩
    have h5 : kk = t * K + k := by
      have h6 := Nat.div_add_mod kk K
      have h7 : (kk - kk % K) / K = kk / K := by
        have h8 : kk - kk % K = K * (kk / K) := by omega
        rw [h8, Nat.mul_div_cancel_left _ hK]
      rw [h7] at h4
      rw [← h6, h4, h3, Nat.mul_comm]
    rw [← h5]; exact h2
  · intro h
    refine ⟨t * K + k, ?_, h, ?_, ?_⟩
    · calc t * K + k < t * K + K := Nat.add_lt_add_left hk _
        _ = K * (t + 1) := by ring
        _ ≤ K * T := Nat.mul_le_mul_left _ ht
    · rw [Nat.add_comm, Nat.add_mul_mod_self_right, Nat.mod_eq_of_lt hk]
    · have h1 : (t * K + k) % K = k := by
        rw [Nat.add_comm, Nat.add_mul_mod_self_right, Nat.mod_eq_of_lt hk]
      rw [h1, Nat.add_sub_cancel, Nat.mul_div_cancel _ hK]

theorem eap_outer_apply (K M : Nat) (c : Nat → Nat → Bool) (A0 : AlphaCube) (N i' k' t' : Nat) :
    ((List.range N).foldl (fun A i => (List.range M).foldl (fun A kk =>
        if c i kk = true then setEntry A i (kk % K) ((kk - kk % K) / K) 1 else A) A) A0) i' k' t'
      = if i' < N ∧ ∃ kk, kk < M ∧ c i' kk = true ∧ kk % K = k' ∧ (kk - kk % K) / K = t'
        then 1 else A0 i' k' t' := by
  induction N with
  | zero => simp
  | succ N ih =>
    rw [List.range_succ, List.foldl_append]
    simp only [List.foldl_cons, List.foldl_nil]
    rw [eap_inner_apply, ih]
    by_cases h1 : i' = N
    · subst h1
      by_cases h2 : ∃ kk, kk < M ∧ c i' kk = true ∧ kk % K = k' ∧ (kk - kk % K) / K = t'
      · rw [if_pos ⟨rfl, h2⟩, if_pos ⟨Nat.lt_succ_self _, h2⟩]
      · rw [if_neg (fun h => h2 h.2), if_neg (fun h => absurd h.1 (Nat.lt_irrefl _)),
          if_neg (fun h => h2 h.2)]
    · rw [if_neg (fun h => h1 h.1)]
      congr 1
      apply propext
      constructor
      · rintro ⟨h3, h4⟩
        exact ⟨Nat.lt_succ_of_lt h3, h4⟩
      · rintro ⟨h3, h4⟩
        exact ⟨Nat.lt_of_le_of_ne (Nat.lt_succ_iff.mp h3) h1, h4⟩

theorem sum_map_cast_div (bs : List Nat) (h : bs ≠ []) :
    arma_mean (bs.map Dbl.ofNat)
      = .ok (Dbl.fin ((bs.map (fun (b : Nat) => (b : ℚ))).sum / bs.length)) := by
  have h1 : bs.map Dbl.ofNat = (bs.map (fun (b : Nat) => (b : ℚ))).map Dbl.fin := by
    rw [List.map_map]; rfl
  rw [h1, arma_mean_of_fin _ (by simpa using h)]
  simp

/-- The column mean formed in the EAP branch is the mean `bitMean`. -/
theorem eap_mean (K T : Nat) (Traject : Mat Nat) (h : 0 < Traject.n_cols) (i kk : Nat) :
    arma_mean ((List.range Traject.n_cols).map
        (fun tt => Dbl.ofNat ((inv_bijectionvector (K * T) (Traject.get i tt)).getD kk 0)))
      = .ok (Dbl.fin (bitMean K T Traject i kk)) := by
  have h1 := sum_map_cast_div (decodedBits K T Traject i kk)
    (by simp [decodedBits]; omega)
  simp only [decodedBits, List.map_map, List.length_map, List.length_range] at h1
  simp only [bitMean, decodedBits, List.map_map]
  exact h1

/-- With at least one draw the EAP branch returns, and each entry of the cube is the
thresholded column mean. -/
theorem Alphas_est_EAP_spec (N K T : Nat) (Traject : Mat Nat) (h : 0 < Traject.n_cols) :
    ∃ A, Alphas_est_EAP N K T Traject = .ok A ∧
      ∀ i k t, i < N → k < K → t < T →
        A i k t = if 1 / 2 < bitMean K T Traject i (t * K + k) then 1 else 0 := by
  refine ⟨(List.range N).foldl (fun A i => (List.range (K * T)).foldl (fun A kk =>
        if decide (1 / 2 < bitMean K T Traject i kk) = true
        then setEntry A i (kk % K) ((kk - kk % K) / K) 1 else A) A) zerosCube, ?_, ?_⟩
  · unfold Alphas_est_EAP
    apply foldlM_eq_ok
    intro A i _
    apply foldlM_eq_ok
    intro A kk _
    simp only [eap_mean K T Traject h, bind, Except.bind, Dbl.gt, pure, Except.pure]
    split <;> rfl
  · intro i k t hi hk ht
    rw [eap_outer_apply K (K * T) (fun i kk => decide (1 / 2 < bitMean K T Traject i kk))]
    have h2 := eap_coord K T k t hk ht (fun kk => decide (1 / 2 < bitMean K T Traject i kk))
    simp only [decide_eq_true_eq] at h2
    simp only [h2, hi, true_and, decide_eq_true_eq, zerosCube]

/-! ## The MAP branch -/

/-- The scan of `getMode` over the sorted draws keeps the most frequent value seen so
far and, among equally frequent values, the smallest. -/
theorem mode_scan (cnt : Nat → Nat) (s p : List Nat) (best : Nat)
    (hb : best ∈ p)
    (hmax : ∀ v ∈ p, cnt v ≤ cnt best ∧ (cnt v = cnt best → best ≤ v))
    (hps : ∀ a ∈ p, ∀ b ∈ s, a ≤ b) (hs : s.Pairwise (fun a b => a ≤ b)) :
    let r := s.foldl (fun best v => if cnt best < cnt v then v else best) best
    r ∈ p ++ s ∧ ∀ v ∈ p ++ s, cnt v ≤ cnt r ∧ (cnt v = cnt r → r ≤ v) := by
  induction s generalizing p best with
  | nil => simpa using ⟨hb, hmax⟩
  | cons w s ih =>
    have hs' := List.pairwise_cons.mp hs
    simp only [List.foldl_cons]
    have happ : p ++ w :: s = (p ++ [w]) ++ s := by simp
    rw [happ]
    have hps' : ∀ a ∈ p ++ [w], ∀ b ∈ s, a ≤ b := by
      intro a ha b hb'
      rcases List.mem_append.mp ha with h | h
      · exact hps a h b (List.mem_cons_of_mem _ hb')
      · rw [List.mem_singleton] at h
        subst h
        exact hs'.1 b hb'
    by_cases hlt : cnt best < cnt w
    · rw [if_pos hlt]
      apply ih (p ++ [w]) w (by simp) _ hps' hs'.2
      intro v hv
      rcases List.mem_append.mp hv with h | h
      · have := (hmax v h).1
        exact ⟨by omega, fun h' => by omega⟩
      · rw [List.mem_singleton] at h
        subst h
        exact ⟨le_refl _, fun _ => le_refl _⟩
    · rw [if_neg hlt]
      apply ih (p ++ [w]) best (List.mem_append_left _ hb) _ hps' hs'.2
      intro v hv
      rcases List.mem_append.mp hv with h | h
      · exact hmax v h
      · rw [List.mem_singleton] at h
        subst h
        exact ⟨by omega, fun _ => hps best hb v (List.mem_cons_self _ _)⟩

/-- On a nonempty ascending vector `getMode` returns a value of the vector that is at
least as frequent as every other and is the smallest of the most frequent ones. -/
theorem getMode_spec (l : List Nat) (hs : l.Pairwise (fun a b => a ≤ b)) (hne : l ≠ []) :
    ∃ m, getMode l l.length = .ok m ∧ m ∈ l ∧ (∀ v, l.count v ≤ l.count m) ∧
      ∀ v ∈ l, l.count v = l.count m → m ≤ v := by
  cases l with
  | nil => exact absurd rfl hne
  | cons x rest =>
    have hs' := List.pairwise_cons.mp hs
    have h := mode_scan (fun v => (x :: rest).count v) rest [x] x (by simp)
      (by intro v hv; rw [List.mem_singleton] at hv; subst hv; exact ⟨le_refl _, fun _ => le_refl _⟩)
      (by intro a ha b hb; rw [List.mem_singleton] at ha; subst ha; exact hs'.1 b hb) hs'.2
    simp only [List.singleton_append] at h
    refine ⟨_, ?_, h.1, ?_, fun v hv => (h.2 v hv).2⟩
    · simp only [getMode, List.take_length, List.foldl_cons, lt_self_iff_false, if_false]
    · intro v
      by_cases hv : v ∈ x :: rest
      · exact (h.2 v hv).1
      · rw [List.count_eq_zero_of_not_mem hv]; exact Nat.zero_le _

theorem arma_sort_pairwise (v : List Nat) : (arma_sort v).Pairwise (fun a b => a ≤ b) :=
  List.sorted_insertionSort (fun a b => a ≤ b) v

theorem arma_sort_perm (v : List Nat) : (arma_sort v).Perm v :=
  List.perm_insertionSort (fun a b => a ≤ b) v

/-- The mode of the draws of one subject, in terms of the unsorted draws. -/
theorem getMode_sorted_row (v : List Nat) (hne : v ≠ []) :
    ∃ m, getMode (arma_sort v) v.length = .ok m ∧ m ∈ v ∧ (∀ c, v.count c ≤ v.count m) ∧
      ∀ c ∈ v, v.count c = v.count m → m ≤ c := by
  have hp := arma_sort_perm v
  have hne' : arma_sort v ≠ [] := by
    intro h; rw [h] at hp; exact hne (List.perm_nil.mp hp.symm)
  obtain ⟨m, h1, h2, h3, h4⟩ := getMode_spec (arma_sort v) (arma_sort_pairwise v) hne'
  rw [hp.length_eq] at h1
  refine ⟨m, h1, hp.mem_iff.mp h2, ?_, ?_⟩
  · intro c; rw [← hp.count_eq c, ← hp.count_eq m]; exact h3 c
  · intro c hc; rw [← hp.count_eq c, ← hp.count_eq m]; exact h4 c (hp.mem_iff.mpr hc)

theorem row_length {α : Type} (M : Mat α) (i : Nat) : (M.row i).length = M.n_cols := by
  simp [Mat.row]

theorem row_ne_nil {α : Type} (M : Mat α) (i : Nat) (h : 0 < M.n_cols) : M.row i ≠ [] := by
  intro h1
  have h2 := row_length M i
  rw [h1] at h2
  simp at h2
  omega

/-- With at least one draw, `getMode` delivers `traject_ML`, the mode of the draws. -/
theorem traject_ML_spec (Traject : Mat Nat) (i : Nat) (h : 0 < Traject.n_cols) :
    getMode (arma_sort (Traject.row i)) Traject.n_cols = .ok (traject_ML Traject i) ∧
      IsModeOf (Traject.row i) (traject_ML Traject i) := by
  obtain ⟨m, h1, h2⟩ := getMode_sorted_row (Traject.row i) (row_ne_nil Traject i h)
  rw [row_length] at h1
  have h3 : traject_ML Traject i = m := by simp only [traject_ML, h1]
  rw [h3]
  exact ⟨h1, h2⟩

theorem subvec_getD (v : List Nat) (K t k : Nat) (hk : k < K) :
    (subvec v (K * t) (K * (t + 1) - 1)).getD k 0 = v.getD (K * t + k) 0 := by
  have h1 : K * (t + 1) - 1 + 1 - K * t = K := by
    have : K * (t + 1) = K * t + K := by ring
    omega
  simp only [subvec, h1, List.getD_eq_getElem?_getD, List.getElem?_take, hk, if_true,
    List.getElem?_drop]

theorem map_inner_apply (K i : Nat) (r : Nat → List Nat) (A : AlphaCube) (T i' k' t' : Nat) :
    ((List.range T).foldl (fun A t => setSliceRow A K i t (r t)) A) i' k' t'
      = if i' = i ∧ t' < T ∧ k' < K then (r t').getD k' 0 else A i' k' t' := by
  induction T with
  | zero => simp
  | succ T ih =>
    rw [List.range_succ, List.foldl_append]
    simp only [List.foldl_cons, List.foldl_nil, setSliceRow]
    by_cases h : i' = i ∧ t' = T ∧ k' < K
    · rw [if_pos h, if_pos ⟨h.1, by omega, h.2.2⟩, h.2.1]
    · rw [if_neg h, ih]
      by_cases h2 : i' = i ∧ t' < T ∧ k' < K
      · rw [if_pos h2, if_pos ⟨h2.1, by omega, h2.2.2⟩]
      · rw [if_neg h2, if_neg]
        rintro ⟨h3, h4, h5⟩
        rcases Nat.lt_succ_iff_lt_or_eq.mp h4 with h6 | h6
        · exact h2 ⟨h3, h6, h5⟩
        · exact h ⟨h3, h6, h5⟩

theorem map_outer_apply (K T : Nat) (r : Nat → Nat → List Nat) (A0 : AlphaCube)
    (N i' k' t' : Nat) :
    ((List.range N).foldl (fun A i =>
        (List.range T).foldl (fun A t => setSliceRow A K i t (r i t)) A) A0) i' k' t'
      = if i' < N ∧ t' < T ∧ k' < K then (r i' t').getD k' 0 else A0 i' k' t' := by
  induction N with
  | zero => simp
  | succ N ih =>
    rw [List.range_succ, List.foldl_append]
    simp only [List.foldl_cons, List.foldl_nil]
    rw [map_inner_apply, ih]
    by_cases h1 : i' = N
    · subst h1
      by_cases h2 : t' < T ∧ k' < K
      · rw [if_pos ⟨rfl, h2⟩, if_pos ⟨Nat.lt_succ_self _, h2⟩]
      · rw [if_neg (fun h => h2 h.2), if_neg (fun h => absurd h.1 (Nat.lt_irrefl _)),
          if_neg (fun h => h2 h.2)]
    · rw [if_neg (fun h => h1 h.1)]
      congr 1
      apply propext
      constructor
      · rintro ⟨h3, h4⟩
        exact ⟨Nat.lt_succ_of_lt h3, h4⟩
      · rintro ⟨h3, h4⟩
        exact ⟨Nat.lt_of_le_of_ne (Nat.lt_succ_iff.mp h3) h1, h4⟩

/-- With at least one draw and at least one skill the MAP branch returns, and the
profile of subject `i` at time `t` is the chunk `K*t .. K*(t+1)-1` of the decoded
most frequent code. -/
theorem Alphas_est_MAP_spec (N K T : Nat) (Traject : Mat Nat) (h : 0 < Traject.n_cols)
    (hK : 0 < K) :
    ∃ A, Alphas_est_MAP N K T Traject = .ok A ∧
      ∀ i k t, i < N → k < K → t < T →
        A i k t = (inv_bijectionvector (K * T) (traject_ML Traject i)).getD (K * t + k) 0 := by
  refine ⟨(List.range N).foldl (fun A i => (List.range T).foldl (fun A t =>
      setSliceRow A K i t (subvec (inv_bijectionvector (K * T) (traject_ML Traject i))
        (K * t) (K * (t + 1) - 1))) A) zerosCube, ?_, ?_⟩
  · unfold Alphas_est_MAP
    apply foldlM_eq_ok
    intro A i _
    simp only [(traject_ML_spec Traject i h).1, bind, Except.bind]
    apply foldlM_eq_ok
    intro A t _
    rw [if_neg (by omega)]
    rfl
  · intro i k t hi hk ht
    rw [map_outer_apply K T (fun i t => subvec (inv_bijectionvector (K * T)
      (traject_ML Traject i)) (K * t) (K * (t + 1) - 1))]
    rw [if_pos ⟨hi, ht, hk⟩, subvec_getD _ _ _ _ hk]

/-! ## Means over the draw axis -/

theorem mapM_eq_ok {α β : Type} (f : α → Except Failure β) (g : α → β) (l : List α)
    (h : ∀ x, x ∈ l → f x = .ok (g x)) : l.mapM f = .ok (l.map g) := by
  induction l with
  | nil => rfl
  | cons a l ih =>
    rw [List.mapM_cons, h a (List.mem_cons_self _ _),
      ih (fun x hx => h x (List.mem_cons_of_mem _ hx))]
    rfl

theorem arma_mean_ok (xs : List Dbl) (h : xs ≠ []) : arma_mean xs = .ok (meanOf xs) := by
  cases xs with
  | nil => exact absurd rfl h
  | cons x rest => rfl

theorem arma_mean_range (n : Nat) (hn : 0 < n) (x : Nat → Dbl) :
    arma_mean ((List.range n).map x) = .ok (drawMean n x) := by
  rw [arma_mean_ok _ (by simp; omega)]
  simp [meanOf, drawMean]

theorem arma_mean_dim1_ok (M : Mat Dbl) (n : Nat) (hn : 0 < n) (h : M.n_cols = n) :
    arma_mean_dim1 M = .ok ((List.range M.n_rows).map
      (fun r => drawMean n (fun tt => M.get r tt))) := by
  unfold arma_mean_dim1
  apply mapM_eq_ok
  intro r _
  simp only [Mat.row, h]
  exact arma_mean_range n hn _

theorem arma_mean_col0_ok (M : Mat Dbl) (n : Nat) (hn : 0 < n) (h : M.n_rows = n) :
    arma_mean (M.col 0) = .ok (drawMean n (fun tt => M.get tt 0)) := by
  simp only [Mat.col, h]
  exact arma_mean_range n hn _

theorem arma_mean_dim2_ok (C : Cube Dbl) (n : Nat) (hn : 0 < n) (h : C.n_slices = n) :
    arma_mean_dim2 C = .ok ((List.range C.n_rows).map (fun r => (List.range C.n_cols).map
      (fun c => drawMean n (fun tt => C.get r c tt)))) := by
  unfold arma_mean_dim2
  apply mapM_eq_ok
  intro r _
  apply mapM_eq_ok
  intro c _
  rw [h]
  exact arma_mean_range n hn _

/-- The mean of finite draws is the rational arithmetic mean. -/
theorem drawMean_fin (n : Nat) (hn : 0 < n) (q : Nat → ℚ) :
    drawMean n (fun tt => Dbl.fin (q tt)) = Dbl.fin (((List.range n).map q).sum / n) := by
  have h := dsum_map_fin ((List.range n).map q)
  rw [List.map_map] at h
  have h2 : (Dbl.fin ∘ q) = fun tt => Dbl.fin (q tt) := rfl
  rw [h2] at h
  simp only [drawMean, h, Dbl.divNat]
  rw [if_neg (by omega)]

/-! ## `point_estimates_learning` -/

/-- With at least one draw in every container, `point_estimates_learning` returns as
soon as the trajectory decoding does, and the returned list is `estimateList`. -/
theorem point_estimates_learning_ok (o : Output) (model : String) (N Jt K T : Nat)
    (alpha_EAP : Bool) (n_its : Nat) (hn : 0 < n_its) (hd : o.HasDraws n_its)
    (A : AlphaCube) (hA : compute_Alpha_hat N K T o.trajectories alpha_EAP = .ok A) :
    point_estimates_learning o model N Jt K T alpha_EAP
      = .ok (estimateList o n_its model A) := by
  have hp := arma_mean_dim1_ok _ n_its hn hd.pis
  have h1 := arma_mean_dim1_ok _ n_its hn hd.ss
  have h2 := arma_mean_dim1_ok _ n_its hn hd.gs
  have h3 := arma_mean_dim1_ok _ n_its hn hd.as_
  have h4 := arma_mean_dim1_ok _ n_its hn hd.gammas
  have h5 := arma_mean_dim1_ok _ n_its hn hd.thetas
  have h6 := arma_mean_dim1_ok _ n_its hn hd.taus
  have h7 := arma_mean_dim1_ok _ n_its hn hd.lambdas
  have h8 := arma_mean_dim1_ok _ n_its hn hd.pi_stars
  have h9 := arma_mean_col0_ok _ n_its hn hd.phis
  have h10 := arma_mean_col0_ok _ n_its hn hd.tauvar
  have h11 := arma_mean_dim2_ok _ n_its hn hd.Sigs
  have h12 := arma_mean_dim2_ok _ n_its hn hd.r_stars
  have h13 := arma_mean_dim2_ok _ n_its hn hd.omegas
  have hA' := hA
  by_cases m1 : model = "DINA_HO"
  · subst m1
    simp [point_estimates_learning, hA', estimateList, paramEstimates, modelNames, eapRows, eapScalar, eapSlices,
      hp, h1, h2, h3, h4, h5, h6, h7, h8, h9, h10, h11, h12, h13, bind, Except.bind,
      pure, Except.pure]
  by_cases m2 : model = "DINA_HO_RT_sep"
  · subst m2
    simp [point_estimates_learning, hA', estimateList, paramEstimates, modelNames, eapRows, eapScalar, eapSlices,
      hp, h1, h2, h3, h4, h5, h6, h7, h8, h9, h10, h11, h12, h13, bind, Except.bind,
      pure, Except.pure]
  by_cases m3 : model = "DINA_HO_RT_joint"
  · subst m3
    simp [point_estimates_learning, hA', estimateList, paramEstimates, modelNames, eapRows, eapScalar, eapSlices,
      hp, h1, h2, h3, h4, h5, h6, h7, h8, h9, h10, h11, h12, h13, bind, Except.bind,
      pure, Except.pure]
  by_cases m4 : model = "rRUM_indept"
  · subst m4
    simp [point_estimates_learning, hA', estimateList, paramEstimates, modelNames, eapRows, eapScalar, eapSlices,
      hp, h1, h2, h3, h4, h5, h6, h7, h8, h9, h10, h11, h12, h13, bind, Except.bind,
      pure, Except.pure]
  by_cases m5 : model = "NIDA_indept"
  · subst m5
    simp [point_estimates_learning, hA', estimateList, paramEstimates, modelNames, eapRows, eapScalar, eapSlices,
      hp, h1, h2, h3, h4, h5, h6, h7, h8, h9, h10, h11, h12, h13, bind, Except.bind,
      pure, Except.pure]
  by_cases m6 : model = "DINA_FOHM"
  · subst m6
    simp [point_estimates_learning, hA', estimateList, paramEstimates, modelNames, eapRows, eapScalar, eapSlices,
      hp, h1, h2, h3, h4, h5, h6, h7, h8, h9, h10, h11, h12, h13, bind, Except.bind,
      pure, Except.pure]
  simp [point_estimates_learning, hA', estimateList, modelNames, hp, m1, m2, m3, m4, m5, m6,
    bind, Except.bind, pure, Except.pure]

theorem exOutput_hasDraws : exOutput.HasDraws 3 :=
  ⟨rfl, rfl, rfl, rfl, rfl, rfl, rfl, rfl, rfl, rfl, rfl, rfl, rfl, rfl, rfl⟩

theorem compute_Alpha_hat_ok (N K T : Nat) (Traject : Mat Nat) (alpha_EAP : Bool)
    (hn : 0 < Traject.n_cols) (hK : alpha_EAP = false → 0 < K) :
    ∃ A, compute_Alpha_hat N K T Traject alpha_EAP = .ok A := by
  cases alpha_EAP
  · obtain ⟨A, hA, _⟩ := Alphas_est_MAP_spec N K T Traject hn (hK rfl)
    exact ⟨A, hA⟩
  · obtain ⟨A, hA, _⟩ := Alphas_est_EAP_spec N K T Traject hn
    exact ⟨A, hA⟩

/-! ## The claims on `point_estimates_learning` -/

/-- C1: with `alpha_EAP = true`, on every output with at least one draw and for each
of the six models, `point_estimates_learning` returns a list headed by `Alphas_est`,
and for every subject `i < N`, skill `k < K` and time `t < T` the entry
`Alphas_est(i,k,t)` is 1 when the mean over the draws of bit `t*K + k` of the decoded
trajectory vectors strictly exceeds 1/2 and 0 otherwise (so a mean of exactly 1/2
gives 0); decoded bits `1,1,0` at a coordinate give 1 and `1,0,0` give 0. -/
theorem C1_EAP_threshold (o : Output) (model : String) (N Jt K T n_its : Nat)
    (hmodel : model ∈ modelNames) (hn : 0 < n_its) (hd : o.HasDraws n_its) :
    ∃ A rest,
      point_estimates_learning o model N Jt K T true = .ok (("Alphas_est", .alphas A) :: rest) ∧
      (∀ i k t, i < N → k < K → t < T →
        A i k t = if 1 / 2 < bitMean K T o.trajectories i (t * K + k) then 1 else 0) ∧
      (∀ i k t, i < N → k < K → t < T →
        (bitMean K T o.trajectories i (t * K + k) = 1 / 2 → A i k t = 0) ∧
        (decodedBits K T o.trajectories i (t * K + k) = [1, 1, 0] → A i k t = 1) ∧
        (decodedBits K T o.trajectories i (t * K + k) = [1, 0, 0] → A i k t = 0)) := by
  have hn' : 0 < o.trajectories.n_cols := by rw [hd.trajectories]; exact hn
  obtain ⟨A, hA, hspec⟩ := Alphas_est_EAP_spec N K T o.trajectories hn'
  refine ⟨A, ("pis_EAP", eapRows n_its o.pis) :: paramEstimates o n_its model, ?_, hspec, ?_⟩
  · rw [point_estimates_learning_ok o model N Jt K T true n_its hn hd A hA, estimateList,
      if_pos hmodel]
  · intro i k t hi hk ht
    rw [hspec i k t hi hk ht]
    refine ⟨fun h => by rw [h]; simp, fun h => ?_, fun h => ?_⟩
    · have hlen : o.trajectories.n_cols = 3 := by
        have := congrArg List.length h
        simpa [decodedBits] using this
      have hm : bitMean K T o.trajectories i (t * K + k) = 2 / 3 := by
        simp only [bitMean, h, hlen]; norm_num
      rw [hm]; norm_num
    · have hlen : o.trajectories.n_cols = 3 := by
        have := congrArg List.length h
        simpa [decodedBits] using this
      have hm : bitMean K T o.trajectories i (t * K + k) = 1 / 3 := by
        simp only [bitMean, h, hlen]; norm_num
      rw [hm]; norm_num

/-- Witness of C1 at three draws with codes 5, 5, 7 (K = 2, T = 2, model DINA_HO). -/
theorem C1_EAP_threshold_witness :
    ∃ A rest,
      point_estimates_learning exOutput "DINA_HO" 1 1 2 2 true
        = .ok (("Alphas_est", .alphas A) :: rest) ∧
      (∀ i k t, i < 1 → k < 2 → t < 2 →
        A i k t = if 1 / 2 < bitMean 2 2 exOutput.trajectories i (t * 2 + k) then 1 else 0) ∧
      (∀ i k t, i < 1 → k < 2 → t < 2 →
        (bitMean 2 2 exOutput.trajectories i (t * 2 + k) = 1 / 2 → A i k t = 0) ∧
        (decodedBits 2 2 exOutput.trajectories i (t * 2 + k) = [1, 1, 0] → A i k t = 1) ∧
        (decodedBits 2 2 exOutput.trajectories i (t * 2 + k) = [1, 0, 0] → A i k t = 0)) :=
  C1_EAP_threshold exOutput "DINA_HO" 1 1 2 2 3 (by decide) (by decide) exOutput_hasDraws

/-- The mode with the tie-break is unique. -/
theorem IsModeOf_unique (draws : List Nat) (m m' : Nat) (h : IsModeOf draws m)
    (h' : IsModeOf draws m') : m = m' := by
  have hc : draws.count m = draws.count m' :=
    Nat.le_antisymm (h'.2.1 m) (h.2.1 m')
  exact Nat.le_antisymm (h.2.2 m' h'.1 hc.symm) (h'.2.2 m h.1 hc)

/-- The setup of `Learning_fit` returns as soon as `pis` has a draw and the MAP
decoding returns, and its point-estimate trajectory is the MAP cube. -/
theorem Learning_fit_setup_ok (h : Helpers) (u : Uninit) (o : Output)
    (Response_list Q_list : List (Mat Dbl)) (test_order : Mat Nat) (Test_versions : List Nat)
    (Q_examinee : Nat → Mat Dbl) (Latency_list : Option (List (Mat Dbl))) (G_version : Int)
    (R : Mat Dbl) (n_its : Nat) (hn : 0 < n_its) (hp : o.pis.n_cols = n_its) (A : AlphaCube)
    (hA : Alphas_est_MAP Test_versions.length (Q_list.getD 0 emptyMat).n_cols
      test_order.n_rows o.trajectories = .ok A) :
    ∃ c, Learning_fit_setup h u o Response_list Q_list test_order Test_versions Q_examinee
        Latency_list G_version R = .ok c ∧ c.Alphas_est = A ∧ c.h = h ∧ c.output = o ∧
      c.N = Test_versions.length ∧ c.K = (Q_list.getD 0 emptyMat).n_cols ∧
      c.T = test_order.n_rows ∧ c.Jt = (Q_list.getD 0 emptyMat).n_rows ∧
      c.n_its = o.trajectories.n_cols ∧ c.G_version = G_version ∧ c.u = u ∧
      c.test_order = test_order ∧ c.Test_versions = Test_versions := by
  simp only [Learning_fit_setup, arma_mean_dim1_ok _ n_its hn hp, hA, bind, Except.bind,
    pure, Except.pure]
  exact ⟨_, rfl, rfl, rfl, rfl, rfl, rfl, rfl, rfl, rfl, rfl, rfl, rfl, rfl⟩

/-- C2: MAP decoding.  With `alpha_EAP = false`, on every output with at least one
draw (and `K > 0`), `point_estimates_learning` returns a list headed by `Alphas_est`;
the same cube is the point-estimate trajectory that `Learning_fit` sets up.  For
every subject the code `traject_ML` that is decoded is the most frequent of the
subject's draws, a tie being resolved to the smallest tied code (the first in
ascending sorted order), and the profile at time `t` is bits `K*t .. K*(t+1)-1` of
the decoded `K*T` vector.  Draws `5,5,7` give 5 and draws `5,7` give 5. -/
theorem C2_MAP_mode (o : Output) (model : String) (N Jt K T n_its : Nat)
    (hmodel : model ∈ modelNames) (hn : 0 < n_its) (hd : o.HasDraws n_its) (hK : 0 < K) :
    ∃ A rest,
      point_estimates_learning o model N Jt K T false = .ok (("Alphas_est", .alphas A) :: rest) ∧
      (∀ (h : Helpers) (u : Uninit) (Response_list Q_list : List (Mat Dbl))
          (test_order : Mat Nat) (Test_versions : List Nat) (Q_examinee : Nat → Mat Dbl)
          (Latency_list : Option (List (Mat Dbl))) (G_version : Int) (R : Mat Dbl),
          Test_versions.length = N → (Q_list.getD 0 emptyMat).n_cols = K →
          test_order.n_rows = T →
          ∃ c, Learning_fit_setup h u o Response_list Q_list test_order Test_versions
            Q_examinee Latency_list G_version R = .ok c ∧ c.Alphas_est = A) ∧
      (∀ i, i < N →
        IsModeOf (o.trajectories.row i) (traject_ML o.trajectories i) ∧
        ∀ k t, k < K → t < T →
          A i k t = (inv_bijectionvector (K * T) (traject_ML o.trajectories i)).getD
            (K * t + k) 0) ∧
      traject_ML exTraject 0 = 5 ∧ traject_ML exTrajectTie 0 = 5 := by
  have hn' : 0 < o.trajectories.n_cols := by rw [hd.trajectories]; exact hn
  obtain ⟨A, hA, hspec⟩ := Alphas_est_MAP_spec N K T o.trajectories hn' hK
  refine ⟨A, ("pis_EAP", eapRows n_its o.pis) :: paramEstimates o n_its model, ?_, ?_, ?_,
    rfl, rfl⟩
  · rw [point_estimates_learning_ok o model N Jt K T false n_its hn hd A hA, estimateList,
      if_pos hmodel]
  · intro h u Response_list Q_list test_order Test_versions Q_examinee Latency_list
      G_version R hN hK' hT
    subst hN hK' hT
    obtain ⟨c, hc, hcA, _⟩ := Learning_fit_setup_ok h u o Response_list Q_list test_order
      Test_versions Q_examinee Latency_list G_version R n_its hn hd.pis A hA
    exact ⟨c, hc, hcA⟩
  · intro i hi
    exact ⟨(traject_ML_spec o.trajectories i hn').2, fun k t hk ht => hspec i k t hi hk ht⟩

/-- Witness of C2 at three draws with codes 5, 5, 7 (K = 2, T = 2, model DINA_HO). -/
theorem C2_MAP_mode_witness :
    ∃ A rest,
      point_estimates_learning exOutput "DINA_HO" 1 1 2 2 false
        = .ok (("Alphas_est", .alphas A) :: rest) ∧
      (∀ (h : Helpers) (u : Uninit) (Response_list Q_list : List (Mat Dbl))
          (test_order : Mat Nat) (Test_versions : List Nat) (Q_examinee : Nat → Mat Dbl)
          (Latency_list : Option (List (Mat Dbl))) (G_version : Int) (R : Mat Dbl),
          Test_versions.length = 1 → (Q_list.getD 0 emptyMat).n_cols = 2 →
          test_order.n_rows = 2 →
          ∃ c, Learning_fit_setup h u exOutput Response_list Q_list test_order Test_versions
            Q_examinee Latency_list G_version R = .ok c ∧ c.Alphas_est = A) ∧
      (∀ i, i < 1 →
        IsModeOf (exOutput.trajectories.row i) (traject_ML exOutput.trajectories i) ∧
        ∀ k t, k < 2 → t < 2 →
          A i k t = (inv_bijectionvector (2 * 2) (traject_ML exOutput.trajectories i)).getD
            (2 * t + k) 0) ∧
      traject_ML exTraject 0 = 5 ∧ traject_ML exTrajectTie 0 = 5 :=
  C2_MAP_mode exOutput "DINA_HO" 1 1 2 2 3 (by decide) (by decide) exOutput_hasDraws
    (by decide)

/-! ## `Learning_fit`: the loop over the draws returns -/

theorem foldlM_invariant {σ α : Type} (f : σ → α → Except Failure σ) (P : σ → Nat → Prop)
    (l : List α) (s : σ) (k : Nat) (h0 : P s k)
    (hstep : ∀ s j x, P s j → ∃ s', f s x = .ok s' ∧ P s' (j + 1)) :
    ∃ s', l.foldlM f s = .ok s' ∧ P s' (k + l.length) := by
  induction l generalizing s k with
  | nil => exact ⟨s, rfl, h0⟩
  | cons a l ih =>
    obtain ⟨s1, h1, h2⟩ := hstep s k a h0
    obtain ⟨s2, h3, h4⟩ := ih s1 (k + 1) h2
    refine ⟨s2, ?_, ?_⟩
    · rw [List.foldlM_cons, h1]; exact h3
    · rw [List.length_cons]
      have : k + (l.length + 1) = k + 1 + l.length := by omega
      rw [this]; exact h4

theorem decode_draw_ok (c : Ctx) (tt : Nat) (alphas : AlphaCube) (hK : 0 < c.K) :
    ∃ A, decode_draw c tt alphas = .ok A := by
  refine ⟨(List.range c.N).foldl (fun A i => (List.range c.T).foldl (fun A t =>
      setSliceRow A c.K i t (subvec (inv_bijectionvector (c.K * c.T)
        (c.output.trajectories.get i tt)) (t * c.K) ((t + 1) * c.K - 1))) A) alphas, ?_⟩
  unfold decode_draw
  apply foldlM_eq_ok
  intro A i _
  apply foldlM_eq_ok
  intro A t _
  rw [if_neg (by omega)]
  rfl

theorem arma_mean_dim0_ok (N J : Nat) (M : Nat → Nat → Dbl) (hN : 0 < N) :
    arma_mean_dim0 N J M = .ok ((List.range J).map
      (fun c => meanOf ((List.range N).map (fun r => M r c)))) := by
  unfold arma_mean_dim0
  apply mapM_eq_ok
  intro c _
  exact arma_mean_ok _ (by simp; omega)

theorem DrawsStored_snoc (rt : Bool) (carry carry' : Carry) (n : Nat) (d : DrawOut)
    (h : DrawsStored rt carry n) (hd : carry'.draws = carry.draws ++ [d])
    (ht : rt = false → d.time = NA_REAL) : DrawsStored rt carry' (n + 1) := by
  refine ⟨by rw [hd, List.length_append, h.1]; rfl, fun hrt x hx => ?_⟩
  rw [hd] at hx
  rcases List.mem_append.mp hx with h1 | h1
  · exact h.2 hrt x h1
  · rw [List.mem_singleton] at h1
    rw [h1]; exact ht hrt

theorem DINA_HO_draw_ok (c : Ctx) (carry : Carry) (tt : Nat) (hK : 0 < c.K) (hN : 0 < c.N) :
    ∃ carry' d, DINA_HO_draw c carry tt = .ok carry' ∧ carry'.draws = carry.draws ++ [d] ∧
      d.time = NA_REAL := by
  obtain ⟨A, hA⟩ := decode_draw_ok c tt carry.alphas hK
  simp only [DINA_HO_draw, hA, arma_mean_dim0_ok _ _ _ hN, bind, Except.bind, pure,
    Except.pure]
  exact ⟨_, _, rfl, rfl, rfl⟩

theorem rRUM_indept_draw_ok (c : Ctx) (carry : Carry) (tt : Nat) (hK : 0 < c.K)
    (hN : 0 < c.N) :
    ∃ carry' d, rRUM_indept_draw c carry tt = .ok carry' ∧
      carry'.draws = carry.draws ++ [d] ∧ d.time = NA_REAL := by
  obtain ⟨A, hA⟩ := decode_draw_ok c tt carry.alphas hK
  simp only [rRUM_indept_draw, hA, arma_mean_dim0_ok _ _ _ hN, bind, Except.bind, pure,
    Except.pure]
  exact ⟨_, _, rfl, rfl, rfl⟩

theorem NIDA_indept_draw_ok (c : Ctx) (carry : Carry) (tt : Nat) (hK : 0 < c.K)
    (hN : 0 < c.N) :
    ∃ carry' d, NIDA_indept_draw c carry tt = .ok carry' ∧
      carry'.draws = carry.draws ++ [d] ∧ d.time = NA_REAL := by
  obtain ⟨A, hA⟩ := decode_draw_ok c tt carry.alphas hK
  simp only [NIDA_indept_draw, hA, arma_mean_dim0_ok _ _ _ hN, bind, Except.bind, pure,
    Except.pure]
  exact ⟨_, _, rfl, rfl, rfl⟩

theorem DINA_FOHM_draw_ok (c : Ctx) (carry : Carry) (tt : Nat) (hK : 0 < c.K)
    (hN : 0 < c.N) :
    ∃ carry' d, DINA_FOHM_draw c carry tt = .ok carry' ∧
      carry'.draws = carry.draws ++ [d] ∧ d.time = NA_REAL := by
  obtain ⟨A, hA⟩ := decode_draw_ok c tt carry.alphas hK
  simp only [DINA_FOHM_draw, hA, arma_mean_dim0_ok _ _ _ hN, bind, Except.bind, pure,
    Except.pure]
  exact ⟨_, _, rfl, rfl, rfl⟩

theorem DINA_HO_RT_sep_draw_ok (c : Ctx) (J : Cube Dbl) (carry : Carry) (tt : Nat)
    (hK : 0 < c.K) (hN : 0 < c.N) :
    ∃ carry' d, DINA_HO_RT_sep_draw c J carry tt = .ok carry' ∧
      carry'.draws = carry.draws ++ [d] := by
  obtain ⟨A, hA⟩ := decode_draw_ok c tt carry.alphas hK
  simp only [DINA_HO_RT_sep_draw, hA, arma_mean_dim0_ok _ _ _ hN, bind, Except.bind, pure,
    Except.pure]
  exact ⟨_, _, rfl, rfl⟩

theorem DINA_HO_RT_joint_draw_ok (c : Ctx) (J : Cube Dbl) (carry : Carry) (tt : Nat)
    (hK : 0 < c.K) (hN : 0 < c.N) :
    ∃ carry' d, DINA_HO_RT_joint_draw c J carry tt = .ok carry' ∧
      carry'.draws = carry.draws ++ [d] := by
  obtain ⟨A, hA⟩ := decode_draw_ok c tt carry.alphas hK
  simp only [DINA_HO_RT_joint_draw, hA, arma_mean_dim0_ok _ _ _ hN, bind, Except.bind, pure,
    Except.pure]
  exact ⟨_, _, rfl, rfl⟩

/-- The loop over the draws returns for every draw function that stores one record
per iteration. -/
theorem draws_loop_ok (rt : Bool) (c : Ctx) (f : Carry → Nat → Except Failure Carry)
    (hf : ∀ carry tt, ∃ carry' d, f carry tt = .ok carry' ∧
      carry'.draws = carry.draws ++ [d] ∧ (rt = false → d.time = NA_REAL)) :
    ∃ carry, (List.range c.n_its).foldlM f (Carry.init c) = .ok carry ∧
      DrawsStored rt carry c.n_its := by
  have h := foldlM_invariant f (DrawsStored rt) (List.range c.n_its) (Carry.init c) 0
    ⟨rfl, fun _ d hd => by simp [Carry.init] at hd⟩
    (fun s j x hs => by
      obtain ⟨s', d, h1, h2, h3⟩ := hf s x
      exact ⟨s', h1, DrawsStored_snoc rt s s' j d hs h2 h3⟩)
  simpa using h

/-! ## `Learning_fit`: the rows of the table -/

theorem DIC_rows_noRT (DIC : DICTable) (draws : List DrawOut) (hne : draws ≠ []) :
    ∃ D0, DIC_row0_noRT DIC draws = .ok D0 ∧ ∀ acc : Acc,
      RowsFrom false (DIC_row1_noRT D0 acc) draws acc ∧
      ∀ r col, 2 ≤ r → DIC_row1_noRT D0 acc r col = DIC r col := by
  have h1 : ∀ g : DrawOut → Dbl, arma_mean (draws.map g) = .ok (meanOf (draws.map g)) :=
    fun g => arma_mean_ok _ (by simpa using hne)
  simp only [DIC_row0_noRT, h1, bind, Except.bind, pure, Except.pure]
  refine ⟨_, rfl, fun acc => ⟨?_, ?_⟩⟩
  · constructor <;> simp [DIC_row1_noRT, setCell]
  · intro r col hr
    have h2 : r ≠ 0 := by omega
    have h3 : r ≠ 1 := by omega
    simp [DIC_row1_noRT, setCell, h2, h3]

theorem DIC_rows_RT (DIC : DICTable) (draws : List DrawOut) (hne : draws ≠ []) :
    ∃ D0, DIC_row0_RT DIC draws = .ok D0 ∧ ∀ acc : Acc,
      RowsFrom true (DIC_row1_RT D0 acc) draws acc ∧
      ∀ r col, 2 ≤ r → DIC_row1_RT D0 acc r col = DIC r col := by
  have h1 : ∀ g : DrawOut → Dbl, arma_mean (draws.map g) = .ok (meanOf (draws.map g)) :=
    fun g => arma_mean_ok _ (by simpa using hne)
  simp only [DIC_row0_RT, h1, bind, Except.bind, pure, Except.pure]
  refine ⟨_, rfl, fun acc => ⟨?_, ?_⟩⟩
  · constructor <;> simp [DIC_row1_RT, setCell]
  · intro r col hr
    have h2 : r ≠ 0 := by omega
    have h3 : r ≠ 1 := by omega
    simp [DIC_row1_RT, setCell, h2, h3]

theorem draws_ne_nil (rt : Bool) (carry : Carry) (n : Nat) (hn : 0 < n)
    (h : DrawsStored rt carry n) : carry.draws ≠ [] := by
  intro h1
  have h2 := h.1
  rw [h1] at h2
  simp at h2
  omega

theorem branch_DINA_HO_ok (c : Ctx) (DIC : DICTable) (hn : 0 < c.n_its)
    (hd : c.output.HasDraws c.n_its) (hK : 0 < c.K) (hN : 0 < c.N) :
    ∃ D pp, branch_DINA_HO c DIC = .ok (D, pp) ∧ BranchResult false c DIC D := by
  obtain ⟨carry, hc, hs⟩ := draws_loop_ok false c (DINA_HO_draw c)
    (fun carry tt => by
      obtain ⟨c', d, h1, h2, h3⟩ := DINA_HO_draw_ok c carry tt hK hN
      exact ⟨c', d, h1, h2, fun _ => h3⟩)
  obtain ⟨D0, h0, hrows⟩ := DIC_rows_noRT DIC carry.draws (draws_ne_nil false carry c.n_its hn hs)
  simp only [branch_DINA_HO, arma_mean_dim1_ok _ c.n_its hn hd.ss, arma_mean_dim1_ok _ c.n_its hn hd.gs, arma_mean_dim1_ok _ c.n_its hn hd.thetas,
    arma_mean_dim1_ok _ c.n_its hn hd.lambdas, hc, h0, bind, Except.bind, pure, Except.pure]
  exact ⟨_, _, rfl, carry, _, hs, (hrows _).1, (hrows _).2⟩

theorem branch_DINA_HO_RT_sep_ok (c : Ctx) (DIC : DICTable) (hn : 0 < c.n_its)
    (hd : c.output.HasDraws c.n_its) (hK : 0 < c.K) (hN : 0 < c.N) :
    ∃ D pp, branch_DINA_HO_RT_sep c DIC = .ok (D, pp) ∧ BranchResult true c DIC D := by
  obtain ⟨carry, hc, hs⟩ := draws_loop_ok true c (DINA_HO_RT_sep_draw c (c.h.J_incidence_cube c.test_order c.Qs))
    (fun carry tt => by
      obtain ⟨c', d, h1, h2⟩ := DINA_HO_RT_sep_draw_ok c _ carry tt hK hN
      exact ⟨c', d, h1, h2, fun hrt => absurd hrt (by decide)⟩)
  obtain ⟨D0, h0, hrows⟩ := DIC_rows_RT DIC carry.draws (draws_ne_nil true carry c.n_its hn hs)
  simp only [branch_DINA_HO_RT_sep, arma_mean_dim1_ok _ c.n_its hn hd.ss, arma_mean_dim1_ok _ c.n_its hn hd.gs, arma_mean_dim1_ok _ c.n_its hn hd.as_,
    arma_mean_dim1_ok _ c.n_its hn hd.gammas, arma_mean_dim1_ok _ c.n_its hn hd.thetas, arma_mean_dim1_ok _ c.n_its hn hd.taus,
    arma_mean_dim1_ok _ c.n_its hn hd.lambdas, arma_mean_col0_ok _ c.n_its hn hd.phis, arma_mean_col0_ok _ c.n_its hn hd.tauvar, hc, h0, bind, Except.bind, pure, Except.pure]
  exact ⟨_, _, rfl, carry, _, hs, (hrows _).1, (hrows _).2⟩

theorem branch_DINA_HO_RT_joint_ok (c : Ctx) (DIC : DICTable) (hn : 0 < c.n_its)
    (hd : c.output.HasDraws c.n_its) (hK : 0 < c.K) (hN : 0 < c.N) :
    ∃ D pp, branch_DINA_HO_RT_joint c DIC = .ok (D, pp) ∧ BranchResult true c DIC D := by
  obtain ⟨carry, hc, hs⟩ := draws_loop_ok true c (DINA_HO_RT_joint_draw c (c.h.J_incidence_cube c.test_order c.Qs))
    (fun carry tt => by
      obtain ⟨c', d, h1, h2⟩ := DINA_HO_RT_joint_draw_ok c _ carry tt hK hN
      exact ⟨c', d, h1, h2, fun hrt => absurd hrt (by decide)⟩)
  obtain ⟨D0, h0, hrows⟩ := DIC_rows_RT DIC carry.draws (draws_ne_nil true carry c.n_its hn hs)
  simp only [branch_DINA_HO_RT_joint, arma_mean_dim1_ok _ c.n_its hn hd.ss, arma_mean_dim1_ok _ c.n_its hn hd.gs, arma_mean_dim1_ok _ c.n_its hn hd.as_,
    arma_mean_dim1_ok _ c.n_its hn hd.gammas, arma_mean_dim1_ok _ c.n_its hn hd.thetas, arma_mean_dim1_ok _ c.n_its hn hd.taus,
    arma_mean_dim1_ok _ c.n_its hn hd.lambdas, arma_mean_col0_ok _ c.n_its hn hd.phis, arma_mean_dim2_ok _ c.n_its hn hd.Sigs, hc, h0, bind, Except.bind, pure, Except.pure]
  exact ⟨_, _, rfl, carry, _, hs, (hrows _).1, (hrows _).2⟩

theorem branch_rRUM_indept_ok (c : Ctx) (DIC : DICTable) (hn : 0 < c.n_its)
    (hd : c.output.HasDraws c.n_its) (hK : 0 < c.K) (hN : 0 < c.N) :
    ∃ D pp, branch_rRUM_indept c DIC = .ok (D, pp) ∧ BranchResult false c DIC D := by
  obtain ⟨carry, hc, hs⟩ := draws_loop_ok false c (rRUM_indept_draw c)
    (fun carry tt => by
      obtain ⟨c', d, h1, h2, h3⟩ := rRUM_indept_draw_ok c carry tt hK hN
      exact ⟨c', d, h1, h2, fun _ => h3⟩)
  obtain ⟨D0, h0, hrows⟩ := DIC_rows_noRT DIC carry.draws (draws_ne_nil false carry c.n_its hn hs)
  simp only [branch_rRUM_indept, arma_mean_dim2_ok _ c.n_its hn hd.r_stars, arma_mean_dim1_ok _ c.n_its hn hd.pi_stars,
    arma_mean_dim1_ok _ c.n_its hn hd.taus, hc, h0, bind, Except.bind, pure, Except.pure]
  exact ⟨_, _, rfl, carry, _, hs, (hrows _).1, (hrows _).2⟩

theorem branch_NIDA_indept_ok (c : Ctx) (DIC : DICTable) (hn : 0 < c.n_its)
    (hd : c.output.HasDraws c.n_its) (hK : 0 < c.K) (hN : 0 < c.N) :
    ∃ D pp, branch_NIDA_indept c DIC = .ok (D, pp) ∧ BranchResult false c DIC D := by
  obtain ⟨carry, hc, hs⟩ := draws_loop_ok false c (NIDA_indept_draw c)
    (fun carry tt => by
      obtain ⟨c', d, h1, h2, h3⟩ := NIDA_indept_draw_ok c carry tt hK hN
      exact ⟨c', d, h1, h2, fun _ => h3⟩)
  obtain ⟨D0, h0, hrows⟩ := DIC_rows_noRT DIC carry.draws (draws_ne_nil false carry c.n_its hn hs)
  simp only [branch_NIDA_indept, arma_mean_dim1_ok _ c.n_its hn hd.ss, arma_mean_dim1_ok _ c.n_its hn hd.gs, arma_mean_dim1_ok _ c.n_its hn hd.taus, hc, h0, bind, Except.bind, pure, Except.pure]
  exact ⟨_, _, rfl, carry, _, hs, (hrows _).1, (hrows _).2⟩

theorem branch_DINA_FOHM_ok (c : Ctx) (DIC : DICTable) (hn : 0 < c.n_its)
    (hd : c.output.HasDraws c.n_its) (hK : 0 < c.K) (hN : 0 < c.N) :
    ∃ D pp, branch_DINA_FOHM c DIC = .ok (D, pp) ∧ BranchResult false c DIC D := by
  obtain ⟨carry, hc, hs⟩ := draws_loop_ok false c (DINA_FOHM_draw c)
    (fun carry tt => by
      obtain ⟨c', d, h1, h2, h3⟩ := DINA_FOHM_draw_ok c carry tt hK hN
      exact ⟨c', d, h1, h2, fun _ => h3⟩)
  obtain ⟨D0, h0, hrows⟩ := DIC_rows_noRT DIC carry.draws (draws_ne_nil false carry c.n_its hn hs)
  simp only [branch_DINA_FOHM, arma_mean_dim1_ok _ c.n_its hn hd.ss, arma_mean_dim1_ok _ c.n_its hn hd.gs, arma_mean_dim2_ok _ c.n_its hn hd.omegas, hc, h0, bind, Except.bind, pure, Except.pure]
  exact ⟨_, _, rfl, carry, _, hs, (hrows _).1, (hrows _).2⟩

/-! ## `Learning_fit`: what is returned -/

/-- On an output with at least one draw, at least one skill and at least one subject
`Learning_fit` returns.  For a name that is none of the six the table is the
initial all-zero table with its last row recomputed and the posterior predictive
list is empty; for one of the six names the table comes from the model's branch. -/
theorem Learning_fit_spec (h : Helpers) (u : Uninit) (o : Output) (model : String)
    (Response_list Q_list : List (Mat Dbl)) (test_order : Mat Nat) (Test_versions : List Nat)
    (Q_examinee : Nat → Mat Dbl) (Latency_list : Option (List (Mat Dbl))) (G_version : Int)
    (R : Mat Dbl) (n_its : Nat) (hn : 0 < n_its) (hd : o.HasDraws n_its)
    (hK : 0 < (Q_list.getD 0 emptyMat).n_cols) (hN : 0 < Test_versions.length) :
    ∃ res c,
      Learning_fit_setup h u o Response_list Q_list test_order Test_versions Q_examinee
        Latency_list G_version R = .ok c ∧ c.n_its = n_its ∧
      Learning_fit h u o model Response_list Q_list test_order Test_versions Q_examinee
        Latency_list G_version R = .ok res ∧
      ((model ∉ modelNames ∧ res.DIC = lastRow (fun _ _ => 0) ∧ res.PPs = []) ∨
       (model ∈ modelNames ∧ ∃ D, res.DIC = lastRow D ∧
          BranchResult (decide (model ∈ rtModels)) c (fun _ _ => 0) D)) := by
  have hn' : 0 < o.trajectories.n_cols := by rw [hd.trajectories]; exact hn
  obtain ⟨A, hA, _⟩ := Alphas_est_MAP_spec Test_versions.length
    (Q_list.getD 0 emptyMat).n_cols test_order.n_rows o.trajectories hn' hK
  obtain ⟨c, hc, _, _, hco, hcN', hcK', _, _, hcn', _⟩ := Learning_fit_setup_ok h u o
    Response_list Q_list test_order Test_versions Q_examinee Latency_list G_version R n_its hn
    hd.pis A hA
  have hcn : 0 < c.n_its := by rw [hcn']; exact hn'
  have hcd : c.output.HasDraws c.n_its := by rw [hco, hcn', hd.trajectories]; exact hd
  have hcK : 0 < c.K := by rw [hcK']; exact hK
  have hcN : 0 < c.N := by rw [hcN']; exact hN
  have hcn2 : c.n_its = n_its := by rw [hcn', hd.trajectories]
  by_cases m1 : model = "DINA_HO"
  · subst m1
    obtain ⟨D, pp, hb, hres⟩ := branch_DINA_HO_ok c (fun _ _ => 0) hcn hcd hcK hcN
    refine ⟨{ DIC := lastRow D, PPs := pp }, c, hc, hcn2, ?_, Or.inr ⟨by decide, D, rfl, hres⟩⟩
    simp [Learning_fit, hc, hb, bind, Except.bind, pure, Except.pure]
    rfl
  by_cases m2 : model = "DINA_HO_RT_sep"
  · subst m2
    obtain ⟨D, pp, hb, hres⟩ := branch_DINA_HO_RT_sep_ok c (fun _ _ => 0) hcn hcd hcK hcN
    refine ⟨{ DIC := lastRow D, PPs := pp }, c, hc, hcn2, ?_, Or.inr ⟨by decide, D, rfl, hres⟩⟩
    simp [Learning_fit, hc, hb, bind, Except.bind, pure, Except.pure]
    rfl
  by_cases m3 : model = "DINA_HO_RT_joint"
  · subst m3
    obtain ⟨D, pp, hb, hres⟩ := branch_DINA_HO_RT_joint_ok c (fun _ _ => 0) hcn hcd hcK hcN
    refine ⟨{ DIC := lastRow D, PPs := pp }, c, hc, hcn2, ?_, Or.inr ⟨by decide, D, rfl, hres⟩⟩
    simp [Learning_fit, hc, hb, bind, Except.bind, pure, Except.pure]
    rfl
  by_cases m4 : model = "rRUM_indept"
  · subst m4
    obtain ⟨D, pp, hb, hres⟩ := branch_rRUM_indept_ok c (fun _ _ => 0) hcn hcd hcK hcN
    refine ⟨{ DIC := lastRow D, PPs := pp }, c, hc, hcn2, ?_, Or.inr ⟨by decide, D, rfl, hres⟩⟩
    simp [Learning_fit, hc, hb, bind, Except.bind, pure, Except.pure]
    rfl
  by_cases m5 : model = "NIDA_indept"
  · subst m5
    obtain ⟨D, pp, hb, hres⟩ := branch_NIDA_indept_ok c (fun _ _ => 0) hcn hcd hcK hcN
    refine ⟨{ DIC := lastRow D, PPs := pp }, c, hc, hcn2, ?_, Or.inr ⟨by decide, D, rfl, hres⟩⟩
    simp [Learning_fit, hc, hb, bind, Except.bind, pure, Except.pure]
    rfl
  by_cases m6 : model = "DINA_FOHM"
  · subst m6
    obtain ⟨D, pp, hb, hres⟩ := branch_DINA_FOHM_ok c (fun _ _ => 0) hcn hcd hcK hcN
    refine ⟨{ DIC := lastRow D, PPs := pp }, c, hc, hcn2, ?_, Or.inr ⟨by decide, D, rfl, hres⟩⟩
    simp [Learning_fit, hc, hb, bind, Except.bind, pure, Except.pure]
    rfl
  refine ⟨{ DIC := lastRow (fun _ _ => 0), PPs := [] }, c, hc, hcn2, ?_, Or.inl ⟨?_, rfl, rfl⟩⟩
  · simp [Learning_fit, hc, m1, m2, m3, m4, m5, m6, bind, Except.bind, pure, Except.pure]
    rfl
  · simp [modelNames, m1, m2, m3, m4, m5, m6]

/-- Whatever the model and the input: a table that `Learning_fit` returns has gone
through the statement `DIC.row(2) = 2. * DIC.row(0) - DIC.row(1)`. -/
theorem Learning_fit_lastRow (h : Helpers) (u : Uninit) (o : Output) (model : String)
    (Response_list Q_list : List (Mat Dbl)) (test_order : Mat Nat) (Test_versions : List Nat)
    (Q_examinee : Nat → Mat Dbl) (Latency_list : Option (List (Mat Dbl))) (G_version : Int)
    (R : Mat Dbl) (res : FitResult)
    (hres : Learning_fit h u o model Response_list Q_list test_order Test_versions Q_examinee
      Latency_list G_version R = .ok res) :
    ∃ D, res.DIC = lastRow D := by
  unfold Learning_fit at hres
  cases hc : Learning_fit_setup h u o Response_list Q_list test_order Test_versions Q_examinee
      Latency_list G_version R with
  | error e => simp [hc, bind, Except.bind] at hres
  | ok c =>
  simp only [hc, bind, Except.bind] at hres
  by_cases m1 : model = "DINA_HO"
  · subst m1
    cases hb : branch_DINA_HO c (fun _ _ => 0) with
    | error e => simp [hb, bind, Except.bind, pure, Except.pure] at hres
    | ok r =>
      simp [hb, bind, Except.bind, pure, Except.pure] at hres
      exact ⟨r.1, by rw [← hres]; rfl⟩
  by_cases m2 : model = "DINA_HO_RT_sep"
  · subst m2
    cases hb : branch_DINA_HO_RT_sep c (fun _ _ => 0) with
    | error e => simp [hb, bind, Except.bind, pure, Except.pure] at hres
    | ok r =>
      simp [hb, bind, Except.bind, pure, Except.pure] at hres
      exact ⟨r.1, by rw [← hres]; rfl⟩
  by_cases m3 : model = "DINA_HO_RT_joint"
  · subst m3
    cases hb : branch_DINA_HO_RT_joint c (fun _ _ => 0) with
    | error e => simp [hb, bind, Except.bind, pure, Except.pure] at hres
    | ok r =>
      simp [hb, bind, Except.bind, pure, Except.pure] at hres
      exact ⟨r.1, by rw [← hres]; rfl⟩
  by_cases m4 : model = "rRUM_indept"
  · subst m4
    cases hb : branch_rRUM_indept c (fun _ _ => 0) with
    | error e => simp [hb, bind, Except.bind, pure, Except.pure] at hres
    | ok r =>
      simp [hb, bind, Except.bind, pure, Except.pure] at hres
      exact ⟨r.1, by rw [← hres]; rfl⟩
  by_cases m5 : model = "NIDA_indept"
  · subst m5
    cases hb : branch_NIDA_indept c (fun _ _ => 0) with
    | error e => simp [hb, bind, Except.bind, pure, Except.pure] at hres
    | ok r =>
      simp [hb, bind, Except.bind, pure, Except.pure] at hres
      exact ⟨r.1, by rw [← hres]; rfl⟩
  by_cases m6 : model = "DINA_FOHM"
  · subst m6
    cases hb : branch_DINA_FOHM c (fun _ _ => 0) with
    | error e => simp [hb, bind, Except.bind, pure, Except.pure] at hres
    | ok r =>
      simp [hb, bind, Except.bind, pure, Except.pure] at hres
      exact ⟨r.1, by rw [← hres]; rfl⟩
  simp [m1, m2, m3, m4, m5, m6, pure, Except.pure] at hres
  exact ⟨fun _ _ => 0, by rw [← hres]; rfl⟩

theorem lastRow_identity (D : DICTable) (j : Nat) :
    lastRow D 2 j = Dbl.fin 2 * lastRow D 0 j - lastRow D 1 j := by
  simp [lastRow]

theorem toyOutput_hasDraws : toyOutput.HasDraws 1 :=
  ⟨rfl, rfl, rfl, rfl, rfl, rfl, rfl, rfl, rfl, rfl, rfl, rfl, rfl, rfl, rfl⟩

/-! ## The claims on the DIC table -/

/-- C3: for every model name (one of the six or not) and every input, the third row
of a DIC table returned by `Learning_fit` equals twice the first row (D_bar) minus
the second row (D(theta_bar)) in every column, the five columns up to `Total`
included; and on an output with at least one draw, one skill and one subject
`Learning_fit` does return a table. -/
theorem C3_DIC_identity (h : Helpers) (u : Uninit) (o : Output) (model : String)
    (Response_list Q_list : List (Mat Dbl)) (test_order : Mat Nat) (Test_versions : List Nat)
    (Q_examinee : Nat → Mat Dbl) (Latency_list : Option (List (Mat Dbl))) (G_version : Int)
    (R : Mat Dbl) :
    (∀ res, Learning_fit h u o model Response_list Q_list test_order Test_versions Q_examinee
        Latency_list G_version R = .ok res →
      ∀ j, j < 5 → res.DIC 2 j = Dbl.fin 2 * res.DIC 0 j - res.DIC 1 j) ∧
    (∀ n_its, 0 < n_its → o.HasDraws n_its → 0 < (Q_list.getD 0 emptyMat).n_cols →
      0 < Test_versions.length →
      ∃ res, Learning_fit h u o model Response_list Q_list test_order Test_versions Q_examinee
        Latency_list G_version R = .ok res) := by
  constructor
  · intro res hres j _
    obtain ⟨D, hD⟩ := Learning_fit_lastRow h u o model Response_list Q_list test_order
      Test_versions Q_examinee Latency_list G_version R res hres
    rw [hD]
    exact lastRow_identity D j
  · intro n_its hn hd hK hN
    obtain ⟨res, _, _, _, hres, _⟩ := Learning_fit_spec h u o model Response_list Q_list
      test_order Test_versions Q_examinee Latency_list G_version R n_its hn hd hK hN
    exact ⟨res, hres⟩

/-- Witness of C3 on the small design with model DINA_HO_RT_sep: a table is returned
and its third row satisfies the identity. -/
theorem C3_DIC_identity_witness :
    ∃ res, toyFit "DINA_HO_RT_sep" 3 = .ok res ∧
      ∀ j, j < 5 → res.DIC 2 j = Dbl.fin 2 * res.DIC 0 j - res.DIC 1 j := by
  have h := C3_DIC_identity toyHelpers toyUninit toyOutput "DINA_HO_RT_sep"
    [oneByOne (Dbl.fin 1), oneByOne (Dbl.fin 0)] [oneByOne (Dbl.fin 1), oneByOne (Dbl.fin 1)]
    toyOrder [1] (fun _ => oneByOne (Dbl.fin 1))
    (some [oneByOne (Dbl.fin 2), oneByOne (Dbl.fin 3)]) 3 (oneByOne (Dbl.fin 1))
  obtain ⟨res, hres⟩ := h.2 1 (by decide) toyOutput_hasDraws (by decide) (by decide)
  exact ⟨res, hres, h.1 res hres⟩

/-! ## Arithmetic of doubles -/

theorem Dbl.add_eq (a b : Dbl) : a + b = Dbl.add a b := rfl

theorem Dbl.sub_eq (a b : Dbl) : a - b = Dbl.add a (Dbl.neg b) := rfl

theorem Dbl.mul_eq (a b : Dbl) : a * b = Dbl.mul a b := rfl

theorem Dbl.zero_eq : (0 : Dbl) = Dbl.fin 0 := rfl

theorem Dbl.isFinite_add (a b : Dbl) :
    (a + b).isFinite = true ↔ a.isFinite = true ∧ b.isFinite = true := by
  cases a <;> cases b <;> simp [Dbl.add_eq, Dbl.add, Dbl.isFinite]

theorem Dbl.isFinite_sub (a b : Dbl) :
    (a - b).isFinite = true ↔ a.isFinite = true ∧ b.isFinite = true := by
  cases a <;> cases b <;> simp [Dbl.sub_eq, Dbl.add, Dbl.neg, Dbl.isFinite]

theorem Dbl.isFinite_fin_mul (q : ℚ) (a : Dbl) :
    (Dbl.fin q * a).isFinite = true ↔ a.isFinite = true := by
  cases a <;> simp [Dbl.mul_eq, Dbl.mul, Dbl.isFinite, Dbl.infOfSign] <;> split_ifs <;> simp

theorem Dbl.add_nan (a : Dbl) : a + Dbl.nan = Dbl.nan := by
  cases a <;> rfl

theorem Dbl.nan_add (a : Dbl) : Dbl.nan + a = Dbl.nan := by
  cases a <;> rfl

theorem Dbl.fin_mul_nan (q : ℚ) : Dbl.fin q * Dbl.nan = Dbl.nan := rfl

theorem Dbl.sub_nan (a : Dbl) : a - Dbl.nan = Dbl.nan := by
  cases a <;> rfl

/-- A sum of deviances none of which is NaN or `-inf` is neither NaN nor `-inf`. -/
theorem Dbl.add_lower (a b : Dbl) (ha : a ≠ Dbl.nan ∧ a ≠ Dbl.ninf)
    (hb : b ≠ Dbl.nan ∧ b ≠ Dbl.ninf) : a + b ≠ Dbl.nan ∧ a + b ≠ Dbl.ninf := by
  cases a <;> cases b <;> simp_all [Dbl.add_eq, Dbl.add]

theorem foldl_nan (l : List Dbl) : l.foldl (fun acc x => acc + x) Dbl.nan = Dbl.nan := by
  induction l with
  | nil => rfl
  | cons x l ih => rw [List.foldl_cons, Dbl.nan_add]; exact ih

/-- The sum of a nonempty vector of NaN is NaN. -/
theorem dsum_all_nan (l : List Dbl) (hne : l ≠ []) (h : ∀ d ∈ l, d = Dbl.nan) :
    dsum l = Dbl.nan := by
  cases l with
  | nil => exact absurd rfl hne
  | cons x l =>
    have hx : x = Dbl.nan := h x (List.mem_cons_self _ _)
    subst hx
    simp only [dsum, List.foldl_cons, Dbl.add_nan]
    exact foldl_nan l

/-- The mean of a nonempty vector of NaN is NaN. -/
theorem meanOf_all_nan (l : List Dbl) (hne : l ≠ []) (h : ∀ d ∈ l, d = Dbl.nan) :
    meanOf l = Dbl.nan := by
  simp only [meanOf, dsum_all_nan l hne h, Dbl.divNat]

/-- For one of the six models, on an output with at least one draw, one skill and one
subject: the returned table, its first two rows and the stored draws. -/
theorem Learning_fit_known (h : Helpers) (u : Uninit) (o : Output) (model : String)
    (Response_list Q_list : List (Mat Dbl)) (test_order : Mat Nat) (Test_versions : List Nat)
    (Q_examinee : Nat → Mat Dbl) (Latency_list : Option (List (Mat Dbl))) (G_version : Int)
    (R : Mat Dbl) (n_its : Nat) (hn : 0 < n_its) (hd : o.HasDraws n_its)
    (hK : 0 < (Q_list.getD 0 emptyMat).n_cols) (hN : 0 < Test_versions.length)
    (hmodel : model ∈ modelNames) :
    ∃ res D carry acc,
      Learning_fit h u o model Response_list Q_list test_order Test_versions Q_examinee
        Latency_list G_version R = .ok res ∧
      res.DIC = lastRow D ∧ DrawsStored (decide (model ∈ rtModels)) carry n_its ∧
      RowsFrom (decide (model ∈ rtModels)) D carry.draws acc := by
  obtain ⟨res, c, _, hcn, hres, hcase⟩ := Learning_fit_spec h u o model Response_list Q_list
    test_order Test_versions Q_examinee Latency_list G_version R n_its hn hd hK hN
  rcases hcase with ⟨hnot, _⟩ | ⟨_, D, hD, carry, acc, hs, hrows, _⟩
  · exact absurd hmodel hnot
  · rw [hcn] at hs
    exact ⟨res, D, carry, acc, hres, hD, hs, hrows⟩

theorem noRT_not_rt (model : String) (h : model ∈ noRTModels) :
    decide (model ∈ rtModels) = false := by
  simp only [noRTModels, List.mem_cons, List.mem_singleton, List.not_mem_nil, or_false] at h
  rcases h with h | h | h | h <;> subst h <;> decide

theorem noRT_known (model : String) (h : model ∈ noRTModels) : model ∈ modelNames := by
  simp only [noRTModels, List.mem_cons, List.mem_singleton, List.not_mem_nil, or_false] at h
  rcases h with h | h | h | h <;> subst h <;> decide

theorem rt_known (model : String) (h : model ∈ rtModels) : model ∈ modelNames := by
  simp only [rtModels, List.mem_cons, List.mem_singleton, List.not_mem_nil, or_false] at h
  rcases h with h | h <;> subst h <;> decide

/-- C5: in rows D_bar and D(theta_bar) of the returned table the Total column is the
sum of the applicable component columns: Transition + Response + Joint for
DINA_HO, rRUM_indept, NIDA_indept and DINA_FOHM (Response_Time left out), and
Transition + Response_Time + Response + Joint for DINA_HO_RT_sep and
DINA_HO_RT_joint. -/
theorem C5_total_column (h : Helpers) (u : Uninit) (o : Output) (model : String)
    (Response_list Q_list : List (Mat Dbl)) (test_order : Mat Nat) (Test_versions : List Nat)
    (Q_examinee : Nat → Mat Dbl) (Latency_list : Option (List (Mat Dbl))) (G_version : Int)
    (R : Mat Dbl) (n_its : Nat) (hn : 0 < n_its) (hd : o.HasDraws n_its)
    (hK : 0 < (Q_list.getD 0 emptyMat).n_cols) (hN : 0 < Test_versions.length)
    (hmodel : model ∈ modelNames) :
    ∃ res,
      Learning_fit h u o model Response_list Q_list test_order Test_versions Q_examinee
        Latency_list G_version R = .ok res ∧
      ∀ r, r < 2 →
        (model ∈ noRTModels → res.DIC r 4 = res.DIC r 0 + res.DIC r 2 + res.DIC r 3) ∧
        (model ∈ rtModels →
          res.DIC r 4 = res.DIC r 0 + res.DIC r 1 + res.DIC r 2 + res.DIC r 3) := by
  obtain ⟨res, D, carry, acc, hres, hD, _, hrows⟩ := Learning_fit_known h u o model
    Response_list Q_list test_order Test_versions Q_examinee Latency_list G_version R n_its
    hn hd hK hN hmodel
  refine ⟨res, hres, fun r hr => ?_⟩
  have hr2 : r ≠ 2 := by omega
  have hcell : ∀ col, res.DIC r col = D r col := fun col => by rw [hD]; simp [lastRow, hr2]
  simp only [hcell]
  have h0 := hrows.bar_total
  have h1 := hrows.hat_total
  have hr01 : r = 0 ∨ r = 1 := by omega
  constructor
  · intro hm
    rw [noRT_not_rt model hm] at h0 h1
    rcases hr01 with h | h <;> subst h
    · simpa using h0
    · simpa using h1
  · intro hm
    have hd' : decide (model ∈ rtModels) = true := by simpa using hm
    rw [hd'] at h0 h1
    rcases hr01 with h | h <;> subst h
    · simpa using h0
    · simpa using h1

/-- Witness of C5 on the small design with model DINA_HO_RT_sep. -/
theorem C5_total_column_witness :
    ∃ res, toyFit "DINA_HO_RT_sep" 3 = .ok res ∧
      ∀ r, r < 2 →
        ("DINA_HO_RT_sep" ∈ noRTModels → res.DIC r 4 = res.DIC r 0 + res.DIC r 2 + res.DIC r 3) ∧
        ("DINA_HO_RT_sep" ∈ rtModels →
          res.DIC r 4 = res.DIC r 0 + res.DIC r 1 + res.DIC r 2 + res.DIC r 3) :=
  C5_total_column toyHelpers toyUninit toyOutput "DINA_HO_RT_sep"
    [oneByOne (Dbl.fin 1), oneByOne (Dbl.fin 0)] [oneByOne (Dbl.fin 1), oneByOne (Dbl.fin 1)]
    toyOrder [1] (fun _ => oneByOne (Dbl.fin 1))
    (some [oneByOne (Dbl.fin 2), oneByOne (Dbl.fin 3)]) 3 (oneByOne (Dbl.fin 1)) 1
    (by decide) toyOutput_hasDraws (by decide) (by decide) (by decide)

/-- C6: for a model without a response-time sub-model (DINA_HO, rRUM_indept,
NIDA_indept, DINA_FOHM) and every input with at least one draw (and one skill and
one subject, so that a table is returned), the three rows of the Response_Time
column are NaN (R's NA), hence not zero, while in each row the Total cell is a
finite number whenever the Transition, Response and Joint cells of that row are; in
rows D_bar and D(theta_bar) the Total is moreover not NaN as soon as none of the
three cells is NaN or `-inf`. -/
theorem C6_RT_column_undefined (h : Helpers) (u : Uninit) (o : Output) (model : String)
    (Response_list Q_list : List (Mat Dbl)) (test_order : Mat Nat) (Test_versions : List Nat)
    (Q_examinee : Nat → Mat Dbl) (Latency_list : Option (List (Mat Dbl))) (G_version : Int)
    (R : Mat Dbl) (n_its : Nat) (hn : 0 < n_its) (hd : o.HasDraws n_its)
    (hK : 0 < (Q_list.getD 0 emptyMat).n_cols) (hN : 0 < Test_versions.length)
    (hmodel : model ∈ noRTModels) :
    ∃ res,
      Learning_fit h u o model Response_list Q_list test_order Test_versions Q_examinee
        Latency_list G_version R = .ok res ∧
      ∀ r, r < 3 →
        res.DIC r 1 = Dbl.nan ∧ res.DIC r 1 ≠ 0 ∧
        ((res.DIC r 0).isFinite = true ∧ (res.DIC r 2).isFinite = true ∧
          (res.DIC r 3).isFinite = true → (res.DIC r 4).isFinite = true) ∧
        (r < 2 → (res.DIC r 0 ≠ Dbl.nan ∧ res.DIC r 0 ≠ Dbl.ninf) →
          (res.DIC r 2 ≠ Dbl.nan ∧ res.DIC r 2 ≠ Dbl.ninf) →
          (res.DIC r 3 ≠ Dbl.nan ∧ res.DIC r 3 ≠ Dbl.ninf) → res.DIC r 4 ≠ Dbl.nan) := by
  obtain ⟨res, D, carry, acc, hres, hD, hs, hrows⟩ := Learning_fit_known h u o model
    Response_list Q_list test_order Test_versions Q_examinee Latency_list G_version R n_its
    hn hd hK hN (noRT_known model hmodel)
  rw [noRT_not_rt model hmodel] at hs hrows
  have hne := draws_ne_nil false carry n_its hn hs
  -- the Response_Time cells of the first two rows
  have h01 : D 0 1 = Dbl.nan := by
    rw [hrows.bar_time, meanOf_all_nan _ (by simpa using hne)
      (by
        intro d hd'
        obtain ⟨x, hx, rfl⟩ := List.mem_map.mp hd'
        exact hs.2 rfl x hx)]
    rfl
  have h11 : D 1 1 = Dbl.nan := by rw [hrows.hat_time]; rfl
  have h04 : D 0 4 = D 0 0 + D 0 2 + D 0 3 := by simpa using hrows.bar_total
  have h14 : D 1 4 = D 1 0 + D 1 2 + D 1 3 := by simpa using hrows.hat_total
  have hnan0 : Dbl.nan ≠ (0 : Dbl) := by
    intro hc
    exact absurd hc (by rw [Dbl.zero_eq]; exact fun h => Dbl.noConfusion h)
  refine ⟨res, hres, fun r hr => ?_⟩
  have hr012 : r = 0 ∨ r = 1 ∨ r = 2 := by omega
  rcases hr012 with hr0 | hr1 | hr2
  · subst hr0
    have hcell : ∀ col, res.DIC 0 col = D 0 col := fun col => by rw [hD]; simp [lastRow]
    simp only [hcell]
    refine ⟨h01, by rw [h01]; exact hnan0, ?_, ?_⟩
    · rintro ⟨f0, f2, f3⟩
      rw [h04, Dbl.isFinite_add, Dbl.isFinite_add]
      exact ⟨⟨f0, f2⟩, f3⟩
    · intro _ g0 g2 g3
      rw [h04]
      exact (Dbl.add_lower _ _ (Dbl.add_lower _ _ g0 g2) g3).1
  · subst hr1
    have hcell : ∀ col, res.DIC 1 col = D 1 col := fun col => by rw [hD]; simp [lastRow]
    simp only [hcell]
    refine ⟨h11, by rw [h11]; exact hnan0, ?_, ?_⟩
    · rintro ⟨f0, f2, f3⟩
      rw [h14, Dbl.isFinite_add, Dbl.isFinite_add]
      exact ⟨⟨f0, f2⟩, f3⟩
    · intro _ g0 g2 g3
      rw [h14]
      exact (Dbl.add_lower _ _ (Dbl.add_lower _ _ g0 g2) g3).1
  · subst hr2
    have hcell : ∀ col, res.DIC 2 col = Dbl.fin 2 * D 0 col - D 1 col :=
      fun col => by rw [hD]; simp [lastRow]
    simp only [hcell]
    refine ⟨by rw [h01, h11]; rfl, by rw [h01, h11]; exact hnan0, ?_,
      fun hlt => absurd hlt (by omega)⟩
    rintro ⟨f0, f2, f3⟩
    rw [Dbl.isFinite_sub, Dbl.isFinite_fin_mul] at f0 f2 f3 ⊢
    rw [h04, h14, Dbl.isFinite_add, Dbl.isFinite_add, Dbl.isFinite_add, Dbl.isFinite_add]
    exact ⟨⟨⟨f0.1, f2.1⟩, f3.1⟩, ⟨f0.2, f2.2⟩, f3.2⟩

/-- Witness of C6 on the small design with model DINA_HO. -/
theorem C6_RT_column_undefined_witness :
    ∃ res, toyFit "DINA_HO" 3 = .ok res ∧
      ∀ r, r < 3 →
        res.DIC r 1 = Dbl.nan ∧ res.DIC r 1 ≠ 0 ∧
        ((res.DIC r 0).isFinite = true ∧ (res.DIC r 2).isFinite = true ∧
          (res.DIC r 3).isFinite = true → (res.DIC r 4).isFinite = true) ∧
        (r < 2 → (res.DIC r 0 ≠ Dbl.nan ∧ res.DIC r 0 ≠ Dbl.ninf) →
          (res.DIC r 2 ≠ Dbl.nan ∧ res.DIC r 2 ≠ Dbl.ninf) →
          (res.DIC r 3 ≠ Dbl.nan ∧ res.DIC r 3 ≠ Dbl.ninf) → res.DIC r 4 ≠ Dbl.nan) :=
  C6_RT_column_undefined toyHelpers toyUninit toyOutput "DINA_HO"
    [oneByOne (Dbl.fin 1), oneByOne (Dbl.fin 0)] [oneByOne (Dbl.fin 1), oneByOne (Dbl.fin 1)]
    toyOrder [1] (fun _ => oneByOne (Dbl.fin 1))
    (some [oneByOne (Dbl.fin 2), oneByOne (Dbl.fin 3)]) 3 (oneByOne (Dbl.fin 1)) 1
    (by decide) toyOutput_hasDraws (by decide) (by decide) (by decide)

/-! ## The returned estimates -/

theorem paramEstimates_names (o : Output) (n_its : Nat) (model : String)
    (hmodel : model ∈ modelNames) :
    ((paramEstimates o n_its model).map Prod.fst).Perm (tableRow model) := by
  simp only [modelNames, List.mem_cons, List.mem_singleton, List.not_mem_nil, or_false]
    at hmodel
  rcases hmodel with h | h | h | h | h | h <;> subst h <;>
    simp [paramEstimates, tableRow] <;> decide

theorem paramEstimates_values (o : Output) (n_its : Nat) (model : String) :
    ∀ p ∈ paramEstimates o n_its model, eapOf o n_its p.1 = some p.2 := by
  intro p hp
  unfold paramEstimates at hp
  split_ifs at hp <;>
    simp only [List.mem_cons, List.mem_singleton, List.not_mem_nil, or_false] at hp <;>
    casesm* _ ∨ _ <;> subst_vars <;> rfl

/-- The list returned for one of the six models: the cube, `pis_EAP` and the
parameter estimates of the model. -/
theorem estimates_of_known_model (o : Output) (model : String) (N Jt K T : Nat) (alpha_EAP : Bool)
    (n_its : Nat) (hmodel : model ∈ modelNames) (hn : 0 < n_its) (hd : o.HasDraws n_its)
    (hK : alpha_EAP = false → 0 < K) :
    ∃ A params,
      compute_Alpha_hat N K T o.trajectories alpha_EAP = .ok A ∧
      point_estimates_learning o model N Jt K T alpha_EAP
        = .ok (("Alphas_est", .alphas A) :: ("pis_EAP", eapRows n_its o.pis) :: params) ∧
      (params.map Prod.fst).Perm (tableRow model) ∧
      ∀ p ∈ params, eapOf o n_its p.1 = some p.2 := by
  have hn' : 0 < o.trajectories.n_cols := by rw [hd.trajectories]; exact hn
  obtain ⟨A, hA⟩ := compute_Alpha_hat_ok N K T o.trajectories alpha_EAP hn' hK
  refine ⟨A, paramEstimates o n_its model, hA, ?_, paramEstimates_names o n_its model hmodel,
    paramEstimates_values o n_its model⟩
  rw [point_estimates_learning_ok o model N Jt K T alpha_EAP n_its hn hd A hA, estimateList,
    if_pos hmodel]

/-- C7: for each of the six model names the list returned by
`point_estimates_learning` consists of the decoded trajectory cube `Alphas_est`,
the class-probability EAP `pis_EAP`, and the parameter EAPs of the model's table
row and no others (DINA_HO: slip, guess, theta, lambda; DINA_HO_RT_sep: those plus
a, gamma, tau, phi and tau-variance; DINA_HO_RT_joint: the same with `Sigs_EAP` in
place of the tau-variance; rRUM_indept: r*, pi*, tau; NIDA_indept: slip, guess,
tau; DINA_FOHM: slip, guess, omega), each name carrying the posterior mean of its
own parameter. -/
theorem C7_bundle_contents (o : Output) (model : String) (N Jt K T : Nat) (alpha_EAP : Bool)
    (n_its : Nat) (hmodel : model ∈ modelNames) (hn : 0 < n_its) (hd : o.HasDraws n_its)
    (hK : alpha_EAP = false → 0 < K) :
    ∃ A params,
      compute_Alpha_hat N K T o.trajectories alpha_EAP = .ok A ∧
      point_estimates_learning o model N Jt K T alpha_EAP
        = .ok (("Alphas_est", .alphas A) :: ("pis_EAP", eapRows n_its o.pis) :: params) ∧
      (params.map Prod.fst).Perm (tableRow model) ∧
      ∀ p ∈ params, eapOf o n_its p.1 = some p.2 := by
  exact estimates_of_known_model o model N Jt K T alpha_EAP n_its hmodel hn hd hK

/-- Witness of C7 at three draws, model DINA_HO_RT_joint, MAP decoding. -/
theorem C7_bundle_contents_witness :
    ∃ A params,
      compute_Alpha_hat 1 2 2 exOutput.trajectories false = .ok A ∧
      point_estimates_learning exOutput "DINA_HO_RT_joint" 1 1 2 2 false
        = .ok (("Alphas_est", .alphas A) :: ("pis_EAP", eapRows 3 exOutput.pis) :: params) ∧
      (params.map Prod.fst).Perm (tableRow "DINA_HO_RT_joint") ∧
      ∀ p ∈ params, eapOf exOutput 3 p.1 = some p.2 :=
  C7_bundle_contents exOutput "DINA_HO_RT_joint" 1 1 2 2 false 3 (by decide) (by decide)
    exOutput_hasDraws (fun _ => by decide)

/-- C8: every continuous-parameter estimate returned by `point_estimates_learning` is
the arithmetic mean over the draw axis.  Each returned entry other than
`Alphas_est` is the mean `eapOf` of the parameter of its name: one mean over the
`n_its` columns for each row of a matrix-valued parameter (`pis`, `ss`, `gs`,
`thetas`, `lambdas`, `as`, `gammas`, `taus`, `pi_stars`), the mean of the draw column
for `phis` and `tauvar`, and the elementwise mean over the slices for the cubes
(`r_stars`, `omegas`, `Sigs`).  In particular `pis_EAP(c)` is the mean over the draws
of `pis(c, draw)`, and the mean of finite draws is their sum divided by `n_its`. -/
theorem C8_parameter_means (o : Output) (model : String) (N Jt K T : Nat) (alpha_EAP : Bool)
    (n_its : Nat) (hmodel : model ∈ modelNames) (hn : 0 < n_its) (hd : o.HasDraws n_its)
    (hK : alpha_EAP = false → 0 < K) :
    ∃ b, point_estimates_learning o model N Jt K T alpha_EAP = .ok b ∧
      (∀ p ∈ b, p.1 ≠ "Alphas_est" → eapOf o n_its p.1 = some p.2) ∧
      (∃ v, ("pis_EAP", Value.vec v) ∈ b ∧ v.length = o.pis.n_rows ∧
        ∀ c, c < o.pis.n_rows → v.getD c 0 = drawMean n_its (fun tt => o.pis.get c tt)) ∧
      (∀ x : Nat → ℚ, drawMean n_its (fun tt => Dbl.fin (x tt))
        = Dbl.fin (((List.range n_its).map x).sum / n_its)) := by
  obtain ⟨A, params, _, hb, _, hvals⟩ := estimates_of_known_model o model N Jt K T alpha_EAP n_its hmodel hn hd hK
  refine ⟨_, hb, ?_, ?_, fun x => drawMean_fin n_its hn x⟩
  · intro p hp hne
    simp only [List.mem_cons] at hp
    rcases hp with h | h | h
    · subst h; exact absurd rfl hne
    · subst h; rfl
    · exact hvals p h
  · refine ⟨(List.range o.pis.n_rows).map (fun r => drawMean n_its (fun tt => o.pis.get r tt)),
      by simp [eapRows], by simp, fun c hc => ?_⟩
    simp [List.getD_eq_getElem?_getD, hc]

/-- Witness of C8 at three draws, model DINA_HO_RT_sep, EAP decoding. -/
theorem C8_parameter_means_witness :
    ∃ b, point_estimates_learning exOutput "DINA_HO_RT_sep" 1 1 2 2 true = .ok b ∧
      (∀ p ∈ b, p.1 ≠ "Alphas_est" → eapOf exOutput 3 p.1 = some p.2) ∧
      (∃ v, ("pis_EAP", Value.vec v) ∈ b ∧ v.length = exOutput.pis.n_rows ∧
        ∀ c, c < exOutput.pis.n_rows →
          v.getD c 0 = drawMean 3 (fun tt => exOutput.pis.get c tt)) ∧
      (∀ x : Nat → ℚ, drawMean 3 (fun tt => Dbl.fin (x tt))
        = Dbl.fin (((List.range 3).map x).sum / (3 : Nat))) :=
  C8_parameter_means exOutput "DINA_HO_RT_sep" 1 1 2 2 true 3 (by decide) (by decide)
    exOutput_hasDraws (fun h => absurd h (by decide))

/-! ## The claims on failures -/

/-- The all-zero table stays all zero when its last row is recomputed. -/
theorem lastRow_zero (r c : Nat) : lastRow (fun _ _ => 0) r c = 0 := by
  simp only [lastRow]
  split
  · simp [Dbl.mul_eq, Dbl.sub_eq, Dbl.zero_eq, Dbl.mul, Dbl.add, Dbl.neg]
  · rfl

/-- C9, the claim as stated fails: for the name "LCDM", which is none of the six,
`point_estimates_learning` returns an empty list, and `Learning_fit` returns a
table whose fifteen cells are zero together with an empty posterior predictive
list; neither call fails. -/
theorem C9_unknown_model_counterexample :
    point_estimates_learning exOutput "LCDM" 1 1 2 2 true = .ok [] ∧
    ∃ res, toyFit "LCDM" 3 = .ok res ∧ res.PPs = [] ∧
      ∀ r c, r < 3 → c < 5 → res.DIC r c = 0 := by
  constructor
  · obtain ⟨A, hA, _⟩ := Alphas_est_EAP_spec 1 2 2 exOutput.trajectories (by decide)
    rw [point_estimates_learning_ok exOutput "LCDM" 1 1 2 2 true 3 (by decide)
      exOutput_hasDraws A hA, estimateList, if_neg (by decide)]
  · obtain ⟨res, _, _, _, hres, hcase⟩ := Learning_fit_spec toyHelpers toyUninit toyOutput
      "LCDM" [oneByOne (Dbl.fin 1), oneByOne (Dbl.fin 0)]
      [oneByOne (Dbl.fin 1), oneByOne (Dbl.fin 1)] toyOrder [1] (fun _ => oneByOne (Dbl.fin 1))
      (some [oneByOne (Dbl.fin 2), oneByOne (Dbl.fin 3)]) 3 (oneByOne (Dbl.fin 1)) 1
      (by decide) toyOutput_hasDraws (by decide) (by decide)
    rcases hcase with ⟨_, hD, hP⟩ | ⟨hin, _⟩
    · refine ⟨res, hres, hP, fun r c _ _ => ?_⟩
      rw [hD]
      exact lastRow_zero r c
    · exact absurd hin (by decide)

/-- C9 as amended: for every model string that is none of the six names, neither
function fails because of the name.  On an output with at least one draw (one
skill, one subject) `point_estimates_learning` performs the trajectory decoding and
the averaging of `pis` and returns an empty list, and `Learning_fit` performs its
setup and returns the table with all cells zero and an empty posterior predictive
list. -/
theorem C9_unknown_model_returns (h : Helpers) (u : Uninit) (o : Output) (model : String)
    (N Jt K T : Nat) (alpha_EAP : Bool)
    (Response_list Q_list : List (Mat Dbl)) (test_order : Mat Nat) (Test_versions : List Nat)
    (Q_examinee : Nat → Mat Dbl) (Latency_list : Option (List (Mat Dbl))) (G_version : Int)
    (R : Mat Dbl) (n_its : Nat) (hmodel : model ∉ modelNames) (hn : 0 < n_its)
    (hd : o.HasDraws n_its) (hK : alpha_EAP = false → 0 < K)
    (hK' : 0 < (Q_list.getD 0 emptyMat).n_cols) (hN : 0 < Test_versions.length) :
    point_estimates_learning o model N Jt K T alpha_EAP = .ok [] ∧
    ∃ res, Learning_fit h u o model Response_list Q_list test_order Test_versions Q_examinee
        Latency_list G_version R = .ok res ∧ res.PPs = [] ∧ ∀ r c, res.DIC r c = 0 := by
  have hn' : 0 < o.trajectories.n_cols := by rw [hd.trajectories]; exact hn
  constructor
  · obtain ⟨A, hA⟩ := compute_Alpha_hat_ok N K T o.trajectories alpha_EAP hn' hK
    rw [point_estimates_learning_ok o model N Jt K T alpha_EAP n_its hn hd A hA, estimateList,
      if_neg hmodel]
  · obtain ⟨res, _, _, _, hres, hcase⟩ := Learning_fit_spec h u o model Response_list Q_list
      test_order Test_versions Q_examinee Latency_list G_version R n_its hn hd hK' hN
    rcases hcase with ⟨_, hD, hP⟩ | ⟨hin, _⟩
    · refine ⟨res, hres, hP, fun r c => ?_⟩
      rw [hD]
      exact lastRow_zero r c
    · exact absurd hin hmodel

/-- Witness of the amended C9 on the example inputs with the name "LCDM". -/
theorem C9_unknown_model_returns_witness :
    point_estimates_learning toyOutput "LCDM" 1 1 1 2 false = .ok [] ∧
    ∃ res, toyFit "LCDM" 3 = .ok res ∧ res.PPs = [] ∧ ∀ r c, res.DIC r c = 0 :=
  C9_unknown_model_returns toyHelpers toyUninit toyOutput "LCDM" 1 1 1 2 false
    [oneByOne (Dbl.fin 1), oneByOne (Dbl.fin 0)] [oneByOne (Dbl.fin 1), oneByOne (Dbl.fin 1)]
    toyOrder [1] (fun _ => oneByOne (Dbl.fin 1))
    (some [oneByOne (Dbl.fin 2), oneByOne (Dbl.fin 3)]) 3 (oneByOne (Dbl.fin 1)) 1
    (by decide) (by decide) toyOutput_hasDraws (fun _ => by decide) (by decide) (by decide)

/-! ## The deviance at the point estimate -/

/-- A projection of the state of a loop, computed along the loop, as long as an
invariant of the state is kept. -/
theorem foldl_proj_inv {σ α β : Type} (p : σ → β) (I : σ → Prop) (step : σ → α → σ)
    (g : β → α → β) (hI : ∀ s x, I s → I (step s x))
    (hp : ∀ s x, I s → p (step s x) = g (p s) x) (l : List α) (s : σ) (h0 : I s) :
    I (l.foldl step s) ∧ p (l.foldl step s) = l.foldl g (p s) := by
  induction l generalizing s with
  | nil => exact ⟨h0, rfl⟩
  | cons a l ih =>
    simp only [List.foldl_cons]
    have h1 := ih (step s a) (hI s a h0)
    rw [hp s a h0] at h1
    exact h1

/-- An invariant of the state of a loop holds after the loop. -/
theorem foldl_inv {σ α : Type} (I : σ → Prop) (step : σ → α → σ)
    (hI : ∀ s x, I s → I (step s x)) (l : List α) (s : σ) (h0 : I s) :
    I (l.foldl step s) := by
  induction l generalizing s with
  | nil => exact h0
  | cons a l ih => exact ih (step s a) (hI s a h0)

/-- The pass "get Dhat" of DINA_HO_RT_sep never assigns `G_it`: its response-time sum
is formed with the vector it was entered with for every subject and time point,
whatever the point-estimate trajectory `Alphas_est` is. -/
theorem DINA_HO_RT_sep_Dhat_time (c : Ctx)
    (G_it ss_EAP gs_EAP as_EAP gammas_EAP thetas_EAP taus_EAP lambdas_EAP : List Dbl)
    (phi_EAP tauvar_EAP : Dbl) :
    (DINA_HO_RT_sep_Dhat c G_it ss_EAP gs_EAP as_EAP gammas_EAP thetas_EAP taus_EAP
        lambdas_EAP phi_EAP tauvar_EAP).G_it = G_it ∧
    (DINA_HO_RT_sep_Dhat c G_it ss_EAP gs_EAP as_EAP gammas_EAP thetas_EAP taus_EAP
        lambdas_EAP phi_EAP tauvar_EAP).time
      = time_with_fixed_G c G_it as_EAP gammas_EAP taus_EAP phi_EAP := by
  unfold DINA_HO_RT_sep_Dhat time_with_fixed_G
  apply foldl_proj_inv (fun acc : Acc => acc.time) (fun acc : Acc => acc.G_it = G_it)
  · intro s i hs
    exact foldl_inv (fun acc : Acc => acc.G_it = G_it) _
      (fun s t hs => by dsimp only; split <;> exact hs) (List.range c.T) s hs
  · intro s i hs
    have h := foldl_proj_inv (fun acc : Acc => acc.time) (fun acc : Acc => acc.G_it = G_it)
      (fun (acc : Acc) t =>
        let acc := if t < c.T - 1 then
            { acc with tran := acc.tran + c.h.log (c.h.pTran_HO_sep
                (alphaRow c.Alphas_est c.K i t) (alphaRow c.Alphas_est c.K i (t + 1))
                lambdas_EAP (thetas_EAP.getD i 0) (c.Q_examinee i) c.Jt t) }
          else acc
        let test_block_it := c.test_order.get (c.Test_versions.getD i 0 - 1) t - 1
        let class_it := dot (alphaRow c.Alphas_est c.K i t) c.vv
        let acc := { acc with time := acc.time + c.h.log (c.h.dLit acc.G_it
            ((c.Latency.slice t).row i)
            ((itemparsEAP c as_EAP gammas_EAP).rows (test_block_it * c.Jt)
              ((test_block_it + 1) * c.Jt - 1))
            (taus_EAP.getD i 0) phi_EAP) }
        { acc with response := acc.response + c.h.log (c.h.pYit_DINA
            ((c.ETA.slice test_block_it).col class_it) ((c.Response.slice t).row i)
            ((itemparsEAP c ss_EAP gs_EAP).rows (test_block_it * c.Jt)
              ((test_block_it + 1) * c.Jt - 1))) })
      (fun tm t => tm + c.h.log (c.h.dLit G_it ((c.Latency.slice t).row i)
        ((itemparsEAP c as_EAP gammas_EAP).rows
          ((c.test_order.get (c.Test_versions.getD i 0 - 1) t - 1) * c.Jt)
          (((c.test_order.get (c.Test_versions.getD i 0 - 1) t - 1) + 1) * c.Jt - 1))
        (taus_EAP.getD i 0) phi_EAP))
      (fun s t hs => by dsimp only; split <;> exact hs)
      (fun s t hs => by dsimp only; split <;> simp only [hs])
      (List.range c.T) s hs
    exact h.2
  · rfl

/-- The pass "get Dhat" of DINA_HO_RT_joint never assigns `G_it`: its response-time sum
is formed with the vector it was entered with for every subject and time point,
whatever the point-estimate trajectory `Alphas_est` is. -/
theorem DINA_HO_RT_joint_Dhat_time (c : Ctx)
    (G_it ss_EAP gs_EAP as_EAP gammas_EAP thetas_EAP taus_EAP lambdas_EAP : List Dbl)
    (phi_EAP : Dbl) (Sigs_EAP : List (List Dbl)) :
    (DINA_HO_RT_joint_Dhat c G_it ss_EAP gs_EAP as_EAP gammas_EAP thetas_EAP taus_EAP
        lambdas_EAP phi_EAP Sigs_EAP).G_it = G_it ∧
    (DINA_HO_RT_joint_Dhat c G_it ss_EAP gs_EAP as_EAP gammas_EAP thetas_EAP taus_EAP
        lambdas_EAP phi_EAP Sigs_EAP).time
      = time_with_fixed_G c G_it as_EAP gammas_EAP taus_EAP phi_EAP := by
  unfold DINA_HO_RT_joint_Dhat time_with_fixed_G
  apply foldl_proj_inv (fun acc : Acc => acc.time) (fun acc : Acc => acc.G_it = G_it)
  · intro s i hs
    exact foldl_inv (fun acc : Acc => acc.G_it = G_it) _
      (fun s t hs => by dsimp only; split <;> exact hs) (List.range c.T) s hs
  · intro s i hs
    have h := foldl_proj_inv (fun acc : Acc => acc.time) (fun acc : Acc => acc.G_it = G_it)
      (fun (acc : Acc) t =>
        let acc := if t < c.T - 1 then
            { acc with tran := acc.tran + c.h.log (c.h.pTran_HO_joint
                (alphaRow c.Alphas_est c.K i t) (alphaRow c.Alphas_est c.K i (t + 1))
                lambdas_EAP (thetas_EAP.getD i 0) (c.Q_examinee i) c.Jt t) }
          else acc
        let test_block_it := c.test_order.get (c.Test_versions.getD i 0 - 1) t - 1
        let class_it := dot (alphaRow c.Alphas_est c.K i t) c.vv
        let acc := { acc with time := acc.time + c.h.log (c.h.dLit acc.G_it
            ((c.Latency.slice t).row i)
            ((itemparsEAP c as_EAP gammas_EAP).rows (test_block_it * c.Jt)
              ((test_block_it + 1) * c.Jt - 1))
            (taus_EAP.getD i 0) phi_EAP) }
        { acc with response := acc.response + c.h.log (c.h.pYit_DINA
            ((c.ETA.slice test_block_it).col class_it) ((c.Response.slice t).row i)
            ((itemparsEAP c ss_EAP gs_EAP).rows (test_block_it * c.Jt)
              ((test_block_it + 1) * c.Jt - 1))) })
      (fun tm t => tm + c.h.log (c.h.dLit G_it ((c.Latency.slice t).row i)
        ((itemparsEAP c as_EAP gammas_EAP).rows
          ((c.test_order.get (c.Test_versions.getD i 0 - 1) t - 1) * c.Jt)
          (((c.test_order.get (c.Test_versions.getD i 0 - 1) t - 1) + 1) * c.Jt - 1))
        (taus_EAP.getD i 0) phi_EAP))
      (fun s t hs => by dsimp only; split <;> exact hs)
      (fun s t hs => by dsimp only; split <;> simp only [hs])
      (List.range c.T) s hs
    exact h.2
  · rfl

/-- C4, evaluated at a failing input: the small design with model DINA_HO_RT_sep,
`G_version = 3`, two time points, one subject and one draw.  The per-draw
response-time sum uses the covariate 1/2 at the first and 1 at the second time
point and gives the cell D_bar = 1.  The pass "get Dhat" never assigns `G_it`: it
evaluates both time points with the vector left by the last draw (covariate 1),
so the Response_Time cell of row D(theta_bar) is 0, whereas `-2` times the
response-time log-likelihood sum evaluated at the point estimate is 1. -/
theorem C4_Dhat_time_not_at_point_estimate :
    cellOf (toyFit "DINA_HO_RT_sep" 3) 0 1 = some (Dbl.fin 1) ∧
    cellOf (toyFit "DINA_HO_RT_sep" 3) 1 1 = some (Dbl.fin 0) ∧
    toyDhatTime = some (Dbl.fin 1) ∧
    cellOf (toyFit "DINA_HO_RT_sep" 3) 1 1 ≠ toyDhatTime := by
  decide!

/-! ## The codec -/

theorem bijectionvector_succ (n : Nat) :
    bijectionvector (n + 1) = 2 ^ n :: bijectionvector n := by
  unfold bijectionvector
  rw [List.range_succ_eq_map, List.map_cons, List.map_map]
  congr 1
  apply List.map_congr_left
  intro k _
  simp only [Function.comp]
  congr 1
  omega

theorem inv_bijectionvector_succ (n c : Nat) :
    inv_bijectionvector (n + 1) c = (c / 2 ^ n) % 2 :: inv_bijectionvector n c := by
  unfold inv_bijectionvector
  rw [List.range_succ_eq_map, List.map_cons, List.map_map]
  congr 1
  apply List.map_congr_left
  intro k _
  simp only [Function.comp]
  have : n + 1 - (k + 1) - 1 = n - k - 1 := by omega
  rw [this]

theorem dot_cons (x y : Nat) (xs ys : List Nat) :
    dot (x :: xs) (y :: ys) = x * y + dot xs ys := by
  simp [dot]

theorem dot_inv_bijectionvector (L c : Nat) :
    dot (inv_bijectionvector L c) (bijectionvector L) = c % 2 ^ L := by
  induction L with
  | zero => simp [dot, inv_bijectionvector, bijectionvector, Nat.mod_one]
  | succ n ih =>
    rw [bijectionvector_succ, inv_bijectionvector_succ, dot_cons, ih, Nat.mod_pow_succ]
    ring

theorem inv_bijectionvector_add_mul (n a r : Nat) :
    inv_bijectionvector n (a * 2 ^ n + r) = inv_bijectionvector n r := by
  induction n generalizing a with
  | zero => simp [inv_bijectionvector]
  | succ n ih =>
    rw [inv_bijectionvector_succ, inv_bijectionvector_succ]
    have h1 : a * 2 ^ (n + 1) + r = (2 * a) * 2 ^ n + r := by ring
    rw [h1, ih]
    congr 1
    have hpos : 0 < 2 ^ n := by positivity
    rw [Nat.add_comm, Nat.add_mul_div_right _ _ hpos, Nat.add_mul_mod_self_left]

theorem dot_bijectionvector_lt (b : List Nat) (hb : ∀ x ∈ b, x < 2) :
    dot b (bijectionvector b.length) < 2 ^ b.length := by
  induction b with
  | nil => simp [dot, bijectionvector]
  | cons x xs ih =>
    rw [List.length_cons, bijectionvector_succ, dot_cons]
    have hx : x < 2 := hb x (List.mem_cons_self _ _)
    have hr := ih (fun y hy => hb y (List.mem_cons_of_mem _ hy))
    have : x * 2 ^ xs.length ≤ 1 * 2 ^ xs.length := Nat.mul_le_mul_right _ (by omega)
    rw [pow_succ]
    omega

theorem inv_bijectionvector_dot (b : List Nat) (hb : ∀ x ∈ b, x < 2) :
    inv_bijectionvector b.length (dot b (bijectionvector b.length)) = b := by
  induction b with
  | nil => simp [inv_bijectionvector]
  | cons x xs ih =>
    have hx : x < 2 := hb x (List.mem_cons_self _ _)
    have hxs : ∀ y ∈ xs, y < 2 := fun y hy => hb y (List.mem_cons_of_mem _ hy)
    have hr := dot_bijectionvector_lt xs hxs
    rw [List.length_cons, bijectionvector_succ, dot_cons, inv_bijectionvector_succ,
      inv_bijectionvector_add_mul, ih hxs]
    congr 1
    have hpos : 0 < 2 ^ xs.length := by positivity
    rw [Nat.add_comm, Nat.add_mul_div_right _ _ hpos, Nat.div_eq_of_lt hr, Nat.zero_add,
      Nat.mod_eq_of_lt hx]

theorem inv_bijectionvector_length (L c : Nat) : (inv_bijectionvector L c).length = L := by
  simp [inv_bijectionvector]

theorem inv_bijectionvector_binary (L c : Nat) : ∀ x ∈ inv_bijectionvector L c, x < 2 := by
  intro x hx
  simp only [inv_bijectionvector, List.mem_map] at hx
  obtain ⟨k, _, rfl⟩ := hx
  exact Nat.mod_lt _ (by decide)
/-! ## The loop over the draws, draw by draw -/

theorem decode_draw_eq (c : Ctx) (tt : Nat) (alphas : AlphaCube) (hK : 0 < c.K) :
    decode_draw c tt alphas = .ok (fun i k t =>
      if i < c.N ∧ t < c.T ∧ k < c.K then drawAlphas c tt i k t else alphas i k t) := by
  have h : decode_draw c tt alphas = .ok ((List.range c.N).foldl (fun A i =>
      (List.range c.T).foldl (fun A t =>
        setSliceRow A c.K i t (subvec (inv_bijectionvector (c.K * c.T)
          (c.output.trajectories.get i tt)) (t * c.K) ((t + 1) * c.K - 1))) A) alphas) := by
    unfold decode_draw
    apply foldlM_eq_ok
    intro A i _
    apply foldlM_eq_ok
    intro A t _
    rw [if_neg (by omega)]
    rfl
  rw [h]
  congr 1
  funext i k t
  rw [map_outer_apply c.K c.T (fun i t => subvec (inv_bijectionvector (c.K * c.T)
    (c.output.trajectories.get i tt)) (t * c.K) ((t + 1) * c.K - 1))]
  rfl

theorem decode_draw_alphasAt (c : Ctx) (tt : Nat) (hK : 0 < c.K) :
    decode_draw c tt (alphasAt c tt) = .ok (alphasAt c (tt + 1)) := by
  rw [decode_draw_eq c tt _ hK]
  rfl

theorem foldlM_range_invariant {σ : Type} (f : σ → Nat → Except Failure σ)
    (P : σ → Nat → Prop) (n : Nat) (s : σ) (h0 : P s 0)
    (hstep : ∀ s j, j < n → P s j → ∃ s', f s j = .ok s' ∧ P s' (j + 1)) :
    ∃ s', (List.range n).foldlM f s = .ok s' ∧ P s' n := by
  induction n with
  | zero => exact ⟨s, rfl, h0⟩
  | succ n ih =>
    obtain ⟨s1, h1, h2⟩ := ih (fun s j hj hP => hstep s j (by omega) hP)
    obtain ⟨s2, h3, h4⟩ := hstep s1 n (by omega) h2
    refine ⟨s2, ?_, h4⟩
    rw [List.range_succ, List.foldlM_append, h1]
    simp only [bind, Except.bind, List.foldlM_cons, List.foldlM_nil, h3]
    rfl

theorem foldl_proj {σ α β : Type} (p : σ → β) (step : σ → α → σ) (g : β → α → β)
    (l : List α) (hp : ∀ s, ∀ x ∈ l, p (step s x) = g (p s) x) (s : σ) :
    p (l.foldl step s) = l.foldl g (p s) := by
  induction l generalizing s with
  | nil => rfl
  | cons a l ih =>
    simp only [List.foldl_cons]
    rw [ih (fun s x hx => hp s x (List.mem_cons_of_mem _ hx)), hp s a (List.mem_cons_self _ _)]

theorem foldl_if_lt (T : Nat) (f : Nat → Dbl) (b : Dbl) :
    (List.range T).foldl (fun b t => if t < T - 1 then b + f t else b) b
      = (List.range (T - 1)).foldl (fun b t => b + f t) b := by
  cases T with
  | zero => rfl
  | succ m =>
    rw [List.range_succ, List.foldl_append]
    simp only [List.foldl_cons, List.foldl_nil, Nat.add_sub_cancel, Nat.lt_irrefl, if_false]
    apply List.foldl_ext
    intro a t ht
    rw [if_pos (List.mem_range.mp ht)]

theorem foldl_proj_eq {σ α β : Type} (p : σ → β) (step : σ → α → σ) (g : β → α → β)
    (l : List α) (s : σ) (b : β) (h0 : p s = b)
    (hp : ∀ s, ∀ x ∈ l, p (step s x) = g (p s) x) :
    p (l.foldl step s) = l.foldl g b := by
  rw [← h0]
  exact foldl_proj p step g l hp s

theorem update_G_timeblock (c : Ctx) (J : Cube Dbl) (A : AlphaCube) (G : List Dbl)
    (i t v b cl : Nat) (h3 : c.G_version = 3) :
    update_G c J A G i t v b cl = G_timeblock c t := by
  simp only [update_G, h3, if_true, G_timeblock, List.map_replicate]
  congr 1
  simp [Dbl.mul_eq, Dbl.mul]

theorem update_G_stateless (c : Ctx) (J : Cube Dbl) (A : AlphaCube) (G : List Dbl)
    (i t v b cl : Nat) (hG : c.G_version = 1 ∨ c.G_version = 2 ∨ c.G_version = 3) :
    update_G c J A G i t v b cl = update_G c J A [] i t v b cl := by
  rcases hG with h | h | h <;> simp [update_G, h]

theorem colMeans_congr (N J : Nat) (M M' : Nat → Nat → Dbl) (h : M = M') :
    (List.range J).map (fun col => meanOf ((List.range N).map (fun r => M r col)))
      = colMeans N J M' := by
  rw [h]; rfl

theorem DINA_HO_draw_facts (c : Ctx) (carry : Carry) (tt : Nat) (hK : 0 < c.K)
    (hN : 0 < c.N) (ha : carry.alphas = alphasAt c tt) :
    ∃ after d, DINA_HO_draw c carry tt = .ok after ∧
      after.draws = carry.draws ++ [d] ∧
      after.alphas = alphasAt c (tt + 1) ∧ DrawFacts c "DINA_HO" tt d := by
  simp only [DINA_HO_draw, ha, decode_draw_alphasAt c tt hK, arma_mean_dim0_ok _ _ _ hN, bind,
    Except.bind, pure, Except.pure]
  refine ⟨_, _, rfl, rfl, rfl, ?_⟩
  refine ⟨?_, ?_, ?_, ?_, ?_, ?_, ?_, ?_, ?_, ?_, ?_⟩
  · apply foldl_proj_eq Acc.tran _ _ _ _ _ rfl
    intro s i _
    dsimp only
    rw [← foldl_if_lt]
    apply foldl_proj Acc.tran
    intro s t _
    dsimp only
    split <;> simp [tranTermDraw, tranTerm]
  · apply foldl_proj_eq Acc.response _ _ _ _ _ rfl
    intro s i _
    dsimp only
    apply foldl_proj Acc.response
    intro s t _
    dsimp only
    split <;> simp [respTermDraw, respTerm, blockOf]
  · apply foldl_proj_eq Acc.joint _ _ _ _ _ rfl
    intro s i _
    dsimp only
    rw [foldl_proj Acc.joint _ (fun b _ => b) _ (fun s t _ => by dsimp only; split <;> rfl)]
    simp only [jointTermDraw, jointTerm]
    simp
    rfl
  · intro h; exact absurd h (by decide)
  · intro _; rfl
  · apply colMeans_congr
    apply foldl_proj_eq Acc.Y_sim_collapsed _ _ _ _ _ rfl
    intro s i _
    dsimp only
    apply foldl_proj Acc.Y_sim_collapsed
    intro s t _
    dsimp only
    split <;> rfl
  · apply congrArg (fun M => c.h.OddsRatio c.N (c.Jt * c.T) ⟨c.N, c.Jt * c.T, M⟩)
    apply foldl_proj_eq Acc.Y_sim_collapsed _ _ _ _ _ rfl
    intro s i _
    dsimp only
    apply foldl_proj Acc.Y_sim_collapsed
    intro s t _
    dsimp only
    split <;> rfl
  · apply foldl_proj_eq Acc.total_score_PP _ _ _ _ _ rfl
    intro s i _
    dsimp only
    apply foldl_proj Acc.total_score_PP
    intro s t _
    dsimp only
    split <;> rfl
  · intro h; exact absurd h (by decide)
  · intro h; exact absurd h (by decide)
  · intro h; exact absurd h (by decide)

theorem DINA_HO_RT_sep_draw_facts (c : Ctx) (carry : Carry) (tt : Nat) (hK : 0 < c.K)
    (hN : 0 < c.N) (ha : carry.alphas = alphasAt c tt) :
    ∃ after d, DINA_HO_RT_sep_draw c (c.h.J_incidence_cube c.test_order c.Qs) carry tt = .ok after ∧
      after.draws = carry.draws ++ [d] ∧
      after.alphas = alphasAt c (tt + 1) ∧ DrawFacts c "DINA_HO_RT_sep" tt d := by
  simp only [DINA_HO_RT_sep_draw, ha, decode_draw_alphasAt c tt hK, arma_mean_dim0_ok _ _ _ hN, bind,
    Except.bind, pure, Except.pure]
  refine ⟨_, _, rfl, rfl, rfl, ?_⟩
  refine ⟨?_, ?_, ?_, ?_, ?_, ?_, ?_, ?_, ?_, ?_, ?_⟩
  · apply foldl_proj_eq Acc.tran _ _ _ _ _ rfl
    intro s i _
    dsimp only
    rw [← foldl_if_lt]
    apply foldl_proj Acc.tran
    intro s t _
    dsimp only
    split <;> simp [tranTermDraw, tranTerm]
  · apply foldl_proj_eq Acc.response _ _ _ _ _ rfl
    intro s i _
    dsimp only
    apply foldl_proj Acc.response
    intro s t _
    dsimp only
    split <;> simp [respTermDraw, respTerm, blockOf]
  · apply foldl_proj_eq Acc.joint _ _ _ _ _ rfl
    intro s i _
    dsimp only
    rw [foldl_proj Acc.joint _ (fun b _ => b) _ (fun s t _ => by dsimp only; split <;> rfl)]
    simp only [jointTermDraw, jointTerm]
    simp
    rfl
  · intro _ hG
    apply foldl_proj_eq Acc.time _ _ _ _ _ rfl
    intro s i _
    dsimp only
    apply foldl_proj Acc.time
    intro s t _
    dsimp only
    split <;> simp [timeTermDraw, covariateDraw, update_G_stateless c _ _ s.G_it _ _ _ _ _ hG, blockOf]
  · intro h; exact absurd (by decide) h
  · apply colMeans_congr
    apply foldl_proj_eq Acc.Y_sim_collapsed _ _ _ _ _ rfl
    intro s i _
    dsimp only
    apply foldl_proj Acc.Y_sim_collapsed
    intro s t _
    dsimp only
    split <;> rfl
  · apply congrArg (fun M => c.h.OddsRatio c.N (c.Jt * c.T) ⟨c.N, c.Jt * c.T, M⟩)
    apply foldl_proj_eq Acc.Y_sim_collapsed _ _ _ _ _ rfl
    intro s i _
    dsimp only
    apply foldl_proj Acc.Y_sim_collapsed
    intro s t _
    dsimp only
    split <;> rfl
  · apply foldl_proj_eq Acc.total_score_PP _ _ _ _ _ rfl
    intro s i _
    dsimp only
    apply foldl_proj Acc.total_score_PP
    intro s t _
    dsimp only
    split <;> rfl
  · intro _
    apply colMeans_congr
    apply foldl_proj_eq Acc.L_sim_collapsed _ _ _ _ _ rfl
    intro s i _
    dsimp only
    apply foldl_proj Acc.L_sim_collapsed
    intro s t _
    dsimp only
    split <;> rfl
  · intro _
    apply foldl_proj_eq Acc.total_time_PP _ _ _ _ _ rfl
    intro s i _
    dsimp only
    apply foldl_proj Acc.total_time_PP
    intro s t _
    dsimp only
    split <;> rfl
  · intro _ h3
    apply foldl_proj_eq Acc.time _ _ _ _ _ rfl
    intro s i _
    dsimp only
    apply foldl_proj Acc.time
    intro s t _
    dsimp only
    split <;> simp [timeTermDraw, update_G_timeblock c _ _ _ _ _ _ _ _ h3, blockOf]

theorem DINA_HO_RT_joint_draw_facts (c : Ctx) (carry : Carry) (tt : Nat) (hK : 0 < c.K)
    (hN : 0 < c.N) (ha : carry.alphas = alphasAt c tt) :
    ∃ after d, DINA_HO_RT_joint_draw c (c.h.J_incidence_cube c.test_order c.Qs) carry tt = .ok after ∧
      after.draws = carry.draws ++ [d] ∧
      after.alphas = alphasAt c (tt + 1) ∧ DrawFacts c "DINA_HO_RT_joint" tt d := by
  simp only [DINA_HO_RT_joint_draw, ha, decode_draw_alphasAt c tt hK, arma_mean_dim0_ok _ _ _ hN, bind,
    Except.bind, pure, Except.pure]
  refine ⟨_, _, rfl, rfl, rfl, ?_⟩
  refine ⟨?_, ?_, ?_, ?_, ?_, ?_, ?_, ?_, ?_, ?_, ?_⟩
  · apply foldl_proj_eq Acc.tran _ _ _ _ _ rfl
    intro s i _
    dsimp only
    rw [← foldl_if_lt]
    apply foldl_proj Acc.tran
    intro s t _
    dsimp only
    split <;> simp [tranTermDraw, tranTerm]
  · apply foldl_proj_eq Acc.response _ _ _ _ _ rfl
    intro s i _
    dsimp only
    apply foldl_proj Acc.response
    intro s t _
    dsimp only
    split <;> simp [respTermDraw, respTerm, blockOf]
  · apply foldl_proj_eq Acc.joint _ _ _ _ _ rfl
    intro s i _
    dsimp only
    rw [foldl_proj Acc.joint _ (fun b _ => b) _ (fun s t _ => by dsimp only; split <;> rfl)]
    simp only [jointTermDraw, jointTerm]
    simp
    rfl
  · intro _ hG
    apply foldl_proj_eq Acc.time _ _ _ _ _ rfl
    intro s i _
    dsimp only
    apply foldl_proj Acc.time
    intro s t _
    dsimp only
    split <;> simp [timeTermDraw, covariateDraw, update_G_stateless c _ _ s.G_it _ _ _ _ _ hG, blockOf]
  · intro h; exact absurd (by decide) h
  · apply colMeans_congr
    apply foldl_proj_eq Acc.Y_sim_collapsed _ _ _ _ _ rfl
    intro s i _
    dsimp only
    apply foldl_proj Acc.Y_sim_collapsed
    intro s t _
    dsimp only
    split <;> rfl
  · apply congrArg (fun M => c.h.OddsRatio c.N (c.Jt * c.T) ⟨c.N, c.Jt * c.T, M⟩)
    apply foldl_proj_eq Acc.Y_sim_collapsed _ _ _ _ _ rfl
    intro s i _
    dsimp only
    apply foldl_proj Acc.Y_sim_collapsed
    intro s t _
    dsimp only
    split <;> rfl
  · apply foldl_proj_eq Acc.total_score_PP _ _ _ _ _ rfl
    intro s i _
    dsimp only
    apply foldl_proj Acc.total_score_PP
    intro s t _
    dsimp only
    split <;> rfl
  · intro _
    apply colMeans_congr
    apply foldl_proj_eq Acc.L_sim_collapsed _ _ _ _ _ rfl
    intro s i _
    dsimp only
    apply foldl_proj Acc.L_sim_collapsed
    intro s t _
    dsimp only
    split <;> rfl
  · intro _
    apply foldl_proj_eq Acc.total_time_PP _ _ _ _ _ rfl
    intro s i _
    dsimp only
    apply foldl_proj Acc.total_time_PP
    intro s t _
    dsimp only
    split <;> rfl
  · intro _ h3
    apply foldl_proj_eq Acc.time _ _ _ _ _ rfl
    intro s i _
    dsimp only
    apply foldl_proj Acc.time
    intro s t _
    dsimp only
    split <;> simp [timeTermDraw, update_G_timeblock c _ _ _ _ _ _ _ _ h3, blockOf]

theorem rRUM_indept_draw_facts (c : Ctx) (carry : Carry) (tt : Nat) (hK : 0 < c.K)
    (hN : 0 < c.N) (ha : carry.alphas = alphasAt c tt) :
    ∃ after d, rRUM_indept_draw c carry tt = .ok after ∧
      after.draws = carry.draws ++ [d] ∧
      after.alphas = alphasAt c (tt + 1) ∧ DrawFacts c "rRUM_indept" tt d := by
  simp only [rRUM_indept_draw, ha, decode_draw_alphasAt c tt hK, arma_mean_dim0_ok _ _ _ hN, bind,
    Except.bind, pure, Except.pure]
  refine ⟨_, _, rfl, rfl, rfl, ?_⟩
  refine ⟨?_, ?_, ?_, ?_, ?_, ?_, ?_, ?_, ?_, ?_, ?_⟩
  · apply foldl_proj_eq Acc.tran _ _ _ _ _ rfl
    intro s i _
    dsimp only
    rw [← foldl_if_lt]
    apply foldl_proj Acc.tran
    intro s t _
    dsimp only
    split <;> simp [tranTermDraw, tranTerm]
  · apply foldl_proj_eq Acc.response _ _ _ _ _ rfl
    intro s i _
    dsimp only
    apply foldl_proj Acc.response
    intro s t _
    dsimp only
    split <;> simp [respTermDraw, respTerm, blockOf]
  · apply foldl_proj_eq Acc.joint _ _ _ _ _ rfl
    intro s i _
    dsimp only
    rw [foldl_proj Acc.joint _ (fun b _ => b) _ (fun s t _ => by dsimp only; split <;> rfl)]
    simp only [jointTermDraw, jointTerm]
    simp
    rfl
  · intro h; exact absurd h (by decide)
  · intro _; rfl
  · apply colMeans_congr
    apply foldl_proj_eq Acc.Y_sim_collapsed _ _ _ _ _ rfl
    intro s i _
    dsimp only
    apply foldl_proj Acc.Y_sim_collapsed
    intro s t _
    dsimp only
    split <;> rfl
  · apply congrArg (fun M => c.h.OddsRatio c.N (c.Jt * c.T) ⟨c.N, c.Jt * c.T, M⟩)
    apply foldl_proj_eq Acc.Y_sim_collapsed _ _ _ _ _ rfl
    intro s i _
    dsimp only
    apply foldl_proj Acc.Y_sim_collapsed
    intro s t _
    dsimp only
    split <;> rfl
  · apply foldl_proj_eq Acc.total_score_PP _ _ _ _ _ rfl
    intro s i _
    dsimp only
    apply foldl_proj Acc.total_score_PP
    intro s t _
    dsimp only
    split <;> rfl
  · intro h; exact absurd h (by decide)
  · intro h; exact absurd h (by decide)
  · intro h; exact absurd h (by decide)

theorem NIDA_indept_draw_facts (c : Ctx) (carry : Carry) (tt : Nat) (hK : 0 < c.K)
    (hN : 0 < c.N) (ha : carry.alphas = alphasAt c tt) :
    ∃ after d, NIDA_indept_draw c carry tt = .ok after ∧
      after.draws = carry.draws ++ [d] ∧
      after.alphas = alphasAt c (tt + 1) ∧ DrawFacts c "NIDA_indept" tt d := by
  simp only [NIDA_indept_draw, ha, decode_draw_alphasAt c tt hK, arma_mean_dim0_ok _ _ _ hN, bind,
    Except.bind, pure, Except.pure]
  refine ⟨_, _, rfl, rfl, rfl, ?_⟩
  refine ⟨?_, ?_, ?_, ?_, ?_, ?_, ?_, ?_, ?_, ?_, ?_⟩
  · apply foldl_proj_eq Acc.tran _ _ _ _ _ rfl
    intro s i _
    dsimp only
    rw [← foldl_if_lt]
    apply foldl_proj Acc.tran
    intro s t _
    dsimp only
    split <;> simp [tranTermDraw, tranTerm]
  · apply foldl_proj_eq Acc.response _ _ _ _ _ rfl
    intro s i _
    dsimp only
    apply foldl_proj Acc.response
    intro s t _
    dsimp only
    split <;> simp [respTermDraw, respTerm, blockOf]
  · apply foldl_proj_eq Acc.joint _ _ _ _ _ rfl
    intro s i _
    dsimp only
    rw [foldl_proj Acc.joint _ (fun b _ => b) _ (fun s t _ => by dsimp only; split <;> rfl)]
    simp only [jointTermDraw, jointTerm]
    simp
    rfl
  · intro h; exact absurd h (by decide)
  · intro _; rfl
  · apply colMeans_congr
    apply foldl_proj_eq Acc.Y_sim_collapsed _ _ _ _ _ rfl
    intro s i _
    dsimp only
    apply foldl_proj Acc.Y_sim_collapsed
    intro s t _
    dsimp only
    split <;> rfl
  · apply congrArg (fun M => c.h.OddsRatio c.N (c.Jt * c.T) ⟨c.N, c.Jt * c.T, M⟩)
    apply foldl_proj_eq Acc.Y_sim_collapsed _ _ _ _ _ rfl
    intro s i _
    dsimp only
    apply foldl_proj Acc.Y_sim_collapsed
    intro s t _
    dsimp only
    split <;> rfl
  · apply foldl_proj_eq Acc.total_score_PP _ _ _ _ _ rfl
    intro s i _
    dsimp only
    apply foldl_proj Acc.total_score_PP
    intro s t _
    dsimp only
    split <;> rfl
  · intro h; exact absurd h (by decide)
  · intro h; exact absurd h (by decide)
  · intro h; exact absurd h (by decide)

theorem DINA_FOHM_draw_facts (c : Ctx) (carry : Carry) (tt : Nat) (hK : 0 < c.K)
    (hN : 0 < c.N) (ha : carry.alphas = alphasAt c tt) :
    ∃ after d, DINA_FOHM_draw c carry tt = .ok after ∧
      after.draws = carry.draws ++ [d] ∧
      after.alphas = alphasAt c (tt + 1) ∧ DrawFacts c "DINA_FOHM" tt d := by
  simp only [DINA_FOHM_draw, ha, decode_draw_alphasAt c tt hK, arma_mean_dim0_ok _ _ _ hN, bind,
    Except.bind, pure, Except.pure]
  refine ⟨_, _, rfl, rfl, rfl, ?_⟩
  refine ⟨?_, ?_, ?_, ?_, ?_, ?_, ?_, ?_, ?_, ?_, ?_⟩
  · apply foldl_proj_eq Acc.tran _ _ _ _ _ rfl
    intro s i _
    dsimp only
    rw [← foldl_if_lt]
    apply foldl_proj Acc.tran
    intro s t _
    dsimp only
    split <;> simp [tranTermDraw, tranTerm]
  · apply foldl_proj_eq Acc.response _ _ _ _ _ rfl
    intro s i _
    dsimp only
    apply foldl_proj Acc.response
    intro s t _
    dsimp only
    split <;> simp [respTermDraw, respTerm, blockOf]
  · apply foldl_proj_eq Acc.joint _ _ _ _ _ rfl
    intro s i _
    dsimp only
    rw [foldl_proj Acc.joint _ (fun b _ => b) _ (fun s t _ => by dsimp only; split <;> rfl)]
    simp only [jointTermDraw, jointTerm]
    simp
    rfl
  · intro h; exact absurd h (by decide)
  · intro _; rfl
  · apply colMeans_congr
    apply foldl_proj_eq Acc.Y_sim_collapsed _ _ _ _ _ rfl
    intro s i _
    dsimp only
    apply foldl_proj Acc.Y_sim_collapsed
    intro s t _
    dsimp only
    split <;> rfl
  · apply congrArg (fun M => c.h.OddsRatio c.N (c.Jt * c.T) ⟨c.N, c.Jt * c.T, M⟩)
    apply foldl_proj_eq Acc.Y_sim_collapsed _ _ _ _ _ rfl
    intro s i _
    dsimp only
    apply foldl_proj Acc.Y_sim_collapsed
    intro s t _
    dsimp only
    split <;> rfl
  · apply foldl_proj_eq Acc.total_score_PP _ _ _ _ _ rfl
    intro s i _
    dsimp only
    apply foldl_proj Acc.total_score_PP
    intro s t _
    dsimp only
    split <;> rfl
  · intro h; exact absurd h (by decide)
  · intro h; exact absurd h (by decide)
  · intro h; exact absurd h (by decide)

theorem draws_loop_facts (c : Ctx) (model : String) (f : Carry → Nat → Except Failure Carry)
    (hf : ∀ carry tt, carry.alphas = alphasAt c tt →
      ∃ after d, f carry tt = .ok after ∧ after.draws = carry.draws ++ [d] ∧
        after.alphas = alphasAt c (tt + 1) ∧ DrawFacts c model tt d) :
    ∃ carry, (List.range c.n_its).foldlM f (Carry.init c) = .ok carry ∧
      LoopFacts c model carry := by
  obtain ⟨carry, h1, h2, h3, h4⟩ := foldlM_range_invariant f
    (fun s j => s.alphas = alphasAt c j ∧ s.draws.length = j ∧
      ∀ tt, tt < j → ∃ d, s.draws[tt]? = some d ∧ DrawFacts c model tt d)
    c.n_its (Carry.init c) ⟨rfl, rfl, fun tt htt => absurd htt (Nat.not_lt_zero _)⟩
    (fun s j _ hP => by
      obtain ⟨after, d, h1, h2, h3, h4⟩ := hf s j hP.1
      refine ⟨after, h1, h3, by rw [h2, List.length_append, hP.2.1]; rfl, fun tt htt => ?_⟩
      rcases Nat.lt_succ_iff_lt_or_eq.mp htt with h5 | h5
      · obtain ⟨d', h6, h7⟩ := hP.2.2 tt h5
        refine ⟨d', ?_, h7⟩
        rw [h2, List.getElem?_append_left (by rw [hP.2.1]; exact h5)]
        exact h6
      · refine ⟨d, ?_, by rw [h5]; exact h4⟩
        rw [h2, h5, List.getElem?_append_right (by rw [hP.2.1]), hP.2.1, Nat.sub_self]
        rfl)
  exact ⟨carry, h1, ⟨h2, h3, h4⟩⟩

theorem LoopFacts_ne_nil (c : Ctx) (model : String) (carry : Carry) (hn : 0 < c.n_its)
    (h : LoopFacts c model carry) : carry.draws ≠ [] := by
  intro h0
  have := h.length
  rw [h0] at this
  simp at this
  omega

theorem branch_DINA_HO_explicit (c : Ctx) (DIC : DICTable) (hn : 0 < c.n_its)
    (hd : c.output.HasDraws c.n_its) (hK : 0 < c.K) (hN : 0 < c.N) :
    ∃ carry D, (List.range c.n_its).foldlM (drawStep c "DINA_HO") (Carry.init c) = .ok carry ∧
      LoopFacts c "DINA_HO" carry ∧
      RowsFrom false D carry.draws (dhatPass c "DINA_HO" carry.G_it) ∧
      (∀ r col, 2 ≤ r → D r col = DIC r col) ∧
      branch_DINA_HO c DIC = .ok (D, ppList "DINA_HO" carry.draws) := by
  obtain ⟨carry, hc, hs⟩ := draws_loop_facts c "DINA_HO" (DINA_HO_draw c)
    (fun carry tt ha => DINA_HO_draw_facts c carry tt hK hN ha)
  obtain ⟨D0, h0, hrows⟩ := DIC_rows_noRT DIC carry.draws (LoopFacts_ne_nil c _ carry hn hs)
  refine ⟨carry, _, hc, hs, (hrows _).1, (hrows _).2, ?_⟩
  simp only [branch_DINA_HO, arma_mean_dim1_ok _ c.n_its hn hd.ss, arma_mean_dim1_ok _ c.n_its hn hd.gs, arma_mean_dim1_ok _ c.n_its hn hd.thetas, arma_mean_dim1_ok _ c.n_its hn hd.lambdas, hc, h0, bind, Except.bind, pure, Except.pure]
  rfl

theorem branch_DINA_HO_RT_sep_explicit (c : Ctx) (DIC : DICTable) (hn : 0 < c.n_its)
    (hd : c.output.HasDraws c.n_its) (hK : 0 < c.K) (hN : 0 < c.N) :
    ∃ carry D, (List.range c.n_its).foldlM (drawStep c "DINA_HO_RT_sep") (Carry.init c) = .ok carry ∧
      LoopFacts c "DINA_HO_RT_sep" carry ∧
      RowsFrom true D carry.draws (dhatPass c "DINA_HO_RT_sep" carry.G_it) ∧
      (∀ r col, 2 ≤ r → D r col = DIC r col) ∧
      branch_DINA_HO_RT_sep c DIC = .ok (D, ppList "DINA_HO_RT_sep" carry.draws) := by
  obtain ⟨carry, hc, hs⟩ := draws_loop_facts c "DINA_HO_RT_sep" (DINA_HO_RT_sep_draw c (c.h.J_incidence_cube c.test_order c.Qs))
    (fun carry tt ha => DINA_HO_RT_sep_draw_facts c carry tt hK hN ha)
  obtain ⟨D0, h0, hrows⟩ := DIC_rows_RT DIC carry.draws (LoopFacts_ne_nil c _ carry hn hs)
  refine ⟨carry, _, hc, hs, (hrows _).1, (hrows _).2, ?_⟩
  simp only [branch_DINA_HO_RT_sep, arma_mean_dim1_ok _ c.n_its hn hd.ss, arma_mean_dim1_ok _ c.n_its hn hd.gs, arma_mean_dim1_ok _ c.n_its hn hd.as_, arma_mean_dim1_ok _ c.n_its hn hd.gammas, arma_mean_dim1_ok _ c.n_its hn hd.thetas, arma_mean_dim1_ok _ c.n_its hn hd.taus, arma_mean_dim1_ok _ c.n_its hn hd.lambdas, arma_mean_col0_ok _ c.n_its hn hd.phis, arma_mean_col0_ok _ c.n_its hn hd.tauvar, hc, h0, bind, Except.bind, pure, Except.pure]
  rfl

theorem branch_DINA_HO_RT_joint_explicit (c : Ctx) (DIC : DICTable) (hn : 0 < c.n_its)
    (hd : c.output.HasDraws c.n_its) (hK : 0 < c.K) (hN : 0 < c.N) :
    ∃ carry D, (List.range c.n_its).foldlM (drawStep c "DINA_HO_RT_joint") (Carry.init c) = .ok carry ∧
      LoopFacts c "DINA_HO_RT_joint" carry ∧
      RowsFrom true D carry.draws (dhatPass c "DINA_HO_RT_joint" carry.G_it) ∧
      (∀ r col, 2 ≤ r → D r col = DIC r col) ∧
      branch_DINA_HO_RT_joint c DIC = .ok (D, ppList "DINA_HO_RT_joint" carry.draws) := by
  obtain ⟨carry, hc, hs⟩ := draws_loop_facts c "DINA_HO_RT_joint" (DINA_HO_RT_joint_draw c (c.h.J_incidence_cube c.test_order c.Qs))
    (fun carry tt ha => DINA_HO_RT_joint_draw_facts c carry tt hK hN ha)
  obtain ⟨D0, h0, hrows⟩ := DIC_rows_RT DIC carry.draws (LoopFacts_ne_nil c _ carry hn hs)
  refine ⟨carry, _, hc, hs, (hrows _).1, (hrows _).2, ?_⟩
  simp only [branch_DINA_HO_RT_joint, arma_mean_dim1_ok _ c.n_its hn hd.ss, arma_mean_dim1_ok _ c.n_its hn hd.gs, arma_mean_dim1_ok _ c.n_its hn hd.as_, arma_mean_dim1_ok _ c.n_its hn hd.gammas, arma_mean_dim1_ok _ c.n_its hn hd.thetas, arma_mean_dim1_ok _ c.n_its hn hd.taus, arma_mean_dim1_ok _ c.n_its hn hd.lambdas, arma_mean_col0_ok _ c.n_its hn hd.phis, arma_mean_dim2_ok _ c.n_its hn hd.Sigs, hc, h0, bind, Except.bind, pure, Except.pure]
  rfl

theorem branch_rRUM_indept_explicit (c : Ctx) (DIC : DICTable) (hn : 0 < c.n_its)
    (hd : c.output.HasDraws c.n_its) (hK : 0 < c.K) (hN : 0 < c.N) :
    ∃ carry D, (List.range c.n_its).foldlM (drawStep c "rRUM_indept") (Carry.init c) = .ok carry ∧
      LoopFacts c "rRUM_indept" carry ∧
      RowsFrom false D carry.draws (dhatPass c "rRUM_indept" carry.G_it) ∧
      (∀ r col, 2 ≤ r → D r col = DIC r col) ∧
      branch_rRUM_indept c DIC = .ok (D, ppList "rRUM_indept" carry.draws) := by
  obtain ⟨carry, hc, hs⟩ := draws_loop_facts c "rRUM_indept" (rRUM_indept_draw c)
    (fun carry tt ha => rRUM_indept_draw_facts c carry tt hK hN ha)
  obtain ⟨D0, h0, hrows⟩ := DIC_rows_noRT DIC carry.draws (LoopFacts_ne_nil c _ carry hn hs)
  refine ⟨carry, _, hc, hs, (hrows _).1, (hrows _).2, ?_⟩
  simp only [branch_rRUM_indept, arma_mean_dim1_ok _ c.n_its hn hd.pi_stars, arma_mean_dim1_ok _ c.n_its hn hd.taus, arma_mean_dim2_ok _ c.n_its hn hd.r_stars, hc, h0, bind, Except.bind, pure, Except.pure]
  rfl

theorem branch_NIDA_indept_explicit (c : Ctx) (DIC : DICTable) (hn : 0 < c.n_its)
    (hd : c.output.HasDraws c.n_its) (hK : 0 < c.K) (hN : 0 < c.N) :
    ∃ carry D, (List.range c.n_its).foldlM (drawStep c "NIDA_indept") (Carry.init c) = .ok carry ∧
      LoopFacts c "NIDA_indept" carry ∧
      RowsFrom false D carry.draws (dhatPass c "NIDA_indept" carry.G_it) ∧
      (∀ r col, 2 ≤ r → D r col = DIC r col) ∧
      branch_NIDA_indept c DIC = .ok (D, ppList "NIDA_indept" carry.draws) := by
  obtain ⟨carry, hc, hs⟩ := draws_loop_facts c "NIDA_indept" (NIDA_indept_draw c)
    (fun carry tt ha => NIDA_indept_draw_facts c carry tt hK hN ha)
  obtain ⟨D0, h0, hrows⟩ := DIC_rows_noRT DIC carry.draws (LoopFacts_ne_nil c _ carry hn hs)
  refine ⟨carry, _, hc, hs, (hrows _).1, (hrows _).2, ?_⟩
  simp only [branch_NIDA_indept, arma_mean_dim1_ok _ c.n_its hn hd.ss, arma_mean_dim1_ok _ c.n_its hn hd.gs, arma_mean_dim1_ok _ c.n_its hn hd.taus, hc, h0, bind, Except.bind, pure, Except.pure]
  rfl

theorem branch_DINA_FOHM_explicit (c : Ctx) (DIC : DICTable) (hn : 0 < c.n_its)
    (hd : c.output.HasDraws c.n_its) (hK : 0 < c.K) (hN : 0 < c.N) :
    ∃ carry D, (List.range c.n_its).foldlM (drawStep c "DINA_FOHM") (Carry.init c) = .ok carry ∧
      LoopFacts c "DINA_FOHM" carry ∧
      RowsFrom false D carry.draws (dhatPass c "DINA_FOHM" carry.G_it) ∧
      (∀ r col, 2 ≤ r → D r col = DIC r col) ∧
      branch_DINA_FOHM c DIC = .ok (D, ppList "DINA_FOHM" carry.draws) := by
  obtain ⟨carry, hc, hs⟩ := draws_loop_facts c "DINA_FOHM" (DINA_FOHM_draw c)
    (fun carry tt ha => DINA_FOHM_draw_facts c carry tt hK hN ha)
  obtain ⟨D0, h0, hrows⟩ := DIC_rows_noRT DIC carry.draws (LoopFacts_ne_nil c _ carry hn hs)
  refine ⟨carry, _, hc, hs, (hrows _).1, (hrows _).2, ?_⟩
  simp only [branch_DINA_FOHM, arma_mean_dim1_ok _ c.n_its hn hd.ss, arma_mean_dim1_ok _ c.n_its hn hd.gs, arma_mean_dim2_ok _ c.n_its hn hd.omegas, hc, h0, bind, Except.bind, pure, Except.pure]
  rfl

theorem Learning_fit_explicit (h : Helpers) (u : Uninit) (o : Output) (model : String)
    (Response_list Q_list : List (Mat Dbl)) (test_order : Mat Nat) (Test_versions : List Nat)
    (Q_examinee : Nat → Mat Dbl) (Latency_list : Option (List (Mat Dbl))) (G_version : Int)
    (R : Mat Dbl) (n_its : Nat) (hn : 0 < n_its) (hd : o.HasDraws n_its)
    (hK : 0 < (Q_list.getD 0 emptyMat).n_cols) (hN : 0 < Test_versions.length)
    (hmodel : model ∈ modelNames) :
    ∃ c carry D,
      Learning_fit_setup h u o Response_list Q_list test_order Test_versions Q_examinee
        Latency_list G_version R = .ok c ∧
      c.From h u o Q_list test_order Test_versions G_version ∧ c.n_its = n_its ∧
      (List.range c.n_its).foldlM (drawStep c model) (Carry.init c) = .ok carry ∧
      LoopFacts c model carry ∧
      RowsFrom (decide (model ∈ rtModels)) D carry.draws (dhatPass c model carry.G_it) ∧
      (∀ r col, 2 ≤ r → D r col = 0) ∧
      Learning_fit h u o model Response_list Q_list test_order Test_versions Q_examinee
        Latency_list G_version R = .ok { DIC := lastRow D, PPs := ppList model carry.draws } := by
  have hn' : 0 < o.trajectories.n_cols := by rw [hd.trajectories]; exact hn
  obtain ⟨A, hA, _⟩ := Alphas_est_MAP_spec Test_versions.length
    (Q_list.getD 0 emptyMat).n_cols test_order.n_rows o.trajectories hn' hK
  obtain ⟨c, hc, _, f1, f2, f3, f4, f5, f6, f7, f8, f9, f10, f11⟩ := Learning_fit_setup_ok h u o
    Response_list Q_list test_order Test_versions Q_examinee Latency_list G_version R n_its hn
    hd.pis A hA
  have hF : c.From h u o Q_list test_order Test_versions G_version :=
    ⟨f1, f9, f2, f3, f4, f5, f6, f7, f8, f10, f11⟩
  have hcn : 0 < c.n_its := by rw [f7]; exact hn'
  have hcd : c.output.HasDraws c.n_its := by rw [f2, f7, hd.trajectories]; exact hd
  have hcK : 0 < c.K := by rw [f4]; exact hK
  have hcN : 0 < c.N := by rw [f3]; exact hN
  have hcn2 : c.n_its = n_its := by rw [f7, hd.trajectories]
  simp only [modelNames, List.mem_cons, List.mem_singleton, List.not_mem_nil, or_false] at hmodel
  rcases hmodel with m | m | m | m | m | m <;> subst m
  · obtain ⟨carry, D, h1, h2, h3, h4, h5⟩ := branch_DINA_HO_explicit c (fun _ _ => 0) hcn hcd hcK hcN
    refine ⟨c, carry, D, hc, hF, hcn2, h1, h2, h3, h4, ?_⟩
    simp [Learning_fit, hc, h5, bind, Except.bind, pure, Except.pure]
    rfl
  · obtain ⟨carry, D, h1, h2, h3, h4, h5⟩ := branch_DINA_HO_RT_sep_explicit c (fun _ _ => 0) hcn hcd hcK hcN
    refine ⟨c, carry, D, hc, hF, hcn2, h1, h2, h3, h4, ?_⟩
    simp [Learning_fit, hc, h5, bind, Except.bind, pure, Except.pure]
    rfl
  · obtain ⟨carry, D, h1, h2, h3, h4, h5⟩ := branch_DINA_HO_RT_joint_explicit c (fun _ _ => 0) hcn hcd hcK hcN
    refine ⟨c, carry, D, hc, hF, hcn2, h1, h2, h3, h4, ?_⟩
    simp [Learning_fit, hc, h5, bind, Except.bind, pure, Except.pure]
    rfl
  · obtain ⟨carry, D, h1, h2, h3, h4, h5⟩ := branch_rRUM_indept_explicit c (fun _ _ => 0) hcn hcd hcK hcN
    refine ⟨c, carry, D, hc, hF, hcn2, h1, h2, h3, h4, ?_⟩
    simp [Learning_fit, hc, h5, bind, Except.bind, pure, Except.pure]
    rfl
  · obtain ⟨carry, D, h1, h2, h3, h4, h5⟩ := branch_NIDA_indept_explicit c (fun _ _ => 0) hcn hcd hcK hcN
    refine ⟨c, carry, D, hc, hF, hcn2, h1, h2, h3, h4, ?_⟩
    simp [Learning_fit, hc, h5, bind, Except.bind, pure, Except.pure]
    rfl
  · obtain ⟨carry, D, h1, h2, h3, h4, h5⟩ := branch_DINA_FOHM_explicit c (fun _ _ => 0) hcn hcd hcK hcN
    refine ⟨c, carry, D, hc, hF, hcn2, h1, h2, h3, h4, ?_⟩
    simp [Learning_fit, hc, h5, bind, Except.bind, pure, Except.pure]
    rfl

theorem dhatPass_tran (c : Ctx) (model : String) (G : List Dbl) (hmodel : model ∈ modelNames) :
    (dhatPass c model G).tran = pairSum c.N (c.T - 1) (tranTermHat c model) := by
  simp only [modelNames, List.mem_cons, List.mem_singleton, List.not_mem_nil, or_false] at hmodel
  rcases hmodel with m | m | m | m | m | m <;> subst m
  · simp only [dhatPass, DINA_HO_Dhat]
    apply foldl_proj_eq Acc.tran _ _ _ _ _ rfl
    intro s i _
    dsimp only
    rw [← foldl_if_lt]
    apply foldl_proj Acc.tran
    intro s t _
    dsimp only
    split <;> simp [tranTermHat, tranTerm]
  · simp only [dhatPass, DINA_HO_RT_sep_Dhat]
    apply foldl_proj_eq Acc.tran _ _ _ _ _ rfl
    intro s i _
    dsimp only
    rw [← foldl_if_lt]
    apply foldl_proj Acc.tran
    intro s t _
    dsimp only
    split <;> simp [tranTermHat, tranTerm]
  · simp only [dhatPass, DINA_HO_RT_joint_Dhat]
    apply foldl_proj_eq Acc.tran _ _ _ _ _ rfl
    intro s i _
    dsimp only
    rw [← foldl_if_lt]
    apply foldl_proj Acc.tran
    intro s t _
    dsimp only
    split <;> simp [tranTermHat, tranTerm]
  · simp only [dhatPass, rRUM_indept_Dhat]
    apply foldl_proj_eq Acc.tran _ _ _ _ _ rfl
    intro s i _
    dsimp only
    rw [← foldl_if_lt]
    apply foldl_proj Acc.tran
    intro s t _
    dsimp only
    split <;> simp [tranTermHat, tranTerm]
  · simp only [dhatPass, NIDA_indept_Dhat]
    apply foldl_proj_eq Acc.tran _ _ _ _ _ rfl
    intro s i _
    dsimp only
    rw [← foldl_if_lt]
    apply foldl_proj Acc.tran
    intro s t _
    dsimp only
    split <;> simp [tranTermHat, tranTerm]
  · simp only [dhatPass, DINA_FOHM_Dhat]
    apply foldl_proj_eq Acc.tran _ _ _ _ _ rfl
    intro s i _
    dsimp only
    rw [← foldl_if_lt]
    apply foldl_proj Acc.tran
    intro s t _
    dsimp only
    split <;> simp [tranTermHat, tranTerm]

theorem LoopFacts_map {β : Type} (c : Ctx) (model : String) (carry : Carry)
    (h : LoopFacts c model carry) (q : DrawOut → β) (g : Nat → β)
    (hq : ∀ tt d, tt < c.n_its → DrawFacts c model tt d → q d = g tt) :
    carry.draws.map q = (List.range c.n_its).map g := by
  apply List.ext_getElem?
  intro tt
  by_cases htt : tt < c.n_its
  · obtain ⟨d, h1, h2⟩ := h.draw tt htt
    rw [List.getElem?_map, h1, List.getElem?_map, List.getElem?_range htt]
    simp only [Option.map_some']
    rw [hq tt d htt h2]
  · rw [List.getElem?_eq_none (by rw [List.length_map, h.length]; omega),
      List.getElem?_eq_none (by rw [List.length_map, List.length_range]; omega)]

theorem pairSum_zero_cols (N : Nat) (term : Nat → Nat → Dbl) : pairSum N 0 term = 0 := by
  unfold pairSum
  induction N with
  | zero => rfl
  | succ N ih =>
    rw [List.range_succ, List.foldl_append, ih]
    rfl

theorem drawMean_zero (n : Nat) (hn : 0 < n) : drawMean n (fun _ => (0 : Dbl)) = 0 := by
  have h := drawMean_fin n hn (fun _ => 0)
  rw [Dbl.zero_eq, h]
  simp

theorem meanOf_draws (draws : List DrawOut) (n : Nat) (q : DrawOut → Dbl) (g : Nat → Dbl)
    (h : draws.map q = (List.range n).map g) :
    meanOf (draws.map q) = drawMean n g := by
  unfold meanOf drawMean
  rw [h, List.length_map, List.length_range]

theorem Dbl.neg_two_mul_zero : Dbl.fin (-2) * 0 = 0 := by
  simp [Dbl.mul_eq, Dbl.zero_eq, Dbl.mul]

theorem dhatPass_response (c : Ctx) (model : String) (G : List Dbl)
    (hmodel : model ∈ modelNames) :
    (dhatPass c model G).response = pairSum c.N c.T (respTermHat c model) := by
  simp only [modelNames, List.mem_cons, List.mem_singleton, List.not_mem_nil, or_false] at hmodel
  rcases hmodel with m | m | m | m | m | m <;> subst m
  · simp only [dhatPass, DINA_HO_Dhat]
    apply foldl_proj_eq Acc.response _ _ _ _ _ rfl
    intro s i _
    dsimp only
    apply foldl_proj Acc.response
    intro s t _
    dsimp only
    split <;> simp [respTermHat, respTerm, blockOf]
  · simp only [dhatPass, DINA_HO_RT_sep_Dhat]
    apply foldl_proj_eq Acc.response _ _ _ _ _ rfl
    intro s i _
    dsimp only
    apply foldl_proj Acc.response
    intro s t _
    dsimp only
    split <;> simp [respTermHat, respTerm, blockOf]
  · simp only [dhatPass, DINA_HO_RT_joint_Dhat]
    apply foldl_proj_eq Acc.response _ _ _ _ _ rfl
    intro s i _
    dsimp only
    apply foldl_proj Acc.response
    intro s t _
    dsimp only
    split <;> simp [respTermHat, respTerm, blockOf]
  · simp only [dhatPass, rRUM_indept_Dhat]
    apply foldl_proj_eq Acc.response _ _ _ _ _ rfl
    intro s i _
    dsimp only
    apply foldl_proj Acc.response
    intro s t _
    dsimp only
    split <;> simp [respTermHat, respTerm, blockOf]
  · simp only [dhatPass, NIDA_indept_Dhat]
    apply foldl_proj_eq Acc.response _ _ _ _ _ rfl
    intro s i _
    dsimp only
    apply foldl_proj Acc.response
    intro s t _
    dsimp only
    split <;> simp [respTermHat, respTerm, blockOf]
  · simp only [dhatPass, DINA_FOHM_Dhat]
    apply foldl_proj_eq Acc.response _ _ _ _ _ rfl
    intro s i _
    dsimp only
    apply foldl_proj Acc.response
    intro s t _
    dsimp only
    split <;> simp [respTermHat, respTerm, blockOf]

theorem dhatPass_joint (c : Ctx) (model : String) (G : List Dbl)
    (hmodel : model ∈ modelNames) :
    (dhatPass c model G).joint = pairSum c.N 1 (fun i _ => jointTermHat c model i) := by
  simp only [modelNames, List.mem_cons, List.mem_singleton, List.not_mem_nil, or_false] at hmodel
  rcases hmodel with m | m | m | m | m | m <;> subst m
  · simp only [dhatPass, DINA_HO_Dhat]
    apply foldl_proj_eq Acc.joint _ _ _ _ _ rfl
    intro s i _
    dsimp only
    rw [foldl_proj Acc.joint _ (fun b _ => b) _ (fun s t _ => by dsimp only; split <;> rfl)]
    simp only [jointTermHat, jointTerm]
    simp
    rfl
  · simp only [dhatPass, DINA_HO_RT_sep_Dhat]
    apply foldl_proj_eq Acc.joint _ _ _ _ _ rfl
    intro s i _
    dsimp only
    rw [foldl_proj Acc.joint _ (fun b _ => b) _ (fun s t _ => by dsimp only; split <;> rfl)]
    simp only [jointTermHat, jointTerm]
    simp
    rfl
  · simp only [dhatPass, DINA_HO_RT_joint_Dhat]
    apply foldl_proj_eq Acc.joint _ _ _ _ _ rfl
    intro s i _
    dsimp only
    rw [foldl_proj Acc.joint _ (fun b _ => b) _ (fun s t _ => by dsimp only; split <;> rfl)]
    simp only [jointTermHat, jointTerm]
    simp
    rfl
  · simp only [dhatPass, rRUM_indept_Dhat]
    apply foldl_proj_eq Acc.joint _ _ _ _ _ rfl
    intro s i _
    dsimp only
    rw [foldl_proj Acc.joint _ (fun b _ => b) _ (fun s t _ => by dsimp only; split <;> rfl)]
    simp only [jointTermHat, jointTerm]
    simp
    rfl
  · simp only [dhatPass, NIDA_indept_Dhat]
    apply foldl_proj_eq Acc.joint _ _ _ _ _ rfl
    intro s i _
    dsimp only
    rw [foldl_proj Acc.joint _ (fun b _ => b) _ (fun s t _ => by dsimp only; split <;> rfl)]
    simp only [jointTermHat, jointTerm]
    simp
    rfl
  · simp only [dhatPass, DINA_FOHM_Dhat]
    apply foldl_proj_eq Acc.joint _ _ _ _ _ rfl
    intro s i _
    dsimp only
    rw [foldl_proj Acc.joint _ (fun b _ => b) _ (fun s t _ => by dsimp only; split <;> rfl)]
    simp only [jointTermHat, jointTerm]
    simp
    rfl

theorem dhatPass_time (c : Ctx) (model : String) (G : List Dbl) (hmodel : model ∈ rtModels) :
    (dhatPass c model G).time = pairSum c.N c.T (timeTermHat c G) := by
  simp only [rtModels, List.mem_cons, List.mem_singleton, List.not_mem_nil, or_false] at hmodel
  rcases hmodel with m | m <;> subst m
  · simp only [dhatPass]
    exact (DINA_HO_RT_sep_Dhat_time c G _ _ _ _ _ _ _ _ _).2
  · simp only [dhatPass]
    exact (DINA_HO_RT_joint_Dhat_time c G _ _ _ _ _ _ _ _ _).2

/-! ## Chunks of a decoded code -/

theorem subvec_chunk (K T c t : Nat) (hK : 0 < K) (ht : t < T) :
    subvec (inv_bijectionvector (K * T) c) (t * K) ((t + 1) * K - 1)
      = inv_bijectionvector K (c / 2 ^ (K * (T - 1 - t))) := by
  obtain ⟨s, rfl⟩ : ∃ s, T = t + 1 + s := ⟨T - 1 - t, by omega⟩
  have hs : t + 1 + s - 1 - t = s := by omega
  have h1 : (t + 1) * K - 1 + 1 - t * K = K := by
    have : (t + 1) * K = t * K + K := by ring
    omega
  have h2 : K * (t + 1 + s) = t * K + K + K * s := by ring
  rw [hs]
  apply List.ext_getElem?
  intro k
  simp only [subvec, h1, inv_bijectionvector, List.getElem?_take, List.getElem?_drop,
    List.getElem?_map]
  by_cases hk : k < K
  · have h3 : t * K + k < K * (t + 1 + s) := by rw [h2]; omega
    rw [if_pos hk, List.getElem?_range h3, List.getElem?_range hk]
    simp only [Option.map_some']
    have h4 : K * (t + 1 + s) - (t * K + k) - 1 = K * s + (K - k - 1) := by rw [h2]; omega
    rw [h4, pow_add, Nat.div_div_eq_div_mul]
  · rw [if_neg hk, List.getElem?_eq_none (by rw [List.length_range]; omega)]
    rfl

theorem digit_sum (B T c : Nat) :
    ((List.range T).map (fun t => (c / B ^ (T - 1 - t)) % B * B ^ (T - 1 - t))).sum
      = c % B ^ T := by
  induction T with
  | zero => simp [Nat.mod_one]
  | succ n ih =>
    rw [List.range_succ_eq_map, List.map_cons, List.map_map, List.sum_cons]
    have h1 : (List.range n).map ((fun t => (c / B ^ (n + 1 - 1 - t)) % B * B ^ (n + 1 - 1 - t))
        ∘ Nat.succ) = (List.range n).map (fun t => (c / B ^ (n - 1 - t)) % B * B ^ (n - 1 - t)) := by
      apply List.map_congr_left
      intro t _
      simp only [Function.comp]
      have : n + 1 - 1 - t.succ = n - 1 - t := by omega
      rw [this]
    rw [h1, ih, pow_succ, Nat.mod_mul]
    simp only [Nat.add_sub_cancel, Nat.sub_zero]
    ring

theorem subvec_binary (b : List Nat) (first last : Nat) (hb : ∀ x ∈ b, x = 0 ∨ x = 1) :
    ∀ x ∈ subvec b first last, x = 0 ∨ x = 1 := by
  intro x hx
  exact hb x (List.mem_of_mem_drop (List.mem_of_mem_take hx))

theorem chunk_sum (K T c : Nat) (hK : 0 < K) :
    ((List.range T).map (fun t =>
      dot (subvec (inv_bijectionvector (K * T) c) (t * K) ((t + 1) * K - 1)) (bijectionvector K)
        * 2 ^ (K * (T - 1 - t)))).sum = c % 2 ^ (K * T) := by
  rw [pow_mul, ← digit_sum (2 ^ K) T c]
  congr 1
  apply List.map_congr_left
  intro t ht
  rw [subvec_chunk K T c t hK (List.mem_range.mp ht), dot_inv_bijectionvector, pow_mul]

theorem alphaRow_eq_chunk (c : Ctx) (tt : Nat) (A0 A : AlphaCube) (hK : 0 < c.K)
    (hA : decode_draw c tt A0 = .ok A) (i t : Nat) (hi : i < c.N) (ht : t < c.T) :
    alphaRow A c.K i t = subvec (inv_bijectionvector (c.K * c.T)
      (c.output.trajectories.get i tt)) (t * c.K) ((t + 1) * c.K - 1) := by
  rw [decode_draw_eq c tt A0 hK] at hA
  injection hA with hA
  subst hA
  rw [subvec_chunk c.K c.T _ t hK ht]
  unfold alphaRow
  apply List.ext_getElem?
  intro k
  by_cases hk : k < c.K
  · rw [List.getElem?_map, List.getElem?_range hk]
    simp only [Option.map_some', hi, ht, hk, and_self, if_true, drawAlphas]
    rw [subvec_chunk c.K c.T _ t hK ht, List.getD_eq_getElem?_getD]
    simp only [inv_bijectionvector, List.getElem?_map, List.getElem?_range hk, Option.map_some',
      Option.getD_some]
  · rw [List.getElem?_eq_none (by rw [List.length_map, List.length_range]; omega),
      List.getElem?_eq_none (by rw [inv_bijectionvector_length]; omega)]

/-! ## The collapsed matrix -/

theorem block_disjoint (Jt b b' j col : Nat) (hj : j < Jt) (h1 : b' * Jt ≤ b * Jt + j)
    (h2 : b * Jt + j < (b' + 1) * Jt) (hcol : col = b * Jt + j) : b' = b := by
  have h3 : b' * Jt < (b + 1) * Jt := by
    have : (b + 1) * Jt = b * Jt + Jt := by ring
    omega
  have h4 : b * Jt < (b' + 1) * Jt := by omega
  have h5 := Nat.lt_of_mul_lt_mul_right h3
  have h6 := Nat.lt_of_mul_lt_mul_right h4
  omega

theorem collapse_inner_other (i Jt : Nat) (b : Nat → Nat) (r : Nat → List Dbl)
    (M : Nat → Nat → Dbl) (T i' col : Nat) (hi : i' ≠ i) :
    ((List.range T).foldl (fun M t => setBlock M i (b t) Jt (r t)) M) i' col = M i' col := by
  induction T with
  | zero => rfl
  | succ T ih =>
    rw [List.range_succ, List.foldl_append]
    simp only [List.foldl_cons, List.foldl_nil, setBlock]
    rw [if_neg (fun h => hi h.1), ih]

theorem collapse_inner_last (i Jt : Nat) (b : Nat → Nat) (r : Nat → List Dbl)
    (M : Nat → Nat → Dbl) (T t j : Nat) (ht : t < T) (hj : j < Jt)
    (hlast : ∀ t', t < t' → t' < T → b t' ≠ b t) :
    ((List.range T).foldl (fun M t => setBlock M i (b t) Jt (r t)) M) i (b t * Jt + j)
      = (r t).getD j 0 := by
  induction T with
  | zero => exact absurd ht (Nat.not_lt_zero _)
  | succ T ih =>
    rw [List.range_succ, List.foldl_append]
    simp only [List.foldl_cons, List.foldl_nil, setBlock]
    rcases Nat.lt_succ_iff_lt_or_eq.mp ht with h1 | h1
    · rw [if_neg, ih h1 (fun t' h2 h3 => hlast t' h2 (by omega))]
      rintro ⟨_, h2, h3⟩
      exact hlast T h1 (Nat.lt_succ_self _) (block_disjoint Jt (b t) (b T) j _ hj h2 h3 rfl)
    · subst h1
      have h2 : (b t + 1) * Jt = b t * Jt + Jt := by ring
      rw [if_pos ⟨trivial, by omega, by omega⟩, Nat.add_sub_cancel_left]

theorem collapse_last (c : Ctx) (X : Cube Dbl) (init : Nat → Nat → Dbl) (i t j : Nat)
    (hi : i < c.N) (ht : t < c.T) (hj : j < c.Jt)
    (hlast : ∀ t', t < t' → t' < c.T → blockOf c i t' ≠ blockOf c i t) :
    collapse c X init i (blockOf c i t * c.Jt + j) = ((X.slice t).row i).getD j 0 := by
  unfold collapse
  generalize c.N = N at hi
  induction N with
  | zero => exact absurd hi (Nat.not_lt_zero _)
  | succ N ih =>
    rw [List.range_succ, List.foldl_append]
    simp only [List.foldl_cons, List.foldl_nil]
    rcases Nat.lt_succ_iff_lt_or_eq.mp hi with h1 | h1
    · rw [collapse_inner_other N c.Jt (blockOf c N) _ _ c.T i _ (by omega)]
      exact ih h1
    · subst h1
      exact collapse_inner_last i c.Jt (blockOf c i) (fun t => (X.slice t).row i) _ c.T t j ht hj
        hlast

theorem rowIsPermutation_mem (c : Ctx) (i : Nat) (h : rowIsPermutation c i) (x : Nat) :
    (∃ t, t < c.T ∧ c.test_order.get (c.Test_versions.getD i 0 - 1) t = x) ↔
      1 ≤ x ∧ x ≤ c.T := by
  have h1 := h.mem_iff (a := x)
  simp only [List.mem_map, List.mem_range] at h1
  rw [h1]
  constructor
  · rintro ⟨t, ht, rfl⟩; omega
  · rintro ⟨h2, h3⟩; exact ⟨x - 1, by omega, by omega⟩

theorem rowIsPermutation_inj (c : Ctx) (i : Nat) (h : rowIsPermutation c i) (t t' : Nat)
    (ht : t < c.T) (ht' : t' < c.T) (hb : blockOf c i t = blockOf c i t') : t = t' := by
  have h1 : ((List.range c.T).map (fun t => t + 1)).Nodup :=
    (List.nodup_range c.T).map (fun a b hab => by simpa using hab)
  have h2 := (h.nodup_iff).mpr h1
  have h3 := (rowIsPermutation_mem c i h _).mp ⟨t, ht, rfl⟩
  have h4 := (rowIsPermutation_mem c i h _).mp ⟨t', ht', rfl⟩
  have h5 : c.test_order.get (c.Test_versions.getD i 0 - 1) t
      = c.test_order.get (c.Test_versions.getD i 0 - 1) t' := by
    unfold blockOf at hb
    omega
  exact List.inj_on_of_nodup_map h2 (List.mem_range.mpr ht) (List.mem_range.mpr ht') h5

theorem rowIsPermutation_once (c : Ctx) (i : Nat) (h : rowIsPermutation c i) (col : Nat)
    (hcol : col < c.Jt * c.T) :
    ∃! t, t < c.T ∧ blockOf c i t * c.Jt ≤ col ∧ col < (blockOf c i t + 1) * c.Jt := by
  have hJ : 0 < c.Jt := by
    rcases Nat.eq_zero_or_pos c.Jt with h0 | h0
    · rw [h0, Nat.zero_mul] at hcol; exact absurd hcol (Nat.not_lt_zero _)
    · exact h0
  have hq : col / c.Jt < c.T := Nat.div_lt_of_lt_mul hcol
  have hdm := Nat.div_add_mod col c.Jt
  have hm := Nat.mod_lt col hJ
  generalize col / c.Jt = q at hq hdm
  generalize col % c.Jt = m at hdm hm
  obtain ⟨t, ht, hv⟩ := (rowIsPermutation_mem c i h (q + 1)).mpr ⟨by omega, by omega⟩
  have hb : blockOf c i t = q := by unfold blockOf; omega
  have e1 : (q + 1) * c.Jt = c.Jt * q + c.Jt := by ring
  have e2 : q * c.Jt = c.Jt * q := by ring
  refine ⟨t, ⟨ht, by rw [hb]; omega, by rw [hb]; omega⟩, ?_⟩
  rintro t' ⟨ht', h1, h2⟩
  apply rowIsPermutation_inj c i h t' t ht' ht
  rw [hb]
  have h3 : blockOf c i t' * c.Jt < (q + 1) * c.Jt := by omega
  have h4 : q * c.Jt < (blockOf c i t' + 1) * c.Jt := by omega
  have h5 := Nat.lt_of_mul_lt_mul_right h3
  have h6 := Nat.lt_of_mul_lt_mul_right h4
  omega

theorem drawStep_loop (c : Ctx) (model : String) (hmodel : model ∈ modelNames) (hK : 0 < c.K)
    (hN : 0 < c.N) :
    ∃ carry, (List.range c.n_its).foldlM (drawStep c model) (Carry.init c) = .ok carry ∧
      LoopFacts c model carry := by
  simp only [modelNames, List.mem_cons, List.mem_singleton, List.not_mem_nil, or_false] at hmodel
  rcases hmodel with m | m | m | m | m | m <;> subst m
  · exact draws_loop_facts c _ (DINA_HO_draw c)
      (fun carry tt ha => DINA_HO_draw_facts c carry tt hK hN ha)
  · exact draws_loop_facts c _ (DINA_HO_RT_sep_draw c (c.h.J_incidence_cube c.test_order c.Qs))
      (fun carry tt ha => DINA_HO_RT_sep_draw_facts c carry tt hK hN ha)
  · exact draws_loop_facts c _ (DINA_HO_RT_joint_draw c (c.h.J_incidence_cube c.test_order c.Qs))
      (fun carry tt ha => DINA_HO_RT_joint_draw_facts c carry tt hK hN ha)
  · exact draws_loop_facts c _ (rRUM_indept_draw c)
      (fun carry tt ha => rRUM_indept_draw_facts c carry tt hK hN ha)
  · exact draws_loop_facts c _ (NIDA_indept_draw c)
      (fun carry tt ha => NIDA_indept_draw_facts c carry tt hK hN ha)
  · exact draws_loop_facts c _ (DINA_FOHM_draw c)
      (fun carry tt ha => DINA_FOHM_draw_facts c carry tt hK hN ha)

/-! ## Two runs that differ in the simulated data -/

theorem foldl_rel {σ α : Type} (R : σ → σ → Prop) (F G : σ → α → σ) (l : List α)
    (hstep : ∀ s t x, x ∈ l → R s t → R (F s x) (G t x)) (s t : σ) (h0 : R s t) :
    R (l.foldl F s) (l.foldl G t) := by
  induction l generalizing s t with
  | nil => exact h0
  | cons a l ih =>
    simp only [List.foldl_cons]
    exact ih (fun s t x hx h => hstep s t x (List.mem_cons_of_mem _ hx) h) _ _
      (hstep s t a (List.mem_cons_self _ _) h0)

theorem foldlM_rel {σ α : Type} (R : σ → σ → Prop) (f g : σ → α → Except Failure σ)
    (hstep : ∀ s t x, R s t → ∃ s1 t1, f s x = .ok s1 ∧ g t x = .ok t1 ∧ R s1 t1)
    (l : List α) (s t : σ) (h0 : R s t) :
    ∃ s1 t1, l.foldlM f s = .ok s1 ∧ l.foldlM g t = .ok t1 ∧ R s1 t1 := by
  induction l generalizing s t with
  | nil => exact ⟨s, t, rfl, rfl, h0⟩
  | cons a l ih =>
    obtain ⟨s1, t1, h1, h2, h3⟩ := hstep s t a h0
    obtain ⟨s2, t2, h4, h5, h6⟩ := ih s1 t1 h3
    refine ⟨s2, t2, ?_, ?_, h6⟩
    · rw [List.foldlM_cons, h1]; exact h4
    · rw [List.foldlM_cons, h2]; exact h5

theorem AccRel_joint (a b : Acc) (x y : Dbl) (Y1 L1 Y2 L2 S1 T1 S2 T2 : Nat → Nat → Dbl)
    (h : AccRel a b) (hx : x = y) :
    AccRel
      (Acc.mk a.tran a.response a.time (a.joint + x) a.G_it Y1 L1 S1 T1)
      (Acc.mk b.tran b.response b.time (b.joint + y) b.G_it Y2 L2 S2 T2) :=
  ⟨h.tran, h.response, h.time, by rw [h.joint, hx], h.G_it⟩

theorem CarryRel_step (s t : Carry) (hr : CarryRel s t) (A : AlphaCube) (a b : Acc)
    (hab : AccRel a b) (S1 T1 S2 T2 : Nat → Nat → Dbl)
    (m1 m2 r1 r2 : List Dbl) (o1 o2 : Mat Dbl) :
    CarryRel
      (Carry.mk A a.G_it
        (s.draws ++ [DrawOut.mk a.tran NA_REAL a.response a.joint S1 T1 m1 o1 r1]))
      (Carry.mk A b.G_it
        (t.draws ++ [DrawOut.mk b.tran NA_REAL b.response b.joint S2 T2 m2 o2 r2])) := by
  refine ⟨rfl, hab.G_it, ?_⟩
  simp only [List.map_append, hr.core, List.map_cons, List.map_nil, DrawOut.core, hab.tran,
    hab.response, hab.joint]

theorem CarryRel_step_RT (s t : Carry) (hr : CarryRel s t) (A : AlphaCube) (a b : Acc)
    (hab : AccRel a b) (S1 T1 S2 T2 : Nat → Nat → Dbl)
    (m1 m2 r1 r2 : List Dbl) (o1 o2 : Mat Dbl) :
    CarryRel
      (Carry.mk A a.G_it
        (s.draws ++ [DrawOut.mk a.tran a.time a.response a.joint S1 T1 m1 o1 r1]))
      (Carry.mk A b.G_it
        (t.draws ++ [DrawOut.mk b.tran b.time b.response b.joint S2 T2 m2 o2 r2])) := by
  refine ⟨rfl, hab.G_it, ?_⟩
  simp only [List.map_append, hr.core, List.map_cons, List.map_nil, DrawOut.core, hab.tran,
    hab.response, hab.joint, hab.time]

theorem DINA_HO_draw_rel (c : Ctx) (h' : Helpers)
    (hh : ∃ s1 s2 s3 s4, h' = withSimulators c.h s1 s2 s3 s4) (s t : Carry) (tt : Nat)
    (hK : 0 < c.K) (hN : 0 < c.N) (hr : CarryRel s t) :
    ∃ s1 t1, DINA_HO_draw c s tt = .ok s1 ∧
      DINA_HO_draw (c.withHelpers h') t tt = .ok t1 ∧ CarryRel s1 t1 := by
  obtain ⟨s1, s2, s3, s4, rfl⟩ := hh
  have hK' : 0 < (c.withHelpers (withSimulators c.h s1 s2 s3 s4)).K := hK
  have hN' : 0 < (c.withHelpers (withSimulators c.h s1 s2 s3 s4)).N := hN
  simp only [DINA_HO_draw, decode_draw_eq _ tt _ hK, decode_draw_eq _ tt _ hK',
    arma_mean_dim0_ok _ _ _ hN, arma_mean_dim0_ok _ _ _ hN', bind, Except.bind, pure,
    Except.pure, hr.alphas]
  simp only [Ctx.withHelpers]
  refine ⟨_, _, rfl, rfl, ?_⟩
  apply CarryRel_step s t hr
  apply foldl_rel AccRel
  · intro a b i _ hab
    apply AccRel_joint
    · apply foldl_rel AccRel
      · intro a b t _ hab
        refine ⟨?_, ?_, ?_, ?_, ?_⟩ <;> dsimp only <;> (try split) <;>
          (try simp only [hab.tran, hab.response, hab.time, hab.joint, hab.G_it]) <;> rfl
      · exact hab
    · rfl
  · exact ⟨rfl, rfl, rfl, rfl, hr.G_it⟩

theorem DINA_HO_RT_sep_draw_rel (c : Ctx) (h' : Helpers) (J : Cube Dbl)
    (hh : ∃ s1 s2 s3 s4, h' = withSimulators c.h s1 s2 s3 s4) (s t : Carry) (tt : Nat)
    (hK : 0 < c.K) (hN : 0 < c.N) (hr : CarryRel s t) :
    ∃ s1 t1, DINA_HO_RT_sep_draw c J s tt = .ok s1 ∧
      DINA_HO_RT_sep_draw (c.withHelpers h') J t tt = .ok t1 ∧ CarryRel s1 t1 := by
  obtain ⟨s1, s2, s3, s4, rfl⟩ := hh
  have hK' : 0 < (c.withHelpers (withSimulators c.h s1 s2 s3 s4)).K := hK
  have hN' : 0 < (c.withHelpers (withSimulators c.h s1 s2 s3 s4)).N := hN
  simp only [DINA_HO_RT_sep_draw, decode_draw_eq _ tt _ hK, decode_draw_eq _ tt _ hK',
    arma_mean_dim0_ok _ _ _ hN, arma_mean_dim0_ok _ _ _ hN', bind, Except.bind, pure,
    Except.pure, hr.alphas]
  simp only [Ctx.withHelpers]
  refine ⟨_, _, rfl, rfl, ?_⟩
  apply CarryRel_step_RT s t hr
  apply foldl_rel AccRel
  · intro a b i _ hab
    apply AccRel_joint
    · apply foldl_rel AccRel
      · intro a b t _ hab
        refine ⟨?_, ?_, ?_, ?_, ?_⟩ <;> dsimp only <;> (try split) <;>
          (try simp only [hab.tran, hab.response, hab.time, hab.joint, hab.G_it]) <;> rfl
      · exact hab
    · rfl
  · exact ⟨rfl, rfl, rfl, rfl, hr.G_it⟩

theorem DINA_HO_RT_joint_draw_rel (c : Ctx) (h' : Helpers) (J : Cube Dbl)
    (hh : ∃ s1 s2 s3 s4, h' = withSimulators c.h s1 s2 s3 s4) (s t : Carry) (tt : Nat)
    (hK : 0 < c.K) (hN : 0 < c.N) (hr : CarryRel s t) :
    ∃ s1 t1, DINA_HO_RT_joint_draw c J s tt = .ok s1 ∧
      DINA_HO_RT_joint_draw (c.withHelpers h') J t tt = .ok t1 ∧ CarryRel s1 t1 := by
  obtain ⟨s1, s2, s3, s4, rfl⟩ := hh
  have hK' : 0 < (c.withHelpers (withSimulators c.h s1 s2 s3 s4)).K := hK
  have hN' : 0 < (c.withHelpers (withSimulators c.h s1 s2 s3 s4)).N := hN
  simp only [DINA_HO_RT_joint_draw, decode_draw_eq _ tt _ hK, decode_draw_eq _ tt _ hK',
    arma_mean_dim0_ok _ _ _ hN, arma_mean_dim0_ok _ _ _ hN', bind, Except.bind, pure,
    Except.pure, hr.alphas]
  simp only [Ctx.withHelpers]
  refine ⟨_, _, rfl, rfl, ?_⟩
  apply CarryRel_step_RT s t hr
  apply foldl_rel AccRel
  · intro a b i _ hab
    apply AccRel_joint
    · apply foldl_rel AccRel
      · intro a b t _ hab
        refine ⟨?_, ?_, ?_, ?_, ?_⟩ <;> dsimp only <;> (try split) <;>
          (try simp only [hab.tran, hab.response, hab.time, hab.joint, hab.G_it]) <;> rfl
      · exact hab
    · rfl
  · exact ⟨rfl, rfl, rfl, rfl, hr.G_it⟩

theorem rRUM_indept_draw_rel (c : Ctx) (h' : Helpers)
    (hh : ∃ s1 s2 s3 s4, h' = withSimulators c.h s1 s2 s3 s4) (s t : Carry) (tt : Nat)
    (hK : 0 < c.K) (hN : 0 < c.N) (hr : CarryRel s t) :
    ∃ s1 t1, rRUM_indept_draw c s tt = .ok s1 ∧
      rRUM_indept_draw (c.withHelpers h') t tt = .ok t1 ∧ CarryRel s1 t1 := by
  obtain ⟨s1, s2, s3, s4, rfl⟩ := hh
  have hK' : 0 < (c.withHelpers (withSimulators c.h s1 s2 s3 s4)).K := hK
  have hN' : 0 < (c.withHelpers (withSimulators c.h s1 s2 s3 s4)).N := hN
  simp only [rRUM_indept_draw, decode_draw_eq _ tt _ hK, decode_draw_eq _ tt _ hK',
    arma_mean_dim0_ok _ _ _ hN, arma_mean_dim0_ok _ _ _ hN', bind, Except.bind, pure,
    Except.pure, hr.alphas]
  simp only [Ctx.withHelpers]
  refine ⟨_, _, rfl, rfl, ?_⟩
  apply CarryRel_step s t hr
  apply foldl_rel AccRel
  · intro a b i _ hab
    apply AccRel_joint
    · apply foldl_rel AccRel
      · intro a b t _ hab
        refine ⟨?_, ?_, ?_, ?_, ?_⟩ <;> dsimp only <;> (try split) <;>
          (try simp only [hab.tran, hab.response, hab.time, hab.joint, hab.G_it]) <;> rfl
      · exact hab
    · rfl
  · exact ⟨rfl, rfl, rfl, rfl, hr.G_it⟩

theorem NIDA_indept_draw_rel (c : Ctx) (h' : Helpers)
    (hh : ∃ s1 s2 s3 s4, h' = withSimulators c.h s1 s2 s3 s4) (s t : Carry) (tt : Nat)
    (hK : 0 < c.K) (hN : 0 < c.N) (hr : CarryRel s t) :
    ∃ s1 t1, NIDA_indept_draw c s tt = .ok s1 ∧
      NIDA_indept_draw (c.withHelpers h') t tt = .ok t1 ∧ CarryRel s1 t1 := by
  obtain ⟨s1, s2, s3, s4, rfl⟩ := hh
  have hK' : 0 < (c.withHelpers (withSimulators c.h s1 s2 s3 s4)).K := hK
  have hN' : 0 < (c.withHelpers (withSimulators c.h s1 s2 s3 s4)).N := hN
  simp only [NIDA_indept_draw, decode_draw_eq _ tt _ hK, decode_draw_eq _ tt _ hK',
    arma_mean_dim0_ok _ _ _ hN, arma_mean_dim0_ok _ _ _ hN', bind, Except.bind, pure,
    Except.pure, hr.alphas]
  simp only [Ctx.withHelpers]
  refine ⟨_, _, rfl, rfl, ?_⟩
  apply CarryRel_step s t hr
  apply foldl_rel AccRel
  · intro a b i _ hab
    apply AccRel_joint
    · apply foldl_rel AccRel
      · intro a b t _ hab
        refine ⟨?_, ?_, ?_, ?_, ?_⟩ <;> dsimp only <;> (try split) <;>
          (try simp only [hab.tran, hab.response, hab.time, hab.joint, hab.G_it]) <;> rfl
      · exact hab
    · rfl
  · exact ⟨rfl, rfl, rfl, rfl, hr.G_it⟩

theorem DINA_FOHM_draw_rel (c : Ctx) (h' : Helpers)
    (hh : ∃ s1 s2 s3 s4, h' = withSimulators c.h s1 s2 s3 s4) (s t : Carry) (tt : Nat)
    (hK : 0 < c.K) (hN : 0 < c.N) (hr : CarryRel s t) :
    ∃ s1 t1, DINA_FOHM_draw c s tt = .ok s1 ∧
      DINA_FOHM_draw (c.withHelpers h') t tt = .ok t1 ∧ CarryRel s1 t1 := by
  obtain ⟨s1, s2, s3, s4, rfl⟩ := hh
  have hK' : 0 < (c.withHelpers (withSimulators c.h s1 s2 s3 s4)).K := hK
  have hN' : 0 < (c.withHelpers (withSimulators c.h s1 s2 s3 s4)).N := hN
  simp only [DINA_FOHM_draw, decode_draw_eq _ tt _ hK, decode_draw_eq _ tt _ hK',
    arma_mean_dim0_ok _ _ _ hN, arma_mean_dim0_ok _ _ _ hN', bind, Except.bind, pure,
    Except.pure, hr.alphas]
  simp only [Ctx.withHelpers]
  refine ⟨_, _, rfl, rfl, ?_⟩
  apply CarryRel_step s t hr
  apply foldl_rel AccRel
  · intro a b i _ hab
    apply AccRel_joint
    · apply foldl_rel AccRel
      · intro a b t _ hab
        refine ⟨?_, ?_, ?_, ?_, ?_⟩ <;> dsimp only <;> (try split) <;>
          (try simp only [hab.tran, hab.response, hab.time, hab.joint, hab.G_it]) <;> rfl
      · exact hab
    · rfl
  · exact ⟨rfl, rfl, rfl, rfl, hr.G_it⟩

theorem drawStep_rel (c : Ctx) (h' : Helpers) (model : String) (hmodel : model ∈ modelNames)
    (hh : ∃ s1 s2 s3 s4, h' = withSimulators c.h s1 s2 s3 s4) (s t : Carry) (tt : Nat)
    (hK : 0 < c.K) (hN : 0 < c.N) (hr : CarryRel s t) :
    ∃ s1 t1, drawStep c model s tt = .ok s1 ∧
      drawStep (c.withHelpers h') model t tt = .ok t1 ∧ CarryRel s1 t1 := by
  simp only [modelNames, List.mem_cons, List.mem_singleton, List.not_mem_nil, or_false] at hmodel
  rcases hmodel with m | m | m | m | m | m <;> subst m
  · exact DINA_HO_draw_rel c h' hh s t tt hK hN hr
  · obtain ⟨s1, s2, s3, s4, rfl⟩ := hh
    exact DINA_HO_RT_sep_draw_rel c _ _ ⟨s1, s2, s3, s4, rfl⟩ s t tt hK hN hr
  · obtain ⟨s1, s2, s3, s4, rfl⟩ := hh
    exact DINA_HO_RT_joint_draw_rel c _ _ ⟨s1, s2, s3, s4, rfl⟩ s t tt hK hN hr
  · exact rRUM_indept_draw_rel c h' hh s t tt hK hN hr
  · exact NIDA_indept_draw_rel c h' hh s t tt hK hN hr
  · exact DINA_FOHM_draw_rel c h' hh s t tt hK hN hr

theorem setup_withSimulators (h : Helpers) (u : Uninit) (o : Output)
    (Response_list Q_list : List (Mat Dbl)) (test_order : Mat Nat) (Test_versions : List Nat)
    (Q_examinee : Nat → Mat Dbl) (Latency_list : Option (List (Mat Dbl))) (G_version : Int)
    (R : Mat Dbl) (h' : Helpers) (hh : ∃ s1 s2 s3 s4, h' = withSimulators h s1 s2 s3 s4)
    (c : Ctx)
    (hc : Learning_fit_setup h u o Response_list Q_list test_order Test_versions Q_examinee
      Latency_list G_version R = .ok c) :
    c.h = h ∧ Learning_fit_setup h' u o Response_list Q_list test_order Test_versions
      Q_examinee Latency_list G_version R = .ok (c.withHelpers h') := by
  obtain ⟨s1, s2, s3, s4, rfl⟩ := hh
  unfold Learning_fit_setup at hc ⊢
  cases h1 : arma_mean_dim1 o.pis with
  | error e =>
    simp only [h1, bind, Except.bind] at hc
    cases hc
  | ok p =>
    cases h2 : Alphas_est_MAP Test_versions.length (Q_list.getD 0 emptyMat).n_cols
        test_order.n_rows o.trajectories with
    | error e =>
      simp only [h1, h2, bind, Except.bind] at hc
      cases hc
    | ok A =>
      simp only [h1, h2, bind, Except.bind, pure, Except.pure] at hc ⊢
      injection hc with hc
      subst hc
      exact ⟨rfl, rfl⟩

theorem dhatPass_withHelpers (c : Ctx) (h' : Helpers)
    (hh : ∃ s1 s2 s3 s4, h' = withSimulators c.h s1 s2 s3 s4) (model : String) (G : List Dbl) :
    dhatPass (c.withHelpers h') model G = dhatPass c model G := by
  obtain ⟨s1, s2, s3, s4, rfl⟩ := hh
  rfl

theorem core_maps (draws draws' : List DrawOut)
    (h : draws.map DrawOut.core = draws'.map DrawOut.core) :
    draws.map (fun d => d.tran) = draws'.map (fun d => d.tran) ∧
    draws.map (fun d => d.time) = draws'.map (fun d => d.time) ∧
    draws.map (fun d => d.response) = draws'.map (fun d => d.response) ∧
    draws.map (fun d => d.joint) = draws'.map (fun d => d.joint) := by
  have h1 := congrArg (List.map (fun x : Dbl × Dbl × Dbl × Dbl => x.1)) h
  have h2 := congrArg (List.map (fun x : Dbl × Dbl × Dbl × Dbl => x.2.1)) h
  have h3 := congrArg (List.map (fun x : Dbl × Dbl × Dbl × Dbl => x.2.2.1)) h
  have h4 := congrArg (List.map (fun x : Dbl × Dbl × Dbl × Dbl => x.2.2.2)) h
  simp only [List.map_map] at h1 h2 h3 h4
  exact ⟨h1, h2, h3, h4⟩

theorem RowsFrom_congr (rt : Bool) (D D' : DICTable) (draws draws' : List DrawOut)
    (acc acc' : Acc) (h1 : RowsFrom rt D draws acc) (h2 : RowsFrom rt D' draws' acc')
    (hcore : draws.map DrawOut.core = draws'.map DrawOut.core) (hacc : acc = acc') :
    ∀ r col, r < 2 → col < 5 → D r col = D' r col := by
  obtain ⟨e1, e2, e3, e4⟩ := core_maps draws draws' hcore
  subst hacc
  have c00 : D 0 0 = D' 0 0 := by rw [h1.bar_tran, h2.bar_tran, e1]
  have c01 : D 0 1 = D' 0 1 := by rw [h1.bar_time, h2.bar_time, e2]
  have c02 : D 0 2 = D' 0 2 := by rw [h1.bar_response, h2.bar_response, e3]
  have c03 : D 0 3 = D' 0 3 := by rw [h1.bar_joint, h2.bar_joint, e4]
  have c04 : D 0 4 = D' 0 4 := by rw [h1.bar_total, h2.bar_total, c00, c01, c02, c03]
  have c10 : D 1 0 = D' 1 0 := by rw [h1.hat_tran, h2.hat_tran]
  have c11 : D 1 1 = D' 1 1 := by rw [h1.hat_time, h2.hat_time]
  have c12 : D 1 2 = D' 1 2 := by rw [h1.hat_response, h2.hat_response]
  have c13 : D 1 3 = D' 1 3 := by rw [h1.hat_joint, h2.hat_joint]
  have c14 : D 1 4 = D' 1 4 := by rw [h1.hat_total, h2.hat_total, c10, c11, c12, c13]
  intro r col hr hcol
  interval_cases r <;> interval_cases col <;> assumption

theorem lastRow_congr (D D' : DICTable) (h : ∀ r col, r < 2 → col < 5 → D r col = D' r col) :
    ∀ r col, r < 3 → col < 5 → lastRow D r col = lastRow D' r col := by
  intro r col hr hcol
  unfold lastRow
  by_cases h2 : r = 2
  · simp only [h2, if_true, h 0 col (by decide) hcol, h 1 col (by decide) hcol]
  · simp only [h2, if_false]
    exact h r col (by omega) hcol

/-! ## Sums with terms that are not finite -/

theorem foldl_add_isFinite {α : Type} (l : List α) (f : α → Dbl) (s : Dbl) :
    (l.foldl (fun s x => s + f x) s).isFinite = true ↔
      s.isFinite = true ∧ ∀ x ∈ l, (f x).isFinite = true := by
  induction l generalizing s with
  | nil => simp
  | cons a l ih =>
    rw [List.foldl_cons, ih, Dbl.isFinite_add]
    simp only [List.mem_cons, forall_eq_or_imp]
    tauto

theorem pairSum_isFinite (N T : Nat) (term : Nat → Nat → Dbl) :
    (pairSum N T term).isFinite = true ↔
      ∀ i t, i < N → t < T → (term i t).isFinite = true := by
  unfold pairSum
  have key : ∀ s : Dbl, ((List.range N).foldl (fun s i =>
      (List.range T).foldl (fun s t => s + term i t) s) s).isFinite = true ↔
      s.isFinite = true ∧ ∀ i t, i < N → t < T → (term i t).isFinite = true := by
    induction N with
    | zero => intro s; simp
    | succ N ih =>
      intro s
      rw [List.range_succ, List.foldl_append]
      simp only [List.foldl_cons, List.foldl_nil]
      rw [foldl_add_isFinite, ih]
      simp only [List.mem_range]
      constructor
      · rintro ⟨⟨h1, h2⟩, h3⟩
        refine ⟨h1, fun i t hi ht => ?_⟩
        rcases Nat.lt_succ_iff_lt_or_eq.mp hi with h | h
        · exact h2 i t h ht
        · rw [h]; exact h3 t ht
      · rintro ⟨h1, h2⟩
        exact ⟨⟨h1, fun i t hi ht => h2 i t (by omega) ht⟩, fun t ht => h2 N t (by omega) ht⟩
  rw [key]
  simp [Dbl.zero_eq, Dbl.isFinite]

theorem DrawFacts_comp (c : Ctx) (model : String) (tt : Nat) (d : DrawOut)
    (h : DrawFacts c model tt d)
    (hG : model ∈ rtModels → c.G_version = 1 ∨ c.G_version = 2 ∨ c.G_version = 3)
    (col : Nat) (hcol : col < 4) : d.comp col = drawSum c model tt col := by
  interval_cases col
  · simp only [DrawOut.comp, drawSum, termCount, drawTerm, if_true, h.tran]
    simp
  · by_cases hrt : model ∈ rtModels
    · simp [DrawOut.comp, drawSum, termCount, drawTerm, hrt, h.time hrt (hG hrt)]
    · simp [DrawOut.comp, drawSum, hrt, h.time_NA hrt]
  · simp [DrawOut.comp, drawSum, termCount, drawTerm, h.response]
  · simp [DrawOut.comp, drawSum, termCount, drawTerm, h.joint]

theorem dhatPass_comp (c : Ctx) (model : String) (G : List Dbl) (hmodel : model ∈ modelNames) :
    (dhatPass c model G).tran = hatSum c model G 0 ∧
    (if decide (model ∈ rtModels) = true then (dhatPass c model G).time else NA_REAL)
      = hatSum c model G 1 ∧
    (dhatPass c model G).response = hatSum c model G 2 ∧
    (dhatPass c model G).joint = hatSum c model G 3 := by
  refine ⟨?_, ?_, ?_, ?_⟩
  · simp [hatSum, termCount, hatTerm, dhatPass_tran c model G hmodel]
  · by_cases hrt : model ∈ rtModels
    · simp [hatSum, termCount, hatTerm, hrt, dhatPass_time c model G hrt]
    · simp [hatSum, hrt]
  · simp [hatSum, termCount, hatTerm, dhatPass_response c model G hmodel]
  · simp [hatSum, termCount, hatTerm, dhatPass_joint c model G hmodel]

/-- For one of the six models, on an output with at least one draw, one skill and one
subject: the cells of the four components in rows `D_bar` and `D(theta_bar)` of the
returned table are `-2` times the mean over the draws of the per-draw sums and `-2`
times the sums of the pass "get Dhat". -/
theorem Learning_fit_sums (h : Helpers) (u : Uninit) (o : Output) (model : String)
    (Response_list Q_list : List (Mat Dbl)) (test_order : Mat Nat) (Test_versions : List Nat)
    (Q_examinee : Nat → Mat Dbl) (Latency_list : Option (List (Mat Dbl))) (G_version : Int)
    (R : Mat Dbl) (n_its : Nat) (hn : 0 < n_its) (hd : o.HasDraws n_its)
    (hK : 0 < (Q_list.getD 0 emptyMat).n_cols) (hN : 0 < Test_versions.length)
    (hmodel : model ∈ modelNames)
    (hG : model ∈ rtModels → G_version = 1 ∨ G_version = 2 ∨ G_version = 3) :
    ∃ c res G,
      Learning_fit_setup h u o Response_list Q_list test_order Test_versions Q_examinee
        Latency_list G_version R = .ok c ∧
      Learning_fit h u o model Response_list Q_list test_order Test_versions Q_examinee
        Latency_list G_version R = .ok res ∧
      c.From h u o Q_list test_order Test_versions G_version ∧
      (∀ col, col < 4 →
        res.DIC 0 col = Dbl.fin (-2) * drawMean n_its (fun tt => drawSum c model tt col)) ∧
      (∀ col, col < 4 → res.DIC 1 col = Dbl.fin (-2) * hatSum c model G col) ∧
      (∀ col, res.DIC 2 col = Dbl.fin 2 * res.DIC 0 col - res.DIC 1 col) := by
  obtain ⟨c, carry, D, hc, hF, hcn, _, hL, hR, _, hres⟩ := Learning_fit_explicit h u o model
    Response_list Q_list test_order Test_versions Q_examinee Latency_list G_version R n_its hn
    hd hK hN hmodel
  have hG' : model ∈ rtModels → c.G_version = 1 ∨ c.G_version = 2 ∨ c.G_version = 3 := by
    rw [hF.G_version]; exact hG
  have hbar : ∀ col, col < 4 →
      D 0 col = Dbl.fin (-2) * meanOf (carry.draws.map (fun d => d.comp col)) := by
    intro col hcol
    interval_cases col
    · exact hR.bar_tran
    · exact hR.bar_time
    · exact hR.bar_response
    · exact hR.bar_joint
  obtain ⟨e0, e1, e2, e3⟩ := dhatPass_comp c model carry.G_it hmodel
  refine ⟨c, _, carry.G_it, hc, hres, hF, fun col hcol => ?_, fun col hcol => ?_, fun col => rfl⟩
  · show D 0 col = _
    rw [hbar col hcol, meanOf_draws carry.draws c.n_its _ _ (LoopFacts_map c model carry hL
      (fun d => d.comp col) (fun tt => drawSum c model tt col)
      (fun tt d _ hd => DrawFacts_comp c model tt d hd hG' col hcol)), hcn]
  · show D 1 col = _
    interval_cases col
    · rw [hR.hat_tran, e0]
    · rw [hR.hat_time, e1]
    · rw [hR.hat_response, e2]
    · rw [hR.hat_joint, e3]

/-! ## The claims on the loops of `Learning_fit` -/

/-- C11. For each of the six models, on an output with at least one draw, one skill
and one subject, `Learning_fit` returns a table whose Transition cells are formed
from exactly `T-1` transition terms per subject: the cell of row `D_bar` is `-2`
times the mean over the draws of the per-draw sum, and the cell of row
`D(theta_bar)` is `-2` times the sum of the pass "get Dhat", each sum running over
the subjects and over the pairs of consecutive time points `(t, t+1)` with
`0 <= t <= T-2` (no term at `t = T-1`).  With `T = 1` both cells are 0. -/
theorem C11_transition_terms (h : Helpers) (u : Uninit) (o : Output) (model : String)
    (Response_list Q_list : List (Mat Dbl)) (test_order : Mat Nat) (Test_versions : List Nat)
    (Q_examinee : Nat → Mat Dbl) (Latency_list : Option (List (Mat Dbl))) (G_version : Int)
    (R : Mat Dbl) (n_its : Nat) (hn : 0 < n_its) (hd : o.HasDraws n_its)
    (hK : 0 < (Q_list.getD 0 emptyMat).n_cols) (hN : 0 < Test_versions.length)
    (hmodel : model ∈ modelNames) :
    ∃ c res,
      Learning_fit_setup h u o Response_list Q_list test_order Test_versions Q_examinee
        Latency_list G_version R = .ok c ∧
      Learning_fit h u o model Response_list Q_list test_order Test_versions Q_examinee
        Latency_list G_version R = .ok res ∧
      res.DIC 0 0 = Dbl.fin (-2) * drawMean n_its (fun tt =>
        pairSum Test_versions.length (test_order.n_rows - 1) (tranTermDraw c model tt)) ∧
      res.DIC 1 0 = Dbl.fin (-2) *
        pairSum Test_versions.length (test_order.n_rows - 1) (tranTermHat c model) ∧
      (test_order.n_rows = 1 → res.DIC 0 0 = 0 ∧ res.DIC 1 0 = 0) := by
  obtain ⟨c, carry, D, hc, hF, hcn, _, hL, hR, _, hres⟩ := Learning_fit_explicit h u o model
    Response_list Q_list test_order Test_versions Q_examinee Latency_list G_version R n_its hn
    hd hK hN hmodel
  have h0 : (lastRow D) 0 0 = Dbl.fin (-2) * drawMean n_its (fun tt =>
      pairSum Test_versions.length (test_order.n_rows - 1) (tranTermDraw c model tt)) := by
    have hm := LoopFacts_map c model carry hL (fun d => d.tran)
      (fun tt => pairSum c.N (c.T - 1) (tranTermDraw c model tt)) (fun tt d _ hd => hd.tran)
    have := meanOf_draws carry.draws c.n_its _ _ hm
    rw [show lastRow D 0 0 = D 0 0 from rfl, hR.bar_tran, this, hcn, hF.N, hF.T]
  have h1 : (lastRow D) 1 0 = Dbl.fin (-2) *
      pairSum Test_versions.length (test_order.n_rows - 1) (tranTermHat c model) := by
    rw [show lastRow D 1 0 = D 1 0 from rfl, hR.hat_tran, dhatPass_tran c model _ hmodel, hF.N,
      hF.T]
  refine ⟨c, _, hc, hres, h0, h1, fun hT => ?_⟩
  constructor
  · show lastRow D 0 0 = 0
    rw [h0, hT]
    simp only [Nat.sub_self, pairSum_zero_cols, drawMean_zero n_its hn, Dbl.neg_two_mul_zero]
  · show lastRow D 1 0 = 0
    rw [h1, hT]
    simp only [Nat.sub_self, pairSum_zero_cols, Dbl.neg_two_mul_zero]

/-- Witness of C11 on a design with one subject, one skill, one draw and a single
time point, model DINA_FOHM: the table is returned and its two Transition cells
are 0. -/
theorem C11_transition_terms_witness :
    ∃ res, Learning_fit toyHelpers toyUninit toyOutput "DINA_FOHM" [oneByOne (Dbl.fin 1)]
        [oneByOne (Dbl.fin 1)] ⟨1, 1, fun _ _ => 1⟩ [1] (fun _ => oneByOne (Dbl.fin 1)) none 1
        (oneByOne (Dbl.fin 1)) = .ok res ∧ res.DIC 0 0 = 0 ∧ res.DIC 1 0 = 0 := by
  obtain ⟨_, res, _, h1, _, _, h2⟩ := C11_transition_terms toyHelpers toyUninit toyOutput
    "DINA_FOHM" [oneByOne (Dbl.fin 1)] [oneByOne (Dbl.fin 1)] ⟨1, 1, fun _ _ => 1⟩ [1]
    (fun _ => oneByOne (Dbl.fin 1)) none 1 (oneByOne (Dbl.fin 1)) 1 (by decide)
    toyOutput_hasDraws (by decide) (by decide) (by decide)
  exact ⟨res, h1, h2 rfl⟩

/-- C12. In the loop over the draws of each of the six models (at least one skill
and one subject), the record stored for draw `tt` is computed from the collapsed
matrix `collapse c X init`, `X` the response cube simulated in that iteration (and,
in the models with response times, the simulated latency cube): the matrix in
which, for every subject `i` and time `t`, the `Jt` entries of `X.slice(t).row(i)`
are assigned to columns `b*Jt .. (b+1)*Jt-1` of row `i`, `b` the block
`test_order(Test_versions(i)-1, t) - 1`.  The entries assigned at time `t` are
those of the final matrix when no later time point has the same block; when the row
of `test_order` of the subject's version is a permutation of `1..T` this is so for
every `t`, and every one of the `Jt*T` columns of row `i` lies in the block of
exactly one time point. -/
theorem C12_collapsed_placement (c : Ctx) (model : String) (hmodel : model ∈ modelNames)
    (hK : 0 < c.K) (hN : 0 < c.N) :
    (∃ carry, (List.range c.n_its).foldlM (drawStep c model) (Carry.init c) = .ok carry ∧
      ∀ tt, tt < c.n_its → ∃ d, carry.draws[tt]? = some d ∧
        d.item_mean_PP = colMeans c.N (c.Jt * c.T)
          (collapse c (simY c model tt) c.u.Y_sim_collapsed) ∧
        (model ∈ rtModels → d.RT_mean_PP = colMeans c.N (c.Jt * c.T)
          (collapse c (simL c tt) c.u.L_sim_collapsed))) ∧
    (∀ (X : Cube Dbl) (init : Nat → Nat → Dbl) (i t j : Nat), i < c.N → t < c.T → j < c.Jt →
      (∀ t', t < t' → t' < c.T → blockOf c i t' ≠ blockOf c i t) →
      collapse c X init i (blockOf c i t * c.Jt + j) = ((X.slice t).row i).getD j 0) ∧
    (∀ i, i < c.N → rowIsPermutation c i →
      (∀ (X : Cube Dbl) (init : Nat → Nat → Dbl) (t j : Nat), t < c.T → j < c.Jt →
        collapse c X init i (blockOf c i t * c.Jt + j) = ((X.slice t).row i).getD j 0) ∧
      (∀ col, col < c.Jt * c.T →
        ∃! t, t < c.T ∧ blockOf c i t * c.Jt ≤ col ∧ col < (blockOf c i t + 1) * c.Jt)) := by
  refine ⟨?_, fun X init i t j hi ht hj hl => collapse_last c X init i t j hi ht hj hl,
    fun i hi hp => ⟨fun X init t j ht hj => ?_, fun col hcol =>
      rowIsPermutation_once c i hp col hcol⟩⟩
  · obtain ⟨carry, h1, h2⟩ := drawStep_loop c model hmodel hK hN
    refine ⟨carry, h1, fun tt htt => ?_⟩
    obtain ⟨d, h3, h4⟩ := h2.draw tt htt
    exact ⟨d, h3, h4.item_mean, h4.RT_mean⟩
  · apply collapse_last c X init i t j hi ht hj
    intro t' h1 h2 h3
    have := rowIsPermutation_inj c i hp t' t h2 ht h3
    omega

/-- Witness of C12 on the small design (one subject with test version 1, whose row
of `test_order` is `1, 2`): column 1 of row 0 lies in the block of exactly one time
point, and the entry assigned at time 1 is found in the final matrix. -/
theorem C12_collapsed_placement_witness :
    (∃! t, t < toyCtx.T ∧ blockOf toyCtx 0 t * toyCtx.Jt ≤ 1 ∧
      1 < (blockOf toyCtx 0 t + 1) * toyCtx.Jt) ∧
    ∀ (X : Cube Dbl) (init : Nat → Nat → Dbl),
      collapse toyCtx X init 0 (blockOf toyCtx 0 1 * toyCtx.Jt + 0)
        = ((X.slice 1).row 0).getD 0 0 :=
  have h := (C12_collapsed_placement toyCtx "DINA_HO_RT_sep" (by decide) (by decide)
    (by decide)).2.2 0 (by decide) (List.Perm.refl _)
  ⟨h.2 1 (by decide), fun X init => h.1 X init 1 0 (by decide) (by decide)⟩

/-- C13 does not hold for rRUM_indept.  On the design with two draws (profile 1 in
the first draw, profile 0 in the second) and simulators that return the profile
they are given, the total scores stored by rRUM_indept for the first draw show the
uninitialised cube (7) and those stored for the second draw show the profile of the
first draw (1): the responses of a draw are simulated before its own profiles are
decoded.  The model NIDA_indept, on the same input, stores the profiles of the
draw itself (1 for the first draw, 0 for the second). -/
theorem C13_rRUM_simulates_from_stale_profiles :
    ppCubeAt (echoFit "rRUM_indept") "total_score_PP" 0 0 0 = some (Dbl.fin 7) ∧
    ppCubeAt (echoFit "rRUM_indept") "total_score_PP" 0 0 1 = some (Dbl.fin 1) ∧
    ppCubeAt (echoFit "NIDA_indept") "total_score_PP" 0 0 0 = some (Dbl.fin 1) ∧
    ppCubeAt (echoFit "NIDA_indept") "total_score_PP" 0 0 1 = some (Dbl.fin 0) := by
  decide!

/-- C14 does not hold for DINA_HO_RT_joint.  On every output with at least one draw,
one skill and one subject, the posterior predictive list returned for
DINA_HO_RT_joint has the three entries `item_mean_PP`, `item_OR_PP` and
`total_score_PP` only: neither `RT_mean_PP` nor `total_time_PP` is returned. -/
theorem C14_RT_joint_bundle_lacks_times (h : Helpers) (u : Uninit) (o : Output)
    (Response_list Q_list : List (Mat Dbl)) (test_order : Mat Nat) (Test_versions : List Nat)
    (Q_examinee : Nat → Mat Dbl) (Latency_list : Option (List (Mat Dbl))) (G_version : Int)
    (R : Mat Dbl) (n_its : Nat) (hn : 0 < n_its) (hd : o.HasDraws n_its)
    (hK : 0 < (Q_list.getD 0 emptyMat).n_cols) (hN : 0 < Test_versions.length) :
    ppNames (Learning_fit h u o "DINA_HO_RT_joint" Response_list Q_list test_order
      Test_versions Q_examinee Latency_list G_version R)
      = some ["item_mean_PP", "item_OR_PP", "total_score_PP"] := by
  obtain ⟨c, carry, D, _, _, _, _, _, _, _, hres⟩ := Learning_fit_explicit h u o
    "DINA_HO_RT_joint" Response_list Q_list test_order Test_versions Q_examinee Latency_list
    G_version R n_its hn hd hK hN (by decide)
  rw [hres]
  rfl

/-- Witness of C14 on the small design: the list returned for DINA_HO_RT_joint has
three entries, while the list returned for DINA_HO_RT_sep on the same input has
five. -/
theorem C14_RT_joint_bundle_lacks_times_witness :
    ppNames (toyFit "DINA_HO_RT_joint" 3) = some ["item_mean_PP", "item_OR_PP", "total_score_PP"] ∧
    ppNames (toyFit "DINA_HO_RT_sep" 3)
      = some ["item_mean_PP", "item_OR_PP", "RT_mean_PP", "total_score_PP", "total_time_PP"] :=
  ⟨C14_RT_joint_bundle_lacks_times toyHelpers toyUninit toyOutput
    [oneByOne (Dbl.fin 1), oneByOne (Dbl.fin 0)] [oneByOne (Dbl.fin 1), oneByOne (Dbl.fin 1)]
    toyOrder [1] (fun _ => oneByOne (Dbl.fin 1))
    (some [oneByOne (Dbl.fin 2), oneByOne (Dbl.fin 3)]) 3 (oneByOne (Dbl.fin 1)) 1 (by decide)
    toyOutput_hasDraws (by decide) (by decide), by decide!⟩

/-- C15 does not hold as stated.  On the design with two draws and the model
NIDA_indept, the entry of the returned `item_mean_PP` for item 0 is 1 in the column
of the first draw and 0 in the column of the second draw: the returned object
keeps the draw axis, and neither column holds the mean 1/2 over the two draws. -/
theorem C15_item_mean_counterexample :
    ppMatAt (echoFit "NIDA_indept") "item_mean_PP" 0 0 = some (Dbl.fin 1) ∧
    ppMatAt (echoFit "NIDA_indept") "item_mean_PP" 0 1 = some (Dbl.fin 0) ∧
    ppMatAt (echoFit "NIDA_indept") "item_mean_PP" 0 0 ≠ some (Dbl.fin (1 / 2)) ∧
    ppMatAt (echoFit "NIDA_indept") "item_mean_PP" 0 1 ≠ some (Dbl.fin (1 / 2)) := by
  decide!

/-- C15, amended.  For each of the six models, on an output with at least one draw,
one skill and one subject, the entry `item_mean_PP` of the returned list is a matrix
with one column per draw: its entry `(j, tt)`, for each of the `Jt*T` items `j` and
each draw `tt`, is the mean over the `N` subjects of column `j` of the collapsed
matrix of the responses simulated in the iteration of draw `tt`.  No mean over the
draws is taken. -/
theorem C15_item_mean_per_draw (h : Helpers) (u : Uninit) (o : Output) (model : String)
    (Response_list Q_list : List (Mat Dbl)) (test_order : Mat Nat) (Test_versions : List Nat)
    (Q_examinee : Nat → Mat Dbl) (Latency_list : Option (List (Mat Dbl))) (G_version : Int)
    (R : Mat Dbl) (n_its : Nat) (hn : 0 < n_its) (hd : o.HasDraws n_its)
    (hK : 0 < (Q_list.getD 0 emptyMat).n_cols) (hN : 0 < Test_versions.length)
    (hmodel : model ∈ modelNames) :
    ∃ c res M,
      Learning_fit_setup h u o Response_list Q_list test_order Test_versions Q_examinee
        Latency_list G_version R = .ok c ∧
      Learning_fit h u o model Response_list Q_list test_order Test_versions Q_examinee
        Latency_list G_version R = .ok res ∧
      res.PPs.lookup "item_mean_PP" = some (.matf M) ∧
      ∀ j tt, j < (Q_list.getD 0 emptyMat).n_rows * test_order.n_rows → tt < n_its →
        M j tt = meanOf ((List.range Test_versions.length).map (fun r =>
          collapse c (simY c model tt) u.Y_sim_collapsed r j)) := by
  obtain ⟨c, carry, D, hc, hF, hcn, _, hL, _, _, hres⟩ := Learning_fit_explicit h u o model
    Response_list Q_list test_order Test_versions Q_examinee Latency_list G_version R n_its hn
    hd hK hN hmodel
  refine ⟨c, _, item_mean_PP carry.draws, hc, hres, ?_, fun j tt hj htt => ?_⟩
  · show (ppList model carry.draws).lookup "item_mean_PP" = _
    unfold ppList PPs_noRT
    split <;> rfl
  · obtain ⟨d, h1, h2⟩ := hL.draw tt (by rw [hcn]; exact htt)
    rw [← hF.Jt, ← hF.T] at hj
    simp only [item_mean_PP, h1, h2.item_mean, colMeans, hF.u, ← hF.N]
    rw [List.getD_eq_getElem?_getD, List.getElem?_map, List.getElem?_range hj]
    rfl

/-- Witness of the amended C15 on the small design with model DINA_HO: the list has
an entry `item_mean_PP`, and its entry for item 0 and draw 0 is the mean over the
single subject of column 0 of the collapsed matrix of that draw. -/
theorem C15_item_mean_per_draw_witness :
    ∃ c res M, toySetup = .ok c ∧ toyFit "DINA_HO" 3 = .ok res ∧
      res.PPs.lookup "item_mean_PP" = some (.matf M) ∧
      M 0 0 = meanOf ((List.range 1).map (fun r =>
        collapse c (simY c "DINA_HO" 0) toyUninit.Y_sim_collapsed r 0)) := by
  obtain ⟨c, res, M, h0, h1, h2, h3⟩ := C15_item_mean_per_draw toyHelpers toyUninit toyOutput
    "DINA_HO" [oneByOne (Dbl.fin 1), oneByOne (Dbl.fin 0)]
    [oneByOne (Dbl.fin 1), oneByOne (Dbl.fin 1)] toyOrder [1] (fun _ => oneByOne (Dbl.fin 1))
    (some [oneByOne (Dbl.fin 2), oneByOne (Dbl.fin 3)]) 3 (oneByOne (Dbl.fin 1)) 1 (by decide)
    toyOutput_hasDraws (by decide) (by decide) (by decide)
  exact ⟨c, res, M, h0, h1, h2, h3 0 0 (by decide) (by decide)⟩

/-- C16. With `G_version = 3`, for DINA_HO_RT_sep and DINA_HO_RT_joint on an output
with at least one draw, one skill and one subject: the three `if (G_version == ...)`
statements of the per-draw pass leave in `G_it` the vector of `Jt` entries
`(t+1)/T`, whatever the subject, the profiles, the draw and the vector held before;
and the response-time sum of every draw is formed with this vector as the covariate
of subject `i` at time `t`, so that the Response_Time cell of row `D_bar` is `-2`
times the mean over the draws of these sums. -/
theorem C16_timeblock_covariate (h : Helpers) (u : Uninit) (o : Output) (model : String)
    (Response_list Q_list : List (Mat Dbl)) (test_order : Mat Nat) (Test_versions : List Nat)
    (Q_examinee : Nat → Mat Dbl) (Latency_list : Option (List (Mat Dbl)))
    (R : Mat Dbl) (n_its : Nat) (hn : 0 < n_its) (hd : o.HasDraws n_its)
    (hK : 0 < (Q_list.getD 0 emptyMat).n_cols) (hN : 0 < Test_versions.length)
    (hmodel : model ∈ rtModels) :
    ∃ c res,
      Learning_fit_setup h u o Response_list Q_list test_order Test_versions Q_examinee
        Latency_list 3 R = .ok c ∧
      Learning_fit h u o model Response_list Q_list test_order Test_versions Q_examinee
        Latency_list 3 R = .ok res ∧
      c.Jt = (Q_list.getD 0 emptyMat).n_rows ∧ c.T = test_order.n_rows ∧
      (∀ (J : Cube Dbl) (A : AlphaCube) (G : List Dbl) (i t v b cl : Nat),
        update_G c J A G i t v b cl = List.replicate c.Jt (Dbl.fin ((t + 1 : ℚ) / c.T))) ∧
      res.DIC 0 1 = Dbl.fin (-2) * drawMean n_its (fun tt =>
        pairSum Test_versions.length test_order.n_rows (timeTermDraw c tt
          (fun _ t => List.replicate c.Jt (Dbl.fin ((t + 1 : ℚ) / c.T))))) := by
  have hm : model ∈ modelNames := by
    simp only [rtModels, List.mem_cons, List.mem_singleton, List.not_mem_nil, or_false] at hmodel
    rcases hmodel with m | m <;> subst m <;> decide
  obtain ⟨c, carry, D, hc, hF, hcn, _, hL, hR, _, hres⟩ := Learning_fit_explicit h u o model
    Response_list Q_list test_order Test_versions Q_examinee Latency_list 3 R n_its hn
    hd hK hN hm
  refine ⟨c, _, hc, hres, hF.Jt, hF.T,
    fun J A G i t v b cl => update_G_timeblock c J A G i t v b cl hF.G_version, ?_⟩
  have hmap := LoopFacts_map c model carry hL (fun d => d.time)
    (fun tt => pairSum c.N c.T (timeTermDraw c tt (fun _ t => G_timeblock c t)))
    (fun tt d _ hd => hd.time_G3 hmodel hF.G_version)
  have := meanOf_draws carry.draws c.n_its _ _ hmap
  show D 0 1 = _
  rw [hR.bar_time, this, hcn]
  unfold G_timeblock
  rw [hF.N, hF.T]

/-- Witness of C16 on the small design with model DINA_HO_RT_sep: the call returns,
and the covariate of a subject at the second of the two time points is the vector
of `Jt` entries `2/T`. -/
theorem C16_timeblock_covariate_witness :
    ∃ c res, toySetup = .ok c ∧ toyFit "DINA_HO_RT_sep" 3 = .ok res ∧
      update_G c (constCube 0 0 0 (Dbl.fin 0)) zerosCube [] 0 1 0 0 0
        = List.replicate c.Jt (Dbl.fin (((1 : Nat) + 1 : ℚ) / c.T)) := by
  obtain ⟨c, res, h0, h1, _, _, h2, _⟩ := C16_timeblock_covariate toyHelpers toyUninit
    toyOutput "DINA_HO_RT_sep" [oneByOne (Dbl.fin 1), oneByOne (Dbl.fin 0)]
    [oneByOne (Dbl.fin 1), oneByOne (Dbl.fin 1)] toyOrder [1] (fun _ => oneByOne (Dbl.fin 1))
    (some [oneByOne (Dbl.fin 2), oneByOne (Dbl.fin 3)]) (oneByOne (Dbl.fin 1)) 1 (by decide)
    toyOutput_hasDraws (by decide) (by decide) (by decide)
  exact ⟨c, res, h0, h1, h2 _ _ _ 0 1 0 0 0⟩

/-- C18. For each of the six models, on an output with at least one draw, one skill
and one subject: a run of `Learning_fit` and a run on the same arguments in which
the four simulators (responses of DINA, rRUM and NIDA, latencies) are replaced by
any other functions, in particular by the same simulators on another random
stream, both return, and their DIC tables agree in all cells of the three rows and
five columns.  The simulated data enter none of the four log-likelihood sums of a
draw or of the pass "get Dhat". -/
theorem C18_DIC_ignores_simulations (h : Helpers) (u : Uninit) (o : Output) (model : String)
    (Response_list Q_list : List (Mat Dbl)) (test_order : Mat Nat) (Test_versions : List Nat)
    (Q_examinee : Nat → Mat Dbl) (Latency_list : Option (List (Mat Dbl))) (G_version : Int)
    (R : Mat Dbl)
    (simDINA : Nat → AlphaCube → Cube Dbl → Cube Dbl → Mat Nat → List Nat → Cube Dbl)
    (sim_RT : Nat → AlphaCube → Cube Dbl → Cube Dbl → List Dbl → Dbl → Cube Dbl → Int →
      Mat Nat → List Nat → Cube Dbl)
    (simrRUM : Nat → AlphaCube → Cube Dbl → Mat Dbl → Cube Dbl → Mat Nat → List Nat → Cube Dbl)
    (simNIDA : Nat → AlphaCube → List Dbl → List Dbl → Cube Dbl → Mat Nat → List Nat → Cube Dbl)
    (n_its : Nat) (hn : 0 < n_its) (hd : o.HasDraws n_its)
    (hK : 0 < (Q_list.getD 0 emptyMat).n_cols) (hN : 0 < Test_versions.length)
    (hmodel : model ∈ modelNames) :
    ∃ res res',
      Learning_fit h u o model Response_list Q_list test_order Test_versions Q_examinee
        Latency_list G_version R = .ok res ∧
      Learning_fit (withSimulators h simDINA sim_RT simrRUM simNIDA) u o model Response_list
        Q_list test_order Test_versions Q_examinee Latency_list G_version R = .ok res' ∧
      ∀ r col, r < 3 → col < 5 → res.DIC r col = res'.DIC r col := by
  obtain ⟨c, carry, D, hc, hF, _, hloop, _, hR, _, hres⟩ := Learning_fit_explicit h u o model
    Response_list Q_list test_order Test_versions Q_examinee Latency_list G_version R n_its hn
    hd hK hN hmodel
  obtain ⟨c2, carry2, D2, hc2, _, _, hloop2, _, hR2, _, hres2⟩ := Learning_fit_explicit
    (withSimulators h simDINA sim_RT simrRUM simNIDA) u o model
    Response_list Q_list test_order Test_versions Q_examinee Latency_list G_version R n_its hn
    hd hK hN hmodel
  obtain ⟨hch, hc3⟩ := setup_withSimulators h u o Response_list Q_list test_order Test_versions
    Q_examinee Latency_list G_version R _ ⟨simDINA, sim_RT, simrRUM, simNIDA, rfl⟩ c hc
  rw [hc2] at hc3
  injection hc3 with hc3
  subst hc3
  have hh : ∃ s1 s2 s3 s4, withSimulators h simDINA sim_RT simrRUM simNIDA
      = withSimulators c.h s1 s2 s3 s4 := ⟨simDINA, sim_RT, simrRUM, simNIDA, by rw [hch]⟩
  have hcK : 0 < c.K := by rw [hF.K]; exact hK
  have hcN : 0 < c.N := by rw [hF.N]; exact hN
  obtain ⟨s, t, hs, ht, hrel⟩ := foldlM_rel CarryRel (drawStep c model)
    (drawStep (c.withHelpers (withSimulators h simDINA sim_RT simrRUM simNIDA)) model)
    (fun s t tt hr => drawStep_rel c _ model hmodel hh s t tt hcK hcN hr)
    (List.range c.n_its) (Carry.init c) (Carry.init c) ⟨rfl, rfl, rfl⟩
  rw [hloop] at hs
  injection hs with hs
  have ht2 := hloop2.symm.trans ht
  injection ht2 with ht2
  subst hs ht2
  refine ⟨_, _, hres, hres2, ?_⟩
  apply lastRow_congr
  apply RowsFrom_congr _ D D2 _ _ _ _ hR hR2 hrel.core
  rw [dhatPass_withHelpers c _ hh, hrel.G_it]

/-- Witness of C18 on the small design with model DINA_HO_RT_sep: the run with the
constant simulators and the run with simulators that return the profile cube, or
the index of the random stream as every latency, return tables that agree in all
cells. -/
theorem C18_DIC_ignores_simulations_witness :
    ∃ res res', toyFit "DINA_HO_RT_sep" 3 = .ok res ∧
      Learning_fit (withSimulators toyHelpers echoHelpers.simDINA
          (fun rng _ _ _ _ _ _ _ _ _ => constCube 1 1 2 (Dbl.ofNat rng))
          echoHelpers.simrRUM echoHelpers.simNIDA) toyUninit toyOutput "DINA_HO_RT_sep"
        [oneByOne (Dbl.fin 1), oneByOne (Dbl.fin 0)] [oneByOne (Dbl.fin 1), oneByOne (Dbl.fin 1)]
        toyOrder [1] (fun _ => oneByOne (Dbl.fin 1))
        (some [oneByOne (Dbl.fin 2), oneByOne (Dbl.fin 3)]) 3 (oneByOne (Dbl.fin 1)) = .ok res' ∧
      ∀ r col, r < 3 → col < 5 → res.DIC r col = res'.DIC r col :=
  C18_DIC_ignores_simulations toyHelpers toyUninit toyOutput "DINA_HO_RT_sep"
    [oneByOne (Dbl.fin 1), oneByOne (Dbl.fin 0)] [oneByOne (Dbl.fin 1), oneByOne (Dbl.fin 1)]
    toyOrder [1] (fun _ => oneByOne (Dbl.fin 1))
    (some [oneByOne (Dbl.fin 2), oneByOne (Dbl.fin 3)]) 3 (oneByOne (Dbl.fin 1))
    echoHelpers.simDINA (fun rng _ _ _ _ _ _ _ _ _ => constCube 1 1 2 (Dbl.ofNat rng))
    echoHelpers.simrRUM echoHelpers.simNIDA 1 (by decide) toyOutput_hasDraws (by decide)
    (by decide) (by decide)

/-! ## The claims on the codec -/

/-- C19. The codec is a bijection between the codes in `[0, 2^L)` and the binary
vectors of length `L`: decoding a code and taking the dot product with the weights
`bijectionvector L` gives the code back, and encoding a binary vector of length `L`
and decoding the result gives the vector back.  It holds for every `L`, in
particular up to `L = 15`. -/
theorem C19_codec_bijection (L : Nat) :
    (∀ c, c < 2 ^ L → dot (inv_bijectionvector L c) (bijectionvector L) = c) ∧
    (∀ b : List Nat, b.length = L → (∀ x ∈ b, x = 0 ∨ x = 1) →
      inv_bijectionvector L (dot b (bijectionvector L)) = b) := by
  refine ⟨fun c hc => ?_, fun b hL hb => ?_⟩
  · rw [dot_inv_bijectionvector, Nat.mod_eq_of_lt hc]
  · subst hL
    exact inv_bijectionvector_dot b (fun x hx => by rcases hb x hx with h | h <;> omega)

/-- Witness of C19 at length 15: the code 12345 is recovered from its bits, and the
vector `[1, 0, 1]` is recovered from its code. -/
theorem C19_codec_bijection_witness :
    dot (inv_bijectionvector 15 12345) (bijectionvector 15) = 12345 ∧
    inv_bijectionvector 3 (dot [1, 0, 1] (bijectionvector 3)) = [1, 0, 1] :=
  ⟨(C19_codec_bijection 15).1 12345 (by decide),
   (C19_codec_bijection 3).2 [1, 0, 1] rfl (by decide)⟩

/-- C20. Concatenation law of the codec, for `K >= 1` skills and `T` time points.
For a trajectory code `c` in `[0, 2^(K*T))`, cutting `inv_bijectionvector(K*T, c)`
into `T` chunks of length `K` and encoding chunk `t` with `bijectionvector(K)` gives
class indices below `2^K` whose weighted sum `class_t * 2^(K*(T-1-t))` is `c`.
Equivalently, the code of a binary vector of length `K*T` is the weighted sum of
the codes of its `T` chunks.  The rows `alphas.slice(t).row(i)` that the per-draw
pass encodes are these chunks of the decoded draw. -/
theorem C20_concatenation (K T : Nat) (hK : 0 < K) :
    (∀ c, c < 2 ^ (K * T) →
      (∀ t, t < T → dot (subvec (inv_bijectionvector (K * T) c) (t * K) ((t + 1) * K - 1))
        (bijectionvector K) < 2 ^ K) ∧
      ((List.range T).map (fun t =>
        dot (subvec (inv_bijectionvector (K * T) c) (t * K) ((t + 1) * K - 1))
          (bijectionvector K) * 2 ^ (K * (T - 1 - t)))).sum = c) ∧
    (∀ b : List Nat, b.length = K * T → (∀ x ∈ b, x = 0 ∨ x = 1) →
      dot b (bijectionvector (K * T)) = ((List.range T).map (fun t =>
        dot (subvec b (t * K) ((t + 1) * K - 1)) (bijectionvector K)
          * 2 ^ (K * (T - 1 - t)))).sum) ∧
    (∀ (c : Ctx) (tt : Nat) (A0 A : AlphaCube), c.K = K → c.T = T →
      decode_draw c tt A0 = .ok A → ∀ i t, i < c.N → t < T →
      alphaRow A K i t = subvec (inv_bijectionvector (K * T) (c.output.trajectories.get i tt))
        (t * K) ((t + 1) * K - 1)) := by
  refine ⟨fun c hc => ⟨fun t ht => ?_, ?_⟩, fun b hl hb => ?_, ?_⟩
  · rw [subvec_chunk K T c t hK ht, dot_inv_bijectionvector]
    exact Nat.mod_lt _ (by positivity)
  · rw [chunk_sum K T c hK, Nat.mod_eq_of_lt hc]
  · have hb2 : ∀ x ∈ b, x < 2 := fun x hx => by rcases hb x hx with h | h <;> omega
    have h1 := inv_bijectionvector_dot b hb2
    have h2 := dot_bijectionvector_lt b hb2
    rw [hl] at h1 h2
    have h3 := chunk_sum K T (dot b (bijectionvector (K * T))) hK
    rw [h1, Nat.mod_eq_of_lt h2] at h3
    exact h3.symm
  · intro c tt A0 A hcK hcT hA i t hi ht
    subst hcK hcT
    exact alphaRow_eq_chunk c tt A0 A hK hA i t hi ht

/-- Witness of C20 for `K = 5`, `T = 3` and the code 12345: the three class indices
are below 32 and reassemble to the code. -/
theorem C20_concatenation_witness :
    (∀ t, t < 3 → dot (subvec (inv_bijectionvector (5 * 3) 12345) (t * 5) ((t + 1) * 5 - 1))
      (bijectionvector 5) < 2 ^ 5) ∧
    ((List.range 3).map (fun t =>
      dot (subvec (inv_bijectionvector (5 * 3) 12345) (t * 5) ((t + 1) * 5 - 1))
        (bijectionvector 5) * 2 ^ (5 * (3 - 1 - t)))).sum = 12345 :=
  (C20_concatenation 5 3 (by decide)).1 12345 (by decide)

/-! ## Draws that all carry the same code -/

theorem inv_bijectionvector_getD_lt (L c kk : Nat) :
    (inv_bijectionvector L c).getD kk 0 < 2 := by
  rw [List.getD_eq_getElem?_getD]
  by_cases h : kk < L
  · simp only [inv_bijectionvector, List.getElem?_map, List.getElem?_range h, Option.map_some',
      Option.getD_some]
    exact Nat.mod_lt _ (by decide)
  · rw [List.getElem?_eq_none (by rw [inv_bijectionvector_length]; omega)]
    decide

theorem bitMean_const (K T : Nat) (Traject : Mat Nat) (i kk c : Nat)
    (hn : 0 < Traject.n_cols) (hconst : ∀ tt, tt < Traject.n_cols → Traject.get i tt = c) :
    bitMean K T Traject i kk = (((inv_bijectionvector (K * T) c).getD kk 0 : Nat) : ℚ) := by
  have h1 : decodedBits K T Traject i kk
      = List.replicate Traject.n_cols ((inv_bijectionvector (K * T) c).getD kk 0) := by
    unfold decodedBits
    rw [List.eq_replicate_iff]
    refine ⟨by simp, fun b hb => ?_⟩
    obtain ⟨tt, htt, rfl⟩ := List.mem_map.mp hb
    rw [hconst tt (List.mem_range.mp htt)]
  have hn' : (Traject.n_cols : ℚ) ≠ 0 := by exact_mod_cast Nat.pos_iff_ne_zero.mp hn
  simp only [bitMean, h1, List.map_replicate, List.sum_replicate, smul_eq_mul]
  field_simp

theorem traject_ML_const (Traject : Mat Nat) (i c : Nat) (hn : 0 < Traject.n_cols)
    (hconst : ∀ tt, tt < Traject.n_cols → Traject.get i tt = c) : traject_ML Traject i = c := by
  have h := (traject_ML_spec Traject i hn).2.1
  obtain ⟨tt, htt, h2⟩ := List.mem_map.mp h
  rw [← h2]
  exact hconst tt (List.mem_range.mp htt)

theorem threshold_bit (b : Nat) (hb : b < 2) :
    (if (1 : ℚ) / 2 < (b : ℚ) then 1 else 0) = b := by
  interval_cases b <;> norm_num

/-! ## The covariate left by the loop over the draws -/

theorem foldl_last_prop {σ β : Type} (p : σ → β) (Q : β → Prop) (F : σ → Nat → σ) (n : Nat)
    (hn : 0 < n) (s : σ) (h : ∀ s', Q (p (F s' (n - 1)))) :
    Q (p ((List.range n).foldl F s)) := by
  obtain ⟨m, rfl⟩ : ∃ m, n = m + 1 := ⟨n - 1, by omega⟩
  rw [List.range_succ, List.foldl_append]
  simp only [List.foldl_cons, List.foldl_nil]
  exact h _

theorem DINA_HO_RT_sep_draw_G (c : Ctx) (carry : Carry) (tt : Nat) (hK : 0 < c.K)
    (hN : 0 < c.N) (hT : 0 < c.T) (ha : carry.alphas = alphasAt c tt) :
    ∃ after, DINA_HO_RT_sep_draw c (c.h.J_incidence_cube c.test_order c.Qs) carry tt = .ok after ∧
      after.alphas = alphasAt c (tt + 1) ∧ ∃ G0, after.G_it = covariateAfter c (tt + 1) G0 := by
  simp only [DINA_HO_RT_sep_draw, ha, decode_draw_alphasAt c tt hK, arma_mean_dim0_ok _ _ _ hN, bind,
    Except.bind, pure, Except.pure]
  refine ⟨_, rfl, rfl, ?_⟩
  apply foldl_last_prop Acc.G_it (fun G => ∃ G0, G = covariateAfter c (tt + 1) G0) _ c.N hN
  intro s
  dsimp only
  apply foldl_last_prop Acc.G_it (fun G => ∃ G0, G = covariateAfter c (tt + 1) G0) _ c.T hT
  intro s
  dsimp only
  split <;> exact ⟨_, rfl⟩

theorem DINA_HO_RT_joint_draw_G (c : Ctx) (carry : Carry) (tt : Nat) (hK : 0 < c.K)
    (hN : 0 < c.N) (hT : 0 < c.T) (ha : carry.alphas = alphasAt c tt) :
    ∃ after, DINA_HO_RT_joint_draw c (c.h.J_incidence_cube c.test_order c.Qs) carry tt = .ok after ∧
      after.alphas = alphasAt c (tt + 1) ∧ ∃ G0, after.G_it = covariateAfter c (tt + 1) G0 := by
  simp only [DINA_HO_RT_joint_draw, ha, decode_draw_alphasAt c tt hK, arma_mean_dim0_ok _ _ _ hN, bind,
    Except.bind, pure, Except.pure]
  refine ⟨_, rfl, rfl, ?_⟩
  apply foldl_last_prop Acc.G_it (fun G => ∃ G0, G = covariateAfter c (tt + 1) G0) _ c.N hN
  intro s
  dsimp only
  apply foldl_last_prop Acc.G_it (fun G => ∃ G0, G = covariateAfter c (tt + 1) G0) _ c.T hT
  intro s
  dsimp only
  split <;> exact ⟨_, rfl⟩

theorem rt_loop_G (c : Ctx) (model : String) (hmodel : model ∈ rtModels) (hK : 0 < c.K)
    (hN : 0 < c.N) (hT : 0 < c.T) (hn : 0 < c.n_its) :
    ∃ carry G0, (List.range c.n_its).foldlM (drawStep c model) (Carry.init c) = .ok carry ∧
      carry.G_it = covariateAfter c c.n_its G0 := by
  have key : ∀ f : Carry → Nat → Except Failure Carry,
      (∀ carry tt, carry.alphas = alphasAt c tt → ∃ after, f carry tt = .ok after ∧
        after.alphas = alphasAt c (tt + 1) ∧ ∃ G0, after.G_it = covariateAfter c (tt + 1) G0) →
      ∃ carry G0, (List.range c.n_its).foldlM f (Carry.init c) = .ok carry ∧
        carry.G_it = covariateAfter c c.n_its G0 := by
    intro f hf
    obtain ⟨carry, h1, _, h3⟩ := foldlM_range_invariant f
      (fun s j => s.alphas = alphasAt c j ∧ (0 < j → ∃ G0, s.G_it = covariateAfter c j G0))
      c.n_its (Carry.init c) ⟨rfl, fun h => absurd h (Nat.lt_irrefl _)⟩
      (fun s j _ hP => by
        obtain ⟨after, h1, h2, h3⟩ := hf s j hP.1
        exact ⟨after, h1, h2, fun _ => h3⟩)
    obtain ⟨G0, hG⟩ := h3 hn
    exact ⟨carry, G0, h1, hG⟩
  simp only [rtModels, List.mem_cons, List.mem_singleton, List.not_mem_nil, or_false] at hmodel
  rcases hmodel with m | m <;> subst m
  · exact key _ (fun carry tt ha => DINA_HO_RT_sep_draw_G c carry tt hK hN hT ha)
  · exact key _ (fun carry tt ha => DINA_HO_RT_joint_draw_G c carry tt hK hN hT ha)

theorem dhatPass_time_withAlphas_est (c : Ctx) (model : String) (hmodel : model ∈ rtModels)
    (A : AlphaCube) (G : List Dbl) :
    (dhatPass (c.withAlphas_est A) model G).time = (dhatPass c model G).time := by
  rw [dhatPass_time _ model G hmodel, dhatPass_time c model G hmodel]
  rfl

theorem dhatPass_G_it (c : Ctx) (model : String) (hmodel : model ∈ rtModels) (G : List Dbl) :
    (dhatPass c model G).G_it = G := by
  simp only [rtModels, List.mem_cons, List.mem_singleton, List.not_mem_nil, or_false] at hmodel
  rcases hmodel with m | m <;> subst m
  · simp only [dhatPass]
    exact (DINA_HO_RT_sep_Dhat_time c G _ _ _ _ _ _ _ _ _).1
  · simp only [dhatPass]
    exact (DINA_HO_RT_joint_Dhat_time c G _ _ _ _ _ _ _ _ _).1

/-! ## The quotient of two products of counts -/

theorem Dbl.divNat_counts_pos (a : Nat) (ha : 0 < a) :
    Dbl.divNat (Dbl.ofNat a) 0 = Dbl.pinf ∧ ∀ b, Dbl.divNat (Dbl.ofNat a) b ≠ Dbl.fin 0 := by
  have ha' : (0 : ℚ) < (a : ℚ) := by exact_mod_cast ha
  have hne : (a : ℚ) ≠ 0 := ne_of_gt ha'
  refine ⟨?_, fun b => ?_⟩
  · simp [Dbl.divNat, Dbl.ofNat, Dbl.infOfSign, ha', hne]
  · unfold Dbl.divNat Dbl.ofNat
    by_cases hb : b = 0
    · simp [hb, Dbl.infOfSign, ha', hne]
    · have hb' : (b : ℚ) ≠ 0 := by exact_mod_cast hb
      simp [hb, hne, hb']

theorem Dbl.divNat_zero_zero : Dbl.divNat (Dbl.ofNat 0) 0 = Dbl.nan := by
  simp [Dbl.divNat, Dbl.ofNat]

theorem Dbl.divNat_ones : Dbl.divNat (Dbl.ofNat (1 * 1)) (1 * 1) = Dbl.fin 1 := by
  simp [Dbl.divNat, Dbl.ofNat]

/-! ## Sums of finite terms -/

theorem foldl_range_add_fin (n : Nat) (f : Nat → Dbl) (q : Nat → ℚ) (s : ℚ)
    (h : ∀ i, i < n → f i = Dbl.fin (q i)) :
    (List.range n).foldl (fun s t => s + f t) (Dbl.fin s)
      = Dbl.fin (s + ∑ i in Finset.range n, q i) := by
  induction n with
  | zero => simp
  | succ n ih =>
    rw [List.range_succ, List.foldl_append, ih (fun i hi => h i (by omega)),
      Finset.sum_range_succ]
    simp only [List.foldl_cons, List.foldl_nil]
    rw [h n (Nat.lt_succ_self n), Dbl.add_eq, Dbl.add, add_assoc]

theorem pairSum_fin (N T : Nat) (term : Nat → Nat → Dbl) (q : Nat → Nat → ℚ)
    (h : ∀ i t, i < N → t < T → term i t = Dbl.fin (q i t)) :
    pairSum N T term = Dbl.fin (∑ i in Finset.range N, ∑ t in Finset.range T, q i t) := by
  unfold pairSum
  induction N with
  | zero => rfl
  | succ N ih =>
    rw [List.range_succ, List.foldl_append, ih (fun i t hi ht => h i t (by omega) ht),
      Finset.sum_range_succ]
    simp only [List.foldl_cons, List.foldl_nil]
    exact foldl_range_add_fin T (term N) (q N) _ (fun t ht => h N t (Nat.lt_succ_self N) ht)

/-! ## The claim on the odds ratios -/

/-- C21, refuted as stated.  On the design with four subjects whose simulated
responses to the items 0 and 1 are (0,0), (0,0), (1,0), (1,0), the joint counts are
`n00 = 2`, `n01 = 0`, `n10 = 2`, `n11 = 0`: the entry `(0, 1)` of `item_OR_PP` for
the draw is the quotient `0/0`, which is NaN and not +infinity although `n01 = 0`. -/
theorem C21_odds_ratio_counterexample :
    simCounts (orSetup [0, 0, 2, 2]) "DINA_FOHM" 0 0 1 = some [2, 0, 2, 0] ∧
    ppCubeAt (orFit [0, 0, 2, 2] "DINA_FOHM") "item_OR_PP" 0 1 0 = some Dbl.nan ∧
    ppCubeAt (orFit [0, 0, 2, 2] "DINA_FOHM") "item_OR_PP" 0 1 0 ≠ some Dbl.pinf := by
  decide!

/-- C21, amended.  For each of the six models, on an output with at least one draw,
one skill and one subject, and with the odds ratios computed as the spec gives them:
the entry `(j1, j2)` of `item_OR_PP` for draw `tt` and distinct items `j1`, `j2` is
the quotient `(n00*n11)/(n01*n10)` of the joint counts in the collapsed matrix of the
responses simulated in the iteration of that draw.  With all four counts 1 it is
exactly 1.  When `n01 = 0` it is never zero; it is +infinity if `n00` and `n11` are
both positive, and NaN (the quotient `0/0`) if `n00` or `n11` is zero. -/
theorem C21_odds_ratio_entries (h : Helpers) (u : Uninit) (o : Output) (model : String)
    (Response_list Q_list : List (Mat Dbl)) (test_order : Mat Nat) (Test_versions : List Nat)
    (Q_examinee : Nat → Mat Dbl) (Latency_list : Option (List (Mat Dbl))) (G_version : Int)
    (R : Mat Dbl) (n_its : Nat) (hn : 0 < n_its) (hd : o.HasDraws n_its)
    (hK : 0 < (Q_list.getD 0 emptyMat).n_cols) (hN : 0 < Test_versions.length)
    (hmodel : model ∈ modelNames) (hOR : h.OddsRatio = OddsRatio) :
    ∃ c res OR,
      Learning_fit_setup h u o Response_list Q_list test_order Test_versions Q_examinee
        Latency_list G_version R = .ok c ∧
      Learning_fit h u o model Response_list Q_list test_order Test_versions Q_examinee
        Latency_list G_version R = .ok res ∧
      res.PPs.lookup "item_OR_PP" = some (.cube OR) ∧
      ∀ tt j1 j2, tt < n_its → j1 < (Q_list.getD 0 emptyMat).n_rows * test_order.n_rows →
        j2 < (Q_list.getD 0 emptyMat).n_rows * test_order.n_rows → j1 ≠ j2 →
        OR j1 j2 tt = Dbl.divNat
          (Dbl.ofNat (simCount c model tt j1 j2 0 0 * simCount c model tt j1 j2 1 1))
          (simCount c model tt j1 j2 0 1 * simCount c model tt j1 j2 1 0) ∧
        (simCount c model tt j1 j2 0 0 = 1 → simCount c model tt j1 j2 0 1 = 1 →
          simCount c model tt j1 j2 1 0 = 1 → simCount c model tt j1 j2 1 1 = 1 →
          OR j1 j2 tt = Dbl.fin 1) ∧
        (simCount c model tt j1 j2 0 1 = 0 → OR j1 j2 tt ≠ Dbl.fin 0) ∧
        (simCount c model tt j1 j2 0 1 = 0 → 0 < simCount c model tt j1 j2 0 0 →
          0 < simCount c model tt j1 j2 1 1 → OR j1 j2 tt = Dbl.pinf) ∧
        (simCount c model tt j1 j2 0 1 = 0 →
          simCount c model tt j1 j2 0 0 = 0 ∨ simCount c model tt j1 j2 1 1 = 0 →
          OR j1 j2 tt = Dbl.nan) := by
  obtain ⟨c, carry, D, hc, hF, hcn, _, hL, _, _, hres⟩ := Learning_fit_explicit h u o model
    Response_list Q_list test_order Test_versions Q_examinee Latency_list G_version R n_its hn
    hd hK hN hmodel
  refine ⟨c, _, item_OR_PP carry.draws, hc, hres, ?_, fun tt j1 j2 htt _ _ hj => ?_⟩
  · show (ppList model carry.draws).lookup "item_OR_PP" = _
    unfold ppList PPs_noRT
    split <;> rfl
  · obtain ⟨d, h1, h2⟩ := hL.draw tt (by rw [hcn]; exact htt)
    have key : item_OR_PP carry.draws j1 j2 tt = Dbl.divNat
        (Dbl.ofNat (simCount c model tt j1 j2 0 0 * simCount c model tt j1 j2 1 1))
        (simCount c model tt j1 j2 0 1 * simCount c model tt j1 j2 1 0) := by
      simp only [item_OR_PP, h1, h2.item_OR, hF.h, hOR, OddsRatio, if_neg hj]
      rfl
    rw [key]
    refine ⟨rfl, fun e00 e01 e10 e11 => ?_, fun e01 => ?_, fun e01 p00 p11 => ?_,
      fun e01 z => ?_⟩
    · rw [e00, e01, e10, e11]
      exact Dbl.divNat_ones
    · rw [e01, Nat.zero_mul]
      by_cases hz : simCount c model tt j1 j2 0 0 * simCount c model tt j1 j2 1 1 = 0
      · rw [hz, Dbl.divNat_zero_zero]
        exact fun e => Dbl.noConfusion e
      · rw [(Dbl.divNat_counts_pos _ (Nat.pos_of_ne_zero hz)).1]
        exact fun e => Dbl.noConfusion e
    · rw [e01, Nat.zero_mul]
      exact (Dbl.divNat_counts_pos _ (Nat.mul_pos p00 p11)).1
    · rw [e01, Nat.zero_mul]
      have hz : simCount c model tt j1 j2 0 0 * simCount c model tt j1 j2 1 1 = 0 := by
        rcases z with z | z <;> simp [z]
      rw [hz]
      exact Dbl.divNat_zero_zero

/-- Witness of the amended C21 on the design with four subjects whose simulated
responses to the items 0 and 1 are (0,0), (0,1), (1,0), (1,1): the list has an entry
`item_OR_PP`, and the statements on its entry `(0, 1)` for draw 0 hold. -/
theorem C21_odds_ratio_entries_witness :
    ∃ c res OR, orSetup [0, 1, 2, 3] = .ok c ∧ orFit [0, 1, 2, 3] "DINA_FOHM" = .ok res ∧
      res.PPs.lookup "item_OR_PP" = some (.cube OR) ∧
      OR 0 1 0 = Dbl.divNat
        (Dbl.ofNat (simCount c "DINA_FOHM" 0 0 1 0 0 * simCount c "DINA_FOHM" 0 0 1 1 1))
        (simCount c "DINA_FOHM" 0 0 1 0 1 * simCount c "DINA_FOHM" 0 0 1 1 0) := by
  obtain ⟨c, res, OR, h0, h1, h2, h3⟩ := C21_odds_ratio_entries orHelpers toyUninit
    (orOutput [0, 1, 2, 3]) "DINA_FOHM" [constMat 4 1 (Dbl.fin 1), constMat 4 1 (Dbl.fin 0)]
    [oneByOne (Dbl.fin 1), oneByOne (Dbl.fin 1)] toyOrder [1, 1, 1, 1]
    (fun _ => oneByOne (Dbl.fin 1)) none 1 (oneByOne (Dbl.fin 1)) 1 (by decide)
    ⟨rfl, rfl, rfl, rfl, rfl, rfl, rfl, rfl, rfl, rfl, rfl, rfl, rfl, rfl, rfl⟩
    (by decide) (by decide) (by decide) rfl
  exact ⟨c, res, OR, h0, h1, h2, (h3 0 0 1 (by decide) (by decide) (by decide) (by decide)).1⟩

/-! ## The claim on the covariate of the pass "get Dhat" -/

/-- C22. For DINA_HO_RT_joint and DINA_HO_RT_sep, with at least one draw, skill,
subject and time point: the pass "get Dhat" never assigns `G_it`.  The Response_Time
cell of row `D(theta_bar)` is `-2` times the sum over all subjects and time points of
the response-time terms evaluated with one vector, the `G_it` left by the last
subject at the last time point of the iteration of the last draw; the pass leaves
that vector unchanged, and the cell is the same for every cube `Alphas_est`. -/
theorem C22_Dhat_reuses_last_covariate (h : Helpers) (u : Uninit) (o : Output) (model : String)
    (Response_list Q_list : List (Mat Dbl)) (test_order : Mat Nat) (Test_versions : List Nat)
    (Q_examinee : Nat → Mat Dbl) (Latency_list : Option (List (Mat Dbl))) (G_version : Int)
    (R : Mat Dbl) (n_its : Nat) (hn : 0 < n_its) (hd : o.HasDraws n_its)
    (hK : 0 < (Q_list.getD 0 emptyMat).n_cols) (hN : 0 < Test_versions.length)
    (hT : 0 < test_order.n_rows) (hmodel : model ∈ rtModels) :
    ∃ c res G0,
      Learning_fit_setup h u o Response_list Q_list test_order Test_versions Q_examinee
        Latency_list G_version R = .ok c ∧
      Learning_fit h u o model Response_list Q_list test_order Test_versions Q_examinee
        Latency_list G_version R = .ok res ∧
      res.DIC 1 1 = Dbl.fin (-2) *
        pairSum c.N c.T (timeTermHat c (covariateAfter c c.n_its G0)) ∧
      (dhatPass c model (covariateAfter c c.n_its G0)).G_it = covariateAfter c c.n_its G0 ∧
      ∀ A : AlphaCube, res.DIC 1 1 =
        Dbl.fin (-2) * (dhatPass (c.withAlphas_est A) model (covariateAfter c c.n_its G0)).time := by
  have hm : model ∈ modelNames := by
    simp only [rtModels, List.mem_cons, List.mem_singleton, List.not_mem_nil, or_false] at hmodel
    rcases hmodel with m | m <;> subst m <;> decide
  obtain ⟨c, carry, D, hc, hF, hcn, hloop, _, hR, _, hres⟩ := Learning_fit_explicit h u o model
    Response_list Q_list test_order Test_versions Q_examinee Latency_list G_version R n_its hn
    hd hK hN hm
  obtain ⟨carry2, G0, hloop2, hG⟩ := rt_loop_G c model hmodel (by rw [hF.K]; exact hK)
    (by rw [hF.N]; exact hN) (by rw [hF.T]; exact hT) (by rw [hcn]; exact hn)
  rw [hloop] at hloop2
  injection hloop2 with e
  subst e
  have h11 : D 1 1 = Dbl.fin (-2) * (dhatPass c model carry.G_it).time := by
    rw [hR.hat_time]
    simp [hmodel]
  rw [hG] at h11
  refine ⟨c, _, G0, hc, hres, ?_, dhatPass_G_it c model hmodel _, fun A => ?_⟩
  · show D 1 1 = _
    rw [h11, dhatPass_time c model _ hmodel]
  · show D 1 1 = _
    rw [h11, dhatPass_time_withAlphas_est c model hmodel]

/-- C22 applied to the small design with model DINA_HO_RT_joint and `G_version = 3`. -/
theorem C22_Dhat_reuses_last_covariate_witness :
    ∃ c res G0,
      Learning_fit_setup toyHelpers toyUninit toyOutput [oneByOne (Dbl.fin 1), oneByOne (Dbl.fin 0)]
        [oneByOne (Dbl.fin 1), oneByOne (Dbl.fin 1)] toyOrder [1] (fun _ => oneByOne (Dbl.fin 1))
        (some [oneByOne (Dbl.fin 1), oneByOne (Dbl.fin 1)]) 3 (oneByOne (Dbl.fin 1)) = .ok c ∧
      Learning_fit toyHelpers toyUninit toyOutput "DINA_HO_RT_joint"
        [oneByOne (Dbl.fin 1), oneByOne (Dbl.fin 0)]
        [oneByOne (Dbl.fin 1), oneByOne (Dbl.fin 1)] toyOrder [1] (fun _ => oneByOne (Dbl.fin 1))
        (some [oneByOne (Dbl.fin 1), oneByOne (Dbl.fin 1)]) 3 (oneByOne (Dbl.fin 1)) = .ok res ∧
      res.DIC 1 1 = Dbl.fin (-2) *
        pairSum c.N c.T (timeTermHat c (covariateAfter c c.n_its G0)) ∧
      (dhatPass c "DINA_HO_RT_joint" (covariateAfter c c.n_its G0)).G_it
        = covariateAfter c c.n_its G0 ∧
      ∀ A : AlphaCube, res.DIC 1 1 = Dbl.fin (-2) *
        (dhatPass (c.withAlphas_est A) "DINA_HO_RT_joint" (covariateAfter c c.n_its G0)).time :=
  C22_Dhat_reuses_last_covariate toyHelpers toyUninit toyOutput "DINA_HO_RT_joint"
    [oneByOne (Dbl.fin 1), oneByOne (Dbl.fin 0)]
    [oneByOne (Dbl.fin 1), oneByOne (Dbl.fin 1)] toyOrder [1] (fun _ => oneByOne (Dbl.fin 1))
    (some [oneByOne (Dbl.fin 1), oneByOne (Dbl.fin 1)]) 3 (oneByOne (Dbl.fin 1)) 1
    (by decide) toyOutput_hasDraws (by decide) (by decide) (by decide) (by decide)

/-! ## The claims on the two decoding strategies -/

/-- C23. `Learning_fit` has no argument that selects the decoding.  On every output
with at least one draw, one skill and one subject, for each of the six models: the
cube `Alphas_est` that `Learning_fit` sets up from its own `N`, `K`, `T` is the cube
that `point_estimates_learning` returns for the same sizes with `alpha_EAP = false`
(MAP), and it is the cube of the pass "get Dhat" (the Transition cell of row
`D(theta_bar)` is `-2` times the sum of the transition terms between its profiles).
It is not always the cube returned with the default `alpha_EAP = true` (EAP): for
three draws with the codes 1, 2, 3 of one subject (K = 1, T = 2) the entry `(0, 0, 0)`
is 0 in `Learning_fit` and under MAP, and 1 under EAP. -/
theorem C23_fit_decodes_by_MAP (h : Helpers) (u : Uninit) (o : Output) (model : String)
    (Response_list Q_list : List (Mat Dbl)) (test_order : Mat Nat) (Test_versions : List Nat)
    (Q_examinee : Nat → Mat Dbl) (Latency_list : Option (List (Mat Dbl))) (G_version : Int)
    (R : Mat Dbl) (Jt n_its : Nat) (hn : 0 < n_its) (hd : o.HasDraws n_its)
    (hK : 0 < (Q_list.getD 0 emptyMat).n_cols) (hN : 0 < Test_versions.length)
    (hmodel : model ∈ modelNames) :
    (∃ c rest res,
      Learning_fit_setup h u o Response_list Q_list test_order Test_versions Q_examinee
        Latency_list G_version R = .ok c ∧
      c.N = Test_versions.length ∧ c.K = (Q_list.getD 0 emptyMat).n_cols ∧
      c.T = test_order.n_rows ∧
      point_estimates_learning o model c.N Jt c.K c.T false
        = .ok (("Alphas_est", .alphas c.Alphas_est) :: rest) ∧
      Learning_fit h u o model Response_list Q_list test_order Test_versions Q_examinee
        Latency_list G_version R = .ok res ∧
      res.DIC 1 0 = Dbl.fin (-2) * pairSum c.N (c.T - 1)
        (tranTerm c model c.Alphas_est (eapVec c.n_its c.output.lambdas)
          (eapVec c.n_its c.output.taus) (fun i => (eapVec c.n_its c.output.thetas).getD i 0)
          (fun a b => getD2 (eapMat c.n_its c.output.omegas) a b))) ∧
    (fitAlphasAt (Learning_fit_setup toyHelpers toyUninit splitOutput
        [oneByOne (Dbl.fin 1), oneByOne (Dbl.fin 0)] [oneByOne (Dbl.fin 1), oneByOne (Dbl.fin 1)]
        toyOrder [1] (fun _ => oneByOne (Dbl.fin 1)) none 1 (oneByOne (Dbl.fin 1))) 0 0 0
      = some 0 ∧
    alphasEstAt (point_estimates_learning splitOutput "DINA_HO" 1 1 1 2 false) 0 0 0 = some 0 ∧
    alphasEstAt (point_estimates_learning splitOutput "DINA_HO" 1 1 1 2 true) 0 0 0 = some 1) := by
  refine ⟨?_, by decide!⟩
  obtain ⟨c, carry, D, hc, hF, _, _, _, hR, _, hres⟩ := Learning_fit_explicit h u o model
    Response_list Q_list test_order Test_versions Q_examinee Latency_list G_version R n_its hn
    hd hK hN hmodel
  have hn' : 0 < o.trajectories.n_cols := by rw [hd.trajectories]; exact hn
  obtain ⟨A, hA, _⟩ := Alphas_est_MAP_spec Test_versions.length
    (Q_list.getD 0 emptyMat).n_cols test_order.n_rows o.trajectories hn' hK
  obtain ⟨c2, hc2, hcA, _⟩ := Learning_fit_setup_ok h u o Response_list Q_list test_order
    Test_versions Q_examinee Latency_list G_version R n_its hn hd.pis A hA
  rw [hc] at hc2
  injection hc2 with hc2
  subst hc2
  have hA2 : compute_Alpha_hat c.N c.K c.T o.trajectories false = .ok c.Alphas_est := by
    rw [hF.N, hF.K, hF.T, hcA]
    simpa [compute_Alpha_hat] using hA
  refine ⟨c, ("pis_EAP", eapRows n_its o.pis) :: paramEstimates o n_its model, _, hc, hF.N,
    hF.K, hF.T, ?_, hres, ?_⟩
  · rw [point_estimates_learning_ok o model c.N Jt c.K c.T false n_its hn hd c.Alphas_est hA2,
      estimateList, if_pos hmodel]
  · show D 1 0 = _
    rw [hR.hat_tran, dhatPass_tran c model _ hmodel]
    rfl

/-- Witness of C23 on the small design with model DINA_FOHM: the setup of
`Learning_fit` returns a context, and `point_estimates_learning` with
`alpha_EAP = false` returns a list that starts with the cube of that context. -/
theorem C23_fit_decodes_by_MAP_witness :
    ∃ c rest, toySetup = .ok c ∧
      point_estimates_learning toyOutput "DINA_FOHM" c.N 1 c.K c.T false
        = .ok (("Alphas_est", .alphas c.Alphas_est) :: rest) := by
  obtain ⟨⟨c, rest, _, h1, _, _, _, h2, _⟩, _⟩ := C23_fit_decodes_by_MAP toyHelpers toyUninit
    toyOutput "DINA_FOHM" [oneByOne (Dbl.fin 1), oneByOne (Dbl.fin 0)]
    [oneByOne (Dbl.fin 1), oneByOne (Dbl.fin 1)] toyOrder [1] (fun _ => oneByOne (Dbl.fin 1))
    (some [oneByOne (Dbl.fin 2), oneByOne (Dbl.fin 3)]) 3 (oneByOne (Dbl.fin 1)) 1 1
    (by decide) toyOutput_hasDraws (by decide) (by decide) (by decide)
  exact ⟨c, rest, h1, h2⟩

/-- C24. Let all `n_its >= 1` draws of subject `i` carry the same trajectory code `c`
in `[0, 2^(K*T))` (`K >= 1`, one of the six models).  Then the EAP branch and the MAP
branch of `point_estimates_learning` return the same profile entries for that
subject: for every skill `k` and time point `t`, `Alphas_est(i,k,t)` is bit number
`K*t + k` of `inv_bijectionvector(K*T, c)`. -/
theorem C24_constant_draws (o : Output) (model : String) (N Jt K T n_its : Nat)
    (hmodel : model ∈ modelNames) (hn : 0 < n_its) (hd : o.HasDraws n_its) (hK : 0 < K)
    (i c : Nat) (hi : i < N) (hconst : ∀ tt, tt < n_its → o.trajectories.get i tt = c)
    (_hc : c < 2 ^ (K * T)) :
    ∃ A_EAP rest_EAP A_MAP rest_MAP,
      point_estimates_learning o model N Jt K T true
        = .ok (("Alphas_est", .alphas A_EAP) :: rest_EAP) ∧
      point_estimates_learning o model N Jt K T false
        = .ok (("Alphas_est", .alphas A_MAP) :: rest_MAP) ∧
      ∀ k t, k < K → t < T →
        A_EAP i k t = (inv_bijectionvector (K * T) c).getD (K * t + k) 0 ∧
        A_MAP i k t = (inv_bijectionvector (K * T) c).getD (K * t + k) 0 := by
  have hn' : 0 < o.trajectories.n_cols := by rw [hd.trajectories]; exact hn
  have hconst' : ∀ tt, tt < o.trajectories.n_cols → o.trajectories.get i tt = c := by
    rw [hd.trajectories]; exact hconst
  obtain ⟨A, hA, hspec⟩ := Alphas_est_EAP_spec N K T o.trajectories hn'
  obtain ⟨B, hB, hspecB⟩ := Alphas_est_MAP_spec N K T o.trajectories hn' hK
  refine ⟨A, ("pis_EAP", eapRows n_its o.pis) :: paramEstimates o n_its model, B,
    ("pis_EAP", eapRows n_its o.pis) :: paramEstimates o n_its model, ?_, ?_, ?_⟩
  · rw [point_estimates_learning_ok o model N Jt K T true n_its hn hd A hA, estimateList,
      if_pos hmodel]
  · rw [point_estimates_learning_ok o model N Jt K T false n_its hn hd B hB, estimateList,
      if_pos hmodel]
  · intro k t hk ht
    constructor
    · rw [hspec i k t hi hk ht, bitMean_const K T o.trajectories i _ c hn' hconst',
        threshold_bit _ (inv_bijectionvector_getD_lt _ _ _), Nat.mul_comm t K]
    · rw [hspecB i k t hi hk ht, traject_ML_const o.trajectories i c hn' hconst']

/-- Witness of C24 at three draws with the code 6 (K = 2, T = 2, model DINA_HO): both
branches return the cube whose entries for the subject are the bits 0, 1, 1, 0. -/
theorem C24_constant_draws_witness :
    ∃ A_EAP rest_EAP A_MAP rest_MAP,
      point_estimates_learning constOutput "DINA_HO" 1 1 2 2 true
        = .ok (("Alphas_est", .alphas A_EAP) :: rest_EAP) ∧
      point_estimates_learning constOutput "DINA_HO" 1 1 2 2 false
        = .ok (("Alphas_est", .alphas A_MAP) :: rest_MAP) ∧
      ∀ k t, k < 2 → t < 2 →
        A_EAP 0 k t = (inv_bijectionvector (2 * 2) 6).getD (2 * t + k) 0 ∧
        A_MAP 0 k t = (inv_bijectionvector (2 * 2) 6).getD (2 * t + k) 0 :=
  C24_constant_draws constOutput "DINA_HO" 1 1 2 2 3 (by decide) (by decide)
    ⟨rfl, rfl, rfl, rfl, rfl, rfl, rfl, rfl, rfl, rfl, rfl, rfl, rfl, rfl, rfl⟩ (by decide)
    0 6 (by decide) (fun _ _ => rfl) (by decide)

/-! ## The entries of `test_order` that the loops read -/

theorem foldl_range_attach {σ : Type} (F : σ → Nat → σ) (s : σ) (n : Nat) :
    (List.range n).foldl F s = (List.range n).attach.foldl (fun s x => F s x.1) s := by
  conv_lhs => rw [← List.attach_map_subtype_val (List.range n)]
  rw [List.foldl_map]

theorem DINA_HO_Dhat_order (c : Ctx) (M' : Mat Nat)
    (hread : ∀ i t, i < c.N → t < c.T →
      M'.get (c.Test_versions.getD i 0 - 1) t = c.test_order.get (c.Test_versions.getD i 0 - 1) t) :
    DINA_HO_Dhat (c.withOrder M') = DINA_HO_Dhat c := by
  have hread' : ∀ (x : {i // i ∈ List.range c.N}) (y : {t // t ∈ List.range c.T}),
      M'.get (c.Test_versions.getD x.1 0 - 1) y.1
        = c.test_order.get (c.Test_versions.getD x.1 0 - 1) y.1 :=
    fun x y => hread x.1 y.1 (List.mem_range.mp x.2) (List.mem_range.mp y.2)
  funext
  simp only [DINA_HO_Dhat, Ctx.withOrder, foldl_range_attach, hread']
  rfl

theorem DINA_HO_draw_order (c : Ctx) (M' : Mat Nat)
    (hread : ∀ i t, i < c.N → t < c.T →
      M'.get (c.Test_versions.getD i 0 - 1) t = c.test_order.get (c.Test_versions.getD i 0 - 1) t)
    (hH : c.h.SameOn c.test_order M') :
    DINA_HO_draw (c.withOrder M') = DINA_HO_draw c := by
  have hread' : ∀ (x : {i // i ∈ List.range c.N}) (y : {t // t ∈ List.range c.T}),
      M'.get (c.Test_versions.getD x.1 0 - 1) y.1
        = c.test_order.get (c.Test_versions.getD x.1 0 - 1) y.1 :=
    fun x y => hread x.1 y.1 (List.mem_range.mp x.2) (List.mem_range.mp y.2)
  funext
  simp only [DINA_HO_draw, update_G, Ctx.withOrder, foldl_range_attach, hread', hH.simDINA,
    hH.sim_RT, hH.simrRUM, hH.simNIDA, hH.G2vec_efficient]
  rfl

theorem branch_DINA_HO_order (c : Ctx) (M' : Mat Nat)
    (hread : ∀ i t, i < c.N → t < c.T →
      M'.get (c.Test_versions.getD i 0 - 1) t = c.test_order.get (c.Test_versions.getD i 0 - 1) t)
    (hH : c.h.SameOn c.test_order M') (DIC : DICTable) :
    branch_DINA_HO (c.withOrder M') DIC = branch_DINA_HO c DIC := by
  have e : (c.withOrder M').h.J_incidence_cube (c.withOrder M').test_order (c.withOrder M').Qs
      = c.h.J_incidence_cube c.test_order c.Qs := hH.J_incidence_cube c.Qs
  unfold branch_DINA_HO
  simp only [DINA_HO_draw_order c M' hread hH, DINA_HO_Dhat_order c M' hread, e]
  rfl

theorem DINA_HO_RT_sep_Dhat_order (c : Ctx) (M' : Mat Nat)
    (hread : ∀ i t, i < c.N → t < c.T →
      M'.get (c.Test_versions.getD i 0 - 1) t = c.test_order.get (c.Test_versions.getD i 0 - 1) t) :
    DINA_HO_RT_sep_Dhat (c.withOrder M') = DINA_HO_RT_sep_Dhat c := by
  have hread' : ∀ (x : {i // i ∈ List.range c.N}) (y : {t // t ∈ List.range c.T}),
      M'.get (c.Test_versions.getD x.1 0 - 1) y.1
        = c.test_order.get (c.Test_versions.getD x.1 0 - 1) y.1 :=
    fun x y => hread x.1 y.1 (List.mem_range.mp x.2) (List.mem_range.mp y.2)
  funext
  simp only [DINA_HO_RT_sep_Dhat, Ctx.withOrder, foldl_range_attach, hread']
  rfl

theorem DINA_HO_RT_sep_draw_order (c : Ctx) (M' : Mat Nat)
    (hread : ∀ i t, i < c.N → t < c.T →
      M'.get (c.Test_versions.getD i 0 - 1) t = c.test_order.get (c.Test_versions.getD i 0 - 1) t)
    (hH : c.h.SameOn c.test_order M') :
    DINA_HO_RT_sep_draw (c.withOrder M') = DINA_HO_RT_sep_draw c := by
  have hread' : ∀ (x : {i // i ∈ List.range c.N}) (y : {t // t ∈ List.range c.T}),
      M'.get (c.Test_versions.getD x.1 0 - 1) y.1
        = c.test_order.get (c.Test_versions.getD x.1 0 - 1) y.1 :=
    fun x y => hread x.1 y.1 (List.mem_range.mp x.2) (List.mem_range.mp y.2)
  funext
  simp only [DINA_HO_RT_sep_draw, update_G, Ctx.withOrder, foldl_range_attach, hread', hH.simDINA,
    hH.sim_RT, hH.simrRUM, hH.simNIDA, hH.G2vec_efficient]
  rfl

theorem branch_DINA_HO_RT_sep_order (c : Ctx) (M' : Mat Nat)
    (hread : ∀ i t, i < c.N → t < c.T →
      M'.get (c.Test_versions.getD i 0 - 1) t = c.test_order.get (c.Test_versions.getD i 0 - 1) t)
    (hH : c.h.SameOn c.test_order M') (DIC : DICTable) :
    branch_DINA_HO_RT_sep (c.withOrder M') DIC = branch_DINA_HO_RT_sep c DIC := by
  have e : (c.withOrder M').h.J_incidence_cube (c.withOrder M').test_order (c.withOrder M').Qs
      = c.h.J_incidence_cube c.test_order c.Qs := hH.J_incidence_cube c.Qs
  unfold branch_DINA_HO_RT_sep
  simp only [DINA_HO_RT_sep_draw_order c M' hread hH, DINA_HO_RT_sep_Dhat_order c M' hread, e]
  rfl

theorem DINA_HO_RT_joint_Dhat_order (c : Ctx) (M' : Mat Nat)
    (hread : ∀ i t, i < c.N → t < c.T →
      M'.get (c.Test_versions.getD i 0 - 1) t = c.test_order.get (c.Test_versions.getD i 0 - 1) t) :
    DINA_HO_RT_joint_Dhat (c.withOrder M') = DINA_HO_RT_joint_Dhat c := by
  have hread' : ∀ (x : {i // i ∈ List.range c.N}) (y : {t // t ∈ List.range c.T}),
      M'.get (c.Test_versions.getD x.1 0 - 1) y.1
        = c.test_order.get (c.Test_versions.getD x.1 0 - 1) y.1 :=
    fun x y => hread x.1 y.1 (List.mem_range.mp x.2) (List.mem_range.mp y.2)
  funext
  simp only [DINA_HO_RT_joint_Dhat, Ctx.withOrder, foldl_range_attach, hread']
  rfl

theorem DINA_HO_RT_joint_draw_order (c : Ctx) (M' : Mat Nat)
    (hread : ∀ i t, i < c.N → t < c.T →
      M'.get (c.Test_versions.getD i 0 - 1) t = c.test_order.get (c.Test_versions.getD i 0 - 1) t)
    (hH : c.h.SameOn c.test_order M') :
    DINA_HO_RT_joint_draw (c.withOrder M') = DINA_HO_RT_joint_draw c := by
  have hread' : ∀ (x : {i // i ∈ List.range c.N}) (y : {t // t ∈ List.range c.T}),
      M'.get (c.Test_versions.getD x.1 0 - 1) y.1
        = c.test_order.get (c.Test_versions.getD x.1 0 - 1) y.1 :=
    fun x y => hread x.1 y.1 (List.mem_range.mp x.2) (List.mem_range.mp y.2)
  funext
  simp only [DINA_HO_RT_joint_draw, update_G, Ctx.withOrder, foldl_range_attach, hread', hH.simDINA,
    hH.sim_RT, hH.simrRUM, hH.simNIDA, hH.G2vec_efficient]
  rfl

theorem branch_DINA_HO_RT_joint_order (c : Ctx) (M' : Mat Nat)
    (hread : ∀ i t, i < c.N → t < c.T →
      M'.get (c.Test_versions.getD i 0 - 1) t = c.test_order.get (c.Test_versions.getD i 0 - 1) t)
    (hH : c.h.SameOn c.test_order M') (DIC : DICTable) :
    branch_DINA_HO_RT_joint (c.withOrder M') DIC = branch_DINA_HO_RT_joint c DIC := by
  have e : (c.withOrder M').h.J_incidence_cube (c.withOrder M').test_order (c.withOrder M').Qs
      = c.h.J_incidence_cube c.test_order c.Qs := hH.J_incidence_cube c.Qs
  unfold branch_DINA_HO_RT_joint
  simp only [DINA_HO_RT_joint_draw_order c M' hread hH, DINA_HO_RT_joint_Dhat_order c M' hread, e]
  rfl

theorem rRUM_indept_Dhat_order (c : Ctx) (M' : Mat Nat)
    (hread : ∀ i t, i < c.N → t < c.T →
      M'.get (c.Test_versions.getD i 0 - 1) t = c.test_order.get (c.Test_versions.getD i 0 - 1) t) :
    rRUM_indept_Dhat (c.withOrder M') = rRUM_indept_Dhat c := by
  have hread' : ∀ (x : {i // i ∈ List.range c.N}) (y : {t // t ∈ List.range c.T}),
      M'.get (c.Test_versions.getD x.1 0 - 1) y.1
        = c.test_order.get (c.Test_versions.getD x.1 0 - 1) y.1 :=
    fun x y => hread x.1 y.1 (List.mem_range.mp x.2) (List.mem_range.mp y.2)
  funext
  simp only [rRUM_indept_Dhat, Ctx.withOrder, foldl_range_attach, hread']
  rfl

theorem rRUM_indept_draw_order (c : Ctx) (M' : Mat Nat)
    (hread : ∀ i t, i < c.N → t < c.T →
      M'.get (c.Test_versions.getD i 0 - 1) t = c.test_order.get (c.Test_versions.getD i 0 - 1) t)
    (hH : c.h.SameOn c.test_order M') :
    rRUM_indept_draw (c.withOrder M') = rRUM_indept_draw c := by
  have hread' : ∀ (x : {i // i ∈ List.range c.N}) (y : {t // t ∈ List.range c.T}),
      M'.get (c.Test_versions.getD x.1 0 - 1) y.1
        = c.test_order.get (c.Test_versions.getD x.1 0 - 1) y.1 :=
    fun x y => hread x.1 y.1 (List.mem_range.mp x.2) (List.mem_range.mp y.2)
  funext
  simp only [rRUM_indept_draw, update_G, Ctx.withOrder, foldl_range_attach, hread', hH.simDINA,
    hH.sim_RT, hH.simrRUM, hH.simNIDA, hH.G2vec_efficient]
  rfl

theorem branch_rRUM_indept_order (c : Ctx) (M' : Mat Nat)
    (hread : ∀ i t, i < c.N → t < c.T →
      M'.get (c.Test_versions.getD i 0 - 1) t = c.test_order.get (c.Test_versions.getD i 0 - 1) t)
    (hH : c.h.SameOn c.test_order M') (DIC : DICTable) :
    branch_rRUM_indept (c.withOrder M') DIC = branch_rRUM_indept c DIC := by
  have e : (c.withOrder M').h.J_incidence_cube (c.withOrder M').test_order (c.withOrder M').Qs
      = c.h.J_incidence_cube c.test_order c.Qs := hH.J_incidence_cube c.Qs
  unfold branch_rRUM_indept
  simp only [rRUM_indept_draw_order c M' hread hH, rRUM_indept_Dhat_order c M' hread, e]
  rfl

theorem NIDA_indept_Dhat_order (c : Ctx) (M' : Mat Nat)
    (hread : ∀ i t, i < c.N → t < c.T →
      M'.get (c.Test_versions.getD i 0 - 1) t = c.test_order.get (c.Test_versions.getD i 0 - 1) t) :
    NIDA_indept_Dhat (c.withOrder M') = NIDA_indept_Dhat c := by
  have hread' : ∀ (x : {i // i ∈ List.range c.N}) (y : {t // t ∈ List.range c.T}),
      M'.get (c.Test_versions.getD x.1 0 - 1) y.1
        = c.test_order.get (c.Test_versions.getD x.1 0 - 1) y.1 :=
    fun x y => hread x.1 y.1 (List.mem_range.mp x.2) (List.mem_range.mp y.2)
  funext
  simp only [NIDA_indept_Dhat, Ctx.withOrder, foldl_range_attach, hread']
  rfl

theorem NIDA_indept_draw_order (c : Ctx) (M' : Mat Nat)
    (hread : ∀ i t, i < c.N → t < c.T →
      M'.get (c.Test_versions.getD i 0 - 1) t = c.test_order.get (c.Test_versions.getD i 0 - 1) t)
    (hH : c.h.SameOn c.test_order M') :
    NIDA_indept_draw (c.withOrder M') = NIDA_indept_draw c := by
  have hread' : ∀ (x : {i // i ∈ List.range c.N}) (y : {t // t ∈ List.range c.T}),
      M'.get (c.Test_versions.getD x.1 0 - 1) y.1
        = c.test_order.get (c.Test_versions.getD x.1 0 - 1) y.1 :=
    fun x y => hread x.1 y.1 (List.mem_range.mp x.2) (List.mem_range.mp y.2)
  funext
  simp only [NIDA_indept_draw, update_G, Ctx.withOrder, foldl_range_attach, hread', hH.simDINA,
    hH.sim_RT, hH.simrRUM, hH.simNIDA, hH.G2vec_efficient]
  rfl

theorem branch_NIDA_indept_order (c : Ctx) (M' : Mat Nat)
    (hread : ∀ i t, i < c.N → t < c.T →
      M'.get (c.Test_versions.getD i 0 - 1) t = c.test_order.get (c.Test_versions.getD i 0 - 1) t)
    (hH : c.h.SameOn c.test_order M') (DIC : DICTable) :
    branch_NIDA_indept (c.withOrder M') DIC = branch_NIDA_indept c DIC := by
  have e : (c.withOrder M').h.J_incidence_cube (c.withOrder M').test_order (c.withOrder M').Qs
      = c.h.J_incidence_cube c.test_order c.Qs := hH.J_incidence_cube c.Qs
  unfold branch_NIDA_indept
  simp only [NIDA_indept_draw_order c M' hread hH, NIDA_indept_Dhat_order c M' hread, e]
  rfl

theorem DINA_FOHM_Dhat_order (c : Ctx) (M' : Mat Nat)
    (hread : ∀ i t, i < c.N → t < c.T →
      M'.get (c.Test_versions.getD i 0 - 1) t = c.test_order.get (c.Test_versions.getD i 0 - 1) t) :
    DINA_FOHM_Dhat (c.withOrder M') = DINA_FOHM_Dhat c := by
  have hread' : ∀ (x : {i // i ∈ List.range c.N}) (y : {t // t ∈ List.range c.T}),
      M'.get (c.Test_versions.getD x.1 0 - 1) y.1
        = c.test_order.get (c.Test_versions.getD x.1 0 - 1) y.1 :=
    fun x y => hread x.1 y.1 (List.mem_range.mp x.2) (List.mem_range.mp y.2)
  funext
  simp only [DINA_FOHM_Dhat, Ctx.withOrder, foldl_range_attach, hread']
  rfl

theorem DINA_FOHM_draw_order (c : Ctx) (M' : Mat Nat)
    (hread : ∀ i t, i < c.N → t < c.T →
      M'.get (c.Test_versions.getD i 0 - 1) t = c.test_order.get (c.Test_versions.getD i 0 - 1) t)
    (hH : c.h.SameOn c.test_order M') :
    DINA_FOHM_draw (c.withOrder M') = DINA_FOHM_draw c := by
  have hread' : ∀ (x : {i // i ∈ List.range c.N}) (y : {t // t ∈ List.range c.T}),
      M'.get (c.Test_versions.getD x.1 0 - 1) y.1
        = c.test_order.get (c.Test_versions.getD x.1 0 - 1) y.1 :=
    fun x y => hread x.1 y.1 (List.mem_range.mp x.2) (List.mem_range.mp y.2)
  funext
  simp only [DINA_FOHM_draw, update_G, Ctx.withOrder, foldl_range_attach, hread', hH.simDINA,
    hH.sim_RT, hH.simrRUM, hH.simNIDA, hH.G2vec_efficient]
  rfl

theorem branch_DINA_FOHM_order (c : Ctx) (M' : Mat Nat)
    (hread : ∀ i t, i < c.N → t < c.T →
      M'.get (c.Test_versions.getD i 0 - 1) t = c.test_order.get (c.Test_versions.getD i 0 - 1) t)
    (hH : c.h.SameOn c.test_order M') (DIC : DICTable) :
    branch_DINA_FOHM (c.withOrder M') DIC = branch_DINA_FOHM c DIC := by
  have e : (c.withOrder M').h.J_incidence_cube (c.withOrder M').test_order (c.withOrder M').Qs
      = c.h.J_incidence_cube c.test_order c.Qs := hH.J_incidence_cube c.Qs
  unfold branch_DINA_FOHM
  simp only [DINA_FOHM_draw_order c M' hread hH, DINA_FOHM_Dhat_order c M' hread, e]
  rfl

theorem Learning_fit_setup_fields (h : Helpers) (u : Uninit) (o : Output)
    (Response_list Q_list : List (Mat Dbl)) (test_order : Mat Nat) (Test_versions : List Nat)
    (Q_examinee : Nat → Mat Dbl) (Latency_list : Option (List (Mat Dbl))) (G_version : Int)
    (R : Mat Dbl) (c : Ctx)
    (hc : Learning_fit_setup h u o Response_list Q_list test_order Test_versions Q_examinee
      Latency_list G_version R = .ok c) :
    c.h = h ∧ c.T = test_order.n_rows ∧ c.N = Test_versions.length ∧
      c.test_order = test_order ∧ c.Test_versions = Test_versions ∧
      c.Response = cubeOfSlices c.N c.Jt c.T (fun t => Response_list.getD t emptyMat) ∧
      c.Qs = cubeOfSlices c.Jt c.K c.T (fun t => Q_list.getD t emptyMat) := by
  simp only [Learning_fit_setup, bind, Except.bind, pure, Except.pure] at hc
  split at hc
  · exact Except.noConfusion hc
  · split at hc
    · exact Except.noConfusion hc
    · injection hc with e
      subst e
      exact ⟨rfl, rfl, rfl, rfl, rfl, rfl, rfl⟩

theorem Learning_fit_setup_order (h : Helpers) (u : Uninit) (o : Output)
    (Response_list Q_list : List (Mat Dbl)) (M M' : Mat Nat) (Test_versions : List Nat)
    (Q_examinee : Nat → Mat Dbl) (Latency_list : Option (List (Mat Dbl))) (G_version : Int)
    (R : Mat Dbl) (hrows : M'.n_rows = M.n_rows) :
    Learning_fit_setup h u o Response_list Q_list M' Test_versions Q_examinee Latency_list
        G_version R
      = (Learning_fit_setup h u o Response_list Q_list M Test_versions Q_examinee Latency_list
        G_version R).map (fun c => c.withOrder M') := by
  simp only [Learning_fit_setup, hrows, bind, Except.bind, pure, Except.pure]
  cases arma_mean_dim1 o.pis with
  | error e => rfl
  | ok p =>
    dsimp only
    cases Alphas_est_MAP Test_versions.length (Q_list.getD 0 emptyMat).n_cols M.n_rows
        o.trajectories with
    | error e => rfl
    | ok A => rfl

/-- The result of `Learning_fit` is the same for two matrices `test_order` with the
same number of rows that agree at the entries `(Test_versions(i) - 1, t)` with
`i < N` and `t < T`, when the helpers that are passed the matrix agree on the two. -/
theorem Learning_fit_order (h : Helpers) (u : Uninit) (o : Output) (model : String)
    (Response_list Q_list : List (Mat Dbl)) (M M' : Mat Nat) (Test_versions : List Nat)
    (Q_examinee : Nat → Mat Dbl) (Latency_list : Option (List (Mat Dbl))) (G_version : Int)
    (R : Mat Dbl) (hrows : M'.n_rows = M.n_rows)
    (hread : ∀ i t, i < Test_versions.length → t < M.n_rows →
      M'.get (Test_versions.getD i 0 - 1) t = M.get (Test_versions.getD i 0 - 1) t)
    (hH : h.SameOn M M') :
    Learning_fit h u o model Response_list Q_list M' Test_versions Q_examinee Latency_list
        G_version R
      = Learning_fit h u o model Response_list Q_list M Test_versions Q_examinee Latency_list
        G_version R := by
  unfold Learning_fit
  rw [Learning_fit_setup_order h u o Response_list Q_list M M' Test_versions Q_examinee
    Latency_list G_version R hrows]
  cases hc : Learning_fit_setup h u o Response_list Q_list M Test_versions Q_examinee
      Latency_list G_version R with
  | error e => rfl
  | ok c =>
    obtain ⟨e1, e2, e3, e4, e5, _, _⟩ := Learning_fit_setup_fields h u o Response_list Q_list M
      Test_versions Q_examinee Latency_list G_version R c hc
    have hread' : ∀ i t, i < c.N → t < c.T →
        M'.get (c.Test_versions.getD i 0 - 1) t
          = c.test_order.get (c.Test_versions.getD i 0 - 1) t := by
      intro i t hi ht
      rw [e4, e5]
      exact hread i t (by rw [← e3]; exact hi) (by rw [← e2]; exact ht)
    have hH' : c.h.SameOn c.test_order M' := by rw [e1, e4]; exact hH
    simp only [Except.map, bind, Except.bind, branch_DINA_HO_order c M' hread' hH',
      branch_DINA_HO_RT_sep_order c M' hread' hH', branch_DINA_HO_RT_joint_order c M' hread' hH',
      branch_rRUM_indept_order c M' hread' hH', branch_NIDA_indept_order c M' hread' hH',
      branch_DINA_FOHM_order c M' hread' hH']

theorem probeOutput_hasDraws (N T : Nat) : (probeOutput N T).HasDraws 1 :=
  ⟨rfl, rfl, rfl, rfl, rfl, rfl, rfl, rfl, rfl, rfl, rfl, rfl, rfl, rfl, rfl⟩

theorem probe_term (c : Ctx) (T0 : Nat) (Test_versions : List Nat) (hh : c.h = probeHelpers)
    (ho : c.output = probeOutput Test_versions.length T0) (hJ : c.Jt = 1) (tt i t : Nat) :
    respTermDraw c "DINA_HO" tt i t = Dbl.fin ((blockOf c i t : Nat) : ℚ) := by
  have hpos : ¬ ((blockOf c i t : ℚ) + 1 < 0) := by
    have : (0 : ℚ) ≤ (blockOf c i t : ℚ) := Nat.cast_nonneg _
    linarith
  have hne : ¬ ((blockOf c i t : ℚ) + 1 = 0) := by
    have : (0 : ℚ) ≤ (blockOf c i t : ℚ) := Nat.cast_nonneg _
    linarith
  simp [respTermDraw, respTerm, hh, ho, hJ, probeHelpers, probeOutput, toyHelpers,
    Helpers.log, Mat.rows, itemparsOf, hpos, hne]

theorem probe_cell (T0 : Nat) (M : Mat Nat) (Test_versions : List Nat)
    (hN : 0 < Test_versions.length) :
    ∃ res, probeFit T0 M Test_versions = .ok res ∧
      res.DIC 0 2 = Dbl.fin (-2 * blockSum M Test_versions) := by
  obtain ⟨c, res, G, hc, hres, hF, hbar, _, _⟩ := Learning_fit_sums probeHelpers toyUninit
    (probeOutput Test_versions.length T0) "DINA_HO"
    (List.replicate T0 (constMat Test_versions.length 1 (Dbl.fin 0)))
    (oneByOne (Dbl.fin 1) :: List.replicate T0 (oneByOne (Dbl.fin 1)))
    M Test_versions (fun _ => oneByOne (Dbl.fin 1)) none 0 (oneByOne (Dbl.fin 1)) 1
    (by decide) (probeOutput_hasDraws _ _) Nat.one_pos hN (by decide)
    (fun h => absurd h (by decide))
  refine ⟨res, hres, ?_⟩
  have hJ : c.Jt = 1 := hF.Jt
  have hsum : ∀ tt, drawSum c "DINA_HO" tt 2 = Dbl.fin (blockSum M Test_versions) := by
    intro tt
    have e : drawSum c "DINA_HO" tt 2 = pairSum c.N c.T (respTermDraw c "DINA_HO" tt) := by
      simp [drawSum, termCount, drawTerm]
    rw [e, pairSum_fin c.N c.T _ (fun i t => ((blockOf c i t : Nat) : ℚ))
      (fun i t _ _ => probe_term c T0 Test_versions hF.h hF.output hJ tt i t)]
    unfold blockSum blockOf
    rw [hF.N, hF.T, hF.test_order, hF.Test_versions]
  rw [hbar 2 (by decide)]
  simp only [hsum]
  rw [drawMean_fin 1 (by decide) (fun _ => blockSum M Test_versions)]
  simp [Dbl.mul_eq, Dbl.mul]

theorem blockSum_bump_lt (M : Mat Nat) (Test_versions : List Nat)
    (hN : 0 < Test_versions.length) (t0 : Nat) (ht0 : t0 < M.n_rows) :
    blockSum M Test_versions
      < blockSum (M.bump (Test_versions.getD 0 0 - 1) t0) Test_versions := by
  unfold blockSum
  have hle : ∀ r t, M.get r t - 1 ≤ (M.bump (Test_versions.getD 0 0 - 1) t0).get r t - 1 := by
    intro r t
    simp only [Mat.bump]
    split <;> omega
  apply Finset.sum_lt_sum
  · intro i _
    apply Finset.sum_le_sum
    intro t _
    exact_mod_cast hle _ _
  · refine ⟨0, Finset.mem_range.mpr hN, ?_⟩
    apply Finset.sum_lt_sum
    · intro t _
      exact_mod_cast hle _ _
    · refine ⟨t0, Finset.mem_range.mpr ht0, ?_⟩
      have : M.get (Test_versions.getD 0 0 - 1) t0 - 1
          < (M.bump (Test_versions.getD 0 0 - 1) t0).get (Test_versions.getD 0 0 - 1) t0 - 1 := by
        simp only [Mat.bump, and_self, if_true]
        omega
      exact_mod_cast this

theorem bump_sameInRange (M : Mat Nat) (r : Nat) : M.sameInRange (M.bump r M.n_cols) := by
  refine ⟨rfl, rfl, fun r' col hr hcol => ?_⟩
  simp only [Mat.bump]
  rw [if_neg (fun h => by omega)]

theorem probeHelpers_sameOn (M M' : Mat Nat) : probeHelpers.SameOn M M' :=
  ⟨fun _ => rfl, fun _ _ _ _ _ => rfl, fun _ _ _ _ _ => rfl, fun _ _ _ _ _ _ _ _ _ => rfl,
    fun _ _ _ _ _ _ => rfl, fun _ _ _ _ _ _ => rfl⟩

/-! ## The claim on the reads of `test_order` -/

/-- C26. The number of time points `T` of `Learning_fit` is the number of rows of
`test_order`, the axis that the loops index with the test version; the loops use
the entries `test_order(version - 1, t)` and the list elements `Response_list[t]`,
`Q_list[t]` for `t < T`.  If `test_order` has at least as many columns as rows, every
entry of `Test_versions` lies in `1..rows` and both lists have at least `T` elements,
these reads are in range: every slice `t < T` of `Response` and `Qs` is an element of
its list, and the result of `Learning_fit` is the same for every matrix that agrees
with `test_order` inside its dimensions, whatever lies outside (the helpers that are
passed the matrix agreeing on the two).  If `test_order` has fewer columns than rows
and there is at least one subject, a read has its column index outside the matrix:
adding 2 to what lies at `(Test_versions(0) - 1, n_cols)`, a position outside the
matrix, changes the Response cell of row `D_bar` of a run of `Learning_fit`. -/
theorem C26_reads_in_range (h : Helpers) (u : Uninit) (o : Output) (model : String)
    (Response_list Q_list : List (Mat Dbl)) (test_order : Mat Nat) (Test_versions : List Nat)
    (Q_examinee : Nat → Mat Dbl) (Latency_list : Option (List (Mat Dbl))) (G_version : Int)
    (R : Mat Dbl) :
    (∀ c, Learning_fit_setup h u o Response_list Q_list test_order Test_versions Q_examinee
        Latency_list G_version R = .ok c → c.T = test_order.n_rows) ∧
    (test_order.n_rows ≤ test_order.n_cols →
      (∀ v, v ∈ Test_versions → 1 ≤ v ∧ v ≤ test_order.n_rows) →
      test_order.n_rows ≤ Response_list.length → test_order.n_rows ≤ Q_list.length →
      (∀ c, Learning_fit_setup h u o Response_list Q_list test_order Test_versions Q_examinee
          Latency_list G_version R = .ok c →
        ∀ t, t < c.T → ∃ Y Q, Response_list[t]? = some Y ∧ Q_list[t]? = some Q ∧
          (∀ r col, c.Response.get r col t = Y.get r col) ∧
          (∀ r col, c.Qs.get r col t = Q.get r col)) ∧
      (∀ M', test_order.sameInRange M' → h.SameOn test_order M' →
        Learning_fit h u o model Response_list Q_list M' Test_versions Q_examinee
            Latency_list G_version R
          = Learning_fit h u o model Response_list Q_list test_order Test_versions Q_examinee
            Latency_list G_version R)) ∧
    (test_order.n_cols < test_order.n_rows → 0 < Test_versions.length →
      test_order.sameInRange (test_order.bump (Test_versions.getD 0 0 - 1) test_order.n_cols) ∧
      probeHelpers.SameOn test_order
        (test_order.bump (Test_versions.getD 0 0 - 1) test_order.n_cols) ∧
      ∃ res res', probeFit test_order.n_rows test_order Test_versions = .ok res ∧
        probeFit test_order.n_rows
          (test_order.bump (Test_versions.getD 0 0 - 1) test_order.n_cols) Test_versions
            = .ok res' ∧
        res.DIC 0 2 ≠ res'.DIC 0 2) := by
  refine ⟨fun c hc => ?_, fun hcols hver hY hQ => ⟨fun c hc t ht => ?_, fun M' hM hH => ?_⟩,
    fun hcols hN => ⟨bump_sameInRange _ _, probeHelpers_sameOn _ _, ?_⟩⟩
  · exact (Learning_fit_setup_fields h u o Response_list Q_list test_order Test_versions
      Q_examinee Latency_list G_version R c hc).2.1
  · obtain ⟨_, hT, _, _, _, hR, hQs⟩ := Learning_fit_setup_fields h u o Response_list Q_list
      test_order Test_versions Q_examinee Latency_list G_version R c hc
    have h1 : t < Response_list.length := by omega
    have h2 : t < Q_list.length := by omega
    refine ⟨Response_list[t], Q_list[t], List.getElem?_eq_getElem h1,
      List.getElem?_eq_getElem h2, fun r col => ?_, fun r col => ?_⟩
    · rw [hR]
      show (Response_list.getD t emptyMat).get r col = _
      rw [List.getD_eq_getElem?_getD, List.getElem?_eq_getElem h1]
      rfl
    · rw [hQs]
      show (Q_list.getD t emptyMat).get r col = _
      rw [List.getD_eq_getElem?_getD, List.getElem?_eq_getElem h2]
      rfl
  · apply Learning_fit_order _ _ _ _ _ _ _ _ _ _ _ _ _ hM.1 _ hH
    intro i t hi ht
    have hv := hver (Test_versions.getD i 0) (by
      rw [List.getD_eq_getElem?_getD, List.getElem?_eq_getElem hi]
      exact List.getElem_mem _)
    exact hM.2.2 _ _ (by omega) (by omega)
  · obtain ⟨res, h1, h2⟩ := probe_cell test_order.n_rows test_order Test_versions hN
    obtain ⟨res', h3, h4⟩ := probe_cell test_order.n_rows
      (test_order.bump (Test_versions.getD 0 0 - 1) test_order.n_cols) Test_versions hN
    refine ⟨res, res', h1, h3, ?_⟩
    rw [h2, h4]
    have hlt := blockSum_bump_lt test_order Test_versions hN test_order.n_cols hcols
    intro e
    injection e with e
    linarith

/-- C26 on two designs.  On the small design (two versions, two time points, one
subject of version 1) the reads are in range: the run with 2 added to what lies at
`(0, 2)`, outside the matrix, returns what the run on `toyOrder` returns.  With the
two versions at a single time point (`tallOrder`, two rows and one column) the
number of time points is taken to be 2, and adding 2 to what lies at `(0, 1)`,
outside the matrix, changes a cell of the table. -/
theorem C26_reads_in_range_witness :
    Learning_fit toyHelpers toyUninit toyOutput "DINA_HO_RT_sep"
        [oneByOne (Dbl.fin 1), oneByOne (Dbl.fin 0)] [oneByOne (Dbl.fin 1), oneByOne (Dbl.fin 1)]
        (toyOrder.bump 0 2) [1] (fun _ => oneByOne (Dbl.fin 1))
        (some [oneByOne (Dbl.fin 2), oneByOne (Dbl.fin 3)]) 3 (oneByOne (Dbl.fin 1))
      = toyFit "DINA_HO_RT_sep" 3 ∧
    ∃ res res', probeFit 2 tallOrder [1] = .ok res ∧
      probeFit 2 (tallOrder.bump 0 1) [1] = .ok res' ∧ res.DIC 0 2 ≠ res'.DIC 0 2 :=
  ⟨((C26_reads_in_range toyHelpers toyUninit toyOutput "DINA_HO_RT_sep"
      [oneByOne (Dbl.fin 1), oneByOne (Dbl.fin 0)] [oneByOne (Dbl.fin 1), oneByOne (Dbl.fin 1)]
      toyOrder [1] (fun _ => oneByOne (Dbl.fin 1))
      (some [oneByOne (Dbl.fin 2), oneByOne (Dbl.fin 3)]) 3 (oneByOne (Dbl.fin 1))).2.1
      (by decide) (by decide) (by decide) (by decide)).2 (toyOrder.bump 0 2)
      (bump_sameInRange toyOrder 0)
      ⟨fun _ => rfl, fun _ _ _ _ _ => rfl, fun _ _ _ _ _ => rfl,
        fun _ _ _ _ _ _ _ _ _ => rfl, fun _ _ _ _ _ _ => rfl, fun _ _ _ _ _ _ => rfl⟩,
   ((C26_reads_in_range toyHelpers toyUninit toyOutput "DINA_HO"
      [oneByOne (Dbl.fin 1), oneByOne (Dbl.fin 0)] [oneByOne (Dbl.fin 1), oneByOne (Dbl.fin 1)]
      tallOrder [1] (fun _ => oneByOne (Dbl.fin 1)) none 1 (oneByOne (Dbl.fin 1))).2.2
      (by decide) (by decide)).2.2⟩

end Hmcdm
